import Mathlib

/-! # FbxView: skeleton, frames and the AMC to BVH conversion

A shallow embedding of the animation core of FbxView (`Transformation`, `Joint`,
`Skeleton`, `Frame`, `Motion`, `Player`) together with theorems about it.

Conventions of the embedding.

* The C++ `double` is an element of a commutative ring `K` (of a field where the
  code divides, of an ordered field with the operations of `CMath` where it
  compares or calls `sin`, `cos`, `asin`, `atan2`, `sqrt`).  Arithmetic is exact:
  rounding is outside the model.  The theorems that need what `sin`, `cos`,
  `asin`, `atan2`, `sqrt` and `M_PI` are take `K = ℝ`.
* A `Joint*` is the position of the joint in `Skeleton::m_joints`; `NULL` is
  `none`.  Every joint the loaders and `Player::ConvertAMC2BVH` create is pushed
  onto `m_joints`, so every pointer of a skeleton has such a position.
* A function whose C++ recursion follows pointers takes a fuel argument that
  bounds the recursion depth and returns `none` when the fuel runs out or when a
  pointer has no joint behind it.
-/

namespace FbxView

/-! ## Transformation.h / Transformation.cpp: `vec3`, `mat3`, `Transform` -/

/-- The class `vec3`: the array `n[3]`. -/
@[ext]
structure vec3 (K : Type) where
  x : K
  y : K
  z : K
deriving DecidableEq

/-- The class `mat3`: the three rows `v[0]`, `v[1]`, `v[2]`. -/
@[ext]
structure mat3 (K : Type) where
  r0 : vec3 K
  r1 : vec3 K
  r2 : vec3 K
deriving DecidableEq

/-- The class `Transform`: a translation and a rotation. -/
@[ext]
structure Transform (K : Type) where
  m_translation : vec3 K
  m_rotation : mat3 K
deriving DecidableEq

section Algebra

variable {K : Type} [CommRing K]

/-- The constant `axisZero` (also `vec3Zero`). -/
def axisZero : vec3 K := ⟨0, 0, 0⟩

/-- The constant `axisX`. -/
def axisX : vec3 K := ⟨1, 0, 0⟩

/-- The constant `axisY`. -/
def axisY : vec3 K := ⟨0, 1, 0⟩

/-- The constant `axisZ`. -/
def axisZ : vec3 K := ⟨0, 0, 1⟩

/-- The constant `identity3D`. -/
def identity3D : mat3 K := ⟨axisX, axisY, axisZ⟩

/-- The default constructor `mat3::mat3()`: all entries zero. -/
def mat3.zero : mat3 K := ⟨axisZero, axisZero, axisZero⟩

/-- The function `operator + (const vec3&, const vec3&)`. -/
def vec3.add (a b : vec3 K) : vec3 K := ⟨a.x + b.x, a.y + b.y, a.z + b.z⟩

/-- The function `operator - (const vec3&, const vec3&)`. -/
def vec3.sub (a b : vec3 K) : vec3 K := ⟨a.x - b.x, a.y - b.y, a.z - b.z⟩

/-- The function `operator * (const vec3& a, const double d)`. -/
def vec3.scale (a : vec3 K) (d : K) : vec3 K := ⟨d * a.x, d * a.y, d * a.z⟩

/-- The function `operator * (const mat3& a, const vec3& v)`: the macro `ROWCOL(i)`. -/
def mat3.mulVec (a : mat3 K) (v : vec3 K) : vec3 K :=
  ⟨a.r0.x * v.x + a.r0.y * v.y + a.r0.z * v.z,
   a.r1.x * v.x + a.r1.y * v.y + a.r1.z * v.z,
   a.r2.x * v.x + a.r2.y * v.y + a.r2.z * v.z⟩

/-- The function `operator * (const mat3& a, const mat3& b)`: the macro `ROWCOL(i, j)`. -/
def mat3.mul (a b : mat3 K) : mat3 K :=
  ⟨⟨a.r0.x * b.r0.x + a.r0.y * b.r1.x + a.r0.z * b.r2.x,
    a.r0.x * b.r0.y + a.r0.y * b.r1.y + a.r0.z * b.r2.y,
    a.r0.x * b.r0.z + a.r0.y * b.r1.z + a.r0.z * b.r2.z⟩,
   ⟨a.r1.x * b.r0.x + a.r1.y * b.r1.x + a.r1.z * b.r2.x,
    a.r1.x * b.r0.y + a.r1.y * b.r1.y + a.r1.z * b.r2.y,
    a.r1.x * b.r0.z + a.r1.y * b.r1.z + a.r1.z * b.r2.z⟩,
   ⟨a.r2.x * b.r0.x + a.r2.y * b.r1.x + a.r2.z * b.r2.x,
    a.r2.x * b.r0.y + a.r2.y * b.r1.y + a.r2.z * b.r2.y,
    a.r2.x * b.r0.z + a.r2.y * b.r1.z + a.r2.z * b.r2.z⟩⟩

/-- The function `mat3::Transpose`. -/
def mat3.Transpose (m : mat3 K) : mat3 K :=
  ⟨⟨m.r0.x, m.r1.x, m.r2.x⟩, ⟨m.r0.y, m.r1.y, m.r2.y⟩, ⟨m.r0.z, m.r1.z, m.r2.z⟩⟩

instance : Add (vec3 K) := ⟨vec3.add⟩

instance : Sub (vec3 K) := ⟨vec3.sub⟩

instance : Mul (mat3 K) := ⟨mat3.mul⟩

instance : HMul (mat3 K) (vec3 K) (vec3 K) := ⟨mat3.mulVec⟩

instance : HMul (vec3 K) K (vec3 K) := ⟨vec3.scale⟩

/-- The default constructor `Transform::Transform()`; also `identityTransform`. -/
def identityTransform : Transform K := ⟨axisZero, identity3D⟩

/-- The function `operator * (const Transform& t1, const Transform& t2)`. -/
def Transform.mul (t1 t2 : Transform K) : Transform K :=
  { m_rotation := t1.m_rotation * t2.m_rotation
    m_translation := t1.m_translation + t1.m_rotation * t2.m_translation }

instance : Mul (Transform K) := ⟨Transform.mul⟩

/-- A matrix is orthogonal when its product with its transpose, on either side,
is the identity. -/
def mat3.IsOrthogonal (m : mat3 K) : Prop :=
  m * m.Transpose = identity3D ∧ m.Transpose * m = identity3D

instance [DecidableEq K] (m : mat3 K) : Decidable m.IsOrthogonal := by
  unfold mat3.IsOrthogonal
  infer_instance

end Algebra

section AlgebraField

variable {K : Type} [Field K]

/-- The function `operator / (const vec3& a, const double d)`: multiplies by
`d_inv = 1.0f/d`. -/
def vec3.div (a : vec3 K) (d : K) : vec3 K :=
  ⟨a.x * (1 / d), a.y * (1 / d), a.z * (1 / d)⟩

instance : HDiv (vec3 K) K (vec3 K) := ⟨vec3.div⟩

end AlgebraField

/-! ## Joint.h / Joint.cpp -/

/-- The macro `DOF_X`. -/
def DOF_X : Nat := 0x1

/-- The macro `DOF_Y`. -/
def DOF_Y : Nat := 0x10

/-- The macro `DOF_Z`. -/
def DOF_Z : Nat := 0x100

/-- The class `Joint`.  The pointers `m_pParent` and `m_children` are positions in
the `m_joints` of the skeleton that owns the joint. -/
structure Joint (K : Type) where
  m_name : String
  m_id : Int
  m_channelCount : Nat
  m_rotOrder : String
  m_dofs : Nat
  m_lowerLimits : vec3 K
  m_upperLimits : vec3 K
  m_pParent : Option Nat
  m_children : List Nat
  m_local : Transform K
  m_global : Transform K
  AMC : Bool
  m_translation : vec3 K
  m_axisRotation : mat3 K
deriving DecidableEq

section JointOps

variable {K : Type} [CommRing K]

/-- The function `Joint::SetLocalTranslation`: writes the local translation and the
bone translation `m_translation`. -/
def Joint.SetLocalTranslation (j : Joint K) (translation : vec3 K) : Joint K :=
  { j with
    m_local := { j.m_local with m_translation := translation }
    m_translation := translation }

/-- The function `Joint::SetLocalRotation`: under `AMC && m_pParent` the rotation is
conjugated by the axis rotation and the local translation is recomputed from the
bone translation; otherwise the rotation is stored as given. -/
def Joint.SetLocalRotation (j : Joint K) (rotation : mat3 K) : Joint K :=
  if j.AMC && j.m_pParent.isSome then
    let rot := j.m_axisRotation * rotation * j.m_axisRotation.Transpose
    { j with m_local := { m_rotation := rot, m_translation := rot * j.m_translation } }
  else
    { j with m_local := { j.m_local with m_rotation := rotation } }

/-- The first statement of `Joint::UpdateTransformation`, run on the joint at
position `i`: `m_global = m_pParent->m_global * m_local` when there is a parent,
`m_global = m_local` otherwise. -/
def Joint.updateGlobal (js : List (Joint K)) (i : Nat) : Option (List (Joint K)) :=
  match js[i]? with
  | none => none
  | some j =>
    match j.m_pParent with
    | none => some (js.set i { j with m_global := j.m_local })
    | some p =>
      match js[p]? with
      | none => none
      | some pj => some (js.set i { j with m_global := pj.m_global * j.m_local })

/-- The function `Joint::UpdateTransformation(bRecursive)` on the joint at position
`i`.  With `bRecursive` the children are visited in list order, each with
`UpdateTransformation(true)`; `fuel` bounds the depth of these calls. -/
def Joint.UpdateTransformation :
    Nat → List (Joint K) → Nat → Bool → Option (List (Joint K))
  | fuel, js, i, bRecursive =>
    match Joint.updateGlobal js i with
    | none => none
    | some js1 =>
      if bRecursive then
        match fuel with
        | 0 => none
        | fuel1 + 1 =>
          match js[i]? with
          | none => none
          | some j =>
            j.m_children.foldlM
              (fun s c => Joint.UpdateTransformation fuel1 s c true) js1
      else some js1

end JointOps

/-! ## Skeleton.h / Frame.h: the data -/

/-- The class `Skeleton`. -/
structure Skeleton (K : Type) where
  m_joints : List (Joint K)
  AMC : Bool
  mScale : K
  m_pRoot : Option Nat
deriving DecidableEq

/-- The class `Frame`: the root translation and one rotation matrix per joint.  The
caches `m_eulerData` and `m_quaternionData` are not read by any function embedded
below and are left out. -/
structure Frame (K : Type) where
  m_rootTranslation : vec3 K
  m_rotationData : List (mat3 K)
deriving DecidableEq

section SkeletonOps

variable {K : Type} [CommRing K]

/-- The function `Skeleton::UpdateFK(pRoot)`: a null `pRoot` stands for the root of
the skeleton, and nothing happens when that is null too.  The recursion of
`UpdateTransformation(true)` is as deep as the longest chain of child pointers; a
chain longer than the number of joints passes through some joint twice and then
never ends, so the number of joints is the fuel. -/
def Skeleton.UpdateFK (sk : Skeleton K) (pRoot : Option Nat) : Option (Skeleton K) :=
  match pRoot.orElse (fun _ => sk.m_pRoot) with
  | none => some sk
  | some r =>
    (Joint.UpdateTransformation sk.m_joints.length sk.m_joints r true).map
      (fun js => { sk with m_joints := js })

/-- The function `Frame::GetNumJoints`. -/
def Frame.GetNumJoints (f : Frame K) : Nat := f.m_rotationData.length

/-- The function `Frame::GetJointRotation(index)` with the index a joint id, as its
callers pass `joint->GetID()`: an id that is negative or not below the number of
rotations reads outside the vector. -/
def Frame.GetJointRotation (f : Frame K) (id : Int) : Option (mat3 K) :=
  if id < 0 then none else f.m_rotationData[id.toNat]?

/-- The loop of `Skeleton::ReadFromFrame` from position `i` on:
`joint->SetLocalRotation(pFrame.GetJointRotation(joint->GetID()))` for each joint
of the list `rest`. -/
def Skeleton.readRotations (pFrame : Frame K) :
    List (Joint K) → Option (List (Joint K))
  | [] => some []
  | joint :: rest =>
    match pFrame.GetJointRotation joint.m_id with
    | none => none
    | some rot =>
      match Skeleton.readRotations pFrame rest with
      | none => none
      | some rest1 => some (joint.SetLocalRotation rot :: rest1)

/-- The function `Skeleton::ReadFromFrame`: returns at once when the joint counts
differ; otherwise sets the root translation, every local rotation, and runs
`UpdateFK(m_pRoot)`. -/
def Skeleton.ReadFromFrame (sk : Skeleton K) (pFrame : Frame K) : Option (Skeleton K) :=
  if sk.m_joints.length ≠ pFrame.GetNumJoints then some sk
  else
    match sk.m_pRoot with
    | none => none
    | some r =>
      match sk.m_joints[r]? with
      | none => none
      | some root =>
        let js1 := sk.m_joints.set r
          (root.SetLocalTranslation (pFrame.m_rootTranslation * sk.mScale))
        match Skeleton.readRotations pFrame js1 with
        | none => none
        | some js2 => Skeleton.UpdateFK { sk with m_joints := js2 } sk.m_pRoot

/-! ## The tree of a skeleton -/

/-- The joints that a depth-first walk over the child lists reaches from joint `i`,
in the order of the walk (a joint before its children, children in list order).
`none` when the walk is deeper than `fuel` or meets a position without a joint. -/
def preorder : Nat → List (Joint K) → Nat → Option (List Nat)
  | 0, _, _ => none
  | fuel + 1, js, i =>
    match js[i]? with
    | none => none
    | some j => (j.m_children.mapM (preorder fuel js)).map (fun ls => i :: ls.flatten)

/-- The child list of the joint at position `p` (empty when there is no joint). -/
def childrenAt (js : List (Joint K)) (p : Nat) : List Nat :=
  match js[p]? with
  | some j => j.m_children
  | none => []

/-- The parent pointer of the joint at position `c`. -/
def parentAt (js : List (Joint K)) (c : Nat) : Option Nat :=
  match js[c]? with
  | some j => j.m_pParent
  | none => none

/-- The joints of the skeleton form a tree with root `r` whose joints are listed by
`l`: the walk from the root over the child lists ends and yields `l`, no joint
occurs twice in it, the root has no parent, and the parent pointer of every child
of a listed joint points back to that joint. -/
def Skeleton.IsTreeWith (sk : Skeleton K) (r : Nat) (l : List Nat) : Prop :=
  sk.m_pRoot = some r ∧
  preorder sk.m_joints.length sk.m_joints r = some l ∧
  l.Nodup ∧
  parentAt sk.m_joints r = none ∧
  ∀ p ∈ l, ∀ c ∈ childrenAt sk.m_joints p, parentAt sk.m_joints c = some p

instance (sk : Skeleton K) (r : Nat) (l : List Nat) : Decidable (sk.IsTreeWith r l) := by
  unfold Skeleton.IsTreeWith
  infer_instance

/-- The forward-kinematics equation at joint `k`: the global transform is the local
one for a joint without parent, and the parent's global transform composed with the
local one otherwise. -/
def fkHolds (js : List (Joint K)) (k : Nat) : Prop :=
  ∃ j, js[k]? = some j ∧
    match j.m_pParent with
    | none => j.m_global = j.m_local
    | some p => ∃ pj, js[p]? = some pj ∧ j.m_global = pj.m_global * j.m_local

/-- The joint with its global transform reset. -/
def Joint.clearGlobal (j : Joint K) : Joint K := { j with m_global := identityTransform }

/-- Two joint lists that differ at most in the global transforms. -/
def SameButGlobal (js js1 : List (Joint K)) : Prop :=
  js.map Joint.clearGlobal = js1.map Joint.clearGlobal

/-- The pointers of a joint: its parent and its children. -/
def Joint.links (j : Joint K) : Option Nat × List Nat := (j.m_pParent, j.m_children)

/-- Two joint lists with the same parent and child pointers at every position. -/
def SameTree (js js1 : List (Joint K)) : Prop :=
  js.map Joint.links = js1.map Joint.links

/-- In the list `l`, read after the joints `seen`, no joint occurs twice and the
parent of every joint occurs before the joint. -/
def parentsFirst (js : List (Joint K)) : List Nat → List Nat → Prop
  | _, [] => True
  | seen, k :: rest =>
    k ∉ seen ∧ (∃ j, js[k]? = some j ∧ ∀ p, j.m_pParent = some p → p ∈ seen) ∧
      parentsFirst js (k :: seen) rest

end SkeletonOps

/-! ## Frame.cpp and Skeleton.cpp: writing a pose to a frame -/

section FrameOps

variable {K : Type} [CommRing K]

/-- The function `Frame::SetRootTranslation`. -/
def Frame.SetRootTranslation (f : Frame K) (translation : vec3 K) : Frame K :=
  { f with m_rootTranslation := translation }

/-- The function `Frame::SetNumJoints(num)`: `m_rotationData.resize(num, identity3D)`
keeps the first `num` rotations and pads with the identity. -/
def Frame.SetNumJoints (f : Frame K) (num : Nat) : Frame K :=
  { f with
    m_rotationData :=
      f.m_rotationData.take num
        ++ List.replicate (num - f.m_rotationData.length) identity3D }

/-- The function `Frame::SetJointRotation(index, rotation)` with the index a joint
id: the assertion `index < GetNumJoints()` fails (`none`) for an id that is negative
or too large. -/
def Frame.SetJointRotation (f : Frame K) (id : Int) (rotation : mat3 K) :
    Option (Frame K) :=
  if id < 0 then none
  else if id.toNat < f.GetNumJoints then
    some { f with m_rotationData := f.m_rotationData.set id.toNat rotation }
  else none

/-- The rotation `Skeleton::WriteToFrame` stores for a joint: the local rotation,
under the skeleton's AMC flag conjugated back by the axis rotation. -/
def Skeleton.frameRotation (AMC : Bool) (joint : Joint K) : mat3 K :=
  if AMC then
    joint.m_axisRotation.Transpose * joint.m_local.m_rotation * joint.m_axisRotation
  else joint.m_local.m_rotation

/-- The ids of the joints are their positions in `m_joints`. -/
def idsAreIndices (js : List (Joint K)) : Prop :=
  js.map (fun j => j.m_id) = (List.range js.length).map (fun (k : Nat) => (k : Int))

instance (js : List (Joint K)) : Decidable (idsAreIndices js) := by
  unfold idsAreIndices
  infer_instance

/-- The data-model invariants of a skeleton: its joints form a tree with root `r`
listed by `l`, every joint is in the tree, and ids are positions. -/
def Skeleton.WellFormed (sk : Skeleton K) (r : Nat) (l : List Nat) : Prop :=
  sk.IsTreeWith r l ∧ (∀ k ∈ List.range sk.m_joints.length, k ∈ l) ∧
    idsAreIndices sk.m_joints

instance (sk : Skeleton K) (r : Nat) (l : List Nat) : Decidable (sk.WellFormed r l) := by
  unfold Skeleton.WellFormed
  infer_instance

end FrameOps

section FrameOpsField

variable {K : Type} [Field K]

/-- The function `Skeleton::WriteToFrame`: the root translation divided by the scale,
`SetNumJoints`, then `SetJointRotation(joint->GetID(), m)` for every joint. -/
def Skeleton.WriteToFrame (sk : Skeleton K) (pFrame : Frame K) : Option (Frame K) :=
  match sk.m_pRoot with
  | none => none
  | some r =>
    match sk.m_joints[r]? with
    | none => none
    | some root =>
      let f1 := pFrame.SetRootTranslation (root.m_local.m_translation / sk.mScale)
      let f2 := f1.SetNumJoints sk.m_joints.length
      sk.m_joints.foldlM
        (fun f joint => f.SetJointRotation joint.m_id (Skeleton.frameRotation sk.AMC joint))
        f2

end FrameOpsField

section Posed

variable {K : Type} [CommRing K]

/-- The joint at position `k` after the two writes of `Skeleton::ReadFromFrame`:
`SetLocalTranslation` at the root `r`, then `SetLocalRotation(rot)`. -/
def Skeleton.posedJoint (sk : Skeleton K) (f : Frame K) (r k : Nat) (j : Joint K)
    (rot : mat3 K) : Joint K :=
  (if k = r then j.SetLocalTranslation (f.m_rootTranslation * sk.mScale)
    else j).SetLocalRotation rot

end Posed

/-! ## Transformation.cpp: rotations and Euler angles

The functions below call `sin`, `cos`, `sqrt`, `asin` and `atan2` of the C library.
A number type does not have them by itself: they are the operations of the class
`CMath`.  The real numbers carry them as the functions of analysis, and every
theorem that depends on what the functions compute is stated for `ℝ`. -/

/-- The functions of `<math.h>` that Transformation.cpp calls, and the constant
`M_PI`, on a number type `K` that stands for `double`. -/
class CMath (K : Type) where
  /-- The function `cos`. -/
  cos : K → K
  /-- The function `sin`. -/
  sin : K → K
  /-- The function `asin`. -/
  asin : K → K
  /-- The function `sqrt`. -/
  sqrt : K → K
  /-- The function `atan2(y, x)`. -/
  atan2 : K → K → K
  /-- The constant `M_PI`. -/
  pi : K

/-- The C library on real numbers: `atan2(y, x)` is the angle in `(-π, π]` of the
point `(x, y)`, and `0` at the origin. -/
noncomputable instance CMath.real : CMath ℝ where
  cos := Real.cos
  sin := Real.sin
  asin := Real.arcsin
  sqrt := Real.sqrt
  atan2 := fun y x => Complex.arg ⟨x, y⟩
  pi := Real.pi

section RealOps

variable {K : Type} [LinearOrderedField K] [CMath K]

/-- The constant `M_PI`. -/
def M_PI : K := CMath.pi

/-- The constant `M_PI_2 = M_PI/2`. -/
def M_PI_2 : K := M_PI / 2

/-- The constant `Rad2Deg = 180 / M_PI`. -/
def Rad2Deg : K := 180 / M_PI

/-- The constant `Deg2Rad = M_PI / 180`. -/
def Deg2Rad : K := M_PI / 180

/-- The macro `EPSILON`. -/
def EPSILON : K := 0.001

/-- The C library function `atan2(y, x)`. -/
def atan2 (y x : K) : K := CMath.atan2 y x

/-- The function `vec3::SqrLength`. -/
def vec3.SqrLength (v : vec3 K) : K := v.x * v.x + v.y * v.y + v.z * v.z

/-- The function `vec3::Length`. -/
def vec3.Length (v : vec3 K) : K := CMath.sqrt v.SqrLength

/-- The function `vec3::Normalize`: divides by the length when it exceeds
`0.000001`. -/
def vec3.Normalize (v : vec3 K) : vec3 K :=
  if v.Length > 0.000001 then v / v.Length else v

/-- The function `mat3::Rotation3DRad(const vec3& axis, const double angleRad)`. -/
def mat3.Rotation3DRad (axis : vec3 K) (angleRad : K) : mat3 K :=
  let c := CMath.cos angleRad
  let s := CMath.sin angleRad
  let t := 1 - c
  let Axis := axis.Normalize
  ⟨⟨t * Axis.x * Axis.x + c, t * Axis.x * Axis.y - s * Axis.z, t * Axis.x * Axis.z + s * Axis.y⟩,
   ⟨t * Axis.x * Axis.y + s * Axis.z, t * Axis.y * Axis.y + c, t * Axis.y * Axis.z - s * Axis.x⟩,
   ⟨t * Axis.x * Axis.z - s * Axis.y, t * Axis.y * Axis.z + s * Axis.x, t * Axis.z * Axis.z + c⟩⟩

/-- The function `mat3::FromEulerAnglesXYZ`. -/
def mat3.FromEulerAnglesXYZ (angleRad : vec3 K) : mat3 K :=
  mat3.Rotation3DRad axisX angleRad.x * mat3.Rotation3DRad axisY angleRad.y
    * mat3.Rotation3DRad axisZ angleRad.z

/-- The function `mat3::FromEulerAnglesXZY`. -/
def mat3.FromEulerAnglesXZY (angleRad : vec3 K) : mat3 K :=
  mat3.Rotation3DRad axisX angleRad.x * mat3.Rotation3DRad axisZ angleRad.z
    * mat3.Rotation3DRad axisY angleRad.y

/-- The function `mat3::FromEulerAnglesYXZ`. -/
def mat3.FromEulerAnglesYXZ (angleRad : vec3 K) : mat3 K :=
  mat3.Rotation3DRad axisY angleRad.y * mat3.Rotation3DRad axisX angleRad.x
    * mat3.Rotation3DRad axisZ angleRad.z

/-- The function `mat3::FromEulerAnglesYZX`. -/
def mat3.FromEulerAnglesYZX (angleRad : vec3 K) : mat3 K :=
  mat3.Rotation3DRad axisY angleRad.y * mat3.Rotation3DRad axisZ angleRad.z
    * mat3.Rotation3DRad axisX angleRad.x

/-- The function `mat3::FromEulerAnglesZXY`. -/
def mat3.FromEulerAnglesZXY (angleRad : vec3 K) : mat3 K :=
  mat3.Rotation3DRad axisZ angleRad.z * mat3.Rotation3DRad axisX angleRad.x
    * mat3.Rotation3DRad axisY angleRad.y

/-- The function `mat3::FromEulerAnglesZYX`. -/
def mat3.FromEulerAnglesZYX (angleRad : vec3 K) : mat3 K :=
  mat3.Rotation3DRad axisZ angleRad.z * mat3.Rotation3DRad axisY angleRad.y
    * mat3.Rotation3DRad axisX angleRad.x

/-- The function `mat3::ToEulerAnglesXYZ`: the returned flag and the angles written
to `angleRad`. -/
def mat3.ToEulerAnglesXYZ (m : mat3 K) : Bool × vec3 K :=
  let y := CMath.asin m.r0.z
  if y > -M_PI_2 + EPSILON then
    if y < M_PI_2 - EPSILON then
      (true, ⟨atan2 (-m.r1.z) m.r2.z, y, atan2 (-m.r0.y) m.r0.x⟩)
    else (false, ⟨atan2 m.r1.x m.r1.y, y, 0⟩)
  else (false, ⟨-atan2 m.r1.x m.r1.y, y, 0⟩)

/-- The function `mat3::ToEulerAnglesXZY`. -/
def mat3.ToEulerAnglesXZY (m : mat3 K) : Bool × vec3 K :=
  let z := CMath.asin (-m.r0.y)
  if z > -M_PI_2 + EPSILON then
    if z < M_PI_2 - EPSILON then
      (true, ⟨atan2 m.r2.y m.r1.y, atan2 m.r0.z m.r0.x, z⟩)
    else (false, ⟨atan2 m.r2.x m.r2.z, 0, z⟩)
  else (false, ⟨-atan2 m.r2.x m.r2.z, 0, z⟩)

/-- The function `mat3::ToEulerAnglesYXZ`. -/
def mat3.ToEulerAnglesYXZ (m : mat3 K) : Bool × vec3 K :=
  let x := CMath.asin (-m.r1.z)
  if x > -M_PI_2 + EPSILON then
    if x < M_PI_2 - EPSILON then
      (true, ⟨x, atan2 m.r0.z m.r2.z, atan2 m.r1.x m.r1.y⟩)
    else (false, ⟨x, atan2 m.r0.y m.r0.x, 0⟩)
  else (false, ⟨x, -atan2 m.r0.y m.r0.x, 0⟩)

/-- The function `mat3::ToEulerAnglesYZX`. -/
def mat3.ToEulerAnglesYZX (m : mat3 K) : Bool × vec3 K :=
  let z := CMath.asin m.r1.x
  if z > -M_PI_2 + EPSILON then
    if z < M_PI_2 - EPSILON then
      (true, ⟨atan2 (-m.r1.z) m.r1.y, atan2 (-m.r2.x) m.r0.x, z⟩)
    else (false, ⟨0, atan2 m.r2.y m.r2.z, z⟩)
  else (false, ⟨0, -atan2 m.r2.y m.r2.z, z⟩)

/-- The function `mat3::ToEulerAnglesZXY`. -/
def mat3.ToEulerAnglesZXY (m : mat3 K) : Bool × vec3 K :=
  let x := CMath.asin m.r2.y
  if x > -M_PI_2 + EPSILON then
    if x < M_PI_2 - EPSILON then
      (true, ⟨x, atan2 (-m.r2.x) m.r2.z, atan2 (-m.r0.y) m.r1.y⟩)
    else (false, ⟨x, 0, atan2 m.r0.z m.r0.x⟩)
  else (false, ⟨x, 0, -atan2 m.r0.z m.r0.x⟩)

/-- The function `mat3::ToEulerAnglesZYX`. -/
def mat3.ToEulerAnglesZYX (m : mat3 K) : Bool × vec3 K :=
  let y := -CMath.asin m.r2.x
  if y > -M_PI_2 + EPSILON then
    if y < M_PI_2 - EPSILON then
      (true, ⟨atan2 m.r2.y m.r2.z, y, atan2 m.r1.x m.r0.x⟩)
    else (false, ⟨0, y, atan2 (-m.r0.y) m.r0.z⟩)
  else (false, ⟨0, y, atan2 m.r0.y m.r0.z⟩)

/-- The function `ComputeBVHRot` of Frame.cpp: the three channel values, in degrees,
are assigned to the axes in the order the rotation order names them; a rotation
order that is none of the six leaves the zero matrix of `mat3 m;`. -/
def ComputeBVHRot (r1 r2 r3 : K) (rotOrder : String) : mat3 K :=
  if rotOrder = "xyz" then
    let rx := r1
    let ry := r2
    let rz := r3
    mat3.FromEulerAnglesXYZ ((⟨rx, ry, rz⟩ : vec3 K) * (Deg2Rad : K))
  else if rotOrder = "xzy" then
    let rx := r1
    let rz := r2
    let ry := r3
    mat3.FromEulerAnglesXZY ((⟨rx, ry, rz⟩ : vec3 K) * (Deg2Rad : K))
  else if rotOrder = "yxz" then
    let ry := r1
    let rx := r2
    let rz := r3
    mat3.FromEulerAnglesYXZ ((⟨rx, ry, rz⟩ : vec3 K) * (Deg2Rad : K))
  else if rotOrder = "yzx" then
    let ry := r1
    let rz := r2
    let rx := r3
    mat3.FromEulerAnglesYZX ((⟨rx, ry, rz⟩ : vec3 K) * (Deg2Rad : K))
  else if rotOrder = "zxy" then
    let rz := r1
    let rx := r2
    let ry := r3
    mat3.FromEulerAnglesZXY ((⟨rx, ry, rz⟩ : vec3 K) * (Deg2Rad : K))
  else if rotOrder = "zyx" then
    let rz := r1
    let ry := r2
    let rx := r3
    mat3.FromEulerAnglesZYX ((⟨rx, ry, rz⟩ : vec3 K) * (Deg2Rad : K))
  else mat3.zero

/-- The six rotation orders. -/
inductive EulerOrder where
  | xyz | xzy | yxz | yzx | zxy | zyx

/-- The function `mat3::FromEulerAnglesO` for the order `O`. -/
def FromEulerAngles : EulerOrder → vec3 K → mat3 K
  | .xyz => mat3.FromEulerAnglesXYZ
  | .xzy => mat3.FromEulerAnglesXZY
  | .yxz => mat3.FromEulerAnglesYXZ
  | .yzx => mat3.FromEulerAnglesYZX
  | .zxy => mat3.FromEulerAnglesZXY
  | .zyx => mat3.FromEulerAnglesZYX

/-- The function `mat3::ToEulerAnglesO` for the order `O`. -/
def ToEulerAngles : EulerOrder → mat3 K → Bool × vec3 K
  | .xyz => mat3.ToEulerAnglesXYZ
  | .xzy => mat3.ToEulerAnglesXZY
  | .yxz => mat3.ToEulerAnglesYXZ
  | .yzx => mat3.ToEulerAnglesYZX
  | .zxy => mat3.ToEulerAnglesZXY
  | .zyx => mat3.ToEulerAnglesZYX

/-- The angle about the middle axis of the order. -/
def middleAngle : EulerOrder → vec3 K → K
  | .xyz, a => a.y
  | .xzy, a => a.z
  | .yxz, a => a.x
  | .yzx, a => a.z
  | .zxy, a => a.x
  | .zyx, a => a.y

/-- The rotation by `t` radians about the X axis, as a matrix. -/
def rotX (t : K) : mat3 K :=
  ⟨⟨1, 0, 0⟩, ⟨0, CMath.cos t, -CMath.sin t⟩, ⟨0, CMath.sin t, CMath.cos t⟩⟩

/-- The rotation by `t` radians about the Y axis, as a matrix. -/
def rotY (t : K) : mat3 K :=
  ⟨⟨CMath.cos t, 0, CMath.sin t⟩, ⟨0, 1, 0⟩, ⟨-CMath.sin t, 0, CMath.cos t⟩⟩

/-- The rotation by `t` radians about the Z axis, as a matrix. -/
def rotZ (t : K) : mat3 K :=
  ⟨⟨CMath.cos t, -CMath.sin t, 0⟩, ⟨CMath.sin t, CMath.cos t, 0⟩, ⟨0, 0, 1⟩⟩

/-- The rotation by `t` degrees about the X axis. -/
def RotXDeg (t : K) : mat3 K := rotX (t * M_PI / 180)

/-- The rotation by `t` degrees about the Y axis. -/
def RotYDeg (t : K) : mat3 K := rotY (t * M_PI / 180)

/-- The rotation by `t` degrees about the Z axis. -/
def RotZDeg (t : K) : mat3 K := rotZ (t * M_PI / 180)

end RealOps

/-! ### Angles of real numbers in the words of the specification -/

noncomputable section RealSpec

/-- Two angles that differ by a whole number of turns. -/
def EqMod2Pi (a b : ℝ) : Prop := ∃ k : ℤ, a = b + 2 * Real.pi * k

end RealSpec

/-! ## Joint.cpp, Skeleton.cpp, Motion.h, Player.cpp: the conversion from AMC to BVH -/

/-- The class `Motion`. -/
structure Motion (K : Type) where
  m_keyFrames : List (Frame K)
  m_currentFrame : Nat
  m_name : String
  m_fps : K
deriving DecidableEq

/-- The class `Player`. -/
structure Player (K : Type) where
  m_skeleton : Skeleton K
  m_motion : Motion K
deriving DecidableEq

section Convert

variable {K : Type} [CommRing K]

/-- The constructor `Joint::Joint()`.  The constant `Deg2Rad` of Transformation.h,
which a ring does not have, is a parameter; `m_channelCount`, which the constructor
leaves uninitialised, is 0. -/
def Joint.new (Deg2Rad : K) : Joint K :=
  { m_name := "", m_id := -1, m_channelCount := 0, m_rotOrder := "xyz",
    m_dofs := DOF_X ||| DOF_Y ||| DOF_Z,
    m_lowerLimits := (⟨-360, -360, -360⟩ : vec3 K) * Deg2Rad,
    m_upperLimits := (⟨360, 360, 360⟩ : vec3 K) * Deg2Rad,
    m_pParent := none, m_children := [], m_local := identityTransform,
    m_global := identityTransform, AMC := false, m_translation := axisZero,
    m_axisRotation := identity3D }

/-- The test `strncmp("Site", name.c_str(), 4) == 0`: the first four characters of
the name are `Site`. -/
def startsWithSite (name : String) : Bool :=
  name.toList.take 4 == ['S', 'i', 't', 'e']

/-- The function `Joint::SetName`: a name that starts with `Site` is replaced by
`Site` followed by the id. -/
def Joint.SetName (j : Joint K) (name : String) : Joint K :=
  if startsWithSite name then { j with m_name := "Site" ++ toString j.m_id }
  else { j with m_name := name }

/-- The function `Joint::SetID`: a joint whose name starts with `Site` is renamed to
`Site` followed by the new id. -/
def Joint.SetID (j : Joint K) (id : Int) : Joint K :=
  if startsWithSite j.m_name then { j with m_id := id, m_name := "Site" ++ toString id }
  else { j with m_id := id }

/-- The function `Joint::SetNumChannels`. -/
def Joint.SetNumChannels (j : Joint K) (count : Nat) : Joint K :=
  { j with m_channelCount := count }

/-- The function `Skeleton::AddJoint(joint, isRoot)`: the joint gets the number of
joints as id and the next position in `m_joints`. -/
def Skeleton.AddJoint (sk : Skeleton K) (joint : Joint K) (isRoot : Bool) : Skeleton K :=
  { sk with
    m_joints := sk.m_joints ++ [joint.SetID sk.m_joints.length]
    m_pRoot := if isRoot then some sk.m_joints.length else sk.m_pRoot }

/-- The erase loop of `Joint::AttachJoints` and `Joint::DetachJoints` over a child
list: `erase` leaves the iterator on the next entry and the loop header then steps
over it; after erasing the last entry the iterator is incremented past the end
(`none`). -/
def Joint.eraseLoop (c : Nat) : List Nat → Option (List Nat)
  | [] => some []
  | x :: rest =>
    if x = c then
      match rest with
      | [] => none
      | y :: rest1 => (Joint.eraseLoop c rest1).map (fun r => y :: r)
    else (Joint.eraseLoop c rest).map (fun r => x :: r)

/-- The function `Joint::AttachJoints(pParent, pChild)`. -/
def Joint.AttachJoints (js : List (Joint K)) (pParent pChild : Option Nat) :
    Option (List (Joint K)) :=
  match pChild with
  | none => some js
  | some c =>
    match js[c]? with
    | none => none
    | some cj =>
      let erased : Option (List (Joint K)) :=
        match cj.m_pParent with
        | none => some js
        | some old =>
          match js[old]? with
          | none => none
          | some oj =>
            (Joint.eraseLoop c oj.m_children).map
              (fun ch => js.set old { oj with m_children := ch })
      match erased with
      | none => none
      | some js1 =>
        match js1[c]? with
        | none => none
        | some cj1 =>
          let js2 := js1.set c { cj1 with m_pParent := pParent }
          match pParent with
          | none => some js2
          | some p =>
            match js2[p]? with
            | none => none
            | some pj => some (js2.set p { pj with m_children := pj.m_children ++ [c] })

/-- The `while (joint->GetParent())` loop of `Player::ConvertAMC2BVH`, started at
`joint`: every joint with a parent on the way up is marked BVH and gets as local
translation zero when its parent is the root and the parent's bone translation
otherwise.  `fuel` bounds the number of times the loop condition is evaluated. -/
def Player.convertAncestors (root : Option Nat) :
    Nat → List (Joint K) → Nat → Option (List (Joint K))
  | 0, _, _ => none
  | fuel + 1, js, joint =>
    match js[joint]? with
    | none => none
    | some j =>
      match j.m_pParent with
      | none => some js
      | some p =>
        match js[p]? with
        | none => none
        | some pj =>
          let t := if some p = root then axisZero else pj.m_translation
          Player.convertAncestors root fuel
            (js.set joint { j with AMC := false, m_local := { j.m_local with m_translation := t } })
            p

/-- The end site that `Player::ConvertAMC2BVH` creates for the end effector `joint`,
before `AddJoint`: a fresh joint, BVH convention, identity rotation, the bone
translation of the end effector as local translation, 3 channels, and the name
`Site<siteId>`, which `SetName` turns into `Site` followed by the id -1. -/
def Player.newSite (Deg2Rad : K) (joint : Joint K) (siteId : Nat) : Joint K :=
  let newJoint := Joint.new Deg2Rad
  let newJoint := { newJoint with AMC := false }
  let newJoint := { newJoint with m_local := { newJoint.m_local with m_rotation := identity3D } }
  let newJoint :=
    { newJoint with m_local := { newJoint.m_local with m_translation := joint.m_translation } }
  let newJoint := newJoint.SetNumChannels 3
  newJoint.SetName ("Site" ++ toString siteId)

/-- One round of the second loop of `Player::ConvertAMC2BVH`, for the end effector
at position `e`: create the site, `AddJoint`, `AttachJoints`,
`UpdateTransformation()`, and the walk up the parent chain. -/
def Player.convertEndEffector (Deg2Rad : K) (sk : Skeleton K) (e siteId : Nat) :
    Option (Skeleton K) :=
  match sk.m_joints[e]? with
  | none => none
  | some joint =>
    let n := sk.m_joints.length
    let sk1 := sk.AddJoint (Player.newSite Deg2Rad joint siteId) false
    match Joint.AttachJoints sk1.m_joints (some e) (some n) with
    | none => none
    | some js2 =>
      match Joint.UpdateTransformation js2.length js2 n false with
      | none => none
      | some js3 =>
        match Player.convertAncestors sk.m_pRoot js3.length js3 e with
        | none => none
        | some js4 => some { sk1 with m_joints := js4 }

/-- The second loop of `Player::ConvertAMC2BVH` over the end effectors, `siteId`
counting up. -/
def Player.convertEndEffectors (Deg2Rad : K) :
    Skeleton K → List Nat → Nat → Option (Skeleton K)
  | sk, [], _ => some sk
  | sk, e :: rest, siteId =>
    match Player.convertEndEffector Deg2Rad sk e siteId with
    | none => none
    | some sk1 => Player.convertEndEffectors Deg2Rad sk1 rest (siteId + 1)

/-- The inner loop of the third loop of `Player::ConvertAMC2BVH`: the new frame gets,
at every position `j` below the joint count of the old frame, the old rotation
conjugated by the axis rotation of joint `j`, and the identity at the other
positions. -/
def Player.convertRotations (frame : Frame K) :
    List (Joint K) → Nat → Frame K → Option (Frame K)
  | [], _, newFrame => some newFrame
  | joint :: rest, j, newFrame =>
    let written :=
      if j < frame.GetNumJoints then
        match frame.m_rotationData[j]? with
        | none => none
        | some rot =>
          newFrame.SetJointRotation j
            (joint.m_axisRotation * rot * joint.m_axisRotation.Transpose)
      else newFrame.SetJointRotation j identity3D
    match written with
    | none => none
    | some newFrame1 => Player.convertRotations frame rest (j + 1) newFrame1

/-- The body of the third loop of `Player::ConvertAMC2BVH` for one frame. -/
def Player.convertFrame (skeleton : Skeleton K) (frame : Frame K) : Option (Frame K) :=
  let newFrame : Frame K := { m_rootTranslation := axisZero, m_rotationData := [] }
  let newFrame := newFrame.SetNumJoints skeleton.m_joints.length
  let newFrame := newFrame.SetRootTranslation frame.m_rootTranslation
  Player.convertRotations frame skeleton.m_joints 0 newFrame

/-- The joints without children among the first `numJoints` joints, in order: the
vector `endEffectors` of `Player::ConvertAMC2BVH`. -/
def Player.endEffectors (js : List (Joint K)) : List Nat :=
  (List.range js.length).filter (fun i => decide (childrenAt js i = []))

/-- The function `Player::ConvertAMC2BVH`. -/
def Player.ConvertAMC2BVH (Deg2Rad : K) (p : Player K) : Option (Player K) :=
  let skeleton := { p.m_skeleton with AMC := false }
  let endEffectors := Player.endEffectors skeleton.m_joints
  match Player.convertEndEffectors Deg2Rad skeleton endEffectors 0 with
  | none => none
  | some skeleton1 =>
    match p.m_motion.m_keyFrames.mapM (Player.convertFrame skeleton1) with
    | none => none
    | some frames =>
      some { m_skeleton := skeleton1, m_motion := { p.m_motion with m_keyFrames := frames } }

end Convert

/-! ## Skeleton.cpp and Frame.cpp: the order of joints in a saved BVH file -/

section SaveOrder

variable {K : Type} [CommRing K]

/-- The joints in the order in which `Skeleton::SaveToFileBVHRec`, called on joint
`i`, writes their `JOINT` or `End` lines: the joint, then its children in list
order, each with its own descendants.  `fuel` bounds the depth of the recursion. -/
def Skeleton.SaveToFileBVHRec_joints : Nat → List (Joint K) → Nat → Option (List Nat)
  | 0, _, _ => none
  | fuel + 1, js, i =>
    match js[i]? with
    | none => none
    | some pJoint =>
      (pJoint.m_children.mapM (Skeleton.SaveToFileBVHRec_joints fuel js)).map
        (fun ls => i :: ls.flatten)

/-- The joints in the order in which `Skeleton::SaveToBVHFile` declares them: the
root, then `SaveToFileBVHRec` for each child of the root. -/
def Skeleton.SaveToBVHFile_joints (sk : Skeleton K) : Option (List Nat) :=
  match sk.m_pRoot with
  | none => none
  | some r =>
    match sk.m_joints[r]? with
    | none => none
    | some root =>
      (root.m_children.mapM
          (Skeleton.SaveToFileBVHRec_joints sk.m_joints.length sk.m_joints)).map
        (fun ls => r :: ls.flatten)

/-- The ids of the joints whose rotation triples `Frame::SaveToBVHFile` writes for a
skeleton under the BVH convention, in the order of writing: the loop runs over the
positions `i` of `m_joints`, and a joint with `GetNumChannels() > 0` gets the
angles of `m_rotationData[pJoint->GetID()]`. -/
def Frame.SaveToBVHFile_ids (pSkeleton : Skeleton K) : List Int :=
  (pSkeleton.m_joints.filter (fun pJoint => decide (pJoint.m_channelCount > 0))).map
    (fun pJoint => pJoint.m_id)

/-- The global transform of the joint at position `k` once `ReadFromFrame(f)` has
run. -/
def Skeleton.globalAfter (sk : Skeleton K) (f : Frame K) (k : Nat) :
    Option (Transform K) :=
  (sk.ReadFromFrame f).bind (fun sk1 => (sk1.m_joints[k]?).map (fun j => j.m_global))

/-- The global transform of the joint at position `k` once the player's skeleton has
read frame `i` of the player's motion. -/
def Player.globalAt (p : Player K) (i k : Nat) : Option (Transform K) :=
  (p.m_motion.m_keyFrames[i]?).bind (fun f => p.m_skeleton.globalAfter f k)

end SaveOrder

section ConvertSpec

variable {K : Type} [CommRing K]

/-- The end site for the end effector `joint` at position `e`, once `AddJoint` has
given it the id `n`, `AttachJoints` its parent, and `UpdateTransformation()` its
global transform. -/
def Player.siteJoint (Deg2Rad : K) (joint : Joint K) (e siteId n : Nat) : Joint K :=
  { (Player.newSite Deg2Rad joint siteId).SetID n with
    m_pParent := some e
    m_global := joint.m_global * ((Player.newSite Deg2Rad joint siteId).SetID n).m_local }

/-- The joint list after `AddJoint`, `AttachJoints` and `UpdateTransformation()` for
the end effector `joint` at position `e`: the end effector has the site as
additional last child, and the site is the new last joint. -/
def Player.withSite (Deg2Rad : K) (js : List (Joint K)) (joint : Joint K)
    (e siteId : Nat) : List (Joint K) :=
  js.set e { joint with m_children := joint.m_children ++ [js.length] }
    ++ [Player.siteJoint Deg2Rad joint e siteId js.length]

/-- What the loop of `convertAncestors` writes into a joint whose parent is `p`. -/
def Player.touch (root : Option Nat) (js : List (Joint K)) (j : Joint K) : Joint K :=
  match j.m_pParent with
  | none => j
  | some p =>
    { j with
      AMC := false
      m_local :=
        { j.m_local with
          m_translation :=
            if some p = root then axisZero
            else match js[p]? with
              | some pj => pj.m_translation
              | none => axisZero } }

/-- The joints with a parent that one meets walking up the parent pointers from
`k`, `k` first. -/
def pathUp : Nat → List (Joint K) → Nat → Option (List Nat)
  | 0, _, _ => none
  | fuel + 1, js, k =>
    match parentAt js k with
    | none => some []
    | some p => (pathUp fuel js p).map (fun r => k :: r)

/-- The list `l` with `n` put in right after `e`. -/
def insertSite (e n : Nat) (l : List Nat) : List Nat :=
  l.flatMap (fun x => if x = e then [e, n] else [x])

/-- The joint reached from `k` by `n` steps along the parent pointers. -/
def climb (js : List (Joint K)) : Nat → Nat → Option Nat
  | 0, k => some k
  | n + 1, k => (parentAt js k).bind (climb js n)

/-- The state of the second loop of `Player::ConvertAMC2BVH` on the skeleton `sk0`
with root `r`, once the end effectors `done` have got their sites: the joint list
`js` has one more joint per site, ids are positions, the joints form a tree that
lists every joint, every joint of `sk0` has kept its parent, axis rotation and
bone translation, has kept its children unless it is in `done`, and, when it lies on
the way up from an end effector in `done`, is marked BVH and has the local
translation that `touch` writes; and the `i`-th end effector of `done` has got the
joint behind the joints of `sk0` at offset `i` as additional last child: a BVH joint
without children, with 3 channels, the identity as local and as axis rotation, and
the bone translation of the end effector as local translation. -/
def Player.Converting (sk0 : Skeleton K) (r : Nat) (done : List Nat)
    (js : List (Joint K)) : Prop :=
  js.length = sk0.m_joints.length + done.length ∧
  idsAreIndices js ∧
  (∃ l1, Skeleton.IsTreeWith { sk0 with m_joints := js } r l1 ∧
    ∀ k, k < js.length → k ∈ l1) ∧
  (∀ (k : Nat) (j0 : Joint K), sk0.m_joints[k]? = some j0 → ∃ j, js[k]? = some j ∧
    j.m_pParent = j0.m_pParent ∧ j.m_axisRotation = j0.m_axisRotation ∧
    j.m_translation = j0.m_translation ∧ (k ∉ done → j.m_children = j0.m_children) ∧
    ∀ e ∈ done, ∀ path, pathUp sk0.m_joints.length sk0.m_joints e = some path → k ∈ path →
      j.AMC = false ∧
      j.m_local.m_translation
        = (Player.touch sk0.m_pRoot sk0.m_joints j0).m_local.m_translation) ∧
  ∀ (i e : Nat) (j0e : Joint K), done[i]? = some e → sk0.m_joints[e]? = some j0e →
    ∃ s je, js[sk0.m_joints.length + i]? = some s ∧ js[e]? = some je ∧
      je.m_children = j0e.m_children ++ [sk0.m_joints.length + i] ∧
      s.m_pParent = some e ∧ s.m_children = [] ∧ s.AMC = false ∧
      s.m_local = ⟨j0e.m_translation, identity3D⟩ ∧ s.m_channelCount = 3 ∧
      s.m_axisRotation = identity3D

end ConvertSpec

/-! ## Skeleton.cpp, Frame.cpp, Motion.cpp: BVH files

A BVH file is text.  The loaders take it apart with `operator>>` into a
`std::string`, into a `float` and into an `unsigned int`, and with `getline`; the
embedding has the file as the list of the items that these calls deliver, in order,
and the writers build such a list.  A number is an item of its own: it is read back
as the number that was written (rounding is outside the model).  At the end of the
input a read fails: the variable keeps the value it had, and every later read fails
as well.  An `unsigned int` that has no value yet then stays without one, and its use
is outside the model (`none`), as is a read that finds an item of another kind. -/

/-- An item of a BVH file: a word (`operator>>` into a `std::string`), a number
(`operator>>` into a `float`), a count (`operator>>` into an `unsigned int`), or
the rest of a line (`getline`, where a name follows after `get()` has taken the
blank). -/
inductive Item (K : Type) where
  | word (s : String)
  | number (x : K)
  | count (n : Nat)
  | line (s : String)
deriving DecidableEq

section BvhFiles

variable {K : Type} [CommRing K]

/-- The call `inFile >> readString`; at the end of the input `readString` keeps its
value. -/
def Item.readWord (readString : String) : List (Item K) → Option (String × List (Item K))
  | [] => some (readString, [])
  | .word s :: inFile => some (s, inFile)
  | _ => none

/-- The call `inFile >> x` for a `float`; at the end of the input `x` keeps its
value. -/
def Item.readNumber (x : K) : List (Item K) → Option (K × List (Item K))
  | [] => some (x, [])
  | .number y :: inFile => some (y, inFile)
  | _ => none

/-- The call `inFile >> n` for an `unsigned int` without a value; at the end of the
input it stays without one (`none`). -/
def Item.readCount : List (Item K) → Option (Nat × List (Item K))
  | .count n :: inFile => some (n, inFile)
  | _ => none

/-- The call `getline(inFile, s)`, after `inFile.get()` where a name is read; at the
end of the input `s` keeps its value. -/
def Item.readLine (s : String) : List (Item K) → Option (String × List (Item K))
  | [] => some (s, [])
  | .line t :: inFile => some (t, inFile)
  | _ => none

/-- The three calls `inFile >> v[0] >> v[1] >> v[2]`. -/
def Item.readVec3 (v : vec3 K) (inFile : List (Item K)) : Option (vec3 K × List (Item K)) :=
  match Item.readNumber v.x inFile with
  | none => none
  | some (x, inFile1) =>
    match Item.readNumber v.y inFile1 with
    | none => none
    | some (y, inFile2) =>
      match Item.readNumber v.z inFile2 with
      | none => none
      | some (z, inFile3) => some (⟨x, y, z⟩, inFile3)

/-- The constructor `Joint::Joint(const std::string& name)`: the id is 0 when
`SetName` runs; `m_channelCount`, which the constructor leaves uninitialised, is
0. -/
def Joint.named (Deg2Rad : K) (name : String) : Joint K :=
  ({ Joint.new Deg2Rad with m_id := 0 }).SetName name

/-- The test `order.find(pattern) != std::string::npos`. -/
def findsIn (order pattern : String) : Bool :=
  order.toList.tails.any (fun t => pattern.toList.isPrefixOf t)

/-- The function `Joint::SetRotationOrder`. -/
def Joint.SetRotationOrder (j : Joint K) (rotOrder : String) : Joint K :=
  if findsIn rotOrder "Zrotation Xrotation Yrotation" then { j with m_rotOrder := "zxy" }
  else if findsIn rotOrder "Zrotation Yrotation Xrotation" then { j with m_rotOrder := "zyx" }
  else if findsIn rotOrder "Xrotation Yrotation Zrotation" then { j with m_rotOrder := "xyz" }
  else if findsIn rotOrder "Xrotation Zrotation Yrotation" then { j with m_rotOrder := "xzy" }
  else if findsIn rotOrder "Yrotation Xrotation Zrotation" then { j with m_rotOrder := "yxz" }
  else if findsIn rotOrder "Yrotation Zrotation Xrotation" then { j with m_rotOrder := "yzx" }
  else { j with m_rotOrder := rotOrder }

/-- A call `joint->f()` on the joint at position `i` of the joint list. -/
def Joint.at (js : List (Joint K)) (i : Nat) (f : Joint K → Joint K) : List (Joint K) :=
  match js[i]? with
  | some j => js.set i (f j)
  | none => js

/-- The result of a loading function: the `bool` it returns, the skeleton, and the
rest of the file. -/
abbrev Loaded (K : Type) := Option (Bool × Skeleton K × List (Item K))

/-- The loop that runs until the closing brace is read, of `Skeleton::LoadFromBVHFile` and
`Skeleton::LoadFromFileBVHRec`; `rec` is the call of `LoadFromFileBVHRec` for the
joint whose block is being read, and the first argument bounds the number of
times the loop condition is evaluated. -/
def Skeleton.loadChildren (rec : Skeleton K → List (Item K) → String → Loaded K) :
    Nat → Skeleton K → List (Item K) → String → Loaded K
  | 0, _, _, _ => none
  | n + 1, sk, inFile, readString =>
    if readString = "\x7d" then some (true, sk, inFile)
    else
      match rec sk inFile readString with
      | none => none
      | some (false, sk1, inFile1) => some (false, sk1, inFile1)
      | some (true, sk1, inFile1) =>
        match Item.readWord readString inFile1 with
        | none => none
        | some (readString1, inFile2) => Skeleton.loadChildren rec n sk1 inFile2 readString1

/-- The function `Skeleton::LoadFromFileBVHRec(inFile, pParent, prefix)`; `fuel`
bounds the depth of the recursion and the length of the loop.  The locals
`readString` and `jointname` start empty and `offsets` starts as zero. -/
def Skeleton.LoadFromFileBVHRec (Deg2Rad : K) :
    Nat → Skeleton K → List (Item K) → Nat → String → Loaded K
  | 0, _, _, _, _ => none
  | fuel + 1, sk, inFile, pParent, pre =>
    if pre = "JOINT" then
      match Item.readLine "" inFile with
      | none => none
      | some (jointname, inFile1) =>
        let i := sk.m_joints.length
        let joint := (Joint.named Deg2Rad jointname).SetID i
        let joint := { joint with AMC := sk.AMC }
        match Joint.AttachJoints (sk.m_joints ++ [joint]) (some pParent) (some i) with
        | none => none
        | some js1 =>
          match Item.readWord "" inFile1 with
          | none => none
          | some (readString1, inFile2) =>
            match Item.readWord readString1 inFile2 with
            | none => none
            | some (readString2, inFile3) =>
              match Item.readVec3 axisZero inFile3 with
              | none => none
              | some (offsets, inFile4) =>
                let js2 := Joint.at js1 i (fun j => j.SetLocalTranslation offsets)
                match Item.readWord readString2 inFile4 with
                | none => none
                | some (readString3, inFile5) =>
                  match Item.readCount inFile5 with
                  | none => none
                  | some (channelCount, inFile6) =>
                    let js3 := Joint.at js2 i (fun j => j.SetNumChannels channelCount)
                    match Item.readLine readString3 inFile6 with
                    | none => none
                    | some (order, inFile7) =>
                      let js4 := Joint.at js3 i (fun j => j.SetRotationOrder order)
                      match Item.readWord order inFile7 with
                      | none => none
                      | some (readString, inFile8) =>
                        Skeleton.loadChildren
                          (fun sk1 inFile9 s =>
                            Skeleton.LoadFromFileBVHRec Deg2Rad fuel sk1 inFile9 i s)
                          fuel { sk with m_joints := js4 } inFile8 readString
    else if pre = "End" then
      match Item.readLine "" inFile with
      | none => none
      | some (jointname, inFile1) =>
        let i := sk.m_joints.length
        let joint := (Joint.named Deg2Rad jointname).SetID i
        let joint := joint.SetNumChannels 0
        let joint := { joint with AMC := sk.AMC }
        match Joint.AttachJoints (sk.m_joints ++ [joint]) (some pParent) (some i) with
        | none => none
        | some js1 =>
          match Item.readWord "" inFile1 with
          | none => none
          | some (readString1, inFile2) =>
            match Item.readWord readString1 inFile2 with
            | none => none
            | some (readString2, inFile3) =>
              match Item.readVec3 axisZero inFile3 with
              | none => none
              | some (offsets, inFile4) =>
                let js2 := Joint.at js1 i (fun j => j.SetLocalTranslation offsets)
                match Item.readWord readString2 inFile4 with
                | none => none
                | some (_, inFile5) => some (true, { sk with m_joints := js2 }, inFile5)
    else some (false, sk, inFile)

/-- The function `Skeleton::LoadFromBVHFile`, with `fuel` the bound on the depth of
the recursion and on the length of the loops.  The locals `readString` and
`jointname` start empty and `offsets` starts as zero. -/
def Skeleton.LoadFromBVHFileFuel (Deg2Rad : K) (fuel : Nat) (sk : Skeleton K)
    (inFile : List (Item K)) : Loaded K :=
  let sk : Skeleton K := { sk with m_joints := [], m_pRoot := none, AMC := false }
  match Item.readWord "" inFile with
  | none => none
  | some (readString, inFile1) =>
    if readString ≠ "HIERARCHY" then some (false, sk, inFile1)
    else
      match Item.readWord readString inFile1 with
      | none => none
      | some (readString, inFile2) =>
        if readString ≠ "ROOT" ∧ readString ≠ "JOINT" then some (false, sk, inFile2)
        else
          match Item.readLine "" inFile2 with
          | none => none
          | some (jointname, inFile3) =>
            let joint := (Joint.named Deg2Rad jointname).SetID sk.m_joints.length
            let joint := joint.SetNumChannels 6
            let joint := { joint with AMC := sk.AMC }
            let sk := { sk with m_joints := sk.m_joints ++ [joint], m_pRoot := some 0 }
            match Item.readWord readString inFile3 with
            | none => none
            | some (readString, inFile4) =>
              match Item.readWord readString inFile4 with
              | none => none
              | some (readString, inFile5) =>
                match Item.readVec3 axisZero inFile5 with
                | none => none
                | some (offsets, inFile6) =>
                  let js2 := Joint.at sk.m_joints 0 (fun j => j.SetLocalTranslation offsets)
                  match Item.readWord readString inFile6 with
                  | none => none
                  | some (readString, inFile7) =>
                    if readString ≠ "CHANNELS" then
                      some (false, { sk with m_joints := js2 }, inFile7)
                    else
                      match Item.readCount inFile7 with
                      | none => none
                      | some (channelCount, inFile8) =>
                        let js3 := Joint.at js2 0 (fun j => j.SetNumChannels channelCount)
                        match Item.readLine readString inFile8 with
                        | none => none
                        | some (order, inFile9) =>
                          let js4 := Joint.at js3 0 (fun j => j.SetRotationOrder order)
                          match Item.readWord order inFile9 with
                          | none => none
                          | some (readString, inFile10) =>
                            Skeleton.loadChildren
                              (fun sk1 inFile11 s =>
                                Skeleton.LoadFromFileBVHRec Deg2Rad fuel sk1 inFile11 0 s)
                              fuel { sk with m_joints := js4 } inFile10 readString

/-- The function `Skeleton::LoadFromBVHFile`; the recursion and the loops get the
number of items of the file as fuel. -/
def Skeleton.LoadFromBVHFile (Deg2Rad : K) (sk : Skeleton K) (inFile : List (Item K)) :
    Loaded K :=
  Skeleton.LoadFromBVHFileFuel Deg2Rad inFile.length sk inFile

/-- The items that `Skeleton::SaveToFileBVHRec` writes for the joint at position
`i`; `fuel` bounds the depth of the recursion. -/
def Skeleton.SaveToFileBVHRec (sk : Skeleton K) : Nat → Nat → Option (List (Item K))
  | 0, _ => none
  | fuel + 1, i =>
    match sk.m_joints[i]? with
    | none => none
    | some pJoint =>
      let offsets := if sk.AMC then pJoint.m_translation else pJoint.m_local.m_translation
      let head : List (Item K) :=
        if pJoint.m_channelCount = 3 then
          [.word "JOINT", .line pJoint.m_name, .word "\x7b",
           .word "OFFSET", .number offsets.x, .number offsets.y, .number offsets.z,
           .word "CHANNELS", .count pJoint.m_channelCount,
           .line " Zrotation Xrotation Yrotation"]
        else
          [.word "End", .line pJoint.m_name, .word "\x7b",
           .word "OFFSET", .number offsets.x, .number offsets.y, .number offsets.z]
      (pJoint.m_children.mapM (Skeleton.SaveToFileBVHRec sk fuel)).map
        (fun ls => head ++ ls.flatten ++ [.word "\x7d"])

/-- The items that `Skeleton::SaveToBVHFile` writes. -/
def Skeleton.SaveToBVHFile (sk : Skeleton K) : Option (List (Item K)) :=
  match sk.m_pRoot with
  | none => none
  | some r =>
    match sk.m_joints[r]? with
    | none => none
    | some root =>
      (root.m_children.mapM (Skeleton.SaveToFileBVHRec sk sk.m_joints.length)).map
        (fun ls =>
          [.word "HIERARCHY", .word "ROOT", .line root.m_name, .word "\x7b",
           .word "OFFSET", .number 0, .number 0, .number 0,
           .word "CHANNELS", .count root.m_channelCount,
           .line " Xposition Yposition Zposition Zrotation Xrotation Yrotation"]
          ++ ls.flatten ++ [.word "\x7d"])

end BvhFiles

/-! ## Well-formed BVH files

The HIERARCHY part of a BVH file is a sequence of nested blocks.  `Blocks` is the
sequence of the blocks at one level, each `JOINT` block with the blocks inside it;
the items of such a sequence are what a well-formed file has between the root's
`CHANNELS` line and the root's closing brace. -/

/-- A sequence of blocks of the HIERARCHY part: empty, or a `JOINT` block (name,
offset, channel count, the rest of the `CHANNELS` line, the blocks inside) followed
by more blocks, or an `End` block (name, offset) followed by more blocks. -/
inductive Blocks (K : Type) where
  | done : Blocks K
  | joint (name : String) (offset : vec3 K) (channels : Nat) (order : String)
      (inside : Blocks K) (next : Blocks K) : Blocks K
  | endSite (name : String) (offset : vec3 K) (next : Blocks K) : Blocks K

section BvhSpec

variable {K : Type} [CommRing K]

/-- The items of a sequence of blocks. -/
def Blocks.items : Blocks K → List (Item K)
  | .done => []
  | .joint name o n order inside next =>
    [.word "JOINT", .line name, .word "\x7b",
     .word "OFFSET", .number o.x, .number o.y, .number o.z,
     .word "CHANNELS", .count n, .line order]
    ++ inside.items ++ [.word "\x7d"] ++ next.items
  | .endSite name o next =>
    [.word "End", .line name, .word "\x7b",
     .word "OFFSET", .number o.x, .number o.y, .number o.z, .word "\x7d"]
    ++ next.items

/-- The number of blocks, nested ones included: the number of joints they stand
for. -/
def Blocks.size : Blocks K → Nat
  | .done => 0
  | .joint _ _ _ _ inside next => 1 + inside.size + next.size
  | .endSite _ _ next => 1 + next.size

/-- The positions that the joints of the top-level blocks get when the first one
gets the position `start`: a joint is followed by the joints of the blocks inside
it. -/
def Blocks.roots (start : Nat) : Blocks K → List Nat
  | .done => []
  | .joint _ _ _ _ inside next => start :: next.roots (start + 1 + inside.size)
  | .endSite _ _ next => start :: next.roots (start + 1)

/-- The name that a joint read with the name `name` has once it has the id `i`:
`Joint(name)` and `SetID(i)` turn a name that starts with `Site` into `Site`
followed by the id. -/
def siteName (name : String) (i : Nat) : String :=
  if startsWithSite name then "Site" ++ toString (i : Int) else name

/-- The rotation order that `SetRotationOrder` stores for the rest of a `CHANNELS`
line. -/
def rotOrderOf (D : K) (order : String) : String :=
  ((Joint.new D).SetRotationOrder order).m_rotOrder

/-- The joint that the loaders build from a block: name, id `i`, parent, children,
offset, channel count and rotation order as given; every other field as the
constructor leaves it. -/
def bvhJoint (D : K) (amc : Bool) (name : String) (i : Nat) (p : Option Nat)
    (children : List Nat) (o : vec3 K) (n : Nat) (rotOrder : String) : Joint K :=
  { Joint.new D with
    m_name := siteName name i, m_id := i, m_channelCount := n, m_rotOrder := rotOrder,
    m_pParent := p, m_children := children, m_local := ⟨o, identity3D⟩, AMC := amc,
    m_translation := o }

/-- The joints that the loaders build from a sequence of blocks whose first joint
gets the position `start` and whose top-level joints get the parent `p`, in the
order of their positions. -/
def Blocks.joints (D : K) (amc : Bool) : Nat → Nat → Blocks K → List (Joint K)
  | _, _, .done => []
  | start, p, .joint name o n order inside next =>
    bvhJoint D amc name start (some p) (inside.roots (start + 1)) o n (rotOrderOf D order)
      :: (inside.joints D amc (start + 1) start
          ++ next.joints D amc (start + 1 + inside.size) p)
  | start, p, .endSite name o next =>
    bvhJoint D amc name start (some p) [] o 0 "xyz" :: next.joints D amc (start + 1) p

/-- The sequence of blocks as the writer puts it out for the joints loaded from it:
the names are the names of the loaded joints and every `CHANNELS` line names the
order Z, X, Y. -/
def Blocks.saved : Nat → Blocks K → Blocks K
  | _, .done => .done
  | start, .joint name o n _ inside next =>
    .joint (siteName name start) o n " Zrotation Xrotation Yrotation"
      (inside.saved (start + 1)) (next.saved (start + 1 + inside.size))
  | start, .endSite name o next =>
    .endSite (siteName name start) o (next.saved (start + 1))

/-- Every `JOINT` block has 3 channels. -/
def Blocks.threeChannels : Blocks K → Prop
  | .done => True
  | .joint _ _ n _ inside next => n = 3 ∧ inside.threeChannels ∧ next.threeChannels
  | .endSite _ _ next => next.threeChannels

end BvhSpec

/-- A well-formed BVH file: the name, the offset, the channel count and the rest of
the `CHANNELS` line of the root, the blocks inside the root, the rest of the
`Frame Time:` line, and the numbers of each frame line. -/
structure BvhFile (K : Type) where
  rootName : String
  rootOffset : vec3 K
  rootChannels : Nat
  rootOrder : String
  blocks : Blocks K
  frameTime : String
  frames : List (List K)

section BvhFileItems

variable {K : Type} [CommRing K]

/-- The items of the HIERARCHY part of a BVH file. -/
def BvhFile.hierarchy (file : BvhFile K) : List (Item K) :=
  [.word "HIERARCHY", .word "ROOT", .line file.rootName, .word "\x7b",
   .word "OFFSET", .number file.rootOffset.x, .number file.rootOffset.y,
   .number file.rootOffset.z,
   .word "CHANNELS", .count file.rootChannels, .line file.rootOrder]
  ++ file.blocks.items ++ [.word "\x7d"]

/-- The items of the MOTION part of a BVH file. -/
def BvhFile.motion (file : BvhFile K) : List (Item K) :=
  [.word "MOTION", .word "Frames:", .count file.frames.length, .word "Frame",
   .line file.frameTime]
  ++ file.frames.flatten.map Item.number

/-- The items of a BVH file. -/
def BvhFile.items (file : BvhFile K) : List (Item K) :=
  file.hierarchy ++ file.motion

/-- The joints that `Skeleton::LoadFromBVHFile` builds from a BVH file: the root at
position 0, then the joints of the blocks. -/
def BvhFile.joints (D : K) (file : BvhFile K) : List (Joint K) :=
  bvhJoint D false file.rootName 0 none (file.blocks.roots 1) file.rootOffset
      file.rootChannels (rotOrderOf D file.rootOrder)
    :: file.blocks.joints D false 1 0

end BvhFileItems

/-! ## Frame.cpp and Motion.cpp: the MOTION part of a BVH file -/

section BvhMotion

variable {K : Type} [LinearOrderedField K] [CMath K]

/-- The loop of `Frame::LoadFromBVHFile` over the joints from position `i` on: a
joint with 6 channels takes three numbers for the translation and three for the
rotation, a joint with 3 channels three for the rotation, any other joint none; the
translation read at position 0 becomes the root translation, and the rotation that
`ComputeBVHRot` builds for the joint's rotation order is pushed onto
`m_rotationData`. -/
def Frame.loadJoints :
    List (Joint K) → Nat → Frame K → List (Item K) → Option (Frame K × List (Item K))
  | [], _, fr, inFile => some (fr, inFile)
  | pJoint :: rest, i, fr, inFile =>
    let read : Option ((vec3 K × vec3 K) × List (Item K)) :=
      if pJoint.m_channelCount = 6 then
        match Item.readVec3 axisZero inFile with
        | none => none
        | some (t, inFile1) =>
          match Item.readVec3 axisZero inFile1 with
          | none => none
          | some (r, inFile2) => some ((t, r), inFile2)
      else if pJoint.m_channelCount = 3 then
        match Item.readVec3 axisZero inFile with
        | none => none
        | some (r, inFile1) => some ((axisZero, r), inFile1)
      else some ((axisZero, axisZero), inFile)
    match read with
    | none => none
    | some ((t, r), inFile1) =>
      let fr1 := if i = 0 then { fr with m_rootTranslation := t } else fr
      let m := ComputeBVHRot r.x r.y r.z pJoint.m_rotOrder
      Frame.loadJoints rest (i + 1)
        { fr1 with m_rotationData := fr1.m_rotationData ++ [m] } inFile1

/-- The function `Frame::LoadFromBVHFile`. -/
def Frame.LoadFromBVHFile (fr : Frame K) (pSkeleton : Skeleton K)
    (inFile : List (Item K)) : Option (Frame K × List (Item K)) :=
  Frame.loadJoints pSkeleton.m_joints 0 fr inFile

/-- The loop of `Motion::LoadFromBVHFile` over the frames: each of the `frameCount`
frames that `resize` has created is loaded in turn. -/
def Motion.loadFrames (pSkeleton : Skeleton K) :
    Nat → List (Item K) → Option (List (Frame K) × List (Item K))
  | 0, inFile => some ([], inFile)
  | frameCount + 1, inFile =>
    match Frame.LoadFromBVHFile { m_rootTranslation := axisZero, m_rotationData := [] }
        pSkeleton inFile with
    | none => none
    | some (fr, inFile1) =>
      match Motion.loadFrames pSkeleton frameCount inFile1 with
      | none => none
      | some (frs, inFile2) => some (fr :: frs, inFile2)

/-- The function `Motion::LoadFromBVHFile`.  The C function `atof`, which turns the
text behind `Time:` into a number, is a parameter. -/
def Motion.LoadFromBVHFile (atof : String → K) (m : Motion K) (pSkeleton : Skeleton K)
    (inFile : List (Item K)) : Option (Bool × Motion K × List (Item K)) :=
  let m : Motion K :=
    { m with m_keyFrames := [], m_currentFrame := 0, m_name := "None", m_fps := 0 }
  match Item.readWord "" inFile with
  | none => none
  | some (readString, inFile1) =>
    if readString ≠ "MOTION" then some (false, m, inFile1)
    else
      match Item.readWord readString inFile1 with
      | none => none
      | some (readString, inFile2) =>
        if readString ≠ "Frames:" then some (false, m, inFile2)
        else
          match Item.readCount inFile2 with
          | none => none
          | some (frameCount, inFile3) =>
            match Item.readWord readString inFile3 with
            | none => none
            | some (readString, inFile4) =>
              match Item.readLine readString inFile4 with
              | none => none
              | some (readString, inFile5) =>
                let m := { m with m_fps := 1 / atof (readString.drop 6) }
                match Motion.loadFrames pSkeleton frameCount inFile5 with
                | none => none
                | some (frs, inFile6) => some (true, { m with m_keyFrames := frs }, inFile6)

/-- The three numbers that `Frame::SaveToBVHFile` writes for a rotation: the angles
of `ToEulerAnglesZXY` in degrees, in the order Z, X, Y. -/
def Frame.angleItems (rotation : mat3 K) : List (Item K) :=
  let angles := (mat3.ToEulerAnglesZXY rotation).2 * (Rad2Deg : K)
  [.number angles.z, .number angles.x, .number angles.y]

/-- The items that `Frame::SaveToBVHFile` writes.  For a skeleton under the AMC
convention the copy `dummy` of the skeleton reads the frame first, and the rotation
of a joint is rebuilt from the images of the three axes under its local
rotation. -/
def Frame.SaveToBVHFile (fr : Frame K) (pSkeleton : Skeleton K) : Option (List (Item K)) :=
  let head : List (Item K) :=
    [.number fr.m_rootTranslation.x, .number fr.m_rootTranslation.y,
     .number fr.m_rootTranslation.z]
  if pSkeleton.AMC then
    match pSkeleton.ReadFromFrame fr with
    | none => none
    | some dummy =>
      ((List.range fr.m_rotationData.length).mapM (fun (i : Nat) =>
        match dummy.m_joints[i]? with
        | none => (none : Option (List (Item K)))
        | some pJoint =>
          if pJoint.m_channelCount > 0 then
            let X := pJoint.m_local.m_rotation * (axisX : vec3 K)
            let Y := pJoint.m_local.m_rotation * (axisY : vec3 K)
            let Z := pJoint.m_local.m_rotation * (axisZ : vec3 K)
            some (Frame.angleItems (mat3.Transpose ⟨X, Y, Z⟩))
          else some [])).map (fun (ls : List (List (Item K))) => head ++ ls.flatten)
  else
    (pSkeleton.m_joints.mapM (fun (pJoint : Joint K) =>
      if pJoint.m_channelCount > 0 then
        (fr.GetJointRotation pJoint.m_id).map Frame.angleItems
      else some [])).map (fun (ls : List (List (Item K))) => head ++ ls.flatten)

/-- The items that `Motion::SaveToBVHFile` writes.  The text that `operator<<`
writes for the frame time is a parameter. -/
def Motion.SaveToBVHFile (fmt : K → String) (m : Motion K) (pSkeleton : Skeleton K) :
    Option (List (Item K)) :=
  (m.m_keyFrames.mapM (fun (fr : Frame K) => fr.SaveToBVHFile pSkeleton)).map
    (fun (ls : List (List (Item K))) =>
    [.word "MOTION", .word "Frames:", .count m.m_keyFrames.length, .word "Frame",
     .line (" Time: " ++ fmt (1 / m.m_fps))] ++ ls.flatten)

end BvhMotion

section BvhFileSaved

variable {K : Type} [CommRing K]

/-- The file that the writers put out for the skeleton loaded from a file, as far as
the HIERARCHY part goes: the names are the names of the loaded joints, the offset of
the root is written as zero, and the `CHANNELS` lines name the order Z, X, Y. -/
def BvhFile.saved (file : BvhFile K) : BvhFile K :=
  { file with
    rootName := siteName file.rootName 0
    rootOffset := axisZero
    rootOrder := " Xposition Yposition Zposition Zrotation Xrotation Yrotation"
    blocks := file.blocks.saved 1 }

/-- One of the six rotation orders that `ComputeBVHRot` knows. -/
def knownOrder (rotOrder : String) : Prop :=
  rotOrder = "xyz" ∨ rotOrder = "xzy" ∨ rotOrder = "yxz" ∨ rotOrder = "yzx" ∨
    rotOrder = "zxy" ∨ rotOrder = "zyx"

instance (rotOrder : String) : Decidable (knownOrder rotOrder) := by
  unfold knownOrder
  infer_instance

/-- The rest of every `CHANNELS` line of the blocks names the three rotations in
one of the six orders. -/
def Blocks.knownOrders (D : K) : Blocks K → Prop
  | .done => True
  | .joint _ _ _ order inside next =>
    knownOrder (rotOrderOf D order) ∧ inside.knownOrders D ∧ next.knownOrders D
  | .endSite _ _ next => next.knownOrders D

/-- The number of `JOINT` blocks, nested ones included. -/
def Blocks.jointBlocks : Blocks K → Nat
  | .done => 0
  | .joint _ _ _ _ inside next => 1 + inside.jointBlocks + next.jointBlocks
  | .endSite _ _ next => next.jointBlocks

/-- A well-formed BVH file: the root has 6 channels, every `JOINT` block has 3
channels, every `CHANNELS` line names the rotations in one of the six orders, and
every frame line has six numbers for the root and three for every `JOINT` block. -/
def BvhFile.WellFormed (D : K) (file : BvhFile K) : Prop :=
  file.rootChannels = 6 ∧ knownOrder (rotOrderOf D file.rootOrder) ∧
    file.blocks.threeChannels ∧ file.blocks.knownOrders D ∧
    ∀ fr ∈ file.frames, fr.length = 6 + 3 * file.blocks.jointBlocks

end BvhFileSaved

section Rotations

variable {K : Type} [CommRing K]

/-- The determinant of a matrix. -/
def mat3.det (m : mat3 K) : K :=
  m.r0.x * (m.r1.y * m.r2.z - m.r1.z * m.r2.y)
    - m.r0.y * (m.r1.x * m.r2.z - m.r1.z * m.r2.x)
    + m.r0.z * (m.r1.x * m.r2.y - m.r1.y * m.r2.x)

/-- A rotation matrix: the product with its transpose is the identity and the
determinant is 1. -/
def mat3.IsRotation (m : mat3 K) : Prop :=
  m * m.Transpose = identity3D ∧ m.det = 1

/-- The joint that the loaders build from the block that the writer puts out for the
joint `j` loaded from a well-formed file: a joint with 3 channels gets the rotation
order of the `CHANNELS` line that the writer puts out. -/
def Joint.resaved (j : Joint K) : Joint K :=
  if j.m_channelCount = 3 then { j with m_rotOrder := "zxy" } else j

/-- The number of numbers that `Frame::LoadFromBVHFile` reads for the joints. -/
def channelNumbers (js : List (Joint K)) : Nat :=
  (js.map (fun j =>
    if j.m_channelCount = 6 then 6 else if j.m_channelCount = 3 then 3 else 0)).sum

end Rotations

section FrameSpec

variable {K : Type} [LinearOrderedField K] [CMath K]

/-- The rotation of the joint `j` in the frame, the identity if there is none. -/
def Frame.rotationOf (fr : Frame K) (j : Joint K) : mat3 K :=
  (fr.GetJointRotation j.m_id).getD identity3D

/-- The numbers that `Frame::SaveToBVHFile` writes for the joint `j` of a skeleton
under the BVH convention. -/
def Frame.jointItems (fr : Frame K) (j : Joint K) : List (Item K) :=
  if j.m_channelCount > 0 then Frame.angleItems (fr.rotationOf j) else []

/-- The line that `Frame::SaveToBVHFile` writes for the joints `js` of a skeleton
under the BVH convention. -/
def Frame.lineItems (fr : Frame K) (js : List (Joint K)) : List (Item K) :=
  [.number fr.m_rootTranslation.x, .number fr.m_rootTranslation.y,
   .number fr.m_rootTranslation.z] ++ (js.map fr.jointItems).flatten

/-- The rotation that `Frame::LoadFromBVHFile` builds for the joint `j` from the
numbers written for it: the angles of its rotation in the frame, read in the order
Z, X, Y, for a joint with channels, and no turn for a joint without. -/
def Frame.reread (fr : Frame K) (j : Joint K) : mat3 K :=
  if j.m_channelCount > 0 then
    ComputeBVHRot ((mat3.ToEulerAnglesZXY (fr.rotationOf j)).2 * (Rad2Deg : K)).z
      ((mat3.ToEulerAnglesZXY (fr.rotationOf j)).2 * (Rad2Deg : K)).x
      ((mat3.ToEulerAnglesZXY (fr.rotationOf j)).2 * (Rad2Deg : K)).y "zxy"
  else ComputeBVHRot 0 0 0 j.m_rotOrder

end FrameSpec

/-! ## Transformation.cpp and Motion.cpp: frames of a motion

The `int` and `unsigned int` of `Motion::SubMotion` and `Motion::SetSubMotion` are
32 bits wide; the conversions between them are taken modulo 2^32, as every compiler
of the project does. -/

section MotionOps

variable {K : Type} [CommRing K]

/-- The function `Transform::Inverse`: the transposed rotation, and the translation
turned by it and multiplied by `-1`. -/
def Transform.Inverse (t : Transform K) : Transform K :=
  let rot := t.m_rotation.Transpose
  { m_rotation := rot, m_translation := (rot * t.m_translation) * (-1 : K) }

/-- The conversion of an `int` to `unsigned int`. -/
def toUnsigned (x : Int) : Nat := (x % 2 ^ 32).toNat

/-- The conversion of an `unsigned int` to `int`. -/
def toInt (u : Nat) : Int :=
  if u % 2 ^ 32 < 2 ^ 31 then ((u % 2 ^ 32 : Nat) : Int) else ((u % 2 ^ 32 : Nat) : Int) - 2 ^ 32

/-- The function `Motion::GetNumFrames`: the size of the vector as an
`unsigned int`. -/
def Motion.GetNumFrames (m : Motion K) : Nat := m.m_keyFrames.length % 2 ^ 32

/-- The function `Motion::GetFrame(index)`: the assertion `index < m_keyFrames.size()`
fails (`none`) for an index that is too large. -/
def Motion.GetFrame (m : Motion K) (index : Nat) : Option (Frame K) := m.m_keyFrames[index]?

/-- The function `Motion::SetFrame(index, f)`: an index that is not below the number
of frames writes outside the vector (`none`). -/
def Motion.SetFrame (m : Motion K) (index : Nat) (f : Frame K) : Option (Motion K) :=
  if index < m.m_keyFrames.length then some { m with m_keyFrames := m.m_keyFrames.set index f }
  else none

/-- The function `Motion::AppendFrame`. -/
def Motion.AppendFrame (m : Motion K) (frame : Frame K) : Motion K :=
  { m with m_keyFrames := m.m_keyFrames ++ [frame] }

/-- The constructor `Motion::Motion()`. -/
def Motion.new : Motion K :=
  { m_keyFrames := [], m_currentFrame := 0, m_name := "None", m_fps := 0 }

/-- The function `Motion::SetFps`. -/
def Motion.SetFps (m : Motion K) (fps : K) : Motion K := { m with m_fps := fps }

/-- The loop `for (unsigned int i = startFrame; i < endFrame; i++)` of
`Motion::SubMotion`, from `i` on for `n` more rounds. -/
def Motion.appendFrames (src : Motion K) : Nat → Nat → Motion K → Option (Motion K)
  | 0, _, m => some m
  | n + 1, i, m =>
    match src.GetFrame i with
    | none => none
    | some f => Motion.appendFrames src n (i + 1) (m.AppendFrame f)

/-- The function `Motion::SubMotion(startFrame, endFrame)`.  The two bounds are
computed as `unsigned int` by `std::max<unsigned int>` and `std::min<unsigned int>`
and stored back into the `int` parameters; the loop counter is an `unsigned int`, so
the loop condition `i < endFrame` compares as `unsigned int`. -/
def Motion.SubMotion (m : Motion K) (startFrame endFrame : Int) : Option (Motion K) :=
  let startFrame : Int := toInt (max 0 (toUnsigned startFrame))
  let endFrame : Int := toInt (min m.GetNumFrames (toUnsigned endFrame))
  Motion.appendFrames m (toUnsigned endFrame - toUnsigned startFrame) (toUnsigned startFrame)
    ((Motion.new : Motion K).SetFps m.m_fps)

/-- The loop `for (unsigned int i = startFrame; i < endFrame; i++)` of
`Motion::SetSubMotion`, from `i` on for `n` more rounds, with `index` the next
frame of `m`. -/
def Motion.setFrames (m : Motion K) : Nat → Nat → Nat → Motion K → Option (Motion K)
  | 0, _, _, self => some self
  | n + 1, i, index, self =>
    match m.GetFrame index with
    | none => none
    | some f =>
      match self.SetFrame i f with
      | none => none
      | some self1 => Motion.setFrames m n (i + 1) (index + 1) self1

/-- The function `Motion::SetSubMotion(startFrame, endFrame, m)`: the assertion
compares `endFrame - startFrame` with the `unsigned int` frame count of `m`, and so
as `unsigned int`; the loop counter is an `unsigned int`. -/
def Motion.SetSubMotion (self : Motion K) (startFrame endFrame : Int) (m : Motion K) :
    Option (Motion K) :=
  if toUnsigned (endFrame - startFrame) ≤ m.GetNumFrames then
    Motion.setFrames m (toUnsigned endFrame - toUnsigned startFrame) (toUnsigned startFrame) 0
      self
  else none

end MotionOps

/-! ## SkeletonMesh.cxx: skin weights

`SkeletonMesh::loadSkinWeights` first reads the file into `skinWeightJoints`, which
maps a joint name to a column, and `skinWeights`, which has for each column the
weights of the vertex rows; the embedding starts from these two and has the body of
the loop over the vertex rows.  The `float` and `double` of the code are elements of
an ordered field. -/

section SkinWeights

variable {K : Type} [LinearOrderedField K]

/-- The loop over the joints of the skeleton for the vertex row `i`, from the joint
`j` on: a joint whose name has a column and whose weight in the row is positive is
pushed onto `jointInds` with its weight onto `weights`.  A column or a row that the
table does not have is read outside a vector (`none`). -/
def SkeletonMesh.collect (skinWeightJoints : String → Option Nat)
    (skinWeights : List (List K)) (i : Nat) :
    Nat → List (Joint K) → List Nat × List K → Option (List Nat × List K)
  | _, [], acc => some acc
  | j, joint :: rest, (jointInds, weights) =>
    match skinWeightJoints joint.m_name with
    | none => SkeletonMesh.collect skinWeightJoints skinWeights i (j + 1) rest (jointInds, weights)
    | some col =>
      match skinWeights[col]? with
      | none => none
      | some column =>
        match column[i]? with
        | none => none
        | some weight =>
          if weight > 0 then
            SkeletonMesh.collect skinWeightJoints skinWeights i (j + 1) rest
              (jointInds ++ [j], weights ++ [weight])
          else
            SkeletonMesh.collect skinWeightJoints skinWeights i (j + 1) rest
              (jointInds, weights)

/-- The loop of `std::min_element` from position `k` on, with the smallest entry so
far `best` at position `bi`: a later entry replaces it only when it is less. -/
def minElementFrom : K → Nat → Nat → List K → Nat
  | _, bi, _, [] => bi
  | best, bi, k, w :: rest =>
    if w < best then minElementFrom w k (k + 1) rest else minElementFrom best bi (k + 1) rest

/-- The function `std::min_element`: the position of the first smallest entry, the
end (`none`) for an empty vector. -/
def minElement : List K → Option Nat
  | [] => none
  | w :: rest => some (minElementFrom w 0 1 rest)

/-- The loop `for (k = 0; k < jointInds.size(); k++) if (weights[k] == x) break;`
over the weights from position `k` on. -/
def firstEqual (x : K) : Nat → List K → Nat
  | k, [] => k
  | k, w :: rest => if w = x then k else firstEqual x (k + 1) rest

/-- The loop `while (jointInds.size() > 4)`: the first smallest weight is erased, and
the joint at the first position whose weight equals it; the first argument bounds
the number of rounds. -/
def SkeletonMesh.trim : Nat → List Nat × List K → Option (List Nat × List K)
  | 0, (jointInds, weights) => if jointInds.length > 4 then none else some (jointInds, weights)
  | fuel + 1, (jointInds, weights) =>
    if jointInds.length > 4 then
      match minElement weights with
      | none => none
      | some it =>
        match weights[it]? with
        | none => none
        | some x =>
          let k := firstEqual x 0 (weights.take jointInds.length)
          if k < jointInds.length then
            SkeletonMesh.trim fuel (jointInds.eraseIdx k, weights.eraseIdx it)
          else none
    else some (jointInds, weights)

/-- The two loops under `// Normalize weights`: every weight is divided by the sum of
the weights. -/
def SkeletonMesh.normalize (weights : List K) : List K :=
  let denom := weights.foldl (fun d w => d + w) 0
  weights.map (fun w => w / denom)

/-- The end of the loop body: a vector of four zeros for the joint indices and one
for the weights, overwritten from the front with the `jointInds.size()` entries
kept; more than four entries are written outside the vectors (`none`). -/
def SkeletonMesh.store (jointInds : List Nat) (weights : List K) :
    Option (List Nat × List K) :=
  if jointInds.length ≤ 4 ∧ jointInds.length ≤ weights.length then
    some (jointInds ++ List.replicate (4 - jointInds.length) 0,
      weights.take jointInds.length ++ List.replicate (4 - jointInds.length) 0)
  else none

/-- The body of the loop of `SkeletonMesh::loadSkinWeights` over the vertex rows, for
the row `i`: the joint indices and the weights stored for the vertex. -/
def SkeletonMesh.loadSkinWeights (mSkeleton : Skeleton K)
    (skinWeightJoints : String → Option Nat) (skinWeights : List (List K)) (i : Nat) :
    Option (List Nat × List K) :=
  match SkeletonMesh.collect skinWeightJoints skinWeights i 0 mSkeleton.m_joints ([], []) with
  | none => none
  | some (jointInds, weights) =>
    match SkeletonMesh.trim jointInds.length (jointInds, weights) with
    | none => none
    | some (jointInds1, weights1) =>
      SkeletonMesh.store jointInds1 (SkeletonMesh.normalize weights1)

end SkinWeights

/-! ## The trimming of skin weights in the words of the specification -/

section SkinWeightsSpec

variable {K : Type} [LinearOrderedField K]

/-- The weight that the file has in the vertex row `i` for the joint `j` of the
skeleton: the entry of the row in the column of the name of the joint. -/
def SkeletonMesh.weightOf (mSkeleton : Skeleton K) (skinWeightJoints : String → Option Nat)
    (skinWeights : List (List K)) (i j : Nat) : Option K :=
  (mSkeleton.m_joints[j]?).bind (fun joint =>
    (skinWeightJoints joint.m_name).bind (fun col =>
      (skinWeights[col]?).bind (fun column => column[i]?)))

/-- The file has a weight in the vertex row `i` for every joint of the skeleton whose
name has a column. -/
def SkeletonMesh.HasRow (mSkeleton : Skeleton K) (skinWeightJoints : String → Option Nat)
    (skinWeights : List (List K)) (i : Nat) : Prop :=
  ∀ joint ∈ mSkeleton.m_joints, ∀ col, skinWeightJoints joint.m_name = some col →
    ∃ column w, skinWeights[col]? = some column ∧ column[i]? = some w

/-- The joints with a positive weight in the vertex row `i`, in ascending order of
their ids, each with its weight; `weightOf j` is the weight of the joint `j` in the
row, if the file has one. -/
def positiveWeights (weightOf : Nat → Option K) (numJoints : Nat) : List (Nat × K) :=
  (List.range numJoints).filterMap (fun j =>
    match weightOf j with
    | some w => if w > 0 then some (j, w) else none
    | none => none)

/-- Removing the first smallest weight: the first entry whose weight no entry is
below is taken out. -/
def removeSmallest (l : List (Nat × K)) : List (Nat × K) :=
  l.eraseIdx (l.findIdx (fun p => l.all (fun q => decide (p.2 ≤ q.2))))

/-- Removing the first smallest weight repeatedly until four entries remain; the
first argument bounds the number of rounds. -/
def keepFour : Nat → List (Nat × K) → List (Nat × K)
  | 0, l => l
  | fuel + 1, l => if l.length > 4 then keepFour fuel (removeSmallest l) else l

/-- The entries with each weight divided by the sum of the weights. -/
def renormalised (l : List (Nat × K)) : List (Nat × K) :=
  l.map (fun p => (p.1, p.2 / (l.map Prod.snd).sum))

/-- The entries padded with (joint 0, weight 0) to four entries. -/
def paddedToFour (l : List (Nat × K)) : List (Nat × K) :=
  l ++ List.replicate (4 - l.length) (0, 0)

/-- The position `r` holds the first smallest entry of the list. -/
def IsFirstMin (l : List K) (r : Nat) : Prop :=
  ∃ v, l[r]? = some v ∧ (∀ x ∈ l, v ≤ x) ∧ ∀ (m : Nat) (x : K), m < r → l[m]? = some x → v < x

end SkinWeightsSpec

/-! ## Player.cpp: loading a BVH file -/

section MotionAccess

variable {K : Type} [CommRing K]

/-- The function `Motion::SetName`. -/
def Motion.SetName (m : Motion K) (name : String) : Motion K := { m with m_name := name }

/-- The function `Motion::SetCurrentIndex`: the index is clamped by
`std::max<unsigned int>(0, std::min<unsigned int>(m_keyFrames.size()-1, currentFrame))`,
with `m_keyFrames.size()-1` taken as a 32-bit unsigned number. -/
def Motion.SetCurrentIndex (m : Motion K) (currentFrame : Nat) : Motion K :=
  { m with
    m_currentFrame := max 0 (min (toUnsigned ((m.m_keyFrames.length : Int) - 1)) currentFrame) }

/-- The function `Motion::GetCurrentFrame`. -/
def Motion.GetCurrentFrame (m : Motion K) : Option (Frame K) := m.GetFrame m.m_currentFrame

/-- The input starts with the word `HIERARCHY` followed by the word `ROOT` or the
word `JOINT`. -/
def Item.startsHierarchy : List (Item K) → Prop
  | .word w :: .word w1 :: _ => w = "HIERARCHY" ∧ (w1 = "ROOT" ∨ w1 = "JOINT")
  | _ => False

end MotionAccess

section PlayerLoad

variable {K : Type} [LinearOrderedField K] [CMath K]

/-- The function `Player::LoadBVHFile`.  The file is `none` when it cannot be opened;
the skeleton loader and the motion loader read from the same stream, and the motion
loader is not called when the skeleton loader returns `false`.  The name of the
annotation file, which is computed and not used, and `init`, which is empty, are
left out. -/
def Player.LoadBVHFile (atof : String → K) (p : Player K) (filename : String)
    (inFile : Option (List (Item K))) : Option (Bool × Player K) :=
  match inFile with
  | none => some (false, p)
  | some inFile =>
    match Skeleton.LoadFromBVHFile Deg2Rad p.m_skeleton inFile with
    | none => none
    | some (false, sk, _) =>
      some (false, { m_skeleton := sk, m_motion := p.m_motion.SetName "None" })
    | some (true, sk, inFile1) =>
      match Motion.LoadFromBVHFile atof p.m_motion sk inFile1 with
      | none => none
      | some (false, m, _) => some (false, { m_skeleton := sk, m_motion := m.SetName "None" })
      | some (true, m, _) =>
        let m := (m.SetName filename).SetCurrentIndex 0
        if m.GetNumFrames > 0 then
          match m.GetCurrentFrame with
          | none => none
          | some f =>
            match sk.ReadFromFrame f with
            | none => none
            | some sk1 => some (true, { m_skeleton := sk1, m_motion := m })
        else some (true, { m_skeleton := sk, m_motion := m })

end PlayerLoad

/-! ## Skeleton.cpp: ASF files

`Skeleton::LoadASFFile` reads the file line by line with `sscanf` and `strtok`.  The
file is embedded as what these calls deliver: for every `begin` ... `end` block of
the `:bonedata` section the values that `ReadJointFromASFFile` holds in its locals
`name`, `translation`, `axisRotation`, `dofs`, `lower` and `upper` when it reaches
`end`, and for every line of the `:hierarchy` section its first word and the words
after it. -/

/-- A bone block of the `:bonedata` section. -/
structure AsfBone (K : Type) where
  name : String
  translation : vec3 K
  axisRotation : mat3 K
  dofs : Nat
  lower : vec3 K
  upper : vec3 K
deriving DecidableEq

/-- An ASF file: the bone blocks and the lines of the `:hierarchy` section, each
line with the name of the parent first and the names of the children after it. -/
structure AsfFile (K : Type) where
  bones : List (AsfBone K)
  hierarchy : List (String × List String)
deriving DecidableEq

section AsfFiles

variable {K : Type} [CommRing K]

/-- The function `Joint::SetDOFs`. -/
def Joint.SetDOFs (j : Joint K) (dofFlags : Nat) : Joint K := { j with m_dofs := dofFlags }

/-- The function `Joint::SetJointLimits`. -/
def Joint.SetJointLimits (j : Joint K) (lower upper : vec3 K) : Joint K :=
  { j with m_lowerLimits := lower, m_upperLimits := upper }

/-- The function `Skeleton::GetJointByName`: the first joint with the name. -/
def Skeleton.GetJointByName (js : List (Joint K)) (name : String) : Option Nat :=
  js.findIdx? (fun j => name == j.m_name)

/-- The end of `Skeleton::ReadJointFromASFFile`, after the block has been read: the
joint is made from the values of the block and pushed. -/
def Skeleton.ReadJointFromASFFile (Deg2Rad : K) (sk : Skeleton K) (bone : AsfBone K) :
    Skeleton K :=
  let pJoint := Joint.new Deg2Rad
  let pJoint := { pJoint with
    m_translation := bone.translation
    m_axisRotation := bone.axisRotation
    m_local := { pJoint.m_local with m_translation := bone.translation } }
  let pJoint := pJoint.SetID sk.m_joints.length
  let pJoint := pJoint.SetName bone.name
  let pJoint := pJoint.SetNumChannels 3
  let pJoint := pJoint.SetRotationOrder "zyx"
  let pJoint := pJoint.SetDOFs bone.dofs
  let pJoint := pJoint.SetJointLimits bone.lower bone.upper
  let pJoint := { pJoint with AMC := sk.AMC }
  { sk with m_joints := sk.m_joints ++ [pJoint] }

/-- The inner loop of `Skeleton::LoadASFFile` over the words of a hierarchy line
after the first: the joint with that name is attached to `pParent`. -/
def Skeleton.attachChildren (pParent : Option Nat) :
    List (Joint K) → List String → Option (List (Joint K))
  | js, [] => some js
  | js, token :: rest =>
    match Joint.AttachJoints js pParent (Skeleton.GetJointByName js token) with
    | none => none
    | some js1 => Skeleton.attachChildren pParent js1 rest

/-- The loop of `Skeleton::LoadASFFile` over the lines of the `:hierarchy`
section. -/
def Skeleton.attachLines : List (Joint K) → List (String × List String) →
    Option (List (Joint K))
  | js, [] => some js
  | js, line :: rest =>
    match Skeleton.attachChildren (Skeleton.GetJointByName js line.1) js line.2 with
    | none => none
    | some js1 => Skeleton.attachLines js1 rest

/-- The function `Skeleton::LoadASFFile` on a file that could be opened and has the
sections `:bonedata` and `:hierarchy`; it returns `true` whenever it returns. -/
def Skeleton.LoadASFFile (Deg2Rad : K) (sk : Skeleton K) (file : AsfFile K) :
    Option (Skeleton K) :=
  let sk : Skeleton K := { sk with m_joints := [], m_pRoot := none, AMC := true }
  let root := ((((Joint.new Deg2Rad).SetID 0).SetName "root").SetNumChannels 6).SetRotationOrder
    "zyx"
  let root := { root with AMC := sk.AMC }
  let sk := sk.AddJoint root true
  let sk := file.bones.foldl (Skeleton.ReadJointFromASFFile Deg2Rad) sk
  match Skeleton.attachLines sk.m_joints file.hierarchy with
  | none => none
  | some js => Skeleton.UpdateFK { sk with m_joints := js } none

end AsfFiles

/-! ## The invariants of a loaded skeleton -/

section LoadedInvariants

variable {K : Type} [CommRing K]

/-- Parent pointers and child lists agree: every joint `c` with parent `p` occurs in
the child list of `p`, and every entry `c` of the child list of a joint `p` has `p`
as its parent. -/
def LinksAgree (js : List (Joint K)) : Prop :=
  (∀ c p : Nat, parentAt js c = some p → c ∈ childrenAt js p) ∧
  (∀ p c : Nat, c ∈ childrenAt js p → parentAt js c = some p)

/-- The pointers agree and no child list has an entry twice. -/
def Linked (js : List (Joint K)) : Prop :=
  LinksAgree js ∧ ∀ p : Nat, (childrenAt js p).Nodup

/-- The state of a skeleton while a BVH hierarchy is read, with `p` the joint whose
block is being read: ids are positions, pointers agree, and joint 0 is the root and
has no parent. -/
def Skeleton.Loading (p : Nat) (sk : Skeleton K) : Prop :=
  idsAreIndices sk.m_joints ∧ Linked sk.m_joints ∧ p < sk.m_joints.length ∧
    parentAt sk.m_joints 0 = none ∧ sk.m_pRoot = some 0

/-- The joint list while an ASF file is loaded: ids are positions, pointers agree,
and joint 0 has the name `root`. -/
def AsfLoading (js : List (Joint K)) : Prop :=
  idsAreIndices js ∧ Linked js ∧ ∃ j, js[0]? = some j ∧ j.m_name = "root"

end LoadedInvariants

/-! ## Transformation.cpp: quaternions -/

/-- The class `Quaternion`: the array `n[4]`, read by the indices `VW`, `VX`, `VY`
and `VZ`. -/
@[ext]
structure Quaternion (K : Type) where
  w : K
  x : K
  y : K
  z : K
deriving DecidableEq

section QuaternionOps

variable {K : Type} [CommRing K]

/-- The default constructor `Quaternion::Quaternion()`: all entries zero. -/
def Quaternion.zero : Quaternion K := ⟨0, 0, 0, 0⟩

/-- The function `Quaternion::SqrLength`. -/
def Quaternion.SqrLength (q : Quaternion K) : K :=
  q.w * q.w + q.x * q.x + q.y * q.y + q.z * q.z

/-- The function `Quaternion::ToRotation`. -/
def Quaternion.ToRotation (q : Quaternion K) : mat3 K :=
  let tx := 2 * q.x
  let ty := 2 * q.y
  let tz := 2 * q.z
  let twx := tx * q.w
  let twy := ty * q.w
  let twz := tz * q.w
  let txx := tx * q.x
  let txy := ty * q.x
  let txz := tz * q.x
  let tyy := ty * q.y
  let tyz := tz * q.y
  let tzz := tz * q.z
  ⟨⟨1 - tyy - tzz, txy - twz, txz + twy⟩,
   ⟨txy + twz, 1 - txx - tzz, tyz - twx⟩,
   ⟨txz - twy, tyz + twx, 1 - txx - tyy⟩⟩

/-- The function `mat3::FromQuaternion`. -/
def mat3.FromQuaternion (q : Quaternion K) : mat3 K := q.ToRotation

end QuaternionOps

section QuaternionReal

variable {K : Type} [LinearOrderedField K] [CMath K]

/-- The function `Quaternion::Length`. -/
def Quaternion.Length (q : Quaternion K) : K :=
  let l := q.SqrLength
  if l > EPSILON then CMath.sqrt q.SqrLength else 0

/-- The function `Quaternion::FromAxisAngle`. -/
def Quaternion.FromAxisAngle (axis : vec3 K) (angleRad : K) : Quaternion K :=
  let fHalfAngle := angleRad * 0.5
  let sn := CMath.sin fHalfAngle
  ⟨CMath.cos fHalfAngle, axis.x * sn, axis.y * sn, axis.z * sn⟩

/-- The function `Quaternion::Normalize`, with `abs` the absolute value of a
`double`. -/
def Quaternion.Normalize (q : Quaternion K) : Quaternion K :=
  let l := q.Length
  if l < EPSILON ∨ |l| > 1000000 then Quaternion.FromAxisAngle ⟨0, 1, 0⟩ 0
  else ⟨q.w / l, q.x / l, q.y / l, q.z / l⟩

/-- The macro `Q_EST`. -/
def Q_EST (a b c : K) : K := 0.25 * (1 + a + b + c)

/-- The macro `Q_MAX`. -/
def Q_MAX (a b c d : K) : K := max a (max b (max c d))

/-- The function `Quaternion::FromRotation`, called on the quaternion `q`: the
entries that no branch writes keep their values, and the assertion on `themax` fails
with `none`. -/
def Quaternion.FromRotation (q : Quaternion K) (rot : mat3 K) : Option (Quaternion K) :=
  let Wsqr := Q_EST rot.r0.x rot.r1.y rot.r2.z
  let Xsqr := Q_EST rot.r0.x (-rot.r1.y) (-rot.r2.z)
  let Ysqr := Q_EST (-rot.r0.x) rot.r1.y (-rot.r2.z)
  let Zsqr := Q_EST (-rot.r0.x) (-rot.r1.y) rot.r2.z
  let themax := Q_MAX Wsqr Xsqr Ysqr Zsqr
  if themax ≥ 0 then
    let q1 : Quaternion K :=
      if Wsqr = themax then
        let w := CMath.sqrt Wsqr
        ⟨w, 0.25 * (rot.r2.y - rot.r1.z) / w, 0.25 * (rot.r0.z - rot.r2.x) / w,
          0.25 * (rot.r1.x - rot.r0.y) / w⟩
      else if Xsqr = themax then
        let x := CMath.sqrt Xsqr
        ⟨0.25 * (rot.r2.y - rot.r1.z) / x, x, 0.25 * (rot.r0.y + rot.r1.x) / x,
          0.25 * (rot.r0.z + rot.r2.x) / x⟩
      else if Ysqr = themax then
        let y := CMath.sqrt Ysqr
        ⟨0.25 * (rot.r0.z - rot.r2.x) / y, 0.25 * (rot.r0.y + rot.r1.x) / y, y,
          0.25 * (rot.r1.z + rot.r2.y) / y⟩
      else if Zsqr = themax then
        let z := CMath.sqrt Zsqr
        ⟨0.25 * (rot.r1.x - rot.r0.y) / z, 0.25 * (rot.r0.z + rot.r2.x) / z,
          0.25 * (rot.r1.z + rot.r2.y) / z, z⟩
      else q
    some q1.Normalize
  else none

/-- The function `mat3::ToQuaternion`. -/
def mat3.ToQuaternion (m : mat3 K) : Option (Quaternion K) :=
  Quaternion.zero.FromRotation m

end QuaternionReal

/-! ## Frame.cpp: the frame with its caches

The structure `Frame` above has the root translation and the rotation matrices.  The
class also holds the Euler angles and the quaternions of the joints, in two more
vectors; `CachedFrame` has all four members. -/

/-- The class `Frame` with all its members. -/
structure CachedFrame (K : Type) where
  m_eulerData : List (vec3 K)
  m_rootTranslation : vec3 K
  m_rotationData : List (mat3 K)
  m_quaternionData : List (Quaternion K)
deriving DecidableEq

section CachedFrameOps

variable {K : Type} [CommRing K]

/-- The function `std::vector::resize(num, value)`: the first `num` entries stay, and
the vector is padded with `value`. -/
def resize {α : Type} (v : List α) (num : Nat) (value : α) : List α :=
  v.take num ++ List.replicate (num - v.length) value

/-- The constructor `Frame::Frame()`. -/
def CachedFrame.new : CachedFrame K :=
  { m_eulerData := [], m_rootTranslation := ⟨0, 0, 0⟩, m_rotationData := [],
    m_quaternionData := [] }

/-- The members of the frame that `Frame` has. -/
def CachedFrame.toFrame (f : CachedFrame K) : Frame K :=
  { m_rootTranslation := f.m_rootTranslation, m_rotationData := f.m_rotationData }

/-- The function `Frame::GetNumJoints`. -/
def CachedFrame.GetNumJoints (f : CachedFrame K) : Nat := f.m_rotationData.length

/-- The function `Frame::SetNumJoints`. -/
def CachedFrame.SetNumJoints (f : CachedFrame K) (num : Nat) : CachedFrame K :=
  { f with
    m_eulerData := resize f.m_eulerData num ⟨0, 0, 0⟩
    m_rotationData := resize f.m_rotationData num identity3D
    m_quaternionData := resize f.m_quaternionData num ⟨0, 0, 0, 0⟩ }

/-- The loop of `Frame::operator=` from position `i` on, `n` rounds: the entries of
the three vectors of `orig` at position `i` are pushed; an entry that `orig` does
not have is read outside the vector (`none`). -/
def CachedFrame.copyEntries (orig : CachedFrame K) :
    Nat → Nat → CachedFrame K → Option (CachedFrame K)
  | 0, _, f => some f
  | n + 1, i, f =>
    match orig.m_eulerData[i]?, orig.m_rotationData[i]?, orig.m_quaternionData[i]? with
    | some e, some r, some q =>
      CachedFrame.copyEntries orig n (i + 1)
        { f with
          m_eulerData := f.m_eulerData ++ [e]
          m_rotationData := f.m_rotationData ++ [r]
          m_quaternionData := f.m_quaternionData ++ [q] }
    | _, _, _ => none

/-- The function `Frame::operator=` on a frame other than `orig`, which is also what
the copy constructor runs: the loop runs over the positions of `orig.m_rotationData`
and reads all three vectors of `orig` there. -/
def CachedFrame.assign (f orig : CachedFrame K) : Option (CachedFrame K) :=
  CachedFrame.copyEntries orig orig.m_rotationData.length 0
    { f with
      m_rootTranslation := orig.m_rootTranslation
      m_eulerData := []
      m_rotationData := []
      m_quaternionData := [] }

/-- The three vectors of the frame have the same length. -/
def CachedFrame.Aligned (f : CachedFrame K) : Prop :=
  f.m_eulerData.length = f.m_rotationData.length ∧
    f.m_quaternionData.length = f.m_rotationData.length

end CachedFrameOps

section CachedFrameReal

variable {K : Type} [LinearOrderedField K] [CMath K]

/-- The function `Frame::SetJointRotation(index, rotation)`: the assertion
`index < GetNumJoints()` fails with `none`, as does an index outside
`m_quaternionData`. -/
def CachedFrame.SetJointRotation (f : CachedFrame K) (index : Nat) (rotation : mat3 K) :
    Option (CachedFrame K) :=
  if index < f.GetNumJoints then
    match f.m_quaternionData[index]? with
    | none => none
    | some q =>
      match q.FromRotation rotation with
      | none => none
      | some q1 =>
        some { f with
          m_rotationData := f.m_rotationData.set index rotation
          m_quaternionData := f.m_quaternionData.set index q1 }
  else none

/-- The function `Frame::SetJointRotation(index, eulerZXY)`. -/
def CachedFrame.SetJointRotationEuler (f : CachedFrame K) (index : Nat)
    (eulerZXY : vec3 K) : Option (CachedFrame K) :=
  if index < f.m_eulerData.length then
    let f1 := { f with m_eulerData := f.m_eulerData.set index eulerZXY }
    f1.SetJointRotation index (mat3.FromEulerAnglesZXY eulerZXY)
  else none

/-- The loop of `Frame::LoadFromBVHFile` over the joints from position `i` on, as
`Frame.loadJoints`, with the quaternion `q` of the rotation, made by `FromRotation`
from a new quaternion, pushed onto `m_quaternionData`; nothing is pushed onto
`m_eulerData`. -/
def CachedFrame.loadJoints :
    List (Joint K) → Nat → CachedFrame K → List (Item K) →
      Option (CachedFrame K × List (Item K))
  | [], _, fr, inFile => some (fr, inFile)
  | pJoint :: rest, i, fr, inFile =>
    let read : Option ((vec3 K × vec3 K) × List (Item K)) :=
      if pJoint.m_channelCount = 6 then
        match Item.readVec3 axisZero inFile with
        | none => none
        | some (t, inFile1) =>
          match Item.readVec3 axisZero inFile1 with
          | none => none
          | some (r, inFile2) => some ((t, r), inFile2)
      else if pJoint.m_channelCount = 3 then
        match Item.readVec3 axisZero inFile with
        | none => none
        | some (r, inFile1) => some ((axisZero, r), inFile1)
      else some ((axisZero, axisZero), inFile)
    match read with
    | none => none
    | some ((t, r), inFile1) =>
      let fr1 := if i = 0 then { fr with m_rootTranslation := t } else fr
      let m := ComputeBVHRot r.x r.y r.z pJoint.m_rotOrder
      match Quaternion.zero.FromRotation m with
      | none => none
      | some q =>
        CachedFrame.loadJoints rest (i + 1)
          { fr1 with
            m_rotationData := fr1.m_rotationData ++ [m]
            m_quaternionData := fr1.m_quaternionData ++ [q] } inFile1

/-- The function `Frame::LoadFromBVHFile`. -/
def CachedFrame.LoadFromBVHFile (fr : CachedFrame K) (pSkeleton : Skeleton K)
    (inFile : List (Item K)) : Option (CachedFrame K × List (Item K)) :=
  CachedFrame.loadJoints pSkeleton.m_joints 0 fr inFile

end CachedFrameReal

/-! ## Skeleton.cpp: the scale of a skeleton -/

section Scale

variable {K : Type} [CommRing K] [DecidableEq K]

/-- The function `Skeleton::SetScale`: nothing happens when `s` is the scale the
skeleton has; otherwise `s` becomes the scale, and every joint has its bone
translation `m_translation` multiplied by it under the AMC convention, and its local
translation multiplied by it and written with `SetLocalTranslation` otherwise. -/
def Skeleton.SetScale (sk : Skeleton K) (s : K) : Skeleton K :=
  if s = sk.mScale then sk
  else
    let mScale := s
    { sk with
      mScale := mScale
      m_joints := sk.m_joints.map fun joint =>
        if sk.AMC then { joint with m_translation := joint.m_translation * mScale }
        else
          let translation := joint.m_local.m_translation
          joint.SetLocalTranslation (translation * mScale) }

end Scale

/-! ## The `End` blocks of a BVH file -/

section BvhEnds

variable {K : Type} [CommRing K]

/-- The `End` blocks of a sequence of blocks whose first joint gets the position
`start`: for each the position of its joint and the name that the file has behind
the word `End`. -/
def Blocks.ends (start : Nat) : Blocks K → List (Nat × String)
  | .done => []
  | .joint _ _ _ _ inside next =>
    inside.ends (start + 1) ++ next.ends (start + 1 + inside.size)
  | .endSite name _ next => (start, name) :: next.ends (start + 1)

end BvhEnds

/-! ## SkeletonMesh.cxx: the skin matrices -/

/-- The members of the class `SkeletonMesh` that hold the skin: for each vertex the
joint indices and the weights, the attribute arrays `quadinds`, `quadws`, `triinds`
and `triws` made from them, and the bind pose and the animation pose, each as a
vector of transforms and as an array of numbers.  An array is the list of its
entries; one that has not been allocated has none. -/
structure SkeletonMesh (K : Type) where
  myVertexJointIndices : List (List Nat)
  myVertexWeights : List (List K)
  quadws : List K
  quadinds : List Nat
  triws : List K
  triinds : List Nat
  myBindPose_Global2Local : List (Transform K)
  myAnimPose_Local2Global : List (Transform K)
  global2local : List K
  local2global : List K
deriving DecidableEq

section Skin

variable {K : Type} [CommRing K]

/-- The function `ToGLMatrix(Transform t, float* pData)` of SkeletonMesh.cxx: the 16
numbers `pData[0]` to `pData[15]`, column by column. -/
def ToGLMatrix (t : Transform K) : List K :=
  [t.m_rotation.r0.x, t.m_rotation.r1.x, t.m_rotation.r2.x, 0,
   t.m_rotation.r0.y, t.m_rotation.r1.y, t.m_rotation.r2.y, 0,
   t.m_rotation.r0.z, t.m_rotation.r1.z, t.m_rotation.r2.z, 0,
   t.m_translation.x, t.m_translation.y, t.m_translation.z, 1]

/-- The loop `local2global[index++] = mat[k]` over the numbers of `mat`; a write
behind the end of the array is outside the model (`none`). -/
def SkeletonMesh.writeMatrix : List K → Nat → List K → Option (List K)
  | [], _, local2global => some local2global
  | x :: mat, index, local2global =>
    if index < local2global.length then
      SkeletonMesh.writeMatrix mat (index + 1) (local2global.set index x)
    else none

/-- The loop of `SkeletonMesh::updateSkin` over the joints, `GetJointByID(j)` being
the joint at position `j`: the global transform of the joint is pushed onto
`myAnimPose_Local2Global` and written to `local2global` from `index` on. -/
def SkeletonMesh.updateJoints :
    List (Joint K) → Nat → SkeletonMesh K → Option (SkeletonMesh K)
  | [], _, mesh => some mesh
  | joint :: rest, index, mesh =>
    let jlocal2global := joint.m_global
    let mesh1 := { mesh with
      myAnimPose_Local2Global := mesh.myAnimPose_Local2Global ++ [jlocal2global] }
    match SkeletonMesh.writeMatrix (ToGLMatrix jlocal2global) index mesh1.local2global with
    | none => none
    | some a =>
      SkeletonMesh.updateJoints rest (index + 16) { mesh1 with local2global := a }

/-- The function `SkeletonMesh::updateSkin`. -/
def SkeletonMesh.updateSkin (mesh : SkeletonMesh K) (skeleton : Skeleton K) :
    Option (SkeletonMesh K) :=
  SkeletonMesh.updateJoints skeleton.m_joints 0 { mesh with myAnimPose_Local2Global := [] }

end Skin

/-! ## Skeleton.cpp: the dimensions of a skeleton -/

section Dimensions

variable {K : Type} [LinearOrderedCommRing K]

/-- The loop of `Skeleton::GetDimensions` over the joints: `min` and `max` take the
global translation of each joint in, coordinate by coordinate. -/
def Skeleton.dimensionsLoop : List (Joint K) → vec3 K → vec3 K → vec3 K × vec3 K
  | [], min1, max1 => (min1, max1)
  | joint :: rest, min1, max1 =>
    let pos := joint.m_global.m_translation
    Skeleton.dimensionsLoop rest
      ⟨min min1.x pos.x, min min1.y pos.y, min min1.z pos.z⟩
      ⟨max max1.x pos.x, max max1.y pos.y, max max1.z pos.z⟩

/-- The function `Skeleton::GetDimensions`: the value it returns, and the skeleton
as `UpdateFK(m_pRoot)` leaves it. -/
def Skeleton.GetDimensions (sk : Skeleton K) : Option (vec3 K × Skeleton K) :=
  match sk.UpdateFK sk.m_pRoot with
  | none => none
  | some sk1 =>
    let min1 : vec3 K := ⟨9999999999, 9999999999, 9999999999⟩
    let max1 : vec3 K := ⟨-9999999999, -9999999999, -9999999999⟩
    let b := Skeleton.dimensionsLoop sk1.m_joints min1 max1
    let dim := b.2 - b.1
    some (dim, sk1)

/-- The number `d` is the largest minus the smallest of the numbers `xs`. -/
def IsExtent (xs : List K) (d : K) : Prop :=
  ∃ a ∈ xs, ∃ b ∈ xs, (∀ x ∈ xs, a ≤ x ∧ x ≤ b) ∧ d = b - a

end Dimensions

/-! ## Motion.cpp: the prologue of an AMC file

`Motion::LoadAMCFile` reads the lines in front of the frames with `getline` and takes
the first word of each with `sscanf(buffer, "%s", keyword)`.  The embedding has each
line as its first word, `none` for a line without a word, which leaves `keyword` as it
is.  Lines are taken to fit the buffers. -/

section AmcPrologue

variable {K : Type} [CommRing K]

/-- A call `pSkeleton.GetRootJoint()->f()`; a null root pointer is outside the model
(`none`). -/
def Skeleton.atRoot (sk : Skeleton K) (f : Joint K → Joint K) : Option (Skeleton K) :=
  match sk.m_pRoot with
  | none => none
  | some r =>
    match sk.m_joints[r]? with
    | none => none
    | some root => some { sk with m_joints := sk.m_joints.set r (f root) }

/-- The block of `:FOOT_3DOF`: the joints `lfoot` and `rfoot` are looked up, and each
that exists gets all three degrees of freedom. -/
def Skeleton.setFootDOFs (sk : Skeleton K) : Skeleton K :=
  let lfoot := Skeleton.GetJointByName sk.m_joints "lfoot"
  let rfoot := Skeleton.GetJointByName sk.m_joints "rfoot"
  let js :=
    match lfoot with
    | some k => Joint.at sk.m_joints k (fun j => j.SetDOFs (DOF_X ||| DOF_Y ||| DOF_Z))
    | none => sk.m_joints
  let js :=
    match rfoot with
    | some k => Joint.at js k (fun j => j.SetDOFs (DOF_X ||| DOF_Y ||| DOF_Z))
    | none => js
  { sk with m_joints := js }

/-- The loop `while(strcmp(keyword, ":DEGREES") != 0)` of `Motion::LoadAMCFile` over
the lines that are left.  At the end of the input `getline` stores an empty line,
`keyword` stays as it is, and the loop does not end (`none`). -/
def Motion.prologueLoop :
    List (Option String) → Skeleton K → String →
      Option (Skeleton K × List (Option String))
  | [], sk, keyword => if keyword = ":DEGREES" then some (sk, []) else none
  | line :: rest, sk, keyword =>
    if keyword = ":DEGREES" then some (sk, line :: rest)
    else
      let keyword := line.getD keyword
      let sk1 :=
        if keyword = ":ROOT_YXZ" then sk.atRoot (fun j => j.SetRotationOrder "yxz")
        else some sk
      match sk1 with
      | none => none
      | some sk1 =>
        let sk2 :=
          if keyword = ":ROOT_YZX" then sk1.atRoot (fun j => j.SetRotationOrder "yzx")
          else some sk1
        match sk2 with
        | none => none
        | some sk2 =>
          let sk3 := if keyword = ":FOOT_3DOF" then sk2.setFootDOFs else sk2
          Motion.prologueLoop rest sk3 keyword

/-- The function `Motion::LoadAMCFile` on a file that could be opened, up to the end
of the loop over the prologue: the skeleton, and the lines that are left.  The
array `keyword` has no value when the first line has no word; its use is outside the
model (`none`). -/
def Motion.LoadAMCFile_prologue (pSkeleton : Skeleton K) :
    List (Option String) → Option (Skeleton K × List (Option String))
  | some keyword :: rest => Motion.prologueLoop rest pSkeleton keyword
  | _ => none

/-- The lines that `Motion::SaveAMCFile` writes in front of the frames for a
skeleton with a root, each as its first word. -/
def Motion.SaveAMCFile_prologue (pSkeleton : Skeleton K) : Option (List (Option String)) :=
  match pSkeleton.m_pRoot with
  | none => none
  | some r =>
    match pSkeleton.m_joints[r]? with
    | none => none
    | some root =>
      let order : List (Option String) :=
        if root.m_rotOrder = "xyz" then [some ":ROOT_XYZ"]
        else if root.m_rotOrder = "xzy" then [some ":ROOT_XZY"]
        else if root.m_rotOrder = "yxz" then [some ":ROOT_YXZ"]
        else if root.m_rotOrder = "yzx" then [some ":ROOT_YZX"]
        else if root.m_rotOrder = "zxy" then [some ":ROOT_ZXY"]
        else if root.m_rotOrder = "zyx" then [some ":ROOT_ZYX"]
        else []
      let mask := DOF_X ||| DOF_Y ||| DOF_Z
      let foot : List (Option String) :=
        match Skeleton.GetJointByName pSkeleton.m_joints "lfoot" with
        | none => []
        | some k =>
          match pSkeleton.m_joints[k]? with
          | none => []
          | some foot => if foot.m_dofs = mask then [some ":FOOT_3DOF"] else []
      some ([some "#Unknown"] ++ order ++ foot ++ [some ":FULLY-SPECIFIED", some ":DEGREES"])

/-- The rotation order of the root joint. -/
def Skeleton.rootOrder (sk : Skeleton K) : Option String :=
  match sk.m_pRoot with
  | none => none
  | some r => (sk.m_joints[r]?).map (fun root => root.m_rotOrder)

end AmcPrologue

/-! ## Frame.cpp: the frame of an AMC file

A frame of an AMC file is read with `operator>>` into the array `char name[256]` and
into numbers.  The items are those of a BVH file.  A name is the next word, which
may be a count such as the number of the next frame.  What the array holds after a
read at the end of the input depends on the library, and so does the text of a
number; both are outside the model (`none`).  Names are taken to fit the array. -/

section AmcItems

variable {K : Type} [CommRing K]

/-- The call `inFile >> name` for the array `char name[256]`. -/
def Item.readName : List (Item K) → Option (String × List (Item K))
  | .word s :: inFile => some (s, inFile)
  | .count n :: inFile => some (toString n, inFile)
  | _ => none

/-- The call `inFile >> x` for a `float` without a value; at the end of the input it
stays without one (`none`). -/
def Item.readFloat : List (Item K) → Option (K × List (Item K))
  | .number y :: inFile => some (y, inFile)
  | _ => none

/-- The statement `if (dofs & DOF) inFile >> x;`. -/
def Item.readDOF (dofs DOF : Nat) (x : K) (inFile : List (Item K)) :
    Option (K × List (Item K)) :=
  if dofs &&& DOF ≠ 0 then Item.readNumber x inFile else some (x, inFile)

end AmcItems

section AmcFrame

variable {K : Type} [LinearOrderedField K] [CMath K]

/-- The macro `MOCAP_SCALE` of Frame.cpp. -/
def MOCAP_SCALE : K := 0.05644444

/-- The function `ComputeAMCRot` of Frame.cpp: the three values, in degrees, are the
angles about X, Y and Z; a rotation order that is none of the six leaves the zero
matrix of `mat3 m;`. -/
def ComputeAMCRot (r1 r2 r3 : K) (rotOrder : String) : mat3 K :=
  let rx := r1
  let ry := r2
  let rz := r3
  if rotOrder = "xyz" then mat3.FromEulerAnglesXYZ ((⟨rx, ry, rz⟩ : vec3 K) * (Deg2Rad : K))
  else if rotOrder = "xzy" then mat3.FromEulerAnglesXZY ((⟨rx, ry, rz⟩ : vec3 K) * (Deg2Rad : K))
  else if rotOrder = "yxz" then mat3.FromEulerAnglesYXZ ((⟨rx, ry, rz⟩ : vec3 K) * (Deg2Rad : K))
  else if rotOrder = "yzx" then mat3.FromEulerAnglesYZX ((⟨rx, ry, rz⟩ : vec3 K) * (Deg2Rad : K))
  else if rotOrder = "zxy" then mat3.FromEulerAnglesZXY ((⟨rx, ry, rz⟩ : vec3 K) * (Deg2Rad : K))
  else if rotOrder = "zyx" then mat3.FromEulerAnglesZYX ((⟨rx, ry, rz⟩ : vec3 K) * (Deg2Rad : K))
  else mat3.zero

/-- The three assignments `m_eulerData[id] = euler`, `m_rotationData[id] = rot` and
`m_quaternionData[id] = rot.ToQuaternion()` for the id of a joint; an id outside one of
the vectors is outside the model (`none`). -/
def CachedFrame.setJoint (fr : CachedFrame K) (id : Int) (euler : vec3 K) (rot : mat3 K) :
    Option (CachedFrame K) :=
  if id < 0 then none
  else if id.toNat < fr.m_eulerData.length ∧ id.toNat < fr.m_rotationData.length ∧
      id.toNat < fr.m_quaternionData.length then
    match rot.ToQuaternion with
    | none => none
    | some q =>
      some { fr with
        m_eulerData := fr.m_eulerData.set id.toNat euler
        m_rotationData := fr.m_rotationData.set id.toNat rot
        m_quaternionData := fr.m_quaternionData.set id.toNat q }
  else none

/-- The loop of `Frame::LoadFromAMCFile` over `i`, `n` rounds: a name is read; the
loop ends when no joint has it; otherwise the angles of the joint start as 0, those
whose bit is set in the joint's degrees of freedom are read, and the rotation that
`ComputeAMCRot` builds for the order `zyx` is stored at the id of the joint. -/
def CachedFrame.loadAMCJoints (pSkeleton : Skeleton K) :
    Nat → CachedFrame K → List (Item K) → Option (CachedFrame K × List (Item K))
  | 0, fr, inFile => some (fr, inFile)
  | n + 1, fr, inFile =>
    match Item.readName inFile with
    | none => none
    | some (name, inFile1) =>
      match Skeleton.GetJointByName pSkeleton.m_joints name with
      | none => some (fr, inFile1)
      | some k =>
        match pSkeleton.m_joints[k]? with
        | none => none
        | some joint =>
          match Item.readDOF joint.m_dofs DOF_X 0 inFile1 with
          | none => none
          | some (rx, inFile2) =>
            match Item.readDOF joint.m_dofs DOF_Y 0 inFile2 with
            | none => none
            | some (ry, inFile3) =>
              match Item.readDOF joint.m_dofs DOF_Z 0 inFile3 with
              | none => none
              | some (rz, inFile4) =>
                let rot := ComputeAMCRot rx ry rz "zyx"
                match fr.setJoint joint.m_id ⟨rx, ry, rz⟩ rot with
                | none => none
                | some fr1 => CachedFrame.loadAMCJoints pSkeleton n fr1 inFile4

/-- The function `Frame::LoadFromAMCFile`. -/
def CachedFrame.LoadFromAMCFile (fr : CachedFrame K) (pSkeleton : Skeleton K)
    (inFile : List (Item K)) : Option (CachedFrame K × List (Item K)) :=
  match (identity3D : mat3 K).ToQuaternion with
  | none => none
  | some q =>
    let fr : CachedFrame K := { fr with
      m_eulerData := resize fr.m_eulerData pSkeleton.m_joints.length axisZero
      m_rotationData := resize fr.m_rotationData pSkeleton.m_joints.length identity3D
      m_quaternionData := resize fr.m_quaternionData pSkeleton.m_joints.length q }
    match Item.readName inFile with
    | none => none
    | some (name, inFile1) =>
      match Item.readVec3 fr.m_rootTranslation inFile1 with
      | none => none
      | some (t, inFile2) =>
        let fr : CachedFrame K := { fr with m_rootTranslation := t * (MOCAP_SCALE : K) }
        match Item.readFloat inFile2 with
        | none => none
        | some (rx, inFile3) =>
          match Item.readFloat inFile3 with
          | none => none
          | some (ry, inFile4) =>
            match Item.readFloat inFile4 with
            | none => none
            | some (rz, inFile5) =>
              match Skeleton.GetJointByName pSkeleton.m_joints name with
              | none => some (fr, inFile5)
              | some k =>
                match pSkeleton.m_joints[k]? with
                | none => none
                | some root =>
                  let rot := ComputeAMCRot rx ry rz root.m_rotOrder
                  match fr.setJoint root.m_id ⟨rx, ry, rz⟩ rot with
                  | none => none
                  | some fr1 =>
                    CachedFrame.loadAMCJoints pSkeleton (pSkeleton.m_joints.length - 1)
                      fr1 inFile5

end AmcFrame

/-! ## The frame of an AMC file in the words of the specification -/

section AmcFrameSpec

variable {K : Type} [LinearOrderedField K] [CMath K]

/-- The angles of an entry for a joint with the degrees of freedom `dofs`: the angle
of an axis whose bit is cleared is zero. -/
def maskedAngles (dofs : Nat) (a : vec3 K) : vec3 K :=
  ⟨if dofs &&& DOF_X ≠ 0 then a.x else 0, if dofs &&& DOF_Y ≠ 0 then a.y else 0,
    if dofs &&& DOF_Z ≠ 0 then a.z else 0⟩

/-- The numbers that an entry of a frame has for a joint with the degrees of freedom
`dofs` and the angles `a`: the angles of the axes whose bit is set, in the order X, Y,
Z. -/
def amcValues (dofs : Nat) (a : vec3 K) : List (Item K) :=
  (if dofs &&& DOF_X ≠ 0 then [Item.number a.x] else [])
    ++ (if dofs &&& DOF_Y ≠ 0 then [Item.number a.y] else [])
    ++ (if dofs &&& DOF_Z ≠ 0 then [Item.number a.z] else [])

/-- The degrees of freedom of the joint with the given name, 0 when there is no such
joint. -/
def dofsOf (js : List (Joint K)) (name : String) : Nat :=
  (((Skeleton.GetJointByName js name).bind (fun k => js[k]?)).map (fun j => j.m_dofs)).getD 0

/-- The items of the entries of a frame behind the entry of the root: for each
entry the name and the numbers for the degrees of freedom of the joint with that
name. -/
def amcItems (js : List (Joint K)) : List (String × vec3 K) → List (Item K)
  | [] => []
  | e :: entries => Item.word e.1 :: (amcValues (dofsOf js e.1) e.2 ++ amcItems js entries)

/-- The items of a frame: the name of the root, its translation `t` and its angles
`r`, and the entries. -/
def amcFrameItems (js : List (Joint K)) (rootName : String) (t r : vec3 K)
    (entries : List (String × vec3 K)) : List (Item K) :=
  [Item.word rootName, Item.number t.x, Item.number t.y, Item.number t.z,
    Item.number r.x, Item.number r.y, Item.number r.z] ++ amcItems js entries

/-- The input goes on with a name that no joint has, as with the number of the next
frame. -/
def endsFrame (js : List (Joint K)) (rest : List (Item K)) : Prop :=
  ∃ name rest1, Item.readName rest = some (name, rest1) ∧
    Skeleton.GetJointByName js name = none

end AmcFrameSpec

/-! ## Joint.cpp: detaching a joint -/

section Detach

variable {K : Type} [CommRing K]

/-- The function `Joint::DetachJoints(pParent, pChild)`. -/
def Joint.DetachJoints (js : List (Joint K)) (pParent pChild : Option Nat) :
    Option (List (Joint K)) :=
  match pChild with
  | none => some js
  | some c =>
    match js[c]? with
    | none => none
    | some cj =>
      if cj.m_pParent = pParent then
        let erased : Option (List (Joint K)) :=
          match pParent with
          | none => some js
          | some p =>
            match js[p]? with
            | none => none
            | some pj =>
              (Joint.eraseLoop c pj.m_children).map
                (fun ch => js.set p { pj with m_children := ch })
        match erased with
        | none => none
        | some js1 =>
          match js1[c]? with
          | none => none
          | some cj1 => some (js1.set c { cj1 with m_pParent := none })
      else some js

end Detach

/-! ## The Euler angles of a matrix in the words of the specification -/

section EulerSpec

/-- The angle about the last axis that the name of the order has. -/
def lastAngle {K : Type} : EulerOrder → vec3 K → K
  | .xyz, a => a.z
  | .xzy, a => a.y
  | .yxz, a => a.z
  | .yzx, a => a.x
  | .zxy, a => a.y
  | .zyx, a => a.x

end EulerSpec

/-! ## The deep copy of a skeleton

`Skeleton::operator=` copies every joint of the original with `new Joint(*orig)` and
then wires the copies in a second pass, looking every parent and every child up by
its id in the new joint list.  The model is the assignment from another object; for
`&orig == this` the function returns at once. -/

section SkeletonCopy

variable {K : Type} [CommRing K]

/-- The function `Joint::operator=`, from another object: every field is copied but
the links; the parent is set to 0 and the list of children is cleared. -/
def Joint.assign (orig : Joint K) : Joint K :=
  { m_name := orig.m_name
    m_id := orig.m_id
    m_channelCount := orig.m_channelCount
    m_rotOrder := orig.m_rotOrder
    m_dofs := orig.m_dofs
    m_lowerLimits := orig.m_lowerLimits
    m_upperLimits := orig.m_upperLimits
    m_pParent := none
    m_children := []
    m_local := orig.m_local
    m_global := orig.m_global
    AMC := orig.AMC
    m_translation := orig.m_translation
    m_axisRotation := orig.m_axisRotation }

/-- The lookup `m_joints[p->GetID()]` of `Skeleton::operator=` for a joint pointer `p`
of the original: the position in the new list (as long as the original) that the id of
the joint names; a dangling pointer and an id outside the list have no result. -/
def Skeleton.copyOf (orig : List (Joint K)) (p : Nat) : Option Nat :=
  match orig[p]? with
  | none => none
  | some j => if 0 ≤ j.m_id ∧ j.m_id.toNat < orig.length then some j.m_id.toNat else none

/-- One round of the second loop of `Skeleton::operator=` for the joint `joint` at
position `i` of the original: the copy at position `i` gets the copy of the parent
as parent, or becomes `m_pRoot` when the joint has no parent, and the copies of the
children are appended to its list of children. -/
def Skeleton.copyLinks (orig : List (Joint K)) (i : Nat) (joint : Joint K)
    (js : List (Joint K)) (root : Option Nat) : Option (List (Joint K) × Option Nat) :=
  match js[i]? with
  | none => none
  | some cj =>
    let linked : Option (Joint K × Option Nat) :=
      match joint.m_pParent with
      | some p => (Skeleton.copyOf orig p).map (fun q => ({ cj with m_pParent := some q }, root))
      | none => some ({ cj with m_pParent := none }, some i)
    match linked with
    | none => none
    | some (cj1, root1) =>
      (joint.m_children.mapM (Skeleton.copyOf orig)).map
        (fun ch => (js.set i { cj1 with m_children := cj1.m_children ++ ch }, root1))

/-- The second loop of `Skeleton::operator=` from position `i` on, `rest` being the
joints of the original from there. -/
def Skeleton.copyLoop (orig : List (Joint K)) :
    List (Joint K) → Nat → List (Joint K) → Option Nat → Option (List (Joint K) × Option Nat)
  | [], _, js, root => some (js, root)
  | joint :: rest, i, js, root =>
    match Skeleton.copyLinks orig i joint js root with
    | none => none
    | some (js1, root1) => Skeleton.copyLoop orig rest (i + 1) js1 root1

/-- The function `Skeleton::operator=`, from another object: the joints are cleared,
the root is set to 0, the convention flag is copied, the joints are copied and then
wired.  The scale `mScale` is not assigned. -/
def Skeleton.assign (self orig : Skeleton K) : Option (Skeleton K) :=
  (Skeleton.copyLoop orig.m_joints orig.m_joints 0 (orig.m_joints.map Joint.assign) none).map
    (fun r => { self with m_joints := r.1, m_pRoot := r.2, AMC := orig.AMC })

end SkeletonCopy

/-! ## SkeletonMesh.cxx: `setPose`

The member `mSkeleton`, the bind skeleton, is a parameter of the model and is
returned with the mesh. -/

section SetPose

variable {K : Type} [Field K]

/-- The constant `INCH_2_CM`, 2.5. -/
def INCH_2_CM : K := 5 / 2

/-- The body of the loop of `SkeletonMesh::setPose` for the bind joint `joint`: the
joint of the driving skeleton with the same name is looked up; without one the loop
goes on (`continue`), with one the joint gets the rotation that the frame has for the
id of the driving joint. -/
def SkeletonMesh.poseJoint (frame : Frame K) (skeleton : Skeleton K) (joint : Joint K) :
    Option (Joint K) :=
  match Skeleton.GetJointByName skeleton.m_joints joint.m_name with
  | none => some joint
  | some p =>
    match skeleton.m_joints[p]? with
    | none => none
    | some playerJoint =>
      match frame.GetJointRotation playerJoint.m_id with
      | none => none
      | some rot => some (joint.SetLocalRotation rot)

/-- The loop of `SkeletonMesh::setPose` over the joints of the bind skeleton,
`GetJointByID(i)` being the joint at position `i`. -/
def SkeletonMesh.poseJoints (frame : Frame K) (skeleton : Skeleton K) :
    List (Joint K) → Option (List (Joint K))
  | [] => some []
  | joint :: rest =>
    match SkeletonMesh.poseJoint frame skeleton joint with
    | none => none
    | some joint1 =>
      match SkeletonMesh.poseJoints frame skeleton rest with
      | none => none
      | some rest1 => some (joint1 :: rest1)

/-- The function `SkeletonMesh::setPose(frame, skeleton)`: the root of the bind
skeleton gets the root translation of the frame times `INCH_2_CM`, the joints get
the rotations of the joints of the same name, then `UpdateFK()` and `updateSkin`.  A
bind skeleton without root is a null pointer dereference. -/
def SkeletonMesh.setPose (mesh : SkeletonMesh K) (mSkeleton : Skeleton K) (frame : Frame K)
    (skeleton : Skeleton K) : Option (Skeleton K × SkeletonMesh K) :=
  match mSkeleton.m_pRoot with
  | none => none
  | some r =>
    match mSkeleton.m_joints[r]? with
    | none => none
    | some root =>
      let js1 := mSkeleton.m_joints.set r
        (root.SetLocalTranslation (frame.m_rootTranslation * (INCH_2_CM : K)))
      match SkeletonMesh.poseJoints frame skeleton js1 with
      | none => none
      | some js2 =>
        match Skeleton.UpdateFK { mSkeleton with m_joints := js2 } none with
        | none => none
        | some sk1 => (mesh.updateSkin sk1).map (fun mesh1 => (sk1, mesh1))

end SetPose

/-! ## Skeleton.cpp: reading a bone block of an ASF file

`Skeleton::ReadJointFromASFFile` reads the lines of a block up to the keyword `end`
and then makes the joint.  The conversions of the C library are outside the model: a
line is held as what the function gets from them. -/

/-- A line of the `:bonedata` section as `ReadJointFromASFFile` reads it.  `words`
are the words of the line: `sscanf` with `%s` reads the first one as keyword and, on a
`name` line, the second one as name, and `strtok(buffer, " ")` walks all of them on a
`dof` line.  `floats` are the numbers that `sscanf` converts with `%f` behind the
keyword.  `limit` is the pair of numbers that `strtok` and `atof` read behind the
first `(` of the line, absent when one of the two tokens is missing. -/
structure AsfLine (K : Type) where
  words : List String
  floats : List K
  limit : Option (K × K)

/-- The local variables of `ReadJointFromASFFile` that outlive a line.  `name` and
`length` are uninitialised (`none`) until a line sets them; `id` is written and
never read, `axisAngle` lives within the `axis` branch. -/
structure AsfBlockState (K : Type) where
  name : Option String
  direction : vec3 K
  translation : vec3 K
  length : Option K
  dofs : Nat
  lower : vec3 K
  upper : vec3 K
  axisRotation : mat3 K

section AsfBlocks

variable {K : Type} [LinearOrderedField K] [CMath K]

/-- The local variables at the start of `ReadJointFromASFFile`: `vec3()` is the zero
vector, `dofs = 0`, `lower(0,0,0)`, `upper(0,0,0)`, `axisRotation = identity3D`. -/
def AsfBlockState.init : AsfBlockState K :=
  { name := none, direction := ⟨0, 0, 0⟩, translation := ⟨0, 0, 0⟩, length := none,
    dofs := 0, lower := ⟨0, 0, 0⟩, upper := ⟨0, 0, 0⟩, axisRotation := identity3D }

/-- The `strtok` loop of the `dof` branch over the tokens of the line. -/
def Skeleton.dofTokens : List String → Nat → Nat
  | [], dofs => dofs
  | token :: rest, dofs =>
    let dofs := if token = "rx" then dofs ||| DOF_X else dofs
    let dofs := if token = "ry" then dofs ||| DOF_Y else dofs
    let dofs := if token = "rz" then dofs ||| DOF_Z else dofs
    Skeleton.dofTokens rest dofs

/-- The `limits` branch: for every set DOF, in the order X, Y, Z, the pair of the
line in `buffer` is stored, and the next line is read into `buffer` when a further
DOF is set.  A missing token is `atof(NULL)`.  The result is the limits and the rest
of the file. -/
def Skeleton.readLimits (dofs : Nat) (buffer : AsfLine K) (inFile : List (AsfLine K))
    (lower upper : vec3 K) : Option (vec3 K × vec3 K × List (AsfLine K)) :=
  let afterX : Option (vec3 K × vec3 K × AsfLine K × List (AsfLine K)) :=
    if dofs &&& DOF_X ≠ 0 then
      match buffer.limit with
      | none => none
      | some (lo, hi) =>
        if dofs &&& DOF_Y ≠ 0 ∨ dofs &&& DOF_Z ≠ 0 then
          match inFile with
          | [] => none
          | line :: rest => some ({ lower with x := lo }, { upper with x := hi }, line, rest)
        else some ({ lower with x := lo }, { upper with x := hi }, buffer, inFile)
    else some (lower, upper, buffer, inFile)
  match afterX with
  | none => none
  | some (lower, upper, buffer, inFile) =>
    let afterY : Option (vec3 K × vec3 K × AsfLine K × List (AsfLine K)) :=
      if dofs &&& DOF_Y ≠ 0 then
        match buffer.limit with
        | none => none
        | some (lo, hi) =>
          if dofs &&& DOF_Z ≠ 0 then
            match inFile with
            | [] => none
            | line :: rest => some ({ lower with y := lo }, { upper with y := hi }, line, rest)
          else some ({ lower with y := lo }, { upper with y := hi }, buffer, inFile)
      else some (lower, upper, buffer, inFile)
    match afterY with
    | none => none
    | some (lower, upper, buffer, inFile) =>
      if dofs &&& DOF_Z ≠ 0 then
        match buffer.limit with
        | none => none
        | some (lo, hi) => some ({ lower with z := lo }, { upper with z := hi }, inFile)
      else some (lower, upper, inFile)

/-- The body of the `while` loop of `ReadJointFromASFFile` without the `getline` at
its end: the branch of the keyword.  A `direction` or `axis` line without three
numbers leaves `x`, `y`, `z` uninitialised, and so does a first `length` line without
a number `length`. -/
def Skeleton.readKey (buffer : AsfLine K) (keyword : String) (st : AsfBlockState K)
    (inFile : List (AsfLine K)) : Option (AsfBlockState K × List (AsfLine K)) :=
  if keyword = "id" then some (st, inFile)
  else if keyword = "name" then
    some ({ st with name := (buffer.words[1]?).orElse (fun _ => st.name) }, inFile)
  else if keyword = "direction" then
    match buffer.floats with
    | x :: y :: z :: _ => some ({ st with direction := ⟨x, y, z⟩ }, inFile)
    | _ => none
  else if keyword = "length" then
    match (buffer.floats.head?).orElse (fun _ => st.length) with
    | none => none
    | some length =>
      some ({ st with
        length := some length
        translation := st.direction * length * (MOCAP_SCALE : K) }, inFile)
  else if keyword = "axis" then
    match buffer.floats with
    | x :: y :: z :: _ =>
      some ({ st with
        axisRotation := mat3.FromEulerAnglesZYX ((⟨x, y, z⟩ : vec3 K) * (Deg2Rad : K)) }, inFile)
    | _ => none
  else if keyword = "dof" then
    some ({ st with dofs := Skeleton.dofTokens buffer.words 0 }, inFile)
  else if keyword = "limits" then
    match Skeleton.readLimits st.dofs buffer inFile st.lower st.upper with
    | none => none
    | some (lower, upper, inFile1) => some ({ st with lower := lower, upper := upper }, inFile1)
  else some (st, inFile)

/-- The `while(strcmp(keyword, "end"))` loop of `ReadJointFromASFFile`, with the line
in `buffer` and its keyword.  Every round reads a line, so the number of lines left
bounds the rounds (`fuel`); at the end of the file `getline` leaves the keyword as it
is and the loop does not end.  A blank line leaves the keyword of the line before. -/
def Skeleton.readBlockLoop : Nat → AsfLine K → String → AsfBlockState K → List (AsfLine K) →
    Option (AsfBlockState K × List (AsfLine K))
  | 0, _, _, _, _ => none
  | fuel + 1, buffer, keyword, st, inFile =>
    if keyword = "end" then some (st, inFile)
    else
      match Skeleton.readKey buffer keyword st inFile with
      | none => none
      | some (st1, inFile1) =>
        match inFile1 with
        | [] => none
        | line :: inFile2 =>
          Skeleton.readBlockLoop fuel line (line.words.head?.getD keyword) st1 inFile2

/-- The values of the block as the end of `ReadJointFromASFFile` uses them; without
a `name` line the name is read uninitialised. -/
def AsfBlockState.bone (st : AsfBlockState K) : Option (AsfBone K) :=
  st.name.map (fun name =>
    { name := name, translation := st.translation, axisRotation := st.axisRotation,
      dofs := st.dofs, lower := st.lower, upper := st.upper })

/-- The function `Skeleton::ReadJointFromASFFile(inFile)` on the lines of the file:
the first line is read, the loop runs to the keyword `end`, the joint is made and
pushed.  The result is the skeleton and the rest of the file.  A blank first line
leaves the keyword uninitialised. -/
def Skeleton.ReadJointFromASFLines (sk : Skeleton K) (inFile : List (AsfLine K)) :
    Option (Skeleton K × List (AsfLine K)) :=
  match inFile with
  | [] => none
  | line :: rest =>
    match line.words.head? with
    | none => none
    | some keyword =>
      match Skeleton.readBlockLoop (rest.length + 1) line keyword AsfBlockState.init rest with
      | none => none
      | some (st, rest1) =>
        st.bone.map (fun bone => (Skeleton.ReadJointFromASFFile Deg2Rad sk bone, rest1))

/-- A bone block of an ASF file by its entries: name, direction, length, axis angles
in degrees, the tokens behind `dof` when there is a `dof` line, and the pairs of the
`limits` lines. -/
structure AsfBlock (K : Type) where
  name : String
  direction : vec3 K
  length : K
  axis : vec3 K
  dof : Option (List String)
  limits : List (K × K)

/-- The DOF mask with the bits of X, Y and Z as given. -/
def dofBits (x y z : Bool) : Nat :=
  (if x then DOF_X else 0) ||| (if y then DOF_Y else 0) ||| (if z then DOF_Z else 0)

/-- The DOF mask that the tokens name: the bit of X for `rx`, of Y for `ry`, of Z for
`rz`. -/
def dofMaskOf (tokens : List String) : Nat :=
  (if "rx" ∈ tokens then DOF_X else 0) ||| (if "ry" ∈ tokens then DOF_Y else 0)
    ||| (if "rz" ∈ tokens then DOF_Z else 0)

/-- The number of DOFs that the tokens name. -/
def dofCountOf (tokens : List String) : Nat :=
  (if "rx" ∈ tokens then 1 else 0) + (if "ry" ∈ tokens then 1 else 0)
    + (if "rz" ∈ tokens then 1 else 0)

/-- The lines `ls` are the block `b` with its entries in the order of the format:
`id`, `name`, `direction`, `length`, `axis`, then the `dof` line if the block has
one, then the `limits` lines, one pair per line and one line per named DOF if the
block has any, then `end`. -/
def AsfBlock.ReadAs (b : AsfBlock K) (ls : List (AsfLine K)) : Prop :=
  ∃ (lId lName lDir lLen lAxis lEnd : AsfLine K) (dofLines limLines : List (AsfLine K)),
    ls = [lId, lName, lDir, lLen, lAxis] ++ dofLines ++ limLines ++ [lEnd] ∧
    lId.words.head? = some "id" ∧
    lName.words.head? = some "name" ∧ lName.words[1]? = some b.name ∧
    lDir.words.head? = some "direction" ∧
    lDir.floats = [b.direction.x, b.direction.y, b.direction.z] ∧
    lLen.words.head? = some "length" ∧ lLen.floats = [b.length] ∧
    lAxis.words.head? = some "axis" ∧ lAxis.floats = [b.axis.x, b.axis.y, b.axis.z] ∧
    lEnd.words.head? = some "end" ∧
    dofLines.map (fun l => l.words) = (b.dof.map (fun tokens => "dof" :: tokens)).toList ∧
    limLines.map (fun l => l.limit) = b.limits.map some ∧
    (b.limits = [] ∨
      (b.limits.length = dofCountOf (b.dof.getD []) ∧
        ∃ l0, limLines.head? = some l0 ∧ l0.words.head? = some "limits"))

/-- The state of the block after the `axis` line of a block in the order of the
format. -/
def stateAfterAxis (b : AsfBlock K) : AsfBlockState K :=
  { AsfBlockState.init with
    name := some b.name
    direction := ⟨b.direction.x, b.direction.y, b.direction.z⟩
    length := some b.length
    translation :=
      (⟨b.direction.x, b.direction.y, b.direction.z⟩ : vec3 K) * b.length * (MOCAP_SCALE : K)
    axisRotation :=
      mat3.FromEulerAnglesZYX ((⟨b.axis.x, b.axis.y, b.axis.z⟩ : vec3 K) * (Deg2Rad : K)) }


/-- The bone of the second end-to-end scenario: direction (1,0,0), length 10, axis
(0,0,0), `dof rx ry rz`, no limits. -/
def exBoneBlock : AsfBlock K :=
  { name := "femur", direction := ⟨1, 0, 0⟩, length := 10, axis := ⟨0, 0, 0⟩,
    dof := some ["rx", "ry", "rz"], limits := [] }

/-- The lines of the bone of the second end-to-end scenario. -/
def exBoneLines : List (AsfLine K) :=
  [⟨["id", "1"], [1], none⟩, ⟨["name", "femur"], [], none⟩,
   ⟨["direction", "1", "0", "0"], [1, 0, 0], none⟩, ⟨["length", "10"], [10], none⟩,
   ⟨["axis", "0", "0", "0", "XYZ"], [0, 0, 0], none⟩, ⟨["dof", "rx", "ry", "rz"], [], none⟩,
   ⟨["end"], [], none⟩]

/-- A skeleton without joints that is marked AMC, as `LoadASFFile` marks it. -/
def exMarkedAMC : Skeleton K := { m_joints := [], AMC := true, mScale := 1, m_pRoot := none }

end AsfBlocks

/-! ## Transformation.cpp: `mat3::Inverse`

Gauss-Jordan elimination with partial pivoting, with exact arithmetic in an ordered
field.  The macro `ALGEBRA_ERROR` is `assert(false)`; reaching it is `none`. -/

section Inverse

variable {K : Type} [LinearOrderedField K]

/-- The entry `n[j]` of a vector. -/
def vec3.get (v : vec3 K) : Nat → K
  | 0 => v.x
  | 1 => v.y
  | _ => v.z

/-- The row `v[i]` of a matrix. -/
def mat3.row (a : mat3 K) : Nat → vec3 K
  | 0 => a.r0
  | 1 => a.r1
  | _ => a.r2

/-- The matrix after an assignment to the row `v[i]`. -/
def mat3.setRow (a : mat3 K) (i : Nat) (v : vec3 K) : mat3 K :=
  match i with
  | 0 => { a with r0 := v }
  | 1 => { a with r1 := v }
  | _ => { a with r2 := v }

/-- The call `Swap(a.v[i1], a.v[j])`: `tmp(a); a = b; b = tmp`. -/
def mat3.swapRows (a : mat3 K) (i1 j : Nat) : mat3 K :=
  let tmp := a.row i1
  (a.setRow i1 (a.row j)).setRow j tmp

/-- The statement `a.v[j] /= d`: the row is multiplied by `d_inv = 1.0f/d`. -/
def mat3.scaleRow (a : mat3 K) (j : Nat) (d : K) : mat3 K :=
  a.setRow j (a.row j / d)

/-- The statement `a.v[i] -= c * a.v[j]`. -/
def mat3.subRow (a : mat3 K) (i j : Nat) (c : K) : mat3 K :=
  a.setRow i (a.row i - a.row j * c)

/-- The pivot search of `mat3::Inverse` in column `j`: `i1 = j`, and for `i` from
`j + 1` to 2 the row `i` replaces `i1` when `fabs(a.v[i].n[j]) > fabs(a.v[i1].n[j])`. -/
def mat3.pivot (a : mat3 K) (j : Nat) : Nat :=
  (List.range' (j + 1) (2 - j)).foldl
    (fun i1 i => if |(a.row i).get j| > |(a.row i1).get j| then i else i1) j

/-- The body of the elimination loop of `mat3::Inverse` for the row `i`: for
`i != j` the multiple `a.v[i].n[j]` of row `j` is taken from row `i`, first in `b`,
then in `a`. -/
def mat3.eliminate (j : Nat) (ab : mat3 K × mat3 K) (i : Nat) : mat3 K × mat3 K :=
  if i ≠ j then
    let b := ab.2.subRow i j ((ab.1.row i).get j)
    let a := ab.1.subRow i j ((ab.1.row i).get j)
    (a, b)
  else ab

/-- The body of the loop of `mat3::Inverse` over the columns, for the column `j`:
pivot search, swap of the rows `i1` and `j` in `a` and `b`, the test
`a.v[j].n[j]==0.` with `ALGEBRA_ERROR`, scaling of row `j`, and the elimination loop
over the rows 0, 1, 2. -/
def mat3.inverseColumn (ab : mat3 K × mat3 K) (j : Nat) : Option (mat3 K × mat3 K) :=
  let i1 := ab.1.pivot j
  let a := ab.1.swapRows i1 j
  let b := ab.2.swapRows i1 j
  if (a.row j).get j = 0 then none
  else
    let d := (a.row j).get j
    let b := b.scaleRow j d
    let a := a.scaleRow j d
    some ([0, 1, 2].foldl (mat3.eliminate j) (a, b))

/-- The function `mat3::Inverse`: `a` starts as the matrix, `b` as the identity, the
columns 0, 1, 2 are worked off, and `b` is returned. -/
def mat3.Inverse (m : mat3 K) : Option (mat3 K) :=
  match mat3.inverseColumn (m, identity3D) 0 with
  | none => none
  | some ab1 =>
    match mat3.inverseColumn ab1 1 with
    | none => none
    | some ab2 =>
      match mat3.inverseColumn ab2 2 with
      | none => none
      | some ab3 => some ab3.2

/-- The columns of `a` before column `j` are the columns of the identity. -/
def mat3.UnitCols (a : mat3 K) : Nat → Prop
  | 0 => True
  | 1 => a.r0.x = 1 ∧ a.r1.x = 0 ∧ a.r2.x = 0
  | 2 => (a.r0.x = 1 ∧ a.r1.x = 0 ∧ a.r2.x = 0) ∧ a.r0.y = 0 ∧ a.r1.y = 1 ∧ a.r2.y = 0
  | _ => a = identity3D

/-- The state of `mat3::Inverse` on the matrix `m` before column `j`: `b * m = a`,
the determinant of `a` is a non-zero multiple of that of `m`, and the columns of `a`
before `j` are those of the identity. -/
def mat3.InverseState (m : mat3 K) (j : Nat) (ab : mat3 K × mat3 K) : Prop :=
  ab.2 * m = ab.1 ∧ (∃ k : K, k ≠ 0 ∧ ab.1.det = k * m.det) ∧ ab.1.UnitCols j

end Inverse

/-! ## Example data -/

section Examples

variable {K : Type} [CommRing K]

/-- A BVH joint with the given name, id, channel count, parent, children and local
transform; everything else as the constructor `Joint::Joint()` leaves it, with the
joint limits zero. -/
def exJoint (name : String) (id : Int) (channels : Nat) (parent : Option Nat)
    (children : List Nat) (loc : Transform K) : Joint K :=
  { m_name := name, m_id := id, m_channelCount := channels, m_rotOrder := "zxy",
    m_dofs := DOF_X ||| DOF_Y ||| DOF_Z, m_lowerLimits := axisZero,
    m_upperLimits := axisZero, m_pParent := parent, m_children := children,
    m_local := loc, m_global := identityTransform, AMC := false,
    m_translation := loc.m_translation, m_axisRotation := identity3D }

/-- An ASF bone as `Skeleton::ReadJointFromASFFile` builds it and the hierarchy
section attaches it: axis rotation `A`, bone translation `b`, AMC convention. -/
def exBone (name : String) (id : Int) (parent : Option Nat) (children : List Nat)
    (A : mat3 K) (b : vec3 K) : Joint K :=
  { m_name := name, m_id := id, m_channelCount := 3, m_rotOrder := "zyx",
    m_dofs := DOF_X ||| DOF_Y ||| DOF_Z, m_lowerLimits := axisZero,
    m_upperLimits := axisZero, m_pParent := parent, m_children := children,
    m_local := ⟨b, identity3D⟩, m_global := identityTransform, AMC := true,
    m_translation := b, m_axisRotation := A }

/-- The root joint as `Skeleton::LoadASFFile` builds it, at the position `t` that
an earlier `ReadFromFrame` gave it. -/
def exAmcRoot (children : List Nat) (t : vec3 K) : Joint K :=
  { m_name := "root", m_id := 0, m_channelCount := 6, m_rotOrder := "zyx",
    m_dofs := DOF_X ||| DOF_Y ||| DOF_Z, m_lowerLimits := axisZero,
    m_upperLimits := axisZero, m_pParent := none, m_children := children,
    m_local := ⟨t, identity3D⟩, m_global := identityTransform, AMC := true,
    m_translation := t, m_axisRotation := identity3D }

/-- The rotation by +90 degrees about the Y axis. -/
def rotY90 : mat3 K := ⟨⟨0, 0, 1⟩, ⟨0, 1, 0⟩, ⟨-1, 0, 0⟩⟩

/-- The rotation by +90 degrees about the Z axis. -/
def rotZ90 : mat3 K := ⟨⟨0, -1, 0⟩, ⟨1, 0, 0⟩, ⟨0, 0, 1⟩⟩

/-- The rotation by +90 degrees about the X axis. -/
def rotX90 : mat3 K := ⟨⟨1, 0, 0⟩, ⟨0, 0, -1⟩, ⟨0, 1, 0⟩⟩

/-- The two-joint BVH skeleton of the first end-to-end scenario: a root at
(1,2,3) and a child `hip` with offset (0,10,0) turned by 90 degrees about Y. -/
def exTwoJoints : Skeleton K :=
  { m_joints :=
      [exJoint "root" 0 6 none [1] ⟨⟨1, 2, 3⟩, identity3D⟩,
       exJoint "hip" 1 3 (some 0) [] ⟨⟨0, 10, 0⟩, rotY90⟩],
    AMC := false, mScale := 1, m_pRoot := some 0 }

/-- The frame of the first scenario: root translation (1,2,3), the root not
turned, the hip turned by 90 degrees about Y. -/
def exFrame : Frame K :=
  { m_rootTranslation := ⟨1, 2, 3⟩, m_rotationData := [identity3D, rotY90] }

/-- A skeleton as `Skeleton::LoadASFFile` builds it from a file with one bone,
whose axis is the quarter turn about Z, and an empty hierarchy section: the bone is
attached to nothing. -/
def exLooseBone : Skeleton K :=
  { m_joints :=
      [exAmcRoot [] ⟨0, 0, 0⟩,
       exBone "bone" 1 none [] rotZ90 ⟨0, 2, 0⟩],
    AMC := true, mScale := 1, m_pRoot := some 0 }

/-- A frame for `exLooseBone`: the bone turned by the quarter turn about X. -/
def exLooseFrame : Frame K :=
  { m_rootTranslation := ⟨0, 0, 0⟩, m_rotationData := [identity3D, rotX90] }

/-- An ASF skeleton: the root, a bone `femur` under it with the quarter turn about X
as axis and bone translation (0,2,0), and a bone `tibia` under the femur with the
quarter turn about Z as axis and bone translation (3,0,0). -/
def exLeg : Skeleton K :=
  { m_joints :=
      [exAmcRoot [1] ⟨0, 0, 0⟩,
       exBone "femur" 1 (some 0) [2] rotX90 ⟨0, 2, 0⟩,
       exBone "tibia" 2 (some 1) [] rotZ90 ⟨3, 0, 0⟩],
    AMC := true, mScale := 1, m_pRoot := some 0 }

/-- A frame for `exLeg`: the root at (1,0,0) turned about Z, the femur turned about
Y, the tibia turned about X. -/
def exLegFrame : Frame K :=
  { m_rootTranslation := ⟨1, 0, 0⟩, m_rotationData := [rotZ90, rotY90, rotX90] }

/-- The player holding `exLeg` and a motion of the single frame `exLegFrame`. -/
def exLegPlayer : Player K :=
  { m_skeleton := exLeg,
    m_motion := { m_keyFrames := [exLegFrame], m_currentFrame := 0, m_name := "leg",
                  m_fps := 120 } }

/-- An ASF skeleton without bones, as `LoadASFFile` builds it from a file whose
`:bonedata` section is empty. -/
def exRootOnlyLoaded : Skeleton K :=
  { m_joints := [exAmcRoot [] ⟨0, 0, 0⟩], AMC := true, mScale := 1, m_pRoot := some 0 }

/-- A frame for the skeleton without bones: the root at (1,0,0), turned by 90
degrees about Z. -/
def exRootOnlyFrame : Frame K :=
  { m_rootTranslation := ⟨1, 0, 0⟩, m_rotationData := [rotZ90] }

/-- The skeleton without bones once it has read `exRootOnlyFrame`, as
`Player::LoadAMCFile` leaves it: `SetLocalTranslation` has written (1,0,0) into the
local translation and into `m_translation` of the root. -/
def exRootOnly : Skeleton K :=
  { m_joints :=
      [{ (exAmcRoot [] ⟨1, 0, 0⟩ : Joint K) with
          m_local := ⟨⟨1, 0, 0⟩, rotZ90⟩, m_global := ⟨⟨1, 0, 0⟩, rotZ90⟩ }],
    AMC := true, mScale := 1, m_pRoot := some 0 }

/-- The player holding `exRootOnly` and a motion of the single frame
`exRootOnlyFrame`. -/
def exRootOnlyPlayer : Player K :=
  { m_skeleton := exRootOnly,
    m_motion :=
      { m_keyFrames := [exRootOnlyFrame], m_currentFrame := 0, m_name := "root",
        m_fps := 120 } }

/-- An ASF skeleton with two bones under the root: `lfemur` with id 1 and `rfemur`
with id 2. -/
def exFork : Skeleton K :=
  { m_joints :=
      [exAmcRoot [1, 2] ⟨0, 0, 0⟩,
       exBone "lfemur" 1 (some 0) [] identity3D ⟨2, 0, 0⟩,
       exBone "rfemur" 2 (some 0) [] identity3D ⟨-2, 0, 0⟩],
    AMC := true, mScale := 1, m_pRoot := some 0 }

/-- The player holding `exFork` and a motion of one frame. -/
def exForkPlayer : Player K :=
  { m_skeleton := exFork,
    m_motion :=
      { m_keyFrames :=
          [{ m_rootTranslation := ⟨0, 0, 0⟩,
             m_rotationData := [identity3D, rotX90, rotY90] }],
        m_currentFrame := 0, m_name := "fork", m_fps := 120 } }

/-- A BVH file with a root `hip`, a joint `knee` below it that ends in an `End Site`,
and one frame that puts the root at (1,2,3) and turns no joint. -/
def exBvhFile : BvhFile K :=
  { rootName := "hip"
    rootOffset := ⟨0, 0, 0⟩
    rootChannels := 6
    rootOrder := " Xposition Yposition Zposition Zrotation Xrotation Yrotation"
    blocks :=
      .joint "knee" ⟨0, -1, 0⟩ 3 " Zrotation Xrotation Yrotation"
        (.endSite "Site" ⟨0, -1, 0⟩ .done) .done
    frameTime := " Time: 0.04"
    frames := [[1, 2, 3, 0, 0, 0, 0, 0, 0]] }

/-- An empty skeleton. -/
def exNoSkeleton : Skeleton K := { m_joints := [], AMC := false, mScale := 1, m_pRoot := none }

/-- An empty motion. -/
def exNoMotion : Motion K := { m_keyFrames := [], m_currentFrame := 0, m_name := "", m_fps := 0 }

/-- A frame with one joint: the root at `t`, not turned. -/
def exRootFrame (t : vec3 K) : Frame K := { m_rootTranslation := t, m_rotationData := [identity3D] }

/-- A motion of two frames with one joint: the root at the origin, then at (1,0,0). -/
def exTwoFrames : Motion K :=
  { m_keyFrames := [exRootFrame ⟨0, 0, 0⟩, exRootFrame ⟨1, 0, 0⟩],
    m_currentFrame := 0, m_name := "two", m_fps := 30 }

/-- A motion of three frames with one joint: the root at (0,0,0), (1,0,0), (2,0,0). -/
def exThreeFrames : Motion K :=
  { m_keyFrames := [exRootFrame ⟨0, 0, 0⟩, exRootFrame ⟨1, 0, 0⟩, exRootFrame ⟨2, 0, 0⟩],
    m_currentFrame := 0, m_name := "three", m_fps := 30 }

/-- A skeleton whose joints have the given names, none attached to another. -/
def exNamedJoints (names : List String) : Skeleton K :=
  { m_joints := names.enum.map (fun p =>
      exJoint p.2 (p.1 : Int) 3 none [] identityTransform),
    AMC := false, mScale := 1, m_pRoot := none }

/-- The column of the joint with the name `j0`, `j1`, ..., `j4`. -/
def exColumns (name : String) : Option Nat :=
  if name = "j0" then some 0 else if name = "j1" then some 1 else if name = "j2" then some 2
  else if name = "j3" then some 3 else if name = "j4" then some 4 else none

/-- The items of a BVH file that ends after the `End Site` block of the root: the
closing brace of the root and the MOTION part are missing. -/
def exTruncated : List (Item K) :=
  [.word "HIERARCHY", .word "ROOT", .line "hip", .word "\x7b",
   .word "OFFSET", .number 0, .number 0, .number 0,
   .word "CHANNELS", .count 6,
   .line " Xposition Yposition Zposition Zrotation Xrotation Yrotation",
   .word "End", .line "Site", .word "\x7b",
   .word "OFFSET", .number 0, .number 1, .number 0, .word "\x7d"]

/-- A player that has loaded the two-joint skeleton and the motion of two frames. -/
def exLoadedPlayer : Player K := { m_skeleton := exTwoJoints, m_motion := exTwoFrames }

/-- An ASF file with the bone `femur` under the root. -/
def exAsfFile : AsfFile K :=
  { bones := [⟨"femur", ⟨0, 2, 0⟩, rotX90, DOF_X, ⟨-1, 0, 0⟩, ⟨1, 0, 0⟩⟩]
    hierarchy := [("root", ["femur"])] }

/-- An ASF file with one bone whose hierarchy section names `root` as the child of
the bone. -/
def exAsfRootChild : AsfFile K :=
  { bones := [⟨"femur", ⟨0, 2, 0⟩, identity3D, DOF_X, ⟨-1, 0, 0⟩, ⟨1, 0, 0⟩⟩]
    hierarchy := [("femur", ["root"])] }

/-- A mesh without vertices whose arrays `global2local` and `local2global` have room
for two joints and hold the number 5 everywhere. -/
def exMesh : SkeletonMesh K :=
  { myVertexJointIndices := [], myVertexWeights := [], quadws := [], quadinds := [],
    triws := [], triinds := [], myBindPose_Global2Local := [identityTransform],
    myAnimPose_Local2Global := [identityTransform],
    global2local := List.replicate 32 5, local2global := List.replicate 32 5 }

/-- A BVH skeleton of one joint, the root, at (20000000000, 0, 0). -/
def exFarRoot : Skeleton K :=
  { m_joints := [exJoint "root" 0 6 none [] ⟨⟨20000000000, 0, 0⟩, identity3D⟩],
    AMC := false, mScale := 1, m_pRoot := some 0 }

/-- An ASF skeleton without bones whose root has the rotation order `order`. -/
def exRootWithOrder (order : String) : Skeleton K :=
  { m_joints := [{ (exAmcRoot [] ⟨0, 0, 0⟩ : Joint K) with m_rotOrder := order }],
    AMC := true, mScale := 1, m_pRoot := some 0 }

/-- An ASF skeleton of the root and a bone `knee` under it that turns about X
only. -/
def exHinge : Skeleton K :=
  { m_joints :=
      [exAmcRoot [1] ⟨0, 0, 0⟩,
       { (exBone "knee" 1 (some 0) [] identity3D ⟨0, 2, 0⟩ : Joint K) with m_dofs := DOF_X }],
    AMC := true, mScale := 1, m_pRoot := some 0 }

/-- An ASF file with one bone whose hierarchy section has the line `root femur`
twice. -/
def exAsfTwice : AsfFile K :=
  { bones := [⟨"femur", ⟨0, 2, 0⟩, identity3D, DOF_X, ⟨-1, 0, 0⟩, ⟨1, 0, 0⟩⟩]
    hierarchy := [("root", ["femur"]), ("root", ["femur"])] }

/-- The player holding the skeleton of the ASF file with one bone, as
`Skeleton::LoadASFFile` builds it, and a motion without frames. -/
def exAsfPlayer (Deg2Rad : K) : Option (Player K) :=
  (Skeleton.LoadASFFile Deg2Rad exNoSkeleton exAsfFile).map
    (fun sk => { m_skeleton := sk, m_motion := exNoMotion })

/-- An ASF file with the bone `femur` that the hierarchy section does not name. -/
def exAsfLoose : AsfFile K :=
  { bones := [⟨"femur", ⟨0, 2, 0⟩, identity3D, DOF_X, ⟨-1, 0, 0⟩, ⟨1, 0, 0⟩⟩]
    hierarchy := [] }

/-- A driving skeleton whose only joint is named `hip` and has the id 0. -/
def exDriver : Skeleton K :=
  { m_joints := [exJoint "hip" 0 6 none [] ⟨⟨0, 0, 0⟩, identity3D⟩],
    AMC := false, mScale := 1, m_pRoot := some 0 }

end Examples

/-! # Theorems -/

set_option linter.unusedSectionVars false

section Lemmas

variable {K : Type} [CommRing K]

/-! ## Matrix algebra -/

theorem mat3.mul_def (a b : mat3 K) : a * b = mat3.mul a b := rfl

theorem mat3.mulVec_def (a : mat3 K) (v : vec3 K) : a * v = mat3.mulVec a v := rfl

theorem vec3.add_def (a b : vec3 K) : a + b = vec3.add a b := rfl

theorem vec3.sub_def (a b : vec3 K) : a - b = vec3.sub a b := rfl

theorem vec3.scale_def (a : vec3 K) (d : K) : a * d = vec3.scale a d := rfl

theorem mat3.mul_assoc (a b c : mat3 K) : a * b * c = a * (b * c) := by
  simp only [mat3.mul_def, mat3.mul]
  ext <;> simp only <;> ring

theorem mat3.one_mul (a : mat3 K) : identity3D * a = a := by
  simp only [mat3.mul_def, mat3.mul, identity3D, axisX, axisY, axisZ]
  ext <;> simp

theorem mat3.mul_one (a : mat3 K) : a * identity3D = a := by
  simp only [mat3.mul_def, mat3.mul, identity3D, axisX, axisY, axisZ]
  ext <;> simp

theorem mat3.mulVec_mulVec (a b : mat3 K) (v : vec3 K) : (a * b) * v = a * (b * v) := by
  simp only [mat3.mul_def, mat3.mul, mat3.mulVec_def, mat3.mulVec]
  ext <;> simp only <;> ring

theorem mat3.transpose_identity : (identity3D : mat3 K).Transpose = identity3D := by
  simp only [mat3.Transpose, identity3D, axisX, axisY, axisZ]

theorem mat3.transpose_mul (a b : mat3 K) :
    (a * b).Transpose = b.Transpose * a.Transpose := by
  simp only [mat3.mul_def, mat3.mul, mat3.Transpose]
  ext <;> simp only <;> ring

theorem mat3.transpose_transpose (a : mat3 K) : a.Transpose.Transpose = a := rfl

/-- Conjugating by an orthogonal `A` and back gives the matrix one started from. -/
theorem mat3.conj_cancel (A R : mat3 K) (h : A.Transpose * A = identity3D) :
    A.Transpose * (A * R * A.Transpose) * A = R := by
  calc A.Transpose * (A * R * A.Transpose) * A
      = (A.Transpose * A) * R * (A.Transpose * A) := by
        simp only [mat3.mul_assoc]
    _ = R := by rw [h, mat3.one_mul, mat3.mul_one]

theorem vec3.add_assoc (a b c : vec3 K) : a + b + c = a + (b + c) := by
  simp only [vec3.add_def, vec3.add]
  ext <;> simp only <;> ring

theorem vec3.add_zero (a : vec3 K) : a + axisZero = a := by
  simp only [vec3.add_def, vec3.add, axisZero]
  ext <;> simp

theorem mat3.mulVec_zero (a : mat3 K) : a * (axisZero : vec3 K) = axisZero := by
  simp only [mat3.mulVec_def, mat3.mulVec, axisZero]
  ext <;> simp

/-! ## Joint lists that differ in the global transforms only -/

theorem SameButGlobal.sbg_refl (js : List (Joint K)) : SameButGlobal js js := rfl

theorem SameButGlobal.sbg_trans {a b c : List (Joint K)}
    (h1 : SameButGlobal a b) (h2 : SameButGlobal b c) : SameButGlobal a c :=
  Eq.trans h1 h2

theorem SameButGlobal.sbg_symm {a b : List (Joint K)}
    (h : SameButGlobal a b) : SameButGlobal b a := Eq.symm h

theorem SameButGlobal.sbg_length {a b : List (Joint K)}
    (h : SameButGlobal a b) : a.length = b.length := by
  have := congrArg List.length h
  simpa using this

theorem SameButGlobal.sbg_get {a b : List (Joint K)} (h : SameButGlobal a b)
    {k : Nat} {j : Joint K} (hk : a[k]? = some j) :
    ∃ j1, b[k]? = some j1 ∧ j1.clearGlobal = j.clearGlobal := by
  have h1 : (a.map Joint.clearGlobal)[k]? = (b.map Joint.clearGlobal)[k]? := by rw [h]
  rw [List.getElem?_map, List.getElem?_map, hk] at h1
  cases hb : b[k]? with
  | none => rw [hb] at h1; simp at h1
  | some j1 =>
    rw [hb] at h1
    simp only [Option.map_some', Option.some.injEq] at h1
    exact ⟨j1, rfl, h1.symm⟩

theorem SameButGlobal.sbg_get_none {a b : List (Joint K)} (h : SameButGlobal a b)
    {k : Nat} (hk : a[k]? = none) : b[k]? = none := by
  rw [List.getElem?_eq_none_iff] at hk ⊢
  rw [← h.sbg_length]; exact hk

theorem clearGlobal_children {j j1 : Joint K} (h : j1.clearGlobal = j.clearGlobal) :
    j1.m_children = j.m_children :=
  show j1.clearGlobal.m_children = j.clearGlobal.m_children from by rw [h]

theorem clearGlobal_parent {j j1 : Joint K} (h : j1.clearGlobal = j.clearGlobal) :
    j1.m_pParent = j.m_pParent :=
  show j1.clearGlobal.m_pParent = j.clearGlobal.m_pParent from by rw [h]

theorem clearGlobal_AMC {j j1 : Joint K} (h : j1.clearGlobal = j.clearGlobal) :
    j1.AMC = j.AMC :=
  show j1.clearGlobal.AMC = j.clearGlobal.AMC from by rw [h]

theorem clearGlobal_id {j j1 : Joint K} (h : j1.clearGlobal = j.clearGlobal) :
    j1.m_id = j.m_id :=
  show j1.clearGlobal.m_id = j.clearGlobal.m_id from by rw [h]

theorem clearGlobal_axis {j j1 : Joint K} (h : j1.clearGlobal = j.clearGlobal) :
    j1.m_axisRotation = j.m_axisRotation :=
  show j1.clearGlobal.m_axisRotation = j.clearGlobal.m_axisRotation from by rw [h]

theorem clearGlobal_bone {j j1 : Joint K} (h : j1.clearGlobal = j.clearGlobal) :
    j1.m_translation = j.m_translation :=
  show j1.clearGlobal.m_translation = j.clearGlobal.m_translation from by rw [h]

theorem clearGlobal_channels {j j1 : Joint K} (h : j1.clearGlobal = j.clearGlobal) :
    j1.m_channelCount = j.m_channelCount :=
  show j1.clearGlobal.m_channelCount = j.clearGlobal.m_channelCount from by rw [h]

theorem clearGlobal_local {j j1 : Joint K} (h : j1.clearGlobal = j.clearGlobal) :
    j1.m_local = j.m_local :=
  show j1.clearGlobal.m_local = j.clearGlobal.m_local from by rw [h]

theorem eq_of_clearGlobal {j j1 : Joint K} (h : j1.clearGlobal = j.clearGlobal) :
    j1 = { j with m_global := j1.m_global } := by
  cases j
  cases j1
  simp only [Joint.clearGlobal, Joint.mk.injEq] at h ⊢
  simp only [h, and_self, true_and]

theorem SameButGlobal.sbg_set {js : List (Joint K)} {i : Nat} {j : Joint K}
    (hi : js[i]? = some j) (g : Transform K) :
    SameButGlobal js (js.set i { j with m_global := g }) := by
  unfold SameButGlobal
  rw [List.map_set]
  apply List.ext_getElem?
  intro k
  by_cases hk : i = k
  · subst hk
    have hlt : i < js.length := by
      rcases List.getElem?_eq_some_iff.mp hi with ⟨h, _⟩; exact h
    rw [List.getElem?_set_self (by simpa using hlt), List.getElem?_map, hi]
    rfl
  · rw [List.getElem?_set_ne hk]

/-! ## One step of forward kinematics -/

theorem updateGlobal_some {js js1 : List (Joint K)} {i : Nat}
    (h : Joint.updateGlobal js i = some js1) :
    ∃ j, js[i]? = some j ∧
      ((j.m_pParent = none ∧ js1 = js.set i { j with m_global := j.m_local }) ∨
       ∃ p pj, j.m_pParent = some p ∧ js[p]? = some pj ∧
         js1 = js.set i { j with m_global := pj.m_global * j.m_local }) := by
  unfold Joint.updateGlobal at h
  cases hi : js[i]? with
  | none => rw [hi] at h; simp at h
  | some j =>
    rw [hi] at h
    refine ⟨j, rfl, ?_⟩
    cases hp : j.m_pParent with
    | none =>
      simp only [hp] at h
      exact Or.inl ⟨rfl, (Option.some.inj h).symm⟩
    | some p =>
      simp only [hp] at h
      cases hpj : js[p]? with
      | none => rw [hpj] at h; simp at h
      | some pj =>
        rw [hpj] at h
        exact Or.inr ⟨p, pj, rfl, hpj, (Option.some.inj h).symm⟩

theorem updateGlobal_root {js : List (Joint K)} {i : Nat} {j : Joint K}
    (hj : js[i]? = some j) (hp : j.m_pParent = none) :
    Joint.updateGlobal js i = some (js.set i { j with m_global := j.m_local }) := by
  unfold Joint.updateGlobal
  rw [hj]
  dsimp only
  rw [hp]

theorem updateGlobal_child {js : List (Joint K)} {i p : Nat} {j pj : Joint K}
    (hj : js[i]? = some j) (hp : j.m_pParent = some p) (hpj : js[p]? = some pj) :
    Joint.updateGlobal js i
      = some (js.set i { j with m_global := pj.m_global * j.m_local }) := by
  unfold Joint.updateGlobal
  rw [hj]
  dsimp only
  rw [hp]
  dsimp only
  rw [hpj]

theorem updateGlobal_sameButGlobal {js js1 : List (Joint K)} {i : Nat}
    (h : Joint.updateGlobal js i = some js1) : SameButGlobal js js1 := by
  rcases updateGlobal_some h with ⟨j, hj, ⟨_, rfl⟩ | ⟨p, pj, _, _, rfl⟩⟩
  · exact SameButGlobal.sbg_set hj _
  · exact SameButGlobal.sbg_set hj _

theorem updateGlobal_other {js js1 : List (Joint K)} {i k : Nat}
    (h : Joint.updateGlobal js i = some js1) (hk : i ≠ k) : js1[k]? = js[k]? := by
  rcases updateGlobal_some h with ⟨j, hj, ⟨_, rfl⟩ | ⟨p, pj, _, _, rfl⟩⟩
  · exact List.getElem?_set_ne hk
  · exact List.getElem?_set_ne hk

theorem foldlM_updateGlobal_sameButGlobal :
    ∀ (l : List Nat) (js js1 : List (Joint K)),
      l.foldlM Joint.updateGlobal js = some js1 → SameButGlobal js js1
  | [], js, js1, h => by
    simp only [List.foldlM_nil] at h
    cases h
    exact SameButGlobal.sbg_refl _
  | k :: l, js, js1, h => by
    rw [List.foldlM_cons] at h
    cases hk : Joint.updateGlobal js k with
    | none => rw [hk] at h; simp at h
    | some js2 =>
      rw [hk] at h
      exact (updateGlobal_sameButGlobal hk).sbg_trans
        (foldlM_updateGlobal_sameButGlobal l js2 js1 h)

/-! ## The depth-first walk -/

theorem SameTree.st_refl (js : List (Joint K)) : SameTree js js := rfl

theorem SameTree.st_trans {a b c : List (Joint K)}
    (h1 : SameTree a b) (h2 : SameTree b c) : SameTree a c :=
  Eq.trans h1 h2

theorem SameTree.st_symm {a b : List (Joint K)} (h : SameTree a b) : SameTree b a := Eq.symm h

theorem SameTree.st_length {a b : List (Joint K)} (h : SameTree a b) :
    a.length = b.length := by
  have := congrArg List.length h
  simpa using this

theorem SameTree.st_get {a b : List (Joint K)} (h : SameTree a b)
    {k : Nat} {j : Joint K} (hk : a[k]? = some j) :
    ∃ j1, b[k]? = some j1 ∧ j1.m_pParent = j.m_pParent ∧ j1.m_children = j.m_children := by
  have h1 : (a.map Joint.links)[k]? = (b.map Joint.links)[k]? := by rw [h]
  rw [List.getElem?_map, List.getElem?_map, hk] at h1
  cases hb : b[k]? with
  | none => rw [hb] at h1; simp at h1
  | some j1 =>
    rw [hb] at h1
    simp only [Option.map_some', Option.some.injEq, Joint.links, Prod.mk.injEq] at h1
    exact ⟨j1, rfl, h1.1.symm, h1.2.symm⟩

theorem SameTree.st_get_none {a b : List (Joint K)} (h : SameTree a b)
    {k : Nat} (hk : a[k]? = none) : b[k]? = none := by
  rw [List.getElem?_eq_none_iff] at hk ⊢
  rw [← h.st_length]; exact hk

theorem SameButGlobal.sameTree {a b : List (Joint K)} (h : SameButGlobal a b) :
    SameTree a b := by
  have h1 := congrArg (List.map Joint.links) h
  simpa [SameTree, List.map_map, Function.comp_def, Joint.links, Joint.clearGlobal] using h1

theorem SameTree.st_parentAt {a b : List (Joint K)} (h : SameTree a b) (k : Nat) :
    parentAt b k = parentAt a k := by
  unfold parentAt
  cases hk : a[k]? with
  | none => rw [h.st_get_none hk]
  | some j =>
    rcases h.st_get hk with ⟨j1, hj1, hp, _⟩
    rw [hj1]
    exact hp

theorem SameTree.st_childrenAt {a b : List (Joint K)} (h : SameTree a b) (k : Nat) :
    childrenAt b k = childrenAt a k := by
  unfold childrenAt
  cases hk : a[k]? with
  | none => rw [h.st_get_none hk]
  | some j =>
    rcases h.st_get hk with ⟨j1, hj1, _, hc⟩
    rw [hj1]
    exact hc

theorem preorder_congr {js js1 : List (Joint K)} (h : SameTree js js1) :
    ∀ (f i : Nat), preorder f js i = preorder f js1 i
  | 0, _ => rfl
  | f + 1, i => by
    have ih : preorder f js = preorder f js1 := funext (preorder_congr h f)
    unfold preorder
    cases hi : js[i]? with
    | none => rw [h.st_get_none hi]
    | some j =>
      rcases h.st_get hi with ⟨j1, hj1, _, hc⟩
      rw [hj1]
      simp only [hc, ih]

/-- A skeleton with the same pointers and the same root is a tree when the other
one is. -/
theorem Skeleton.IsTreeWith.congr {sk sk1 : Skeleton K} {r : Nat} {l : List Nat}
    (h : sk.IsTreeWith r l) (hst : SameTree sk.m_joints sk1.m_joints)
    (hroot : sk1.m_pRoot = sk.m_pRoot) : sk1.IsTreeWith r l := by
  obtain ⟨h1, h2, h3, h4, h5⟩ := h
  refine ⟨hroot.trans h1, ?_, h3, ?_, ?_⟩
  · rw [← hst.st_length, ← preorder_congr hst]
    exact h2
  · rw [hst.st_parentAt]
    exact h4
  · intro p hp c hc
    rw [hst.st_parentAt]
    rw [hst.st_childrenAt] at hc
    exact h5 p hp c hc

theorem mapM_option_cons {α β : Type} (g : α → Option β) (a : α) (l : List α)
    (r : List β) (h : (a :: l).mapM g = some r) :
    ∃ b bs, g a = some b ∧ l.mapM g = some bs ∧ r = b :: bs := by
  rw [List.mapM_cons] at h
  cases hb : g a with
  | none => rw [hb] at h; simp at h
  | some b =>
    cases hbs : l.mapM g with
    | none => rw [hb, hbs] at h; simp at h
    | some bs =>
      rw [hb, hbs] at h
      simp at h
      exact ⟨b, bs, rfl, rfl, h.symm⟩

theorem preorder_succ {f : Nat} {js : List (Joint K)} {i : Nat} {l : List Nat}
    (h : preorder (f + 1) js i = some l) :
    ∃ j ls, js[i]? = some j ∧ j.m_children.mapM (preorder f js) = some ls ∧
      l = i :: ls.flatten := by
  unfold preorder at h
  cases hi : js[i]? with
  | none => rw [hi] at h; simp at h
  | some j =>
    rw [hi] at h
    dsimp only at h
    cases hm : j.m_children.mapM (preorder f js) with
    | none => rw [hm] at h; simp at h
    | some ls =>
      rw [hm] at h
      simp only [Option.map_some', Option.some.injEq] at h
      exact ⟨j, ls, rfl, hm, h.symm⟩

theorem foldlM_children_eq (f : Nat)
    (ih : ∀ (js : List (Joint K)) (i : Nat) (l : List Nat), preorder f js i = some l →
      Joint.UpdateTransformation f js i true = l.foldlM Joint.updateGlobal js) :
    ∀ (cs : List Nat) (ls : List (List Nat)) (s : List (Joint K)),
      cs.mapM (preorder f s) = some ls →
      cs.foldlM (fun s c => Joint.UpdateTransformation f s c true) s
        = ls.flatten.foldlM Joint.updateGlobal s
  | [], ls, s, h => by
    simp only [List.mapM_nil] at h
    cases h
    rfl
  | c :: cs, ls, s, h => by
    rcases mapM_option_cons _ _ _ _ h with ⟨lc, ls1, hc, hcs, rfl⟩
    rw [List.foldlM_cons, List.flatten_cons, List.foldlM_append, ih s c lc hc]
    cases hs1 : lc.foldlM Joint.updateGlobal s with
    | none => rfl
    | some s1 =>
      have hsb := foldlM_updateGlobal_sameButGlobal lc s s1 hs1
      have hcs1 : cs.mapM (preorder f s1) = some ls1 := by
        rw [← hcs]
        congr 1
        exact (funext (preorder_congr hsb.sameTree f)).symm
      exact foldlM_children_eq f ih cs ls1 s1 hcs1

theorem UpdateTransformation_eq_foldlM :
    ∀ (f : Nat) (js : List (Joint K)) (i : Nat) (l : List Nat),
      preorder f js i = some l →
      Joint.UpdateTransformation f js i true = l.foldlM Joint.updateGlobal js
  | 0, _, _, _, h => by simp [preorder] at h
  | f + 1, js, i, l, h => by
    rcases preorder_succ h with ⟨j, ls, hj, hm, rfl⟩
    rw [Joint.UpdateTransformation, List.foldlM_cons]
    cases hu : Joint.updateGlobal js i with
    | none => rfl
    | some js1 =>
      have hsb := updateGlobal_sameButGlobal hu
      have hm1 : j.m_children.mapM (preorder f js1) = some ls := by
        rw [← hm]
        congr 1
        exact (funext (preorder_congr hsb.sameTree f)).symm
      simp only [hj, if_true]
      exact foldlM_children_eq f (UpdateTransformation_eq_foldlM f) _ _ _ hm1

/-! ## Forward kinematics along a list that names parents first -/

theorem fkHolds_congr {s s2 : List (Joint K)} {k : Nat} (hk : s2[k]? = s[k]?)
    (hp : ∀ j p, s[k]? = some j → j.m_pParent = some p → s2[p]? = s[p]?)
    (h : fkHolds s k) : fkHolds s2 k := by
  rcases h with ⟨j, hj, hm⟩
  refine ⟨j, hk.trans hj, ?_⟩
  cases hpar : j.m_pParent with
  | none => simpa [hpar] using hm
  | some p =>
    simp only [hpar] at hm ⊢
    rcases hm with ⟨pj, hpj, hg⟩
    exact ⟨pj, (hp j p hj hpar).trans hpj, hg⟩

theorem foldlM_updateGlobal_fk (js : List (Joint K)) :
    ∀ (l seen : List Nat) (s : List (Joint K)),
      SameButGlobal js s →
      parentsFirst js seen l →
      (∀ k ∈ seen, fkHolds s k) →
      (∀ k ∈ seen, ∀ j, js[k]? = some j → ∀ p, j.m_pParent = some p → p ∈ seen) →
      ∃ s1, l.foldlM Joint.updateGlobal s = some s1 ∧ SameButGlobal js s1 ∧
        (∀ k, k ∉ l → s1[k]? = s[k]?) ∧ (∀ k, k ∈ seen ∨ k ∈ l → fkHolds s1 k)
  | [], seen, s, hsb, _, hfk, _ =>
    ⟨s, rfl, hsb, fun _ _ => rfl, fun k hk => by
      rcases hk with hk | hk
      · exact hfk k hk
      · simp at hk⟩
  | m :: l, seen, s, hsb, hpf, hfk, hseen => by
    obtain ⟨hm, ⟨j0, hj0, hpar0⟩, hrest⟩ := hpf
    rcases hsb.sbg_get hj0 with ⟨jm, hjm, hcg⟩
    have hparEq : jm.m_pParent = j0.m_pParent := clearGlobal_parent hcg
    -- the step at `m` succeeds and establishes the equation at `m`
    have hlt : m < s.length := (List.getElem?_eq_some_iff.mp hjm).1
    have hstep : ∃ s2, Joint.updateGlobal s m = some s2 ∧ fkHolds s2 m := by
      cases hpar : jm.m_pParent with
      | none =>
        refine ⟨_, updateGlobal_root hjm hpar,
          ⟨{ jm with m_global := jm.m_local }, List.getElem?_set_self hlt, ?_⟩⟩
        simp only [hpar]
      | some p =>
        have hp : p ∈ seen := hpar0 p (hparEq ▸ hpar)
        rcases hfk p hp with ⟨pj, hpj, _⟩
        have hne : m ≠ p := fun e => hm (e ▸ hp)
        refine ⟨_, updateGlobal_child hjm hpar hpj,
          ⟨{ jm with m_global := pj.m_global * jm.m_local }, List.getElem?_set_self hlt, ?_⟩⟩
        simp only [hpar]
        exact ⟨pj, (List.getElem?_set_ne hne).trans hpj, rfl⟩
    rcases hstep with ⟨s2, hs2, hfkm⟩
    have hsb2 : SameButGlobal js s2 := hsb.sbg_trans (updateGlobal_sameButGlobal hs2)
    have hfk2 : ∀ k ∈ m :: seen, fkHolds s2 k := by
      intro k hk
      rcases List.mem_cons.mp hk with rfl | hk
      · exact hfkm
      · have hkm : m ≠ k := fun e => hm (e ▸ hk)
        refine fkHolds_congr (updateGlobal_other hs2 hkm) ?_ (hfk k hk)
        intro j p hj hp
        rcases hsb.sbg_symm.sbg_get hj with ⟨j1, hj1, hc1⟩
        have hp1 : j1.m_pParent = some p := (clearGlobal_parent hc1).trans hp
        have hps : p ∈ seen := hseen k hk j1 hj1 p hp1
        have hpm : m ≠ p := fun e => hm (e ▸ hps)
        exact updateGlobal_other hs2 hpm
    have hseen2 : ∀ k ∈ m :: seen, ∀ j, js[k]? = some j → ∀ p, j.m_pParent = some p →
        p ∈ m :: seen := by
      intro k hk j hj p hp
      rcases List.mem_cons.mp hk with rfl | hk
      · rw [hj0] at hj
        cases hj
        exact List.mem_cons_of_mem _ (hpar0 p hp)
      · exact List.mem_cons_of_mem _ (hseen k hk j hj p hp)
    rcases foldlM_updateGlobal_fk js l (m :: seen) s2 hsb2 hrest hfk2 hseen2 with
      ⟨s1, hs1, hsb1, hout, hin⟩
    refine ⟨s1, ?_, hsb1, ?_, ?_⟩
    · rw [List.foldlM_cons, hs2]
      exact hs1
    · intro k hk
      have hkm : m ≠ k := fun e => hk (e ▸ List.mem_cons_self _ _)
      have hkl : k ∉ l := fun e => hk (List.mem_cons_of_mem _ e)
      rw [hout k hkl]
      exact updateGlobal_other hs2 hkm
    · intro k hk
      apply hin
      rcases hk with hk | hk
      · exact Or.inl (List.mem_cons_of_mem _ hk)
      · rcases List.mem_cons.mp hk with rfl | hk
        · exact Or.inl (List.mem_cons_self _ _)
        · exact Or.inr hk

/-! ## The walk of a tree names parents first -/

theorem parentsFirst_append (js : List (Joint K)) :
    ∀ (l1 l2 seen : List Nat),
      parentsFirst js seen l1 → parentsFirst js (l1.reverse ++ seen) l2 →
      parentsFirst js seen (l1 ++ l2)
  | [], _, _, _, h2 => by simpa using h2
  | k :: l1, l2, seen, h1, h2 => by
    obtain ⟨hk, hj, hrest⟩ := h1
    refine ⟨hk, hj, parentsFirst_append js l1 l2 (k :: seen) hrest ?_⟩
    simpa [List.reverse_cons, List.append_assoc] using h2

theorem parentsFirst_children (js : List (Joint K)) (f : Nat)
    (ih : ∀ (i : Nat) (l seen : List Nat), preorder f js i = some l → l.Nodup →
      (∀ k ∈ l, k ∉ seen) →
      (∀ p ∈ l, ∀ pj, js[p]? = some pj → ∀ c ∈ pj.m_children,
        ∃ cj, js[c]? = some cj ∧ cj.m_pParent = some p) →
      (∀ j, js[i]? = some j → ∀ p, j.m_pParent = some p → p ∈ seen) →
      parentsFirst js seen l) :
    ∀ (cs : List Nat) (ls : List (List Nat)) (S : List Nat),
      cs.mapM (preorder f js) = some ls → ls.flatten.Nodup →
      (∀ k ∈ ls.flatten, k ∉ S) →
      (∀ p ∈ ls.flatten, ∀ pj, js[p]? = some pj → ∀ c ∈ pj.m_children,
        ∃ cj, js[c]? = some cj ∧ cj.m_pParent = some p) →
      (∀ c ∈ cs, ∀ j, js[c]? = some j → ∀ p, j.m_pParent = some p → p ∈ S) →
      parentsFirst js S ls.flatten
  | [], ls, S, h, _, _, _, _ => by
    simp only [List.mapM_nil] at h
    cases h
    trivial
  | c :: cs, ls, S, h, hnd, hdis, hback, hpar => by
    rcases mapM_option_cons _ _ _ _ h with ⟨lc, ls1, hc, hcs, rfl⟩
    rw [List.flatten_cons] at hnd hdis hback ⊢
    rw [List.nodup_append] at hnd
    obtain ⟨hnd1, hnd2, hdj⟩ := hnd
    apply parentsFirst_append
    · exact ih c lc S hc hnd1 (fun k hk => hdis k (List.mem_append_left _ hk))
        (fun p hp => hback p (List.mem_append_left _ hp))
        (hpar c (List.mem_cons_self _ _))
    · apply parentsFirst_children js f ih cs ls1 _ hcs hnd2
      · intro k hk hmem
        rcases List.mem_append.mp hmem with hm | hm
        · exact hdj (List.mem_reverse.mp hm) hk
        · exact hdis k (List.mem_append_right _ hk) hm
      · exact fun p hp => hback p (List.mem_append_right _ hp)
      · intro c1 hc1 j hj p hp
        exact List.mem_append_right _ (hpar c1 (List.mem_cons_of_mem _ hc1) j hj p hp)

theorem preorder_parentsFirst (js : List (Joint K)) :
    ∀ (f i : Nat) (l seen : List Nat), preorder f js i = some l → l.Nodup →
      (∀ k ∈ l, k ∉ seen) →
      (∀ p ∈ l, ∀ pj, js[p]? = some pj → ∀ c ∈ pj.m_children,
        ∃ cj, js[c]? = some cj ∧ cj.m_pParent = some p) →
      (∀ j, js[i]? = some j → ∀ p, j.m_pParent = some p → p ∈ seen) →
      parentsFirst js seen l
  | 0, _, _, _, h, _, _, _, _ => by simp [preorder] at h
  | f + 1, i, l, seen, h, hnd, hdis, hback, hpar => by
    rcases preorder_succ h with ⟨j, ls, hj, hm, rfl⟩
    rw [List.nodup_cons] at hnd
    refine ⟨hdis i (List.mem_cons_self _ _), ⟨j, hj, hpar j hj⟩, ?_⟩
    apply parentsFirst_children js f (preorder_parentsFirst js f) _ _ _ hm hnd.2
    · intro k hk hmem
      rcases List.mem_cons.mp hmem with rfl | hmem
      · exact hnd.1 hk
      · exact hdis k (List.mem_cons_of_mem _ hk) hmem
    · exact fun p hp => hback p (List.mem_cons_of_mem _ hp)
    · intro c hc cj hcj p hp
      rcases hback i (List.mem_cons_self _ _) j hj c hc with ⟨cj1, hcj1, hpc⟩
      rw [hcj] at hcj1
      cases hcj1
      rw [hp] at hpc
      cases hpc
      exact List.mem_cons_self _ _

theorem parentAt_eq {js : List (Joint K)} {c : Nat} {j : Joint K} (h : js[c]? = some j) :
    parentAt js c = j.m_pParent := by
  unfold parentAt
  rw [h]

theorem childrenAt_eq {js : List (Joint K)} {c : Nat} {j : Joint K} (h : js[c]? = some j) :
    childrenAt js c = j.m_children := by
  unfold childrenAt
  rw [h]

theorem parentAt_some {js : List (Joint K)} {c p : Nat} (h : parentAt js c = some p) :
    ∃ j, js[c]? = some j ∧ j.m_pParent = some p := by
  unfold parentAt at h
  cases hc : js[c]? with
  | none => rw [hc] at h; cases h
  | some j => rw [hc] at h; exact ⟨j, rfl, h⟩

theorem Skeleton.IsTreeWith.pointBack {sk : Skeleton K} {r : Nat} {l : List Nat}
    (h : sk.IsTreeWith r l) :
    ∀ p ∈ l, ∀ pj, sk.m_joints[p]? = some pj → ∀ c ∈ pj.m_children,
      ∃ cj, sk.m_joints[c]? = some cj ∧ cj.m_pParent = some p := by
  intro p hp pj hpj c hc
  exact parentAt_some (h.2.2.2.2 p hp c (by rw [childrenAt_eq hpj]; exact hc))

theorem Skeleton.IsTreeWith.parents_first {sk : Skeleton K} {r : Nat} {l : List Nat}
    (h : sk.IsTreeWith r l) : parentsFirst sk.m_joints [] l := by
  have hback := h.pointBack
  obtain ⟨_, hpre, hnd, hroot, _⟩ := h
  apply preorder_parentsFirst sk.m_joints _ r l [] hpre hnd (fun _ _ => List.not_mem_nil _)
    hback
  intro j hj p hp
  rw [parentAt_eq hj, hp] at hroot
  cases hroot

/-! ## Every listed joint but the first is a child of a listed joint -/

theorem mapM_flatten_mem {g : Nat → Option (List Nat)} :
    ∀ (cs : List Nat) (ls : List (List Nat)), cs.mapM g = some ls →
      ∀ k ∈ ls.flatten, ∃ c ∈ cs, ∃ lc, g c = some lc ∧ k ∈ lc ∧ ∀ x ∈ lc, x ∈ ls.flatten
  | [], ls, h, k, hk => by
    simp only [List.mapM_nil] at h
    cases h
    simp at hk
  | c :: cs, ls, h, k, hk => by
    rcases mapM_option_cons _ _ _ _ h with ⟨lc, ls1, hc, hcs, rfl⟩
    rw [List.flatten_cons] at hk ⊢
    rcases List.mem_append.mp hk with hk | hk
    · exact ⟨c, List.mem_cons_self _ _, lc, hc, hk, fun x hx => List.mem_append_left _ hx⟩
    · rcases mapM_flatten_mem cs ls1 hcs k hk with ⟨c1, hc1, lc1, hg, hk1, hsub⟩
      exact ⟨c1, List.mem_cons_of_mem _ hc1, lc1, hg, hk1,
        fun x hx => List.mem_append_right _ (hsub x hx)⟩

theorem preorder_mem_child (js : List (Joint K)) :
    ∀ (f i : Nat) (l : List Nat), preorder f js i = some l → ∀ k ∈ l,
      k = i ∨ ∃ p ∈ l, k ∈ childrenAt js p
  | 0, _, _, h, _, _ => by simp [preorder] at h
  | f + 1, i, l, h, k, hk => by
    rcases preorder_succ h with ⟨j, ls, hj, hm, rfl⟩
    rcases List.mem_cons.mp hk with rfl | hk
    · exact Or.inl rfl
    · right
      rcases mapM_flatten_mem _ _ hm k hk with ⟨c, hc, lc, hlc, hkc, hsub⟩
      rcases preorder_mem_child js f c lc hlc k hkc with rfl | ⟨p, hp, hkp⟩
      · exact ⟨i, List.mem_cons_self _ _, by rw [childrenAt_eq hj]; exact hc⟩
      · exact ⟨p, List.mem_cons_of_mem _ (hsub p hp), hkp⟩

theorem preorder_head (js : List (Joint K)) {f i : Nat} {l : List Nat}
    (h : preorder f js i = some l) : i ∈ l := by
  cases f with
  | zero => simp [preorder] at h
  | succ f =>
    rcases preorder_succ h with ⟨_, _, _, _, rfl⟩
    exact List.mem_cons_self _ _

theorem preorder_valid (js : List (Joint K)) :
    ∀ (f i : Nat) (l : List Nat), preorder f js i = some l → ∀ k ∈ l, ∃ j, js[k]? = some j
  | 0, _, _, h, _, _ => by simp [preorder] at h
  | f + 1, i, l, h, k, hk => by
    rcases preorder_succ h with ⟨j, ls, hj, hm, rfl⟩
    rcases List.mem_cons.mp hk with rfl | hk
    · exact ⟨j, hj⟩
    · rcases mapM_flatten_mem _ _ hm k hk with ⟨c, _, lc, hlc, hkc, _⟩
      exact preorder_valid js f c lc hlc k hkc

/-- In a tree every listed joint other than the root has a listed parent. -/
theorem Skeleton.IsTreeWith.parent_mem {sk : Skeleton K} {r : Nat} {l : List Nat}
    (h : sk.IsTreeWith r l) {k : Nat} (hk : k ∈ l) (hkr : k ≠ r) :
    ∃ p ∈ l, parentAt sk.m_joints k = some p := by
  rcases preorder_mem_child sk.m_joints _ r l h.2.1 k hk with e | ⟨p, hp, hkp⟩
  · exact absurd e hkr
  · exact ⟨p, hp, h.2.2.2.2 p hp k hkp⟩

/-! ## Forward kinematics of a tree -/

/-- On a tree, `UpdateTransformation(true)` from the root returns, changes global
transforms only, and leaves the forward-kinematics equation true at every listed
joint. -/
theorem UpdateTransformation_tree {sk : Skeleton K} {r : Nat} {l : List Nat}
    (h : sk.IsTreeWith r l) :
    ∃ js1, Joint.UpdateTransformation sk.m_joints.length sk.m_joints r true = some js1 ∧
      SameButGlobal sk.m_joints js1 ∧ (∀ k, k ∉ l → js1[k]? = sk.m_joints[k]?) ∧
      ∀ k ∈ l, fkHolds js1 k := by
  rw [UpdateTransformation_eq_foldlM _ _ _ _ h.2.1]
  rcases foldlM_updateGlobal_fk sk.m_joints l [] sk.m_joints (SameButGlobal.sbg_refl _)
      h.parents_first (fun _ hk => absurd hk (List.not_mem_nil _))
      (fun _ hk => absurd hk (List.not_mem_nil _)) with ⟨s1, hs1, hsb, hout, hin⟩
  exact ⟨s1, hs1, hsb, hout, fun k hk => hin k (Or.inr hk)⟩

/-! ## `SetLocalRotation`, `SetLocalTranslation` and the loop of `ReadFromFrame` -/

@[simp] theorem SetLocalRotation_links (j : Joint K) (R : mat3 K) :
    (j.SetLocalRotation R).links = j.links := by
  unfold Joint.SetLocalRotation
  split <;> rfl

@[simp] theorem SetLocalRotation_parent (j : Joint K) (R : mat3 K) :
    (j.SetLocalRotation R).m_pParent = j.m_pParent := by
  unfold Joint.SetLocalRotation
  split <;> rfl

@[simp] theorem SetLocalRotation_id (j : Joint K) (R : mat3 K) :
    (j.SetLocalRotation R).m_id = j.m_id := by
  unfold Joint.SetLocalRotation
  split <;> rfl

@[simp] theorem SetLocalRotation_AMC (j : Joint K) (R : mat3 K) :
    (j.SetLocalRotation R).AMC = j.AMC := by
  unfold Joint.SetLocalRotation
  split <;> rfl

@[simp] theorem SetLocalRotation_axis (j : Joint K) (R : mat3 K) :
    (j.SetLocalRotation R).m_axisRotation = j.m_axisRotation := by
  unfold Joint.SetLocalRotation
  split <;> rfl

@[simp] theorem SetLocalRotation_bone (j : Joint K) (R : mat3 K) :
    (j.SetLocalRotation R).m_translation = j.m_translation := by
  unfold Joint.SetLocalRotation
  split <;> rfl

theorem SetLocalRotation_bvh (j : Joint K) (R : mat3 K)
    (h : j.AMC = false ∨ j.m_pParent = none) :
    (j.SetLocalRotation R).m_local = { j.m_local with m_rotation := R } := by
  have hc : (j.AMC && j.m_pParent.isSome) = false := by
    rcases h with h | h
    · simp [h]
    · simp [h]
  simp [Joint.SetLocalRotation, hc]

theorem SetLocalRotation_amc (j : Joint K) (R : mat3 K)
    (hA : j.AMC = true) (hp : j.m_pParent ≠ none) :
    (j.SetLocalRotation R).m_local =
      { m_rotation := j.m_axisRotation * R * j.m_axisRotation.Transpose
        m_translation :=
          (j.m_axisRotation * R * j.m_axisRotation.Transpose) * j.m_translation } := by
  have hs : j.m_pParent.isSome = true := Option.isSome_iff_ne_none.mpr hp
  simp [Joint.SetLocalRotation, hA, hs]

theorem idsAreIndices_get {js : List (Joint K)} (h : idsAreIndices js)
    {k : Nat} {j : Joint K} (hk : js[k]? = some j) : j.m_id = (k : Int) := by
  have hlt : k < js.length := (List.getElem?_eq_some_iff.mp hk).1
  have h1 := congrArg (fun (l : List Int) => l[k]?) h
  simp only [List.getElem?_map, hk, List.getElem?_range hlt] at h1
  simpa using h1

theorem GetJointRotation_nat (f : Frame K) (k : Nat) :
    f.GetJointRotation (k : Int) = f.m_rotationData[k]? := by
  unfold Frame.GetJointRotation
  simp

/-- The loop of `ReadFromFrame` returns when every id has a rotation in the frame,
and then every joint has had `SetLocalRotation` with the rotation of its id. -/
theorem readRotations_spec (f : Frame K) :
    ∀ (js : List (Joint K)),
      (∀ j ∈ js, ∃ rot, f.GetJointRotation j.m_id = some rot) →
      ∃ js2, Skeleton.readRotations f js = some js2 ∧ js2.length = js.length ∧
        ∀ (k : Nat) (j : Joint K), js[k]? = some j →
          ∃ rot, f.GetJointRotation j.m_id = some rot ∧
            js2[k]? = some (j.SetLocalRotation rot)
  | [], _ => ⟨[], rfl, rfl, fun k j h => by simp at h⟩
  | j0 :: js, h => by
    rcases h j0 (List.mem_cons_self _ _) with ⟨rot0, hrot0⟩
    rcases readRotations_spec f js (fun j hj => h j (List.mem_cons_of_mem _ hj)) with
      ⟨js2, hjs2, hlen, hget⟩
    refine ⟨j0.SetLocalRotation rot0 :: js2, ?_, by simp [hlen], ?_⟩
    · simp only [Skeleton.readRotations, hrot0, hjs2]
    · intro k j hk
      cases k with
      | zero =>
        simp only [List.getElem?_cons_zero, Option.some.injEq] at hk
        subst hk
        exact ⟨rot0, hrot0, by simp⟩
      | succ k =>
        simp only [List.getElem?_cons_succ] at hk ⊢
        exact hget k j hk

theorem SameTree.st_of_get {a b : List (Joint K)} (hlen : b.length = a.length)
    (h : ∀ (k : Nat) (j : Joint K), a[k]? = some j →
      ∃ j1, b[k]? = some j1 ∧ j1.links = j.links) :
    SameTree a b := by
  unfold SameTree
  apply List.ext_getElem?
  intro k
  rw [List.getElem?_map, List.getElem?_map]
  cases hk : a[k]? with
  | none =>
    have : b[k]? = none := by
      rw [List.getElem?_eq_none_iff] at hk ⊢
      rw [hlen]; exact hk
    rw [this]
  | some j =>
    rcases h k j hk with ⟨j1, hj1, hl⟩
    rw [hj1]
    simp [hl]

theorem SameTree.st_set {js : List (Joint K)} {i : Nat} {j j1 : Joint K}
    (hi : js[i]? = some j) (hl : j1.links = j.links) : SameTree js (js.set i j1) := by
  apply SameTree.st_of_get (by simp)
  intro k j2 hk
  by_cases hik : i = k
  · subst hik
    have hlt : i < js.length := (List.getElem?_eq_some_iff.mp hi).1
    rw [hi] at hk
    cases hk
    exact ⟨j1, List.getElem?_set_self hlt, hl⟩
  · exact ⟨j2, (List.getElem?_set_ne hik).trans hk, rfl⟩

@[simp] theorem SetLocalTranslation_links (j : Joint K) (t : vec3 K) :
    (j.SetLocalTranslation t).links = j.links := rfl

@[simp] theorem SetLocalTranslation_id (j : Joint K) (t : vec3 K) :
    (j.SetLocalTranslation t).m_id = j.m_id := rfl

@[simp] theorem posedJoint_links (sk : Skeleton K) (f : Frame K) (r k : Nat) (j : Joint K)
    (rot : mat3 K) : (sk.posedJoint f r k j rot).links = j.links := by
  unfold Skeleton.posedJoint
  split <;> simp

@[simp] theorem posedJoint_id (sk : Skeleton K) (f : Frame K) (r k : Nat) (j : Joint K)
    (rot : mat3 K) : (sk.posedJoint f r k j rot).m_id = j.m_id := by
  unfold Skeleton.posedJoint
  split <;> simp

theorem UpdateFK_some (sk : Skeleton K) (r : Nat) :
    sk.UpdateFK (some r)
      = (Joint.UpdateTransformation sk.m_joints.length sk.m_joints r true).map
          (fun js => { sk with m_joints := js }) := rfl

/-- What `Skeleton::ReadFromFrame` does on a tree whose ids are positions, for a
frame with as many rotations as the skeleton has joints: it returns; the joint at
position `k` is the posed joint for the frame's rotation `k`, up to its global
transform; the result is again such a tree; and the forward-kinematics equation
holds at every joint of the tree. -/
theorem ReadFromFrame_spec (sk : Skeleton K) (r : Nat) (l : List Nat) (f : Frame K)
    (ht : sk.IsTreeWith r l) (hid : idsAreIndices sk.m_joints)
    (hn : f.GetNumJoints = sk.m_joints.length) :
    ∃ sk1, sk.ReadFromFrame f = some sk1 ∧
      sk1 = { sk with m_joints := sk1.m_joints } ∧
      sk1.m_joints.length = sk.m_joints.length ∧
      sk1.IsTreeWith r l ∧ idsAreIndices sk1.m_joints ∧
      (∀ (k : Nat) (j : Joint K), sk.m_joints[k]? = some j →
        ∃ rot j1, f.m_rotationData[k]? = some rot ∧ sk1.m_joints[k]? = some j1 ∧
          j1.clearGlobal = (sk.posedJoint f r k j rot).clearGlobal) ∧
      ∀ k ∈ l, fkHolds sk1.m_joints k := by
  obtain ⟨root, hroot⟩ := preorder_valid _ _ _ _ ht.2.1 r (preorder_head _ ht.2.1)
  have hrlt : r < sk.m_joints.length := (List.getElem?_eq_some_iff.mp hroot).1
  -- the list after `SetLocalTranslation` at the root
  obtain ⟨js1, hjs1⟩ : ∃ js1, js1 = sk.m_joints.set r
      (root.SetLocalTranslation (f.m_rootTranslation * sk.mScale)) := ⟨_, rfl⟩
  have hlen1 : js1.length = sk.m_joints.length := by rw [hjs1]; simp
  have hget1 : ∀ (k : Nat) (j : Joint K), sk.m_joints[k]? = some j →
      js1[k]? = some (if k = r then j.SetLocalTranslation (f.m_rootTranslation * sk.mScale)
        else j) := by
    intro k j hk
    by_cases hkr : k = r
    · subst hkr
      rw [hroot] at hk
      cases hk
      rw [hjs1, if_pos rfl]
      exact List.getElem?_set_self hrlt
    · rw [hjs1, if_neg hkr, List.getElem?_set_ne (Ne.symm hkr)]
      exact hk
  have hrot1 : ∀ j ∈ js1, ∃ rot, f.GetJointRotation j.m_id = some rot := by
    intro j hj
    rcases List.getElem?_of_mem hj with ⟨k, hk⟩
    have hklt : k < sk.m_joints.length := by
      rw [← hlen1]; exact (List.getElem?_eq_some_iff.mp hk).1
    obtain ⟨j0, hj0⟩ : ∃ j0, sk.m_joints[k]? = some j0 :=
      ⟨_, List.getElem?_eq_getElem hklt⟩
    have hjid : j.m_id = (k : Int) := by
      rw [hget1 k j0 hj0] at hk
      cases hk
      rw [← idsAreIndices_get hid hj0]
      split <;> simp
    rw [hjid, GetJointRotation_nat]
    have : k < f.m_rotationData.length := by
      unfold Frame.GetNumJoints at hn; rw [hn]; exact hklt
    exact ⟨_, List.getElem?_eq_getElem this⟩
  rcases readRotations_spec f js1 hrot1 with ⟨js2, hjs2, hlen2, hget2⟩
  have hget12 : ∀ (k : Nat) (j : Joint K), sk.m_joints[k]? = some j →
      ∃ rot, f.m_rotationData[k]? = some rot ∧
        js2[k]? = some (sk.posedJoint f r k j rot) := by
    intro k j hk
    rcases hget2 k _ (hget1 k j hk) with ⟨rot, hrot, hk2⟩
    have hjid : (if k = r then j.SetLocalTranslation (f.m_rootTranslation * sk.mScale)
        else j).m_id = (k : Int) := by
      rw [← idsAreIndices_get hid hk]
      split <;> simp
    rw [hjid, GetJointRotation_nat] at hrot
    exact ⟨rot, hrot, hk2⟩
  have hst : SameTree sk.m_joints js2 := by
    apply SameTree.st_of_get (hlen2.trans hlen1)
    intro k j hk
    rcases hget12 k j hk with ⟨rot, _, hk2⟩
    exact ⟨_, hk2, by simp⟩
  have ht2 : Skeleton.IsTreeWith { sk with m_joints := js2 } r l := ht.congr hst rfl
  rcases UpdateTransformation_tree ht2 with ⟨js3, hrun, hsb, _, hfk⟩
  have hget3 : ∀ (k : Nat) (j : Joint K), sk.m_joints[k]? = some j →
      ∃ rot j1, f.m_rotationData[k]? = some rot ∧ js3[k]? = some j1 ∧
        j1.clearGlobal = (sk.posedJoint f r k j rot).clearGlobal := by
    intro k j hk
    rcases hget12 k j hk with ⟨rot, hrot, hk2⟩
    rcases hsb.sbg_get hk2 with ⟨j1, hj1, hc⟩
    exact ⟨rot, j1, hrot, hj1, hc⟩
  refine ⟨{ sk with m_joints := js3 }, ?_, rfl, ?_, ?_, ?_, hget3, hfk⟩
  · unfold Skeleton.ReadFromFrame
    rw [if_neg (by simp [hn]), ht.1]
    simp only [hroot, ← hjs1, hjs2, UpdateFK_some]
    rw [hrun]
    rfl
  · exact (hsb.sbg_length.symm.trans (hlen2.trans hlen1))
  · exact ht2.congr hsb.sameTree rfl
  · unfold idsAreIndices
    have hlen3 : js3.length = sk.m_joints.length :=
      hsb.sbg_length.symm.trans (hlen2.trans hlen1)
    apply List.ext_getElem?
    intro k
    have h0 := congrArg (fun (l : List Int) => l[k]?) hid
    simp only [List.getElem?_map] at h0 ⊢
    rw [hlen3, ← h0]
    cases hk : sk.m_joints[k]? with
    | none =>
      have : js3[k]? = none := by
        rw [List.getElem?_eq_none_iff] at hk ⊢
        rw [hlen3]; exact hk
      rw [this]
    | some j =>
      rcases hget3 k j hk with ⟨rot, j1, _, hj1, he⟩
      rw [hj1]
      simp [clearGlobal_id he]

@[simp] theorem posedJoint_axis (sk : Skeleton K) (f : Frame K) (r k : Nat) (j : Joint K)
    (rot : mat3 K) : (sk.posedJoint f r k j rot).m_axisRotation = j.m_axisRotation := by
  unfold Skeleton.posedJoint
  split <;> simp [Joint.SetLocalTranslation]

@[simp] theorem posedJoint_AMC (sk : Skeleton K) (f : Frame K) (r k : Nat) (j : Joint K)
    (rot : mat3 K) : (sk.posedJoint f r k j rot).AMC = j.AMC := by
  unfold Skeleton.posedJoint
  split <;> simp [Joint.SetLocalTranslation]

@[simp] theorem posedJoint_parent (sk : Skeleton K) (f : Frame K) (r k : Nat) (j : Joint K)
    (rot : mat3 K) : (sk.posedJoint f r k j rot).m_pParent = j.m_pParent := by
  unfold Skeleton.posedJoint
  split <;> simp [Joint.SetLocalTranslation]

theorem posedJoint_rotation (sk : Skeleton K) (f : Frame K) (r k : Nat) (j : Joint K)
    (rot : mat3 K) :
    (sk.posedJoint f r k j rot).m_local.m_rotation
      = if j.AMC && j.m_pParent.isSome then
          j.m_axisRotation * rot * j.m_axisRotation.Transpose
        else rot := by
  unfold Skeleton.posedJoint Joint.SetLocalRotation
  split <;> simp only [Joint.SetLocalTranslation] <;> split <;> rfl

theorem SetJointRotation_nat (f : Frame K) (k : Nat) (R : mat3 K)
    (hk : k < f.m_rotationData.length) :
    f.SetJointRotation (k : Int) R
      = some { f with m_rotationData := f.m_rotationData.set k R } := by
  unfold Frame.SetJointRotation Frame.GetNumJoints
  simp [hk]

end Lemmas

/-! ## C1: forward kinematics -/

section C1

variable {K : Type} [CommRing K]

/-- C1. On a skeleton whose joints form a tree, `Skeleton::UpdateFK` (that is
`UpdateTransformation(true)` on the root) returns, changes nothing but global
transforms, leaves the root with global transform equal to its local transform, and
leaves every other joint of the tree with global rotation = parent's global
rotation times its local rotation and global translation = parent's global
translation + parent's global rotation applied to its local translation. -/
theorem C1_UpdateFK_forward_kinematics (sk : Skeleton K) (r : Nat) (l : List Nat)
    (h : sk.IsTreeWith r l) :
    ∃ sk1, sk.UpdateFK none = some sk1 ∧
      SameButGlobal sk.m_joints sk1.m_joints ∧
      (∃ j, sk1.m_joints[r]? = some j ∧ j.m_global = j.m_local) ∧
      ∀ k ∈ l, k ≠ r → ∃ j p pj, sk1.m_joints[k]? = some j ∧ j.m_pParent = some p ∧
        p ∈ l ∧ sk1.m_joints[p]? = some pj ∧
        j.m_global.m_rotation = pj.m_global.m_rotation * j.m_local.m_rotation ∧
        j.m_global.m_translation
          = pj.m_global.m_translation + pj.m_global.m_rotation * j.m_local.m_translation := by
  rcases UpdateTransformation_tree h with ⟨js1, hrun, hsb, _, hfk⟩
  refine ⟨{ sk with m_joints := js1 }, ?_, hsb, ?_, ?_⟩
  · unfold Skeleton.UpdateFK
    simp only [Option.orElse, h.1, hrun, Option.map_some']
  · rcases hfk r (preorder_head _ h.2.1) with ⟨j, hj, hm⟩
    refine ⟨j, hj, ?_⟩
    have hp : j.m_pParent = none := by
      rcases hsb.sbg_symm.sbg_get hj with ⟨j0, hj0, hc⟩
      rw [← clearGlobal_parent hc, ← parentAt_eq hj0]
      exact h.2.2.2.1
    simpa [hp] using hm
  · intro k hk hkr
    rcases h.parent_mem hk hkr with ⟨p, hp, hpar⟩
    rcases hfk k hk with ⟨j, hj, hm⟩
    have hjp : j.m_pParent = some p := by
      rcases hsb.sbg_symm.sbg_get hj with ⟨j0, hj0, hc⟩
      rw [← clearGlobal_parent hc, ← parentAt_eq hj0]
      exact hpar
    simp only [hjp] at hm
    rcases hm with ⟨pj, hpj, hg⟩
    exact ⟨j, p, pj, hj, hjp, hp, hpj, by rw [hg]; rfl, by rw [hg]; rfl⟩

/-- C1 at the two-joint skeleton of the first scenario. -/
theorem C1_UpdateFK_forward_kinematics_witness :
    (exTwoJoints : Skeleton ℤ).IsTreeWith 0 [0, 1] ∧
    ∃ sk1, (exTwoJoints : Skeleton ℤ).UpdateFK none = some sk1 ∧
      SameButGlobal (exTwoJoints : Skeleton ℤ).m_joints sk1.m_joints ∧
      (∃ j, sk1.m_joints[0]? = some j ∧ j.m_global = j.m_local) ∧
      ∀ k ∈ [0, 1], k ≠ 0 → ∃ j p pj, sk1.m_joints[k]? = some j ∧ j.m_pParent = some p ∧
        p ∈ [0, 1] ∧ sk1.m_joints[p]? = some pj ∧
        j.m_global.m_rotation = pj.m_global.m_rotation * j.m_local.m_rotation ∧
        j.m_global.m_translation
          = pj.m_global.m_translation + pj.m_global.m_rotation * j.m_local.m_translation :=
  ⟨by decide, C1_UpdateFK_forward_kinematics exTwoJoints 0 [0, 1] (by decide)⟩

/-- The first scenario: the root ends at (1,2,3) with the identity rotation, the hip
at (1,12,3) with the rotation by 90 degrees about Y. -/
theorem exTwoJoints_UpdateFK :
    ((exTwoJoints : Skeleton ℤ).UpdateFK none).map (fun sk => sk.m_joints.map (·.m_global))
      = some [⟨⟨1, 2, 3⟩, identity3D⟩, ⟨⟨1, 12, 3⟩, rotY90⟩] := by decide

end C1


/-! ## C2: `Joint::SetLocalRotation` -/

section C2

variable {K : Type} [CommRing K]

/-- C2, as the claim states it, fails at the ASF root: its AMC flag is set, it has
no parent, and `SetLocalRotation` leaves its local translation (1,0,0) alone, where
the claim asks for the rotated bone translation (0,1,0). -/
theorem C2_counterexample :
    ¬ ((exAmcRoot [] ⟨1, 0, 0⟩ : Joint ℤ).AMC = true →
      let j : Joint ℤ := exAmcRoot [] ⟨1, 0, 0⟩
      (j.SetLocalRotation rotZ90).m_local.m_rotation
          = j.m_axisRotation * rotZ90 * j.m_axisRotation.Transpose ∧
        (j.SetLocalRotation rotZ90).m_local.m_translation
          = (j.m_axisRotation * rotZ90 * j.m_axisRotation.Transpose) * j.m_translation) := by
  decide

/-- C2, amended. For a joint whose AMC flag is set and that has a parent, with rest
axis rotation `A` and bone translation `b`, `SetLocalRotation(R)` stores the local
rotation `A·R·Aᵀ` and the local translation `(A·R·Aᵀ)·b`; for a joint whose flag is
clear or that has no parent it stores `R` and leaves the local translation
unchanged.  Nothing but the local transform changes. -/
theorem C2_SetLocalRotation (j : Joint K) (R : mat3 K) :
    (j.AMC = true → j.m_pParent ≠ none →
      (j.SetLocalRotation R).m_local.m_rotation
          = j.m_axisRotation * R * j.m_axisRotation.Transpose ∧
        (j.SetLocalRotation R).m_local.m_translation
          = (j.m_axisRotation * R * j.m_axisRotation.Transpose) * j.m_translation) ∧
    (j.AMC = false ∨ j.m_pParent = none →
      (j.SetLocalRotation R).m_local.m_rotation = R ∧
        (j.SetLocalRotation R).m_local.m_translation = j.m_local.m_translation) ∧
    j.SetLocalRotation R = { j with m_local := (j.SetLocalRotation R).m_local } := by
  refine ⟨?_, ?_, ?_⟩
  · intro hA hp
    have hs : j.m_pParent.isSome = true := Option.isSome_iff_ne_none.mpr hp
    simp [Joint.SetLocalRotation, hA, hs]
  · intro h
    have hc : (j.AMC && j.m_pParent.isSome) = false := by
      rcases h with h | h
      · simp [h]
      · simp [h]
    simp [Joint.SetLocalRotation, hc]
  · unfold Joint.SetLocalRotation
    split <;> rfl

/-- C2 (amended) at an ASF bone with a parent, axis rotation the quarter turn about
X and bone translation (0,2,0), and at the ASF root. -/
theorem C2_SetLocalRotation_witness :
    (((exBone "femur" 1 (some 0) [] rotX90 ⟨0, 2, 0⟩ : Joint ℤ).SetLocalRotation
        rotZ90).m_local.m_rotation = (rotX90 * rotZ90 * rotX90.Transpose : mat3 ℤ) ∧
      ((exBone "femur" 1 (some 0) [] rotX90 ⟨0, 2, 0⟩ : Joint ℤ).SetLocalRotation
        rotZ90).m_local.m_translation
          = (rotX90 * rotZ90 * rotX90.Transpose : mat3 ℤ) * (⟨0, 2, 0⟩ : vec3 ℤ)) ∧
    (((exAmcRoot [] ⟨1, 0, 0⟩ : Joint ℤ).SetLocalRotation rotZ90).m_local.m_rotation
        = rotZ90 ∧
      ((exAmcRoot [] ⟨1, 0, 0⟩ : Joint ℤ).SetLocalRotation rotZ90).m_local.m_translation
        = ⟨1, 0, 0⟩) :=
  ⟨(C2_SetLocalRotation (exBone "femur" 1 (some 0) [] rotX90 ⟨0, 2, 0⟩ : Joint ℤ)
      rotZ90).1 (by decide) (by decide),
   (C2_SetLocalRotation (exAmcRoot [] ⟨1, 0, 0⟩ : Joint ℤ) rotZ90).2.1
      (Or.inr (by decide))⟩

end C2

/-! ## C3: `Skeleton::ReadFromFrame` -/

section C3

variable {K : Type} [CommRing K]

/-- C3. On a skeleton that satisfies the data-model invariants (a tree of all its
joints, ids equal to positions) and a frame with the same joint count,
`ReadFromFrame(f)` returns; afterwards the root's local translation is the frame's
root translation times the scale, every joint `i` under the BVH convention has local
rotation `f.rotation[i]`, and every joint's global transform satisfies the
forward-kinematics equation (local for the root, parent's global composed with the
local otherwise). -/
theorem C3_ReadFromFrame (sk : Skeleton K) (r : Nat) (l : List Nat) (f : Frame K)
    (hwf : sk.WellFormed r l) (hn : f.GetNumJoints = sk.m_joints.length) :
    ∃ sk1, sk.ReadFromFrame f = some sk1 ∧
      (sk1.m_pRoot = some r ∧ ∃ root, sk1.m_joints[r]? = some root ∧
        root.m_pParent = none ∧
        root.m_local.m_translation = f.m_rootTranslation * sk.mScale) ∧
      (∀ (i : Nat) (j : Joint K), sk1.m_joints[i]? = some j → j.AMC = false →
        f.m_rotationData[i]? = some j.m_local.m_rotation) ∧
      ∀ (i : Nat) (j : Joint K), sk1.m_joints[i]? = some j → fkHolds sk1.m_joints i := by
  obtain ⟨ht, hspan, hid⟩ := hwf
  rcases ReadFromFrame_spec sk r l f ht hid hn with
    ⟨sk1, hrun, hsk1, hlen, ht1, _, hget, hfk⟩
  have hback : ∀ (i : Nat) (j1 : Joint K), sk1.m_joints[i]? = some j1 →
      ∃ j rot, sk.m_joints[i]? = some j ∧ f.m_rotationData[i]? = some rot ∧
        j1.clearGlobal = (sk.posedJoint f r i j rot).clearGlobal := by
    intro i j1 hi
    have hilt : i < sk.m_joints.length := by
      rw [← hlen]; exact (List.getElem?_eq_some_iff.mp hi).1
    rcases hget i _ (List.getElem?_eq_getElem hilt) with ⟨rot, j2, hrot, hj2, he⟩
    rw [hi] at hj2
    cases hj2
    exact ⟨_, rot, List.getElem?_eq_getElem hilt, hrot, he⟩
  refine ⟨sk1, hrun, ⟨ht1.1, ?_⟩, ?_, ?_⟩
  · obtain ⟨root1, hroot1⟩ := preorder_valid _ _ _ _ ht1.2.1 r (preorder_head _ ht1.2.1)
    rcases hback r root1 hroot1 with ⟨j, rot, hj, _, he⟩
    have hp : j.m_pParent = none := by rw [← parentAt_eq hj]; exact ht.2.2.2.1
    refine ⟨root1, hroot1, ?_, ?_⟩
    · rw [clearGlobal_parent he]
      simp [Skeleton.posedJoint, hp, Joint.SetLocalTranslation]
    · rw [clearGlobal_local he]
      simp only [Skeleton.posedJoint, if_true]
      rw [SetLocalRotation_bvh _ _ (Or.inr (show
        (j.SetLocalTranslation (f.m_rootTranslation * sk.mScale)).m_pParent = none from hp))]
      rfl
  · intro i j1 hi hA
    rcases hback i j1 hi with ⟨j, rot, hj, hrot, he⟩
    rw [hrot, clearGlobal_local he]
    have hA0 : (if i = r then j.SetLocalTranslation (f.m_rootTranslation * sk.mScale)
        else j).AMC = false := by
      rw [clearGlobal_AMC he] at hA
      simpa [Skeleton.posedJoint] using hA
    simp only [Skeleton.posedJoint]
    rw [SetLocalRotation_bvh _ _ (Or.inl hA0)]
  · intro i j1 hi
    have hilt : i < sk.m_joints.length := by
      rw [← hlen]; exact (List.getElem?_eq_some_iff.mp hi).1
    exact hfk i (hspan i (List.mem_range.mpr hilt))

/-- C3 at the two-joint skeleton and the frame of the first scenario. -/
theorem C3_ReadFromFrame_witness :
    (exTwoJoints : Skeleton ℤ).WellFormed 0 [0, 1] ∧
    (exFrame : Frame ℤ).GetNumJoints = (exTwoJoints : Skeleton ℤ).m_joints.length ∧
    ∃ sk1, (exTwoJoints : Skeleton ℤ).ReadFromFrame exFrame = some sk1 ∧
      (sk1.m_pRoot = some 0 ∧ ∃ root, sk1.m_joints[0]? = some root ∧
        root.m_pParent = none ∧
        root.m_local.m_translation
          = (exFrame : Frame ℤ).m_rootTranslation * (exTwoJoints : Skeleton ℤ).mScale) ∧
      (∀ (i : Nat) (j : Joint ℤ), sk1.m_joints[i]? = some j → j.AMC = false →
        (exFrame : Frame ℤ).m_rotationData[i]? = some j.m_local.m_rotation) ∧
      ∀ (i : Nat) (j : Joint ℤ), sk1.m_joints[i]? = some j → fkHolds sk1.m_joints i :=
  ⟨by decide, by decide,
    C3_ReadFromFrame exTwoJoints 0 [0, 1] exFrame (by decide) (by decide)⟩

/-- The first scenario through `ReadFromFrame`: the hip ends at (1,12,3). -/
theorem exTwoJoints_ReadFromFrame :
    ((exTwoJoints : Skeleton ℤ).ReadFromFrame exFrame).map
        (fun sk => sk.m_joints.map (·.m_global))
      = some [⟨⟨1, 2, 3⟩, identity3D⟩, ⟨⟨1, 12, 3⟩, rotY90⟩] := by decide

end C3

/-! ## C4: `ReadFromFrame` followed by `WriteToFrame` -/

section C4

variable {K : Type} [Field K]

/-- The loop of `WriteToFrame` over joints whose ids count up from `n`: the
rotations below `n` stay, the rotation `n + i` becomes the one of joint `i`. -/
theorem foldlM_SetJointRotation (val : Joint K → mat3 K) :
    ∀ (suf : List (Joint K)) (n : Nat) (f : Frame K),
      (∀ (i : Nat) (j : Joint K), suf[i]? = some j → j.m_id = ((n + i : Nat) : Int)) →
      n + suf.length ≤ f.m_rotationData.length →
      ∃ f1, suf.foldlM (fun f joint => f.SetJointRotation joint.m_id (val joint)) f
          = some f1 ∧
        f1.m_rotationData.length = f.m_rotationData.length ∧
        (∀ k < n, f1.m_rotationData[k]? = f.m_rotationData[k]?) ∧
        ∀ (i : Nat) (j : Joint K), suf[i]? = some j →
          f1.m_rotationData[n + i]? = some (val j)
  | [], n, f, _, _ => ⟨f, rfl, rfl, fun _ _ => rfl, fun i j h => by simp at h⟩
  | j0 :: suf, n, f, hid, hlen => by
    have hn : n < f.m_rotationData.length := by
      simp only [List.length_cons] at hlen; omega
    have hid0 : j0.m_id = (n : Int) := by
      have := hid 0 j0 (by simp)
      simpa using this
    rcases foldlM_SetJointRotation val suf (n + 1)
        { f with m_rotationData := f.m_rotationData.set n (val j0) }
        (fun i j h => by
          have := hid (i + 1) j (by simpa using h)
          rw [this]; congr 1; omega)
        (by simp only [List.length_cons, List.length_set] at hlen ⊢; omega) with
      ⟨f1, hf1, hl1, hlow, hhigh⟩
    refine ⟨f1, ?_, ?_, ?_, ?_⟩
    · rw [List.foldlM_cons, hid0, SetJointRotation_nat f n _ hn]
      exact hf1
    · simpa using hl1
    · intro k hk
      rw [hlow k (by omega)]
      exact List.getElem?_set_ne (by omega)
    · intro i j hi
      cases i with
      | zero =>
        simp only [List.getElem?_cons_zero, Option.some.injEq] at hi
        subst hi
        rw [Nat.add_zero, hlow n (by omega)]
        exact List.getElem?_set_self hn
      | succ i =>
        simp only [List.getElem?_cons_succ] at hi
        have := hhigh i j hi
        rw [show n + (i + 1) = n + 1 + i by omega]
        exact this

/-- On a skeleton whose ids are positions `WriteToFrame` returns, and the rotation it
stores at `i` is the frame rotation of joint `i`. -/
theorem WriteToFrame_spec (sk : Skeleton K) (r : Nat) (root : Joint K) (f0 : Frame K)
    (hr : sk.m_pRoot = some r) (hroot : sk.m_joints[r]? = some root)
    (hid : idsAreIndices sk.m_joints) :
    ∃ f1, sk.WriteToFrame f0 = some f1 ∧
      f1.m_rotationData = sk.m_joints.map (Skeleton.frameRotation sk.AMC) := by
  have hlen0 : ((f0.SetRootTranslation (root.m_local.m_translation / sk.mScale)).SetNumJoints
      sk.m_joints.length).m_rotationData.length = sk.m_joints.length := by
    simp only [Frame.SetNumJoints, Frame.SetRootTranslation, List.length_append,
      List.length_take, List.length_replicate]
    omega
  rcases foldlM_SetJointRotation (Skeleton.frameRotation sk.AMC) sk.m_joints 0
      ((f0.SetRootTranslation (root.m_local.m_translation / sk.mScale)).SetNumJoints
        sk.m_joints.length)
      (fun i j h => by rw [idsAreIndices_get hid h]; simp)
      (by rw [hlen0]; omega) with ⟨f1, hf1, hl1, _, hhigh⟩
  refine ⟨f1, ?_, ?_⟩
  · unfold Skeleton.WriteToFrame
    simp only [hr, hroot]
    exact hf1
  · apply List.ext_getElem?
    intro k
    rw [List.getElem?_map]
    cases hk : sk.m_joints[k]? with
    | none =>
      rw [List.getElem?_eq_none_iff] at hk
      rw [Option.map_none', List.getElem?_eq_none_iff, hl1, hlen0]
      exact hk
    | some j =>
      have := hhigh k j hk
      rw [Nat.zero_add] at this
      rw [this]
      rfl

/-- C4, as the claim states it, fails on the skeleton that `LoadASFFile` builds from
a file with one bone that the hierarchy section attaches to nothing: every axis
rotation is orthogonal, the frame has the skeleton's joint count, `ReadFromFrame`
stores the bone's rotation unchanged because the bone has no parent, and
`WriteToFrame` conjugates it by the bone's axis all the same. -/
theorem C4_counterexample :
    (∀ j ∈ (exLooseBone : Skeleton ℚ).m_joints, j.m_axisRotation.IsOrthogonal) ∧
    (exLooseFrame : Frame ℚ).GetNumJoints = (exLooseBone : Skeleton ℚ).m_joints.length ∧
    ∃ sk1 f1, (exLooseBone : Skeleton ℚ).ReadFromFrame exLooseFrame = some sk1 ∧
      sk1.WriteToFrame exLooseFrame = some f1 ∧
      f1.m_rotationData[1]? ≠ (exLooseFrame : Frame ℚ).m_rotationData[1]? := by
  refine ⟨by decide!, by decide!, ?_⟩
  have h : ((exLooseBone : Skeleton ℚ).ReadFromFrame exLooseFrame).isSome = true := by
    decide!
  obtain ⟨sk1, hsk1⟩ := Option.isSome_iff_exists.mp h
  have h2 : (((exLooseBone : Skeleton ℚ).ReadFromFrame exLooseFrame).bind
      (fun sk => sk.WriteToFrame exLooseFrame)).isSome = true := by decide!
  rw [hsk1, Option.some_bind] at h2
  obtain ⟨f1, hf1⟩ := Option.isSome_iff_exists.mp h2
  refine ⟨sk1, f1, hsk1, hf1, ?_⟩
  have h3 : ((((exLooseBone : Skeleton ℚ).ReadFromFrame exLooseFrame).bind
      (fun sk => sk.WriteToFrame exLooseFrame)).map (fun f => f.m_rotationData[1]?))
      = some (some (rotZ90.Transpose * rotX90 * rotZ90)) := by decide!
  rw [hsk1, Option.some_bind, hf1] at h3
  simp only [Option.map_some', Option.some.injEq] at h3
  rw [h3]
  decide!

/-- C4, amended. On a skeleton whose joints form a tree from the root with ids equal
to positions, whose joints all carry the skeleton's convention flag, whose axis
rotations are orthogonal, and in which every joint without a parent (the root) has
the identity as axis rotation, for every frame `f` with the skeleton's joint count:
`ReadFromFrame(f)` followed by `WriteToFrame(f0)` returns a frame whose rotations are
those of `f`, under either convention. -/
theorem C4_ReadFromFrame_WriteToFrame (sk : Skeleton K) (r : Nat) (l : List Nat)
    (f f0 : Frame K) (ht : sk.IsTreeWith r l) (hid : idsAreIndices sk.m_joints)
    (hn : f.GetNumJoints = sk.m_joints.length)
    (hflag : ∀ j ∈ sk.m_joints, j.AMC = sk.AMC)
    (horth : ∀ j ∈ sk.m_joints, j.m_axisRotation.IsOrthogonal)
    (hroot : ∀ j ∈ sk.m_joints, j.m_pParent = none → j.m_axisRotation = identity3D) :
    ∃ sk1 f1, sk.ReadFromFrame f = some sk1 ∧ sk1.WriteToFrame f0 = some f1 ∧
      f1.m_rotationData = f.m_rotationData := by
  rcases ReadFromFrame_spec sk r l f ht hid hn with
    ⟨sk1, hrun, hsk1, hlen, ht1, hid1, hget, _⟩
  obtain ⟨root1, hroot1⟩ := preorder_valid _ _ _ _ ht1.2.1 r (preorder_head _ ht1.2.1)
  rcases WriteToFrame_spec sk1 r root1 f0 ht1.1 hroot1 hid1 with ⟨f1, hf1, hdata⟩
  have hAMC : sk1.AMC = sk.AMC := by rw [hsk1]
  refine ⟨sk1, f1, hrun, hf1, ?_⟩
  rw [hdata]
  apply List.ext_getElem?
  intro k
  rw [List.getElem?_map]
  cases hk : sk.m_joints[k]? with
  | none =>
    rw [List.getElem?_eq_none_iff] at hk
    have h1 : sk1.m_joints[k]? = none := by
      rw [List.getElem?_eq_none_iff, hlen]; exact hk
    have h2 : f.m_rotationData[k]? = none := by
      unfold Frame.GetNumJoints at hn
      rw [List.getElem?_eq_none_iff, hn]; exact hk
    rw [h1, h2]
    rfl
  | some j =>
    rcases hget k j hk with ⟨rot, j1, hrot, hj1, he⟩
    have hmem : j ∈ sk.m_joints := List.getElem?_mem hk
    rw [hj1, hrot, Option.map_some', hAMC]
    congr 1
    unfold Skeleton.frameRotation
    rw [clearGlobal_local he, clearGlobal_axis he, posedJoint_axis, posedJoint_rotation,
      hflag j hmem]
    cases hA : sk.AMC with
    | false => simp
    | true =>
      simp only [Bool.true_and, if_true]
      cases hp : j.m_pParent with
      | none =>
        simp only [Option.isSome_none, Bool.false_eq_true, if_false]
        rw [hroot j hmem hp, mat3.transpose_identity, mat3.one_mul, mat3.mul_one]
      | some p =>
        simp only [Option.isSome_some, if_true]
        exact mat3.conj_cancel _ _ (horth j hmem).2

/-- C4 (amended) at the ASF skeleton `exLeg` and its frame. -/
theorem C4_ReadFromFrame_WriteToFrame_witness :
    (exLeg : Skeleton ℚ).IsTreeWith 0 [0, 1, 2] ∧
    idsAreIndices (exLeg : Skeleton ℚ).m_joints ∧
    (exLegFrame : Frame ℚ).GetNumJoints = (exLeg : Skeleton ℚ).m_joints.length ∧
    (∀ j ∈ (exLeg : Skeleton ℚ).m_joints, j.AMC = (exLeg : Skeleton ℚ).AMC) ∧
    (∀ j ∈ (exLeg : Skeleton ℚ).m_joints, j.m_axisRotation.IsOrthogonal) ∧
    (∀ j ∈ (exLeg : Skeleton ℚ).m_joints, j.m_pParent = none →
      j.m_axisRotation = identity3D) ∧
    ∃ sk1 f1, (exLeg : Skeleton ℚ).ReadFromFrame exLegFrame = some sk1 ∧
      sk1.WriteToFrame exLooseFrame = some f1 ∧
      f1.m_rotationData = (exLegFrame : Frame ℚ).m_rotationData :=
  ⟨by decide!, by decide!, by decide!, by decide!, by decide!, by decide!,
    C4_ReadFromFrame_WriteToFrame exLeg 0 [0, 1, 2] exLegFrame exLooseFrame
      (by decide!) (by decide!) (by decide!) (by decide!) (by decide!) (by decide!)⟩

end C4

/-! ## Rotations about the coordinate axes -/

section Rotations

/-- `Rotation3DRad` about a coordinate axis is the rotation about that axis: the axis
has length 1, so `Normalize` leaves it as it is. -/
theorem Rotation3DRad_axes (t : ℝ) :
    mat3.Rotation3DRad axisX t = rotX t ∧ mat3.Rotation3DRad axisY t = rotY t ∧
      mat3.Rotation3DRad axisZ t = rotZ t := by
  have hn : ∀ v : vec3 ℝ, v.Length = 1 → v.Normalize = v := by
    intro v h
    unfold vec3.Normalize
    rw [h, if_pos (by norm_num)]
    show vec3.div v 1 = v
    simp [vec3.div]
  have hx : (axisX : vec3 ℝ).Normalize = axisX :=
    hn _ (by simp [vec3.Length, vec3.SqrLength, axisX, CMath.sqrt])
  have hy : (axisY : vec3 ℝ).Normalize = axisY :=
    hn _ (by simp [vec3.Length, vec3.SqrLength, axisY, CMath.sqrt])
  have hz : (axisZ : vec3 ℝ).Normalize = axisZ :=
    hn _ (by simp [vec3.Length, vec3.SqrLength, axisZ, CMath.sqrt])
  refine ⟨?_, ?_, ?_⟩
  · simp only [mat3.Rotation3DRad, hx]
    simp only [axisX, rotX]
    ext <;> simp
  · simp only [mat3.Rotation3DRad, hy]
    simp only [axisY, rotY]
    ext <;> simp
  · simp only [mat3.Rotation3DRad, hz]
    simp only [axisZ, rotZ]
    ext <;> simp

/-- The six functions `FromEulerAnglesO` as products of rotations about the axes. -/
theorem FromEulerAngles_eq (a : vec3 ℝ) :
    mat3.FromEulerAnglesXYZ a = rotX a.x * rotY a.y * rotZ a.z ∧
    mat3.FromEulerAnglesXZY a = rotX a.x * rotZ a.z * rotY a.y ∧
    mat3.FromEulerAnglesYXZ a = rotY a.y * rotX a.x * rotZ a.z ∧
    mat3.FromEulerAnglesYZX a = rotY a.y * rotZ a.z * rotX a.x ∧
    mat3.FromEulerAnglesZXY a = rotZ a.z * rotX a.x * rotY a.y ∧
    mat3.FromEulerAnglesZYX a = rotZ a.z * rotY a.y * rotX a.x := by
  refine ⟨?_, ?_, ?_, ?_, ?_, ?_⟩
  · simp only [mat3.FromEulerAnglesXYZ, (Rotation3DRad_axes _).1, (Rotation3DRad_axes _).2.1,
      (Rotation3DRad_axes _).2.2]
  · simp only [mat3.FromEulerAnglesXZY, (Rotation3DRad_axes _).1, (Rotation3DRad_axes _).2.1,
      (Rotation3DRad_axes _).2.2]
  · simp only [mat3.FromEulerAnglesYXZ, (Rotation3DRad_axes _).1, (Rotation3DRad_axes _).2.1,
      (Rotation3DRad_axes _).2.2]
  · simp only [mat3.FromEulerAnglesYZX, (Rotation3DRad_axes _).1, (Rotation3DRad_axes _).2.1,
      (Rotation3DRad_axes _).2.2]
  · simp only [mat3.FromEulerAnglesZXY, (Rotation3DRad_axes _).1, (Rotation3DRad_axes _).2.1,
      (Rotation3DRad_axes _).2.2]
  · simp only [mat3.FromEulerAnglesZYX, (Rotation3DRad_axes _).1, (Rotation3DRad_axes _).2.1,
      (Rotation3DRad_axes _).2.2]

end Rotations

/-! ## C5: Euler decomposition undoes Euler composition -/

section C5

/-- C5. For each of the six orders and all angles whose middle-axis angle lies
strictly between `-π/2 + 0.001` and `π/2 - 0.001`, `ToEulerAnglesO` applied to the
matrix that `FromEulerAnglesO` builds returns `true` and yields angles equal to the
given ones modulo `2π` in every component. -/
theorem C5_ToEuler_FromEuler (o : EulerOrder) (a : vec3 ℝ)
    (h1 : -Real.pi / 2 + 0.001 < middleAngle o a)
    (h2 : middleAngle o a < Real.pi / 2 - 0.001) :
    (ToEulerAngles o (FromEulerAngles o a)).1 = true ∧
      EqMod2Pi (ToEulerAngles o (FromEulerAngles o a)).2.x a.x ∧
      EqMod2Pi (ToEulerAngles o (FromEulerAngles o a)).2.y a.y ∧
      EqMod2Pi (ToEulerAngles o (FromEulerAngles o a)).2.z a.z := by
  have atan2_polar : ∀ {r : ℝ}, 0 < r → ∀ t : ℝ,
      EqMod2Pi (atan2 (r * Real.sin t) (r * Real.cos t)) t := by
    intro r hr t
    have h : (⟨r * Real.cos t, r * Real.sin t⟩ : ℂ)
        = (r : ℂ) * (Complex.cos t + Complex.sin t * Complex.I) := by
      apply Complex.ext
      · simp [← Complex.ofReal_cos, ← Complex.ofReal_sin]
      · simp [← Complex.ofReal_cos, ← Complex.ofReal_sin]
    refine ⟨⌊(Real.pi - t) / (2 * Real.pi)⌋, ?_⟩
    have := Complex.arg_mul_cos_add_sin_mul_I_sub hr t
    simp only [atan2, CMath.atan2]
    rw [h]
    linarith
  have middle_in_range : ∀ {b : ℝ}, -Real.pi / 2 + 0.001 < b → b < Real.pi / 2 - 0.001 →
        -(Real.pi / 2) ≤ b ∧ b ≤ Real.pi / 2 ∧ 0 < Real.cos b ∧
        b > -M_PI_2 + EPSILON ∧ b < M_PI_2 - EPSILON := by
    intro b h1 h2
    have h3 : -(Real.pi / 2) < b := by linarith
    have h4 : b < Real.pi / 2 := by linarith
    refine ⟨h3.le, h4.le, Real.cos_pos_of_mem_Ioo ⟨h3, h4⟩, ?_, ?_⟩
    · simp only [M_PI_2, M_PI, EPSILON, CMath.pi]; linarith
    · simp only [M_PI_2, M_PI, EPSILON, CMath.pi]; linarith
  cases o
  · replace h1 : -Real.pi / 2 + 0.001 < a.y := h1
    replace h2 : a.y < Real.pi / 2 - 0.001 := h2
    show (mat3.ToEulerAnglesXYZ (mat3.FromEulerAnglesXYZ a)).1 = true ∧
          EqMod2Pi (mat3.ToEulerAnglesXYZ (mat3.FromEulerAnglesXYZ a)).2.x a.x ∧
          EqMod2Pi (mat3.ToEulerAnglesXYZ (mat3.FromEulerAnglesXYZ a)).2.y a.y ∧
          EqMod2Pi (mat3.ToEulerAnglesXYZ (mat3.FromEulerAnglesXYZ a)).2.z a.z
    obtain ⟨hlo, hhi, hcos, hgt, hlt⟩ := middle_in_range h1 h2
    have e1 : (mat3.FromEulerAnglesXYZ a).r0.z = Real.sin a.y := by
      simp only [(FromEulerAngles_eq _).1, rotX, rotY, rotZ, mat3.mul_def, mat3.mul,
        CMath.cos, CMath.sin]
      ring
    have e2 : -(mat3.FromEulerAnglesXYZ a).r1.z = Real.cos a.y * Real.sin a.x := by
      simp only [(FromEulerAngles_eq _).1, rotX, rotY, rotZ, mat3.mul_def, mat3.mul,
        CMath.cos, CMath.sin]
      ring
    have e3 : (mat3.FromEulerAnglesXYZ a).r2.z = Real.cos a.y * Real.cos a.x := by
      simp only [(FromEulerAngles_eq _).1, rotX, rotY, rotZ, mat3.mul_def, mat3.mul,
        CMath.cos, CMath.sin]
      ring
    have e4 : -(mat3.FromEulerAnglesXYZ a).r0.y = Real.cos a.y * Real.sin a.z := by
      simp only [(FromEulerAngles_eq _).1, rotX, rotY, rotZ, mat3.mul_def, mat3.mul,
        CMath.cos, CMath.sin]
      ring
    have e5 : (mat3.FromEulerAnglesXYZ a).r0.x = Real.cos a.y * Real.cos a.z := by
      simp only [(FromEulerAngles_eq _).1, rotX, rotY, rotZ, mat3.mul_def, mat3.mul,
        CMath.cos, CMath.sin]
      ring
    simp only [mat3.ToEulerAnglesXYZ, CMath.asin, e1, e2, e3, e4, e5, Real.arcsin_sin hlo hhi,
      if_pos hgt, if_pos hlt]
    exact ⟨trivial, atan2_polar hcos _, ⟨0, by simp⟩, atan2_polar hcos _⟩
  · replace h1 : -Real.pi / 2 + 0.001 < a.z := h1
    replace h2 : a.z < Real.pi / 2 - 0.001 := h2
    show (mat3.ToEulerAnglesXZY (mat3.FromEulerAnglesXZY a)).1 = true ∧
          EqMod2Pi (mat3.ToEulerAnglesXZY (mat3.FromEulerAnglesXZY a)).2.x a.x ∧
          EqMod2Pi (mat3.ToEulerAnglesXZY (mat3.FromEulerAnglesXZY a)).2.y a.y ∧
          EqMod2Pi (mat3.ToEulerAnglesXZY (mat3.FromEulerAnglesXZY a)).2.z a.z
    obtain ⟨hlo, hhi, hcos, hgt, hlt⟩ := middle_in_range h1 h2
    have e1 : -(mat3.FromEulerAnglesXZY a).r0.y = Real.sin a.z := by
      simp only [(FromEulerAngles_eq _).2.1, rotX, rotY, rotZ, mat3.mul_def, mat3.mul,
        CMath.cos, CMath.sin]
      ring
    have e2 : (mat3.FromEulerAnglesXZY a).r2.y = Real.cos a.z * Real.sin a.x := by
      simp only [(FromEulerAngles_eq _).2.1, rotX, rotY, rotZ, mat3.mul_def, mat3.mul,
        CMath.cos, CMath.sin]
      ring
    have e3 : (mat3.FromEulerAnglesXZY a).r1.y = Real.cos a.z * Real.cos a.x := by
      simp only [(FromEulerAngles_eq _).2.1, rotX, rotY, rotZ, mat3.mul_def, mat3.mul,
        CMath.cos, CMath.sin]
      ring
    have e4 : (mat3.FromEulerAnglesXZY a).r0.z = Real.cos a.z * Real.sin a.y := by
      simp only [(FromEulerAngles_eq _).2.1, rotX, rotY, rotZ, mat3.mul_def, mat3.mul,
        CMath.cos, CMath.sin]
      ring
    have e5 : (mat3.FromEulerAnglesXZY a).r0.x = Real.cos a.z * Real.cos a.y := by
      simp only [(FromEulerAngles_eq _).2.1, rotX, rotY, rotZ, mat3.mul_def, mat3.mul,
        CMath.cos, CMath.sin]
      ring
    simp only [mat3.ToEulerAnglesXZY, CMath.asin, e1, e2, e3, e4, e5, Real.arcsin_sin hlo hhi,
      if_pos hgt, if_pos hlt]
    exact ⟨trivial, atan2_polar hcos _, atan2_polar hcos _, ⟨0, by simp⟩⟩
  · replace h1 : -Real.pi / 2 + 0.001 < a.x := h1
    replace h2 : a.x < Real.pi / 2 - 0.001 := h2
    show (mat3.ToEulerAnglesYXZ (mat3.FromEulerAnglesYXZ a)).1 = true ∧
          EqMod2Pi (mat3.ToEulerAnglesYXZ (mat3.FromEulerAnglesYXZ a)).2.x a.x ∧
          EqMod2Pi (mat3.ToEulerAnglesYXZ (mat3.FromEulerAnglesYXZ a)).2.y a.y ∧
          EqMod2Pi (mat3.ToEulerAnglesYXZ (mat3.FromEulerAnglesYXZ a)).2.z a.z
    obtain ⟨hlo, hhi, hcos, hgt, hlt⟩ := middle_in_range h1 h2
    have e1 : -(mat3.FromEulerAnglesYXZ a).r1.z = Real.sin a.x := by
      simp only [(FromEulerAngles_eq _).2.2.1, rotX, rotY, rotZ, mat3.mul_def, mat3.mul,
        CMath.cos, CMath.sin]
      ring
    have e2 : (mat3.FromEulerAnglesYXZ a).r0.z = Real.cos a.x * Real.sin a.y := by
      simp only [(FromEulerAngles_eq _).2.2.1, rotX, rotY, rotZ, mat3.mul_def, mat3.mul,
        CMath.cos, CMath.sin]
      ring
    have e3 : (mat3.FromEulerAnglesYXZ a).r2.z = Real.cos a.x * Real.cos a.y := by
      simp only [(FromEulerAngles_eq _).2.2.1, rotX, rotY, rotZ, mat3.mul_def, mat3.mul,
        CMath.cos, CMath.sin]
      ring
    have e4 : (mat3.FromEulerAnglesYXZ a).r1.x = Real.cos a.x * Real.sin a.z := by
      simp only [(FromEulerAngles_eq _).2.2.1, rotX, rotY, rotZ, mat3.mul_def, mat3.mul,
        CMath.cos, CMath.sin]
      ring
    have e5 : (mat3.FromEulerAnglesYXZ a).r1.y = Real.cos a.x * Real.cos a.z := by
      simp only [(FromEulerAngles_eq _).2.2.1, rotX, rotY, rotZ, mat3.mul_def, mat3.mul,
        CMath.cos, CMath.sin]
      ring
    simp only [mat3.ToEulerAnglesYXZ, CMath.asin, e1, e2, e3, e4, e5, Real.arcsin_sin hlo hhi,
      if_pos hgt, if_pos hlt]
    exact ⟨trivial, ⟨0, by simp⟩, atan2_polar hcos _, atan2_polar hcos _⟩
  · replace h1 : -Real.pi / 2 + 0.001 < a.z := h1
    replace h2 : a.z < Real.pi / 2 - 0.001 := h2
    show (mat3.ToEulerAnglesYZX (mat3.FromEulerAnglesYZX a)).1 = true ∧
          EqMod2Pi (mat3.ToEulerAnglesYZX (mat3.FromEulerAnglesYZX a)).2.x a.x ∧
          EqMod2Pi (mat3.ToEulerAnglesYZX (mat3.FromEulerAnglesYZX a)).2.y a.y ∧
          EqMod2Pi (mat3.ToEulerAnglesYZX (mat3.FromEulerAnglesYZX a)).2.z a.z
    obtain ⟨hlo, hhi, hcos, hgt, hlt⟩ := middle_in_range h1 h2
    have e1 : (mat3.FromEulerAnglesYZX a).r1.x = Real.sin a.z := by
      simp only [(FromEulerAngles_eq _).2.2.2.1, rotX, rotY, rotZ, mat3.mul_def, mat3.mul,
        CMath.cos, CMath.sin]
      ring
    have e2 : -(mat3.FromEulerAnglesYZX a).r2.x = Real.cos a.z * Real.sin a.y := by
      simp only [(FromEulerAngles_eq _).2.2.2.1, rotX, rotY, rotZ, mat3.mul_def, mat3.mul,
        CMath.cos, CMath.sin]
      ring
    have e3 : (mat3.FromEulerAnglesYZX a).r0.x = Real.cos a.z * Real.cos a.y := by
      simp only [(FromEulerAngles_eq _).2.2.2.1, rotX, rotY, rotZ, mat3.mul_def, mat3.mul,
        CMath.cos, CMath.sin]
      ring
    have e4 : -(mat3.FromEulerAnglesYZX a).r1.z = Real.cos a.z * Real.sin a.x := by
      simp only [(FromEulerAngles_eq _).2.2.2.1, rotX, rotY, rotZ, mat3.mul_def, mat3.mul,
        CMath.cos, CMath.sin]
      ring
    have e5 : (mat3.FromEulerAnglesYZX a).r1.y = Real.cos a.z * Real.cos a.x := by
      simp only [(FromEulerAngles_eq _).2.2.2.1, rotX, rotY, rotZ, mat3.mul_def, mat3.mul,
        CMath.cos, CMath.sin]
      ring
    simp only [mat3.ToEulerAnglesYZX, CMath.asin, e1, e2, e3, e4, e5, Real.arcsin_sin hlo hhi,
      if_pos hgt, if_pos hlt]
    exact ⟨trivial, atan2_polar hcos _, atan2_polar hcos _, ⟨0, by simp⟩⟩
  · replace h1 : -Real.pi / 2 + 0.001 < a.x := h1
    replace h2 : a.x < Real.pi / 2 - 0.001 := h2
    show (mat3.ToEulerAnglesZXY (mat3.FromEulerAnglesZXY a)).1 = true ∧
          EqMod2Pi (mat3.ToEulerAnglesZXY (mat3.FromEulerAnglesZXY a)).2.x a.x ∧
          EqMod2Pi (mat3.ToEulerAnglesZXY (mat3.FromEulerAnglesZXY a)).2.y a.y ∧
          EqMod2Pi (mat3.ToEulerAnglesZXY (mat3.FromEulerAnglesZXY a)).2.z a.z
    obtain ⟨hlo, hhi, hcos, hgt, hlt⟩ := middle_in_range h1 h2
    have e1 : (mat3.FromEulerAnglesZXY a).r2.y = Real.sin a.x := by
      simp only [(FromEulerAngles_eq _).2.2.2.2.1, rotX, rotY, rotZ, mat3.mul_def, mat3.mul,
        CMath.cos, CMath.sin]
      ring
    have e2 : -(mat3.FromEulerAnglesZXY a).r0.y = Real.cos a.x * Real.sin a.z := by
      simp only [(FromEulerAngles_eq _).2.2.2.2.1, rotX, rotY, rotZ, mat3.mul_def, mat3.mul,
        CMath.cos, CMath.sin]
      ring
    have e3 : (mat3.FromEulerAnglesZXY a).r1.y = Real.cos a.x * Real.cos a.z := by
      simp only [(FromEulerAngles_eq _).2.2.2.2.1, rotX, rotY, rotZ, mat3.mul_def, mat3.mul,
        CMath.cos, CMath.sin]
      ring
    have e4 : -(mat3.FromEulerAnglesZXY a).r2.x = Real.cos a.x * Real.sin a.y := by
      simp only [(FromEulerAngles_eq _).2.2.2.2.1, rotX, rotY, rotZ, mat3.mul_def, mat3.mul,
        CMath.cos, CMath.sin]
      ring
    have e5 : (mat3.FromEulerAnglesZXY a).r2.z = Real.cos a.x * Real.cos a.y := by
      simp only [(FromEulerAngles_eq _).2.2.2.2.1, rotX, rotY, rotZ, mat3.mul_def, mat3.mul,
        CMath.cos, CMath.sin]
      ring
    simp only [mat3.ToEulerAnglesZXY, CMath.asin, e1, e2, e3, e4, e5, Real.arcsin_sin hlo hhi,
      if_pos hgt, if_pos hlt]
    exact ⟨trivial, ⟨0, by simp⟩, atan2_polar hcos _, atan2_polar hcos _⟩
  · replace h1 : -Real.pi / 2 + 0.001 < a.y := h1
    replace h2 : a.y < Real.pi / 2 - 0.001 := h2
    show (mat3.ToEulerAnglesZYX (mat3.FromEulerAnglesZYX a)).1 = true ∧
          EqMod2Pi (mat3.ToEulerAnglesZYX (mat3.FromEulerAnglesZYX a)).2.x a.x ∧
          EqMod2Pi (mat3.ToEulerAnglesZYX (mat3.FromEulerAnglesZYX a)).2.y a.y ∧
          EqMod2Pi (mat3.ToEulerAnglesZYX (mat3.FromEulerAnglesZYX a)).2.z a.z
    obtain ⟨hlo, hhi, hcos, hgt, hlt⟩ := middle_in_range h1 h2
    have e1 : (mat3.FromEulerAnglesZYX a).r2.x = -Real.sin a.y := by
      simp only [(FromEulerAngles_eq _).2.2.2.2.2, rotX, rotY, rotZ, mat3.mul_def, mat3.mul,
        CMath.cos, CMath.sin]
      ring
    have e2 : (mat3.FromEulerAnglesZYX a).r1.x = Real.cos a.y * Real.sin a.z := by
      simp only [(FromEulerAngles_eq _).2.2.2.2.2, rotX, rotY, rotZ, mat3.mul_def, mat3.mul,
        CMath.cos, CMath.sin]
      ring
    have e3 : (mat3.FromEulerAnglesZYX a).r0.x = Real.cos a.y * Real.cos a.z := by
      simp only [(FromEulerAngles_eq _).2.2.2.2.2, rotX, rotY, rotZ, mat3.mul_def, mat3.mul,
        CMath.cos, CMath.sin]
      ring
    have e4 : (mat3.FromEulerAnglesZYX a).r2.y = Real.cos a.y * Real.sin a.x := by
      simp only [(FromEulerAngles_eq _).2.2.2.2.2, rotX, rotY, rotZ, mat3.mul_def, mat3.mul,
        CMath.cos, CMath.sin]
      ring
    have e5 : (mat3.FromEulerAnglesZYX a).r2.z = Real.cos a.y * Real.cos a.x := by
      simp only [(FromEulerAngles_eq _).2.2.2.2.2, rotX, rotY, rotZ, mat3.mul_def, mat3.mul,
        CMath.cos, CMath.sin]
      ring
    simp only [mat3.ToEulerAnglesZYX, CMath.asin, e1, e2, e3, e4, e5, Real.arcsin_neg, neg_neg,
      Real.arcsin_sin hlo hhi,
      if_pos hgt, if_pos hlt]
    exact ⟨trivial, atan2_polar hcos _, ⟨0, by simp⟩, atan2_polar hcos _⟩

/-- C5 at the order zxy and the angles (1/2, 3, -2). -/
theorem C5_ToEuler_FromEuler_witness :
    (-Real.pi / 2 + 0.001 < middleAngle .zxy ⟨1 / 2, 3, -2⟩ ∧
      middleAngle .zxy ⟨1 / 2, 3, -2⟩ < Real.pi / 2 - 0.001) ∧
    (ToEulerAngles .zxy (FromEulerAngles .zxy (⟨1 / 2, 3, -2⟩ : vec3 ℝ))).1 = true ∧
      EqMod2Pi (ToEulerAngles .zxy (FromEulerAngles .zxy ⟨1 / 2, 3, -2⟩)).2.x (1 / 2) ∧
      EqMod2Pi (ToEulerAngles .zxy (FromEulerAngles .zxy ⟨1 / 2, 3, -2⟩)).2.y 3 ∧
      EqMod2Pi (ToEulerAngles .zxy (FromEulerAngles .zxy ⟨1 / 2, 3, -2⟩)).2.z (-2) := by
  have hpi := Real.pi_gt_three
  have h1 : -Real.pi / 2 + 0.001 < middleAngle .zxy ⟨1 / 2, 3, -2⟩ := by
    show -Real.pi / 2 + 0.001 < (1 / 2 : ℝ)
    norm_num
    linarith
  have h2 : middleAngle .zxy ⟨1 / 2, 3, -2⟩ < Real.pi / 2 - 0.001 := by
    show (1 / 2 : ℝ) < Real.pi / 2 - 0.001
    norm_num
    linarith
  exact ⟨⟨h1, h2⟩, C5_ToEuler_FromEuler .zxy ⟨1 / 2, 3, -2⟩ h1 h2⟩

end C5

/-! ## C6: `ComputeBVHRot` -/

section C6

/-- C6. For each of the six rotation orders `ComputeBVHRot(r1, r2, r3, O)` is the
product, from left to right, of the rotations about the axes the order names, the
k-th channel value (in degrees) being the angle about the k-th axis named. -/
theorem C6_ComputeBVHRot (r1 r2 r3 : ℝ) :
    ComputeBVHRot r1 r2 r3 "xyz" = RotXDeg r1 * RotYDeg r2 * RotZDeg r3 ∧
    ComputeBVHRot r1 r2 r3 "xzy" = RotXDeg r1 * RotZDeg r2 * RotYDeg r3 ∧
    ComputeBVHRot r1 r2 r3 "yxz" = RotYDeg r1 * RotXDeg r2 * RotZDeg r3 ∧
    ComputeBVHRot r1 r2 r3 "yzx" = RotYDeg r1 * RotZDeg r2 * RotXDeg r3 ∧
    ComputeBVHRot r1 r2 r3 "zxy" = RotZDeg r1 * RotXDeg r2 * RotYDeg r3 ∧
    ComputeBVHRot r1 r2 r3 "zyx" = RotZDeg r1 * RotYDeg r2 * RotXDeg r3 := by
  have hd : ∀ t : ℝ, Deg2Rad * t = t * M_PI / 180 := by
    intro t
    simp only [Deg2Rad]
    ring
  delta RotXDeg RotYDeg RotZDeg
  refine ⟨?_, ?_, ?_, ?_, ?_, ?_⟩ <;>
    simp [ComputeBVHRot, (FromEulerAngles_eq _).1, (FromEulerAngles_eq _).2.1,
      (FromEulerAngles_eq _).2.2.1, (FromEulerAngles_eq _).2.2.2.1,
      (FromEulerAngles_eq _).2.2.2.2.1, (FromEulerAngles_eq _).2.2.2.2.2, vec3.scale_def,
      vec3.scale, hd]

end C6

/-! ## `Player::ConvertAMC2BVH`: one end effector -/

section ConvertLemmas

variable {K : Type} [CommRing K]

theorem SetName_eq (j : Joint K) (s : String) :
    j.SetName s = { j with m_name := (j.SetName s).m_name } := by
  unfold Joint.SetName
  split <;> rfl

theorem SetID_eq (j : Joint K) (id : Int) :
    j.SetID id = { j with m_id := id, m_name := (j.SetID id).m_name } := by
  unfold Joint.SetID
  split <;> rfl

theorem siteAdded_fields (D : K) (joint : Joint K) (siteId n : Nat) :
    ((Player.newSite D joint siteId).SetID n).m_pParent = none ∧
    ((Player.newSite D joint siteId).SetID n).m_children = [] ∧
    ((Player.newSite D joint siteId).SetID n).AMC = false ∧
    ((Player.newSite D joint siteId).SetID n).m_local = ⟨joint.m_translation, identity3D⟩ ∧
    ((Player.newSite D joint siteId).SetID n).m_id = (n : Int) ∧
    ((Player.newSite D joint siteId).SetID n).m_channelCount = 3 ∧
    ((Player.newSite D joint siteId).SetID n).m_axisRotation = identity3D := by
  rw [SetID_eq]
  unfold Player.newSite
  dsimp only
  rw [SetName_eq]
  refine ⟨?_, ?_, ?_, ?_, ?_, ?_, ?_⟩ <;> rfl

theorem siteJoint_fields (D : K) (joint : Joint K) (e siteId n : Nat) :
    (Player.siteJoint D joint e siteId n).m_pParent = some e ∧
    (Player.siteJoint D joint e siteId n).m_children = [] ∧
    (Player.siteJoint D joint e siteId n).AMC = false ∧
    (Player.siteJoint D joint e siteId n).m_local = ⟨joint.m_translation, identity3D⟩ ∧
    (Player.siteJoint D joint e siteId n).m_id = (n : Int) ∧
    (Player.siteJoint D joint e siteId n).m_channelCount = 3 ∧
    (Player.siteJoint D joint e siteId n).m_axisRotation = identity3D := by
  obtain ⟨_, h2, h3, h4, h5, h6, h7⟩ := siteAdded_fields D joint siteId n
  exact ⟨rfl, h2, h3, h4, h5, h6, h7⟩

/-- The first three operations of a round of the second loop produce `withSite`. -/
theorem convertEndEffector_eq (D : K) (sk : Skeleton K) (e siteId : Nat) (joint : Joint K)
    (he : sk.m_joints[e]? = some joint) :
    Player.convertEndEffector D sk e siteId
      = (Player.convertAncestors sk.m_pRoot (sk.m_joints.length + 1)
          (Player.withSite D sk.m_joints joint e siteId) e).map
          (fun js4 => { sk with m_joints := js4 }) := by
  have hlt : e < sk.m_joints.length := (List.getElem?_eq_some_iff.mp he).1
  obtain ⟨hpar, _, _, _, _, _, _⟩ := siteAdded_fields D joint siteId sk.m_joints.length
  -- the joint list after `AddJoint`
  have h1 : (sk.m_joints ++ [(Player.newSite D joint siteId).SetID sk.m_joints.length])[
      sk.m_joints.length]? = some ((Player.newSite D joint siteId).SetID sk.m_joints.length) := by
    simp
  have hA : Joint.AttachJoints
      (sk.m_joints ++ [(Player.newSite D joint siteId).SetID sk.m_joints.length])
      (some e) (some sk.m_joints.length)
      = some (sk.m_joints.set e { joint with m_children := joint.m_children ++ [sk.m_joints.length] }
          ++ [{ (Player.newSite D joint siteId).SetID sk.m_joints.length with
                m_pParent := some e }]) := by
    unfold Joint.AttachJoints
    simp only [h1, hpar]
    have h2 : ((sk.m_joints ++ [(Player.newSite D joint siteId).SetID sk.m_joints.length]).set
        sk.m_joints.length
        { (Player.newSite D joint siteId).SetID sk.m_joints.length with m_pParent := some e })
        = sk.m_joints ++ [{ (Player.newSite D joint siteId).SetID sk.m_joints.length with
            m_pParent := some e }] := by
      rw [List.set_append_right _ _ (le_refl _)]
      simp
    rw [h2]
    have h3 : (sk.m_joints ++ [{ (Player.newSite D joint siteId).SetID sk.m_joints.length with
        m_pParent := some e }])[e]? = some joint := by
      rw [List.getElem?_append_left hlt]
      exact he
    simp only [h3]
    rw [List.set_append_left _ _ hlt]
  have hU : Joint.UpdateTransformation
      (sk.m_joints.set e { joint with m_children := joint.m_children ++ [sk.m_joints.length] }
          ++ [{ (Player.newSite D joint siteId).SetID sk.m_joints.length with
                m_pParent := some e }]).length
      (sk.m_joints.set e { joint with m_children := joint.m_children ++ [sk.m_joints.length] }
          ++ [{ (Player.newSite D joint siteId).SetID sk.m_joints.length with
                m_pParent := some e }])
      sk.m_joints.length false
      = some (Player.withSite D sk.m_joints joint e siteId) := by
    rw [Joint.UpdateTransformation]
    have hs : (sk.m_joints.set e
        { joint with m_children := joint.m_children ++ [sk.m_joints.length] }
          ++ [{ (Player.newSite D joint siteId).SetID sk.m_joints.length with
                m_pParent := some e }])[sk.m_joints.length]?
        = some { (Player.newSite D joint siteId).SetID sk.m_joints.length with
                m_pParent := some e } := by
      rw [List.getElem?_append_right (by simp)]
      simp
    have hp : (sk.m_joints.set e
        { joint with m_children := joint.m_children ++ [sk.m_joints.length] }
          ++ [{ (Player.newSite D joint siteId).SetID sk.m_joints.length with
                m_pParent := some e }])[e]?
        = some { joint with m_children := joint.m_children ++ [sk.m_joints.length] } := by
      rw [List.getElem?_append_left (by simpa using hlt)]
      exact List.getElem?_set_self hlt
    rw [updateGlobal_child hs rfl hp]
    simp only [Bool.false_eq_true, if_false, Player.withSite, Player.siteJoint]
    rw [List.set_append_right _ _ (by simp)]
    simp
  unfold Player.convertEndEffector
  simp only [he, Skeleton.AddJoint, Bool.false_eq_true, if_false, hA, hU]
  have hlen : (Player.withSite D sk.m_joints joint e siteId).length
      = sk.m_joints.length + 1 := by
    simp [Player.withSite]
  rw [hlen]
  cases Player.convertAncestors sk.m_pRoot (sk.m_joints.length + 1)
    (Player.withSite D sk.m_joints joint e siteId) e <;> rfl

/-! ## The walk up the parent chain -/

theorem touch_parent (root : Option Nat) (js : List (Joint K)) (j : Joint K) :
    (Player.touch root js j).m_pParent = j.m_pParent := by
  unfold Player.touch
  split <;> simp_all

theorem touch_links (root : Option Nat) (js : List (Joint K)) (j : Joint K) :
    (Player.touch root js j).links = j.links := by
  unfold Player.touch
  split <;> rfl

theorem touch_idem (root : Option Nat) (js : List (Joint K)) (j : Joint K) :
    Player.touch root js (Player.touch root js j) = Player.touch root js j := by
  cases hp : j.m_pParent with
  | none =>
    have h1 : Player.touch root js j = j := by
      unfold Player.touch
      rw [hp]
    rw [h1, h1]
  | some p =>
    have h1 : Player.touch root js j = { j with
        AMC := false
        m_local := { j.m_local with
          m_translation := if some p = root then axisZero
            else match js[p]? with
              | some pj => pj.m_translation
              | none => axisZero } } := by
      unfold Player.touch
      rw [hp]
    rw [h1]
    unfold Player.touch
    simp only [hp]

theorem touch_congr (root : Option Nat) {js js1 : List (Joint K)}
    (h : ∀ p : Nat, (js1[p]?).map (fun (j : Joint K) => j.m_translation)
      = (js[p]?).map (fun (j : Joint K) => j.m_translation))
    (j : Joint K) : Player.touch root js1 j = Player.touch root js j := by
  unfold Player.touch
  cases hp : j.m_pParent with
  | none => rfl
  | some p =>
    have hpp := h p
    simp only
    cases h1 : js1[p]? with
    | none =>
      rw [h1] at hpp
      cases h0 : js[p]? with
      | none => rfl
      | some pj => rw [h0] at hpp; simp at hpp
    | some pj1 =>
      rw [h1] at hpp
      cases h0 : js[p]? with
      | none => rw [h0] at hpp; simp at hpp
      | some pj =>
        rw [h0] at hpp
        simp only [Option.map_some', Option.some.injEq] at hpp
        simp only [hpp]

theorem pathUp_succ_none {js : List (Joint K)} {k : Nat} (f : Nat)
    (h : parentAt js k = none) : pathUp (f + 1) js k = some [] := by
  rw [pathUp, h]

theorem pathUp_succ_some {js : List (Joint K)} {k p : Nat} (f : Nat)
    (h : parentAt js k = some p) :
    pathUp (f + 1) js k = (pathUp f js p).map (fun r => k :: r) := by
  rw [pathUp, h]

theorem pathUp_congr {js js1 : List (Joint K)} (h : ∀ k, parentAt js1 k = parentAt js k) :
    ∀ (f k : Nat), pathUp f js1 k = pathUp f js k
  | 0, _ => rfl
  | f + 1, k => by
    unfold pathUp
    rw [h k]
    cases parentAt js k with
    | none => rfl
    | some p =>
      simp only
      rw [pathUp_congr h f p]

theorem convertAncestors_root (root : Option Nat) (f : Nat) {js : List (Joint K)} {e : Nat}
    {j : Joint K} (hj : js[e]? = some j) (hp : j.m_pParent = none) :
    Player.convertAncestors root (f + 1) js e = some js := by
  rw [Player.convertAncestors]
  simp only [hj, hp]

theorem convertAncestors_step (root : Option Nat) (f : Nat) {js : List (Joint K)} {e p : Nat}
    {j pj : Joint K} (hj : js[e]? = some j) (hp : j.m_pParent = some p)
    (hpj : js[p]? = some pj) :
    Player.convertAncestors root (f + 1) js e
      = Player.convertAncestors root f (js.set e (Player.touch root js j)) p := by
  have htouch : Player.touch root js j = { j with
      AMC := false
      m_local := { j.m_local with
        m_translation := if some p = root then axisZero else pj.m_translation } } := by
    unfold Player.touch
    simp only [hp, hpj]
  rw [Player.convertAncestors]
  simp only [hj, hp, hpj, htouch]

/-- The loop of `convertAncestors` from a joint `e` returns when the parent chain of
`e` ends within the fuel, and it applies `touch` to exactly the joints on the
chain. -/
theorem convertAncestors_spec (root : Option Nat) :
    ∀ (fuel : Nat) (js : List (Joint K)) (e : Nat) (path : List Nat),
      pathUp fuel js e = some path → e < js.length →
      (∀ (k : Nat) (j : Joint K), js[k]? = some j → ∀ p, j.m_pParent = some p →
        p < js.length) →
      ∃ js1, Player.convertAncestors root fuel js e = some js1 ∧
        js1.length = js.length ∧
        ∀ k, js1[k]? = if k ∈ path then (js[k]?).map (Player.touch root js) else js[k]?
  | 0, _, _, _, h, _, _ => by simp [pathUp] at h
  | fuel + 1, js, e, path, h, he, hval => by
    obtain ⟨j, hj⟩ : ∃ j, js[e]? = some j := ⟨_, List.getElem?_eq_getElem he⟩
    cases hp : j.m_pParent with
    | none =>
      rw [pathUp_succ_none fuel ((parentAt_eq hj).trans hp)] at h
      cases h
      exact ⟨js, convertAncestors_root root fuel hj hp, rfl, fun k => by simp⟩
    | some p =>
      rw [pathUp_succ_some fuel ((parentAt_eq hj).trans hp)] at h
      have hplt : p < js.length := hval e j hj p hp
      obtain ⟨pj, hpj⟩ : ∃ pj, js[p]? = some pj := ⟨_, List.getElem?_eq_getElem hplt⟩
      cases hpath : pathUp fuel js p with
      | none => rw [hpath] at h; simp at h
      | some path1 =>
        rw [hpath] at h
        simp only [Option.map_some', Option.some.injEq] at h
        subst h
        have htouch : (Player.touch root js j).m_translation = j.m_translation := by
          unfold Player.touch
          simp only [hp]
        rw [convertAncestors_step root fuel hj hp hpj]
        have hst : SameTree js (js.set e (Player.touch root js j)) :=
          SameTree.st_set hj (touch_links root js j)
        have hpath1 : pathUp fuel (js.set e (Player.touch root js j)) p = some path1 := by
          rw [pathUp_congr (fun k => hst.st_parentAt k)]
          exact hpath
        have hval1 : ∀ (k : Nat) (j1 : Joint K),
            (js.set e (Player.touch root js j))[k]? = some j1 → ∀ q, j1.m_pParent = some q →
            q < (js.set e (Player.touch root js j)).length := by
          intro k j1 hk q hq
          rw [List.length_set]
          rcases hst.st_symm.st_get hk with ⟨j0, hj0, hpar, _⟩
          exact hval k j0 hj0 q (hpar.trans hq)
        have htr : ∀ q : Nat, ((js.set e (Player.touch root js j))[q]?).map
              (fun (j : Joint K) => j.m_translation)
            = (js[q]?).map (fun (j : Joint K) => j.m_translation) := by
          intro q
          by_cases hq : e = q
          · subst hq
            rw [List.getElem?_set_self he, hj]
            simp only [Option.map_some', htouch]
          · rw [List.getElem?_set_ne hq]
        rcases convertAncestors_spec root fuel (js.set e (Player.touch root js j)) p path1
            hpath1 (by simpa using hplt) hval1 with ⟨js1, hrun, hlen, hget⟩
        refine ⟨js1, hrun, by simpa using hlen, ?_⟩
        intro k
        rw [hget k]
        have hfun : Player.touch root (js.set e (Player.touch root js j))
            = Player.touch root js := funext (touch_congr root htr)
        rw [hfun]
        by_cases hke : k = e
        · subst hke
          rw [List.getElem?_set_self he, hj]
          simp only [List.mem_cons, true_or, if_true, Option.map_some', touch_idem]
          split <;> rfl
        · rw [List.getElem?_set_ne (Ne.symm hke)]
          simp only [List.mem_cons, hke, false_or]

/-! ## Parent chains in a tree -/

theorem climb_succ_end (js : List (Joint K)) :
    ∀ (n k c i : Nat), climb js n k = some c → parentAt js c = some i →
      climb js (n + 1) k = some i
  | 0, k, c, i, h, hp => by
    simp only [climb, Option.some.injEq] at h
    subst h
    simp [climb, hp]
  | n + 1, k, c, i, h, hp => by
    rw [climb] at h ⊢
    cases hk : parentAt js k with
    | none => rw [hk] at h; simp at h
    | some q =>
      rw [hk] at h
      simp only [Option.some_bind] at h ⊢
      exact climb_succ_end js n q c i h hp

/-- Every joint that the walk from `i` lists is below `i`: fewer than `f` steps along
the parent pointers lead from it to `i`. -/
theorem preorder_climb (js : List (Joint K)) :
    ∀ (f i : Nat) (l : List Nat), preorder f js i = some l →
      (∀ p ∈ l, ∀ c ∈ childrenAt js p, parentAt js c = some p) →
      ∀ k ∈ l, ∃ n, n < f ∧ climb js n k = some i
  | 0, _, _, h, _, _, _ => by simp [preorder] at h
  | f + 1, i, l, h, hback, k, hk => by
    rcases preorder_succ h with ⟨j, ls, hj, hm, rfl⟩
    rcases List.mem_cons.mp hk with rfl | hk
    · exact ⟨0, Nat.succ_pos _, rfl⟩
    · rcases mapM_flatten_mem _ _ hm k hk with ⟨c, hc, lc, hlc, hkc, hsub⟩
      rcases preorder_climb js f c lc hlc
          (fun p hp => hback p (List.mem_cons_of_mem _ (hsub p hp))) k hkc with ⟨n, hn, hcl⟩
      have hpc : parentAt js c = some i :=
        hback i (List.mem_cons_self _ _) c (by rw [childrenAt_eq hj]; exact hc)
      exact ⟨n + 1, Nat.succ_lt_succ hn, climb_succ_end js n k c i hcl hpc⟩

theorem pathUp_of_climb (js : List (Joint K)) :
    ∀ (n k r F : Nat), climb js n k = some r → parentAt js r = none → n < F →
      ∃ path, pathUp F js k = some path
  | 0, k, r, F, h, hr, hF => by
    simp only [climb, Option.some.injEq] at h
    subst h
    obtain ⟨F1, rfl⟩ : ∃ F1, F = F1 + 1 := ⟨F - 1, by omega⟩
    exact ⟨[], pathUp_succ_none F1 hr⟩
  | n + 1, k, r, F, h, hr, hF => by
    obtain ⟨F1, rfl⟩ : ∃ F1, F = F1 + 1 := ⟨F - 1, by omega⟩
    rw [climb] at h
    cases hk : parentAt js k with
    | none => rw [hk] at h; simp at h
    | some q =>
      rw [hk, Option.some_bind] at h
      rcases pathUp_of_climb js n q r F1 h hr (by omega) with ⟨path, hpath⟩
      exact ⟨k :: path, by rw [pathUp_succ_some F1 hk, hpath]; rfl⟩

theorem mem_pathUp_of_climb (js : List (Joint K)) :
    ∀ (n e k q F : Nat) (path : List Nat), pathUp F js e = some path →
      climb js n e = some k → parentAt js k = some q → k ∈ path
  | _, _, _, _, 0, _, h, _, _ => by simp [pathUp] at h
  | 0, e, k, q, F + 1, path, h, hc, hq => by
    simp only [climb, Option.some.injEq] at hc
    subst hc
    rw [pathUp_succ_some F hq] at h
    cases hp : pathUp F js q with
    | none => rw [hp] at h; simp at h
    | some path1 =>
      rw [hp] at h
      simp only [Option.map_some', Option.some.injEq] at h
      subst h
      exact List.mem_cons_self _ _
  | n + 1, e, k, q, F + 1, path, h, hc, hq => by
    rw [climb] at hc
    cases he : parentAt js e with
    | none => rw [he] at hc; simp at hc
    | some p =>
      rw [he, Option.some_bind] at hc
      rw [pathUp_succ_some F he] at h
      cases hp : pathUp F js p with
      | none => rw [hp] at h; simp at h
      | some path1 =>
        rw [hp] at h
        simp only [Option.map_some', Option.some.injEq] at h
        subst h
        exact List.mem_cons_of_mem _ (mem_pathUp_of_climb js n p k q F path1 hp hc hq)

/-- Below every joint of the walk there is a joint without children. -/
theorem preorder_leaf_below (js : List (Joint K)) :
    ∀ (f i : Nat) (l : List Nat), preorder f js i = some l →
      (∀ p ∈ l, ∀ c ∈ childrenAt js p, parentAt js c = some p) →
      ∃ e ∈ l, childrenAt js e = [] ∧ ∃ n, climb js n e = some i
  | 0, _, _, h, _ => by simp [preorder] at h
  | f + 1, i, l, h, hback => by
    rcases preorder_succ h with ⟨j, ls, hj, hm, rfl⟩
    cases hcs : j.m_children with
    | nil =>
      exact ⟨i, List.mem_cons_self _ _, by rw [childrenAt_eq hj]; exact hcs, 0, rfl⟩
    | cons c cs =>
      rw [hcs] at hm
      rcases mapM_option_cons _ _ _ _ hm with ⟨lc, ls1, hc, _, rfl⟩
      have hsub : ∀ x ∈ lc, x ∈ i :: (lc :: ls1).flatten := by
        intro x hx
        rw [List.flatten_cons]
        exact List.mem_cons_of_mem _ (List.mem_append_left _ hx)
      rcases preorder_leaf_below js f c lc hc (fun p hp => hback p (hsub p hp)) with
        ⟨e, he, hleaf, n, hn⟩
      have hpc : parentAt js c = some i :=
        hback i (List.mem_cons_self _ _) c (by rw [childrenAt_eq hj, hcs]; exact List.mem_cons_self _ _)
      exact ⟨e, hsub e he, hleaf, n + 1, climb_succ_end js n e c i hn hpc⟩

/-- The joints below a listed joint are listed too. -/
theorem preorder_subtree (js : List (Joint K)) :
    ∀ (f i : Nat) (l : List Nat), preorder f js i = some l → ∀ k ∈ l,
      ∃ f1 lk, preorder f1 js k = some lk ∧ ∀ x ∈ lk, x ∈ l
  | 0, _, _, h, _, _ => by simp [preorder] at h
  | f + 1, i, l, h, k, hk => by
    rcases preorder_succ h with ⟨j, ls, hj, hm, hl⟩
    subst hl
    rcases List.mem_cons.mp hk with rfl | hk
    · exact ⟨f + 1, _, h, fun x hx => hx⟩
    · rcases mapM_flatten_mem _ _ hm k hk with ⟨c, _, lc, hlc, hkc, hsub⟩
      rcases preorder_subtree js f c lc hlc k hkc with ⟨f1, lk, hlk, hsub1⟩
      exact ⟨f1, lk, hlk, fun x hx => List.mem_cons_of_mem _ (hsub x (hsub1 x hx))⟩

/-- In a tree the walk up from any joint ends within the fuel. -/
theorem Skeleton.IsTreeWith.pathUp_some {sk : Skeleton K} {r : Nat} {l : List Nat}
    (h : sk.IsTreeWith r l) {e : Nat} (he : e ∈ l) :
    ∃ path, pathUp sk.m_joints.length sk.m_joints e = some path := by
  rcases preorder_climb sk.m_joints _ r l h.2.1 h.2.2.2.2 e he with ⟨n, hn, hcl⟩
  exact pathUp_of_climb sk.m_joints n e r _ hcl h.2.2.2.1 hn

/-- In a tree every joint with a parent lies on the way up from some joint without
children. -/
theorem Skeleton.IsTreeWith.on_leaf_path {sk : Skeleton K} {r : Nat} {l : List Nat}
    (h : sk.IsTreeWith r l) {k q : Nat} (hk : k ∈ l) (hq : parentAt sk.m_joints k = some q) :
    ∃ e ∈ l, childrenAt sk.m_joints e = [] ∧
      ∃ path, pathUp sk.m_joints.length sk.m_joints e = some path ∧ k ∈ path := by
  rcases preorder_subtree sk.m_joints _ r l h.2.1 k hk with ⟨f1, lk, hlk, hsub⟩
  rcases preorder_leaf_below sk.m_joints f1 k lk hlk
      (fun p hp => h.2.2.2.2 p (hsub p hp)) with ⟨e, he, hleaf, n, hn⟩
  rcases h.pathUp_some (hsub e he) with ⟨path, hpath⟩
  exact ⟨e, hsub e he, hleaf, path, hpath,
    mem_pathUp_of_climb sk.m_joints n e k q _ path hpath hn hq⟩

/-! ## A site under a joint without children keeps the tree a tree -/

theorem insertSite_cons (e n x : Nat) (l : List Nat) :
    insertSite e n (x :: l) = (if x = e then [e, n] else [x]) ++ insertSite e n l := by
  simp [insertSite]

theorem insertSite_append (e n : Nat) (l1 l2 : List Nat) :
    insertSite e n (l1 ++ l2) = insertSite e n l1 ++ insertSite e n l2 := by
  simp [insertSite]

theorem insertSite_flatten (e n : Nat) :
    ∀ (ls : List (List Nat)),
      insertSite e n ls.flatten = (ls.map (insertSite e n)).flatten
  | [] => rfl
  | l :: ls => by
    rw [List.flatten_cons, insertSite_append, insertSite_flatten e n ls]
    rfl

theorem mem_insertSite {e n x : Nat} :
    ∀ {l : List Nat}, x ∈ insertSite e n l ↔ x ∈ l ∨ (x = n ∧ e ∈ l)
  | [] => by simp [insertSite]
  | y :: l => by
    rw [insertSite_cons, List.mem_append, mem_insertSite (l := l)]
    by_cases hy : y = e
    · subst hy
      simp only [if_true, List.mem_cons, List.mem_singleton, List.not_mem_nil, or_false,
        true_or, and_true]
      tauto
    · have hy1 : ¬ e = y := fun h => hy h.symm
      simp only [if_neg hy, List.mem_singleton, List.mem_cons, hy1, false_or]
      tauto

theorem nodup_insertSite {e n : Nat} :
    ∀ {l : List Nat}, l.Nodup → n ∉ l → (insertSite e n l).Nodup
  | [], _, _ => by simp [insertSite]
  | y :: l, hnd, hn => by
    rw [List.nodup_cons] at hnd
    have hn1 : n ∉ l := fun h => hn (List.mem_cons_of_mem _ h)
    have hny : n ≠ y := fun h => hn (h ▸ List.mem_cons_self _ _)
    have ih := nodup_insertSite (e := e) hnd.2 hn1
    rw [insertSite_cons]
    by_cases hy : y = e
    · subst hy
      simp only [if_true]
      have h1 : y ∉ insertSite y n l := by
        rw [mem_insertSite]
        rintro (h | ⟨h, _⟩)
        · exact hnd.1 h
        · exact hny h.symm
      have h2 : n ∉ insertSite y n l := by
        rw [mem_insertSite]
        rintro (h | ⟨_, h⟩)
        · exact hn1 h
        · exact hnd.1 h
      simp only [List.cons_append, List.nil_append, List.nodup_cons, List.mem_cons, not_or]
      exact ⟨⟨fun h => hny h.symm, h1⟩, h2, ih⟩
    · simp only [if_neg hy, List.cons_append, List.nil_append, List.nodup_cons]
      refine ⟨?_, ih⟩
      rw [mem_insertSite]
      rintro (h | ⟨h, _⟩)
      · exact hnd.1 h
      · exact hny h.symm

theorem mapM_option_map {g g1 : Nat → Option (List Nat)} (t : List Nat → List Nat)
    (h : ∀ c lc, g c = some lc → g1 c = some (t lc)) :
    ∀ (cs : List Nat) (ls : List (List Nat)), cs.mapM g = some ls →
      cs.mapM g1 = some (ls.map t)
  | [], ls, hm => by
    simp only [List.mapM_nil] at hm
    cases hm
    rfl
  | c :: cs, ls, hm => by
    rcases mapM_option_cons _ _ _ _ hm with ⟨lc, ls1, hc, hcs, rfl⟩
    rw [List.mapM_cons, h c lc hc, mapM_option_map t h cs ls1 hcs]
    rfl

/-- The walk over the joints with a site `n` added under the childless joint `e`. -/
theorem preorder_addLeaf {js js1 : List (Joint K)} {e : Nat} {je s : Joint K}
    (he : js[e]? = some je) (hleaf : je.m_children = []) (hs : s.m_children = [])
    (hjs1 : js1 = js.set e { je with m_children := je.m_children ++ [js.length] } ++ [s]) :
    ∀ (f i : Nat) (l : List Nat), preorder f js i = some l →
      preorder (f + 1) js1 i = some (insertSite e js.length l)
  | 0, _, _, h => by simp [preorder] at h
  | f + 1, i, l, h => by
    have helt : e < js.length := (List.getElem?_eq_some_iff.mp he).1
    rcases preorder_succ h with ⟨j, ls, hj, hm, rfl⟩
    have hilt : i < js.length := (List.getElem?_eq_some_iff.mp hj).1
    by_cases hie : i = e
    · subst hie
      rw [he] at hj
      cases hj
      rw [hleaf] at hm
      simp only [List.mapM_nil] at hm
      cases hm
      have h1 : js1[i]? = some { je with m_children := je.m_children ++ [js.length] } := by
        rw [hjs1, List.getElem?_append_left (by simpa using hilt)]
        exact List.getElem?_set_self hilt
      have h2 : js1[js.length]? = some s := by
        rw [hjs1, List.getElem?_append_right (by simp)]
        simp
      have h3 : preorder (f + 1) js1 js.length = some [js.length] := by
        rw [preorder, h2]
        dsimp only
        rw [hs]
        rfl
      rw [preorder, h1]
      dsimp only
      rw [hleaf, List.nil_append, List.mapM_cons, h3, List.mapM_nil]
      simp [insertSite]
    · have h1 : js1[i]? = some j := by
        rw [hjs1, List.getElem?_append_left (by simpa using hilt),
          List.getElem?_set_ne (Ne.symm hie)]
        exact hj
      rw [preorder, h1]
      dsimp only
      rw [mapM_option_map (insertSite e js.length)
        (fun c lc hc => preorder_addLeaf he hleaf hs hjs1 f c lc hc) _ _ hm]
      simp only [Option.map_some', Option.some.injEq]
      rw [insertSite_cons, if_neg hie, insertSite_flatten]
      rfl

/-- The joints of the list with a leaf `s` added under `e`. -/
theorem addLeaf_get {js js1 : List (Joint K)} {e : Nat} {je s : Joint K}
    (he : js[e]? = some je)
    (hjs1 : js1 = js.set e { je with m_children := je.m_children ++ [js.length] } ++ [s]) :
    js1.length = js.length + 1 ∧
    js1[e]? = some { je with m_children := je.m_children ++ [js.length] } ∧
    js1[js.length]? = some s ∧
    ∀ k, k ≠ e → k ≠ js.length → js1[k]? = js[k]? := by
  have helt : e < js.length := (List.getElem?_eq_some_iff.mp he).1
  refine ⟨by rw [hjs1]; simp, ?_, ?_, ?_⟩
  · rw [hjs1, List.getElem?_append_left (by simpa using helt)]
    exact List.getElem?_set_self helt
  · rw [hjs1, List.getElem?_append_right (by simp)]
    simp
  · intro k hke hkn
    by_cases hk : k < js.length
    · rw [hjs1, List.getElem?_append_left (by simpa using hk),
        List.getElem?_set_ne (Ne.symm hke)]
    · have h1 : js[k]? = none := List.getElem?_eq_none_iff.mpr (by omega)
      have h2 : js1[k]? = none := by
        apply List.getElem?_eq_none_iff.mpr
        rw [hjs1]
        simp
        omega
      rw [h1, h2]

/-- A tree stays a tree when a leaf is added under one of its joints without
children; the new joint is listed right after that joint. -/
theorem Skeleton.IsTreeWith.addLeaf {sk : Skeleton K} {r : Nat} {l : List Nat}
    (h : sk.IsTreeWith r l) {e : Nat} {je s : Joint K} {js1 : List (Joint K)}
    (he : sk.m_joints[e]? = some je) (hel : e ∈ l) (hleaf : je.m_children = [])
    (hs : s.m_children = []) (hsp : s.m_pParent = some e)
    (hjs1 : js1 = sk.m_joints.set e
      { je with m_children := je.m_children ++ [sk.m_joints.length] } ++ [s]) :
    Skeleton.IsTreeWith { sk with m_joints := js1 } r (insertSite e sk.m_joints.length l) := by
  obtain ⟨hlen, hge, hgn, hgk⟩ := addLeaf_get he hjs1
  have helt : e < sk.m_joints.length := (List.getElem?_eq_some_iff.mp he).1
  have hvalid : ∀ k ∈ l, k < sk.m_joints.length := by
    intro k hk
    rcases preorder_valid _ _ _ _ h.2.1 k hk with ⟨j, hj⟩
    exact (List.getElem?_eq_some_iff.mp hj).1
  have hnl : sk.m_joints.length ∉ l := fun hn => Nat.lt_irrefl _ (hvalid _ hn)
  have hpar : ∀ k, k < sk.m_joints.length → parentAt js1 k = parentAt sk.m_joints k := by
    intro k hk
    by_cases hke : k = e
    · subst hke
      rw [parentAt_eq hge, parentAt_eq he]
    · unfold parentAt
      rw [hgk k hke (Nat.ne_of_lt hk)]
  refine ⟨h.1, ?_, nodup_insertSite h.2.2.1 hnl, ?_, ?_⟩
  · show preorder js1.length js1 r = _
    rw [hlen]
    exact preorder_addLeaf he hleaf hs hjs1 _ _ _ h.2.1
  · show parentAt js1 r = none
    rw [hpar r (hvalid r (preorder_head _ h.2.1))]
    exact h.2.2.2.1
  · intro p hp c hc
    change c ∈ childrenAt js1 p at hc
    show parentAt js1 c = some p
    rcases mem_insertSite.mp hp with hpl | ⟨hpn, _⟩
    · by_cases hpe : p = e
      · subst hpe
        rw [childrenAt_eq hge] at hc
        simp only [hleaf, List.nil_append, List.mem_singleton] at hc
        subst hc
        rw [parentAt_eq hgn]
        exact hsp
      · have hplt := hvalid p hpl
        have hcp : childrenAt js1 p = childrenAt sk.m_joints p := by
          unfold childrenAt
          rw [hgk p hpe (Nat.ne_of_lt hplt)]
        rw [hcp] at hc
        have hback := h.2.2.2.2 p hpl c hc
        rcases parentAt_some hback with ⟨cj, hcj, _⟩
        have hclt : c < sk.m_joints.length := (List.getElem?_eq_some_iff.mp hcj).1
        rw [hpar c hclt]
        exact hback
    · subst hpn
      rw [childrenAt_eq hgn, hs] at hc
      cases hc


/-! ## The second loop of the conversion -/

/-- The walk up from a joint only reads the parent pointers of the joints it
passes, and more fuel does not change it. -/
theorem pathUp_agree {js js1 : List (Joint K)} (N : Nat)
    (hpar : ∀ k, k < N → parentAt js1 k = parentAt js k)
    (hval : ∀ k, k < N → ∀ p, parentAt js k = some p → p < N) :
    ∀ (f k : Nat) (path : List Nat), k < N → pathUp f js k = some path →
      ∀ d, pathUp (f + d) js1 k = some path
  | 0, _, _, _, h, _ => by simp [pathUp] at h
  | f + 1, k, path, hk, h, d => by
    have hfd : f + 1 + d = (f + d) + 1 := by omega
    rw [hfd]
    cases hp : parentAt js k with
    | none =>
      rw [pathUp_succ_none f hp] at h
      rw [pathUp_succ_none _ ((hpar k hk).trans hp)]
      exact h
    | some p =>
      rw [pathUp_succ_some f hp] at h
      rw [pathUp_succ_some _ ((hpar k hk).trans hp)]
      cases hq : pathUp f js p with
      | none => rw [hq] at h; simp at h
      | some path1 =>
        rw [hq] at h
        rw [pathUp_agree N hpar hval f p path1 (hval k hk p hp) hq d]
        exact h

/-- Every joint on the walk up has a parent. -/
theorem pathUp_mem_parent (js : List (Joint K)) :
    ∀ (f e : Nat) (path : List Nat), pathUp f js e = some path → ∀ k ∈ path,
      ∃ p, parentAt js k = some p
  | 0, _, _, h, _, _ => by simp [pathUp] at h
  | f + 1, e, path, h, k, hk => by
    cases hp : parentAt js e with
    | none =>
      rw [pathUp_succ_none f hp] at h
      cases h
      cases hk
    | some p =>
      rw [pathUp_succ_some f hp] at h
      cases hq : pathUp f js p with
      | none => rw [hq] at h; simp at h
      | some path1 =>
        rw [hq] at h
        simp only [Option.map_some', Option.some.injEq] at h
        subst h
        rcases List.mem_cons.mp hk with rfl | hk
        · exact ⟨p, hp⟩
        · exact pathUp_mem_parent js f p path1 hq k hk

theorem idsAreIndices_of_get {js : List (Joint K)}
    (h : ∀ (k : Nat) (j : Joint K), js[k]? = some j → j.m_id = (k : Int)) :
    idsAreIndices js := by
  unfold idsAreIndices
  apply List.ext_getElem?
  intro k
  rw [List.getElem?_map, List.getElem?_map]
  cases hk : js[k]? with
  | none =>
    have hlen : js.length ≤ k := List.getElem?_eq_none_iff.mp hk
    have : (List.range js.length)[k]? = none :=
      List.getElem?_eq_none_iff.mpr (by simpa using hlen)
    rw [this]
    rfl
  | some j =>
    have hlt : k < js.length := (List.getElem?_eq_some_iff.mp hk).1
    rw [List.getElem?_range hlt]
    simp only [Option.map_some', Option.some.injEq]
    exact h k j hk

/-- In a tree that lists every joint, parent pointers are positions of joints. -/
theorem Skeleton.IsTreeWith.parent_lt {sk : Skeleton K} {r : Nat} {l : List Nat}
    (h : sk.IsTreeWith r l) (hspan : ∀ k, k < sk.m_joints.length → k ∈ l)
    {k p : Nat} (hp : parentAt sk.m_joints k = some p) : p < sk.m_joints.length := by
  rcases parentAt_some hp with ⟨j, hj, _⟩
  have hk : k ∈ l := hspan k (List.getElem?_eq_some_iff.mp hj).1
  have hkr : k ≠ r := by
    rintro rfl
    rw [h.2.2.2.1] at hp
    cases hp
  rcases h.parent_mem hk hkr with ⟨q, hq, hkq⟩
  rw [hp] at hkq
  cases hkq
  rcases preorder_valid _ _ _ _ h.2.1 p hq with ⟨pj, hpj⟩
  exact (List.getElem?_eq_some_iff.mp hpj).1

/-- What `touch` leaves alone. -/
theorem touch_fields (root : Option Nat) (js : List (Joint K)) (j : Joint K) :
    (Player.touch root js j).m_pParent = j.m_pParent ∧
    (Player.touch root js j).m_children = j.m_children ∧
    (Player.touch root js j).m_axisRotation = j.m_axisRotation ∧
    (Player.touch root js j).m_translation = j.m_translation ∧
    (Player.touch root js j).m_id = j.m_id := by
  unfold Player.touch
  split <;> exact ⟨rfl, rfl, rfl, rfl, rfl⟩

/-- What `touch` writes into a joint with a parent depends on the parent pointer and
on the bone translation of the parent only. -/
theorem touch_written (root : Option Nat) {js js1 : List (Joint K)} {j j1 : Joint K}
    {p : Nat} (hp : j.m_pParent = some p) (hp1 : j1.m_pParent = some p)
    (h : (js1[p]?).map (fun (j : Joint K) => j.m_translation)
      = (js[p]?).map (fun (j : Joint K) => j.m_translation)) :
    (Player.touch root js1 j1).AMC = false ∧
    (Player.touch root js1 j1).m_local.m_translation
      = (Player.touch root js j).m_local.m_translation := by
  unfold Player.touch
  simp only [hp, hp1]
  refine ⟨trivial, ?_⟩
  cases h1 : js1[p]? with
  | none =>
    rw [h1] at h
    cases h0 : js[p]? with
    | none => rfl
    | some pj => rw [h0] at h; simp at h
  | some pj1 =>
    rw [h1] at h
    cases h0 : js[p]? with
    | none => rw [h0] at h; simp at h
    | some pj =>
      rw [h0] at h
      simp only [Option.map_some', Option.some.injEq] at h
      simp only [h]

theorem touch_rootless (root : Option Nat) (js : List (Joint K)) {j : Joint K}
    (hp : j.m_pParent = none) : Player.touch root js j = j := by
  unfold Player.touch
  rw [hp]

theorem mem_endEffectors {js : List (Joint K)} {e : Nat} :
    e ∈ Player.endEffectors js ↔ e < js.length ∧ childrenAt js e = [] := by
  unfold Player.endEffectors
  simp

theorem nodup_endEffectors (js : List (Joint K)) : (Player.endEffectors js).Nodup :=
  List.Nodup.filter _ (List.nodup_range _)


/-- One round of the second loop keeps `Converting`. -/
theorem convertEndEffector_step (D : K) {sk0 : Skeleton K} {r : Nat} {l : List Nat}
    (ht : sk0.IsTreeWith r l) (hspan : ∀ k, k < sk0.m_joints.length → k ∈ l)
    (skc : Skeleton K) (hroot : skc.m_pRoot = sk0.m_pRoot)
    {done : List Nat} {js : List (Joint K)} {e : Nat} (siteId : Nat)
    (hinv : Player.Converting sk0 r done js) (he : e < sk0.m_joints.length)
    (hleaf : childrenAt sk0.m_joints e = []) (hnd : e ∉ done) :
    ∃ js1, Player.convertEndEffector D { skc with m_joints := js } e siteId
        = some { skc with m_joints := js1 } ∧
      Player.Converting sk0 r (done ++ [e]) js1 := by
  obtain ⟨hlen, hids, ⟨l1, ht1, hspan1⟩, hcore, hsites⟩ := hinv
  obtain ⟨j0e, hj0e⟩ : ∃ j0e, sk0.m_joints[e]? = some j0e :=
    ⟨_, List.getElem?_eq_getElem he⟩
  obtain ⟨je, hje, hjep, hjea, hjet, hjec, hjed⟩ := hcore e j0e hj0e
  have hjeleaf : je.m_children = [] := by
    rw [hjec hnd]
    rw [childrenAt_eq hj0e] at hleaf
    exact hleaf
  have helt : e < js.length := (List.getElem?_eq_some_iff.mp hje).1
  -- the joint list with the site
  obtain ⟨s, hs⟩ : ∃ s, s = Player.siteJoint D je e siteId js.length := ⟨_, rfl⟩
  obtain ⟨hsp, hsc, hsamc, hsloc, hsid, hsch, hsax⟩ :=
    siteJoint_fields D je e siteId js.length
  rw [← hs] at hsp hsc hsamc hsloc hsid hsch hsax
  obtain ⟨jsw, hjsw⟩ : ∃ jsw, jsw = Player.withSite D js je e siteId := ⟨_, rfl⟩
  have hjsw1 : jsw = js.set e { je with m_children := je.m_children ++ [js.length] } ++ [s] := by
    rw [hjsw, hs]
    rfl
  obtain ⟨hwlen, hwe, hwn, hwk⟩ := addLeaf_get hje hjsw1
  have htw : Skeleton.IsTreeWith { sk0 with m_joints := jsw } r (insertSite e js.length l1) :=
    ht1.addLeaf hje (hspan1 e helt) hjeleaf hsc hsp hjsw1
  have hspanw : ∀ k, k < jsw.length → k ∈ insertSite e js.length l1 := by
    intro k hk
    rw [mem_insertSite]
    by_cases hkn : k = js.length
    · exact Or.inr ⟨hkn, hspan1 e helt⟩
    · exact Or.inl (hspan1 k (by omega))
  -- what the site leaves of the joints of `sk0`
  have hw : ∀ (k : Nat) (j0 : Joint K), sk0.m_joints[k]? = some j0 →
      ∃ j jw, js[k]? = some j ∧ jsw[k]? = some jw ∧ jw.m_pParent = j.m_pParent ∧
        jw.m_axisRotation = j.m_axisRotation ∧ jw.m_translation = j.m_translation ∧
        jw.AMC = j.AMC ∧ jw.m_local = j.m_local ∧ jw.m_id = j.m_id ∧
        (k ≠ e → jw.m_children = j.m_children) := by
    intro k j0 hk0
    obtain ⟨j, hj, _⟩ := hcore k j0 hk0
    have hklt : k < js.length := (List.getElem?_eq_some_iff.mp hj).1
    by_cases hke : k = e
    · subst hke
      rw [hje] at hj
      cases hj
      exact ⟨je, _, hje, hwe, rfl, rfl, rfl, rfl, rfl, rfl, fun h => absurd rfl h⟩
    · exact ⟨j, j, hj, by rw [hwk k hke (Nat.ne_of_lt hklt)]; exact hj,
        rfl, rfl, rfl, rfl, rfl, rfl, fun _ => rfl⟩
  have hparw : ∀ k, k < sk0.m_joints.length → parentAt jsw k = parentAt sk0.m_joints k := by
    intro k hk
    obtain ⟨j0, hj0⟩ : ∃ j0, sk0.m_joints[k]? = some j0 := ⟨_, List.getElem?_eq_getElem hk⟩
    obtain ⟨j, jw, hj, hjw, hp, _⟩ := hw k j0 hj0
    obtain ⟨j2, hj2, hp2, _⟩ := hcore k j0 hj0
    rw [hj] at hj2
    cases hj2
    rw [parentAt_eq hjw, parentAt_eq hj0, hp, hp2]
  have hval0 : ∀ k, k < sk0.m_joints.length → ∀ p, parentAt sk0.m_joints k = some p →
      p < sk0.m_joints.length := fun k _ p hp => ht.parent_lt hspan hp
  obtain ⟨path, hpath⟩ := ht.pathUp_some (hspan e he)
  have hpathw : pathUp (js.length + 1) jsw e = some path := by
    have h1 := pathUp_agree sk0.m_joints.length hparw hval0 _ e path he hpath
      (done.length + 1)
    rw [hlen]
    exact h1
  have hvalw : ∀ (k : Nat) (j : Joint K), jsw[k]? = some j → ∀ p, j.m_pParent = some p →
      p < jsw.length := by
    intro k j hk p hp
    exact htw.parent_lt hspanw (show parentAt jsw k = some p by rw [parentAt_eq hk]; exact hp)
  obtain ⟨js1, hconv, hlen1, hget1⟩ := convertAncestors_spec sk0.m_pRoot (js.length + 1) jsw e
    path hpathw (by omega) hvalw
  have hget2 : ∀ (k : Nat) (jw : Joint K), jsw[k]? = some jw →
      js1[k]? = some (if k ∈ path then Player.touch sk0.m_pRoot jsw jw else jw) := by
    intro k jw hk
    rw [hget1 k, hk]
    split <;> rfl
  have hpathlt : ∀ k ∈ path, k < sk0.m_joints.length := by
    intro k hk
    obtain ⟨p, hp⟩ := pathUp_mem_parent _ _ _ _ hpath k hk
    rcases parentAt_some hp with ⟨j, hj, _⟩
    exact (List.getElem?_eq_some_iff.mp hj).1
  refine ⟨js1, ?_, ?_, ?_, ⟨insertSite e js.length l1, ?_, ?_⟩, ?_, ?_⟩
  · rw [convertEndEffector_eq D _ e siteId je hje]
    dsimp only
    rw [hroot, ← hjsw, hconv]
    rfl
  · rw [hlen1, hwlen, hlen, List.length_append]
    simp only [List.length_singleton]
    omega
  · apply idsAreIndices_of_get
    intro k j1 hk1
    have hklt : k < jsw.length := by
      rw [← hlen1]
      exact (List.getElem?_eq_some_iff.mp hk1).1
    obtain ⟨jw, hjw⟩ : ∃ jw, jsw[k]? = some jw := ⟨_, List.getElem?_eq_getElem hklt⟩
    rw [hget2 k jw hjw] at hk1
    have h1 : j1.m_id = jw.m_id := by
      cases hk1
      split
      · exact (touch_fields _ _ _).2.2.2.2
      · rfl
    rw [h1]
    by_cases hke : k = e
    · subst hke
      rw [hwe] at hjw
      cases hjw
      exact (idsAreIndices_get hids hje : je.m_id = _)
    · by_cases hkn : k = js.length
      · subst hkn
        rw [hwn] at hjw
        cases hjw
        exact hsid
      · rw [hwk k hke hkn] at hjw
        exact idsAreIndices_get hids hjw
  · have hst : SameTree jsw js1 := by
      apply SameTree.st_of_get hlen1
      intro k jw hk
      refine ⟨_, hget2 k jw hk, ?_⟩
      split
      · exact touch_links _ _ _
      · rfl
    exact @Skeleton.IsTreeWith.congr K _ _ { sk0 with m_joints := js1 } _ _ htw hst rfl
  · intro k hk
    rw [hlen1] at hk
    exact hspanw k hk
  · intro k j0 hk0
    obtain ⟨j, hj, hp, ha, htr, hch, hd⟩ := hcore k j0 hk0
    obtain ⟨j2, jw, hj2, hjw, hwp, hwa, hwt, hwamc, hwl, _, hwc⟩ := hw k j0 hk0
    rw [hj] at hj2
    cases hj2
    have hklt : k < sk0.m_joints.length := (List.getElem?_eq_some_iff.mp hk0).1
    obtain ⟨ht1, ht2, ht3, ht4, _⟩ := touch_fields sk0.m_pRoot jsw jw
    refine ⟨_, hget2 k jw hjw, ?_, ?_, ?_, ?_, ?_⟩
    · split
      · rw [ht1, hwp, hp]
      · rw [hwp, hp]
    · split
      · rw [ht3, hwa, ha]
      · rw [hwa, ha]
    · split
      · rw [ht4, hwt, htr]
      · rw [hwt, htr]
    · intro hkd
      have hkd1 : k ∉ done := fun h => hkd (List.mem_append_left _ h)
      have hke : k ≠ e := fun h => hkd (List.mem_append_right _ (by simp [h]))
      split
      · rw [ht2, hwc hke, hch hkd1]
      · rw [hwc hke, hch hkd1]
    · intro e1 he1 path1 hpath1 hk1
      by_cases hkp : k ∈ path
      · rw [if_pos hkp]
        obtain ⟨p, hpp⟩ := pathUp_mem_parent _ _ _ _ hpath k hkp
        have hp0 : j0.m_pParent = some p := by
          rw [parentAt_eq hk0] at hpp
          exact hpp
        have hplt := hval0 k hklt p hpp
        obtain ⟨j0p, hj0p⟩ : ∃ j0p, sk0.m_joints[p]? = some j0p :=
          ⟨_, List.getElem?_eq_getElem hplt⟩
        obtain ⟨jp, jwp, hjp, hjwp, _, _, hwpt, _⟩ := hw p j0p hj0p
        obtain ⟨jp2, hjp2, _, _, hptr, _⟩ := hcore p j0p hj0p
        rw [hjp] at hjp2
        cases hjp2
        exact touch_written sk0.m_pRoot hp0 (by rw [hwp, hp, hp0])
          (by rw [hjwp, hj0p]; simp [hwpt, hptr])
      · rw [if_neg hkp]
        rcases List.mem_append.mp he1 with he1 | he1
        · rw [hwamc, hwl]
          exact hd e1 he1 path1 hpath1 hk1
        · simp only [List.mem_singleton] at he1
          subst he1
          rw [hpath] at hpath1
          cases hpath1
          exact absurd hk1 hkp
  · intro i e1 j0e1 hi hj0e1
    have hsite : ∀ (k : Nat) (x : Joint K), sk0.m_joints.length ≤ k → jsw[k]? = some x →
        js1[k]? = some x := by
      intro k x hk hx
      rw [hget2 k x hx, if_neg (fun h => Nat.lt_irrefl _ (Nat.lt_of_lt_of_le (hpathlt k h) hk))]
    have hkeep : ∀ (k : Nat) (x : Joint K), jsw[k]? = some x →
        ∃ x1, js1[k]? = some x1 ∧ x1.m_children = x.m_children := by
      intro k x hx
      refine ⟨_, hget2 k x hx, ?_⟩
      split
      · exact (touch_fields _ _ _).2.1
      · rfl
    by_cases hid : i < done.length
    · rw [List.getElem?_append_left hid] at hi
      obtain ⟨s1, je1, hs1, hje1, hch1, hrest⟩ := hsites i e1 j0e1 hi hj0e1
      have he1d : e1 ∈ done := List.getElem?_mem hi
      have he1e : e1 ≠ e := fun h => hnd (h ▸ he1d)
      have he1lt : e1 < sk0.m_joints.length := (List.getElem?_eq_some_iff.mp hj0e1).1
      have hw1 : jsw[sk0.m_joints.length + i]? = some s1 := by
        rw [hwk _ (by omega) (by omega)]
        exact hs1
      have hw2 : jsw[e1]? = some je1 := by
        rw [hwk e1 he1e (by omega)]
        exact hje1
      obtain ⟨x1, hx1, hxc⟩ := hkeep e1 je1 hw2
      exact ⟨s1, x1, hsite _ s1 (Nat.le_add_right _ _) hw1, hx1, hxc.trans hch1, hrest⟩
    · have hidx : i = done.length := by
        rcases Nat.lt_or_ge done.length i with h | h
        · have hnone : (done ++ [e])[i]? = none :=
            List.getElem?_eq_none_iff.mpr (by simp; omega)
          rw [hnone] at hi
          cases hi
        · omega
      subst hidx
      rw [List.getElem?_append_right (Nat.le_refl _)] at hi
      simp only [Nat.sub_self, List.getElem?_cons_zero, Option.some.injEq] at hi
      subst hi
      rw [hj0e] at hj0e1
      cases hj0e1
      obtain ⟨x1, hx1, hxc⟩ := hkeep e _ hwe
      have hsn : jsw[sk0.m_joints.length + done.length]? = some s := by
        rw [← hlen]
        exact hwn
      refine ⟨s, x1, hsite _ s (Nat.le_add_right _ _) hsn, hx1, ?_, hsp, hsc, hsamc, ?_,
        hsch, hsax⟩
      · rw [hxc]
        show je.m_children ++ [js.length] = _
        rw [hjec hnd, hlen]
      · rw [hsloc, hjet]


/-- The second loop of `Player::ConvertAMC2BVH` returns and keeps `Converting`. -/
theorem convertEndEffectors_loop (D : K) {sk0 : Skeleton K} {r : Nat} {l : List Nat}
    (ht : sk0.IsTreeWith r l) (hspan : ∀ k, k < sk0.m_joints.length → k ∈ l)
    (skc : Skeleton K) (hroot : skc.m_pRoot = sk0.m_pRoot) :
    ∀ (rest done : List Nat) (js : List (Joint K)) (siteId : Nat),
      Player.Converting sk0 r done js →
      (∀ e ∈ rest, e < sk0.m_joints.length ∧ childrenAt sk0.m_joints e = [] ∧ e ∉ done) →
      rest.Nodup →
      ∃ js1, Player.convertEndEffectors D { skc with m_joints := js } rest siteId
          = some { skc with m_joints := js1 } ∧
        Player.Converting sk0 r (done ++ rest) js1
  | [], done, js, siteId, hinv, _, _ => by
    refine ⟨js, rfl, ?_⟩
    rw [List.append_nil]
    exact hinv
  | e :: rest, done, js, siteId, hinv, hrest, hnd => by
    obtain ⟨he, hleaf, hed⟩ := hrest e (List.mem_cons_self _ _)
    obtain ⟨js1, hrun, hinv1⟩ := convertEndEffector_step D ht hspan skc hroot siteId hinv he
      hleaf hed
    rw [List.nodup_cons] at hnd
    obtain ⟨js2, hrun2, hinv2⟩ := convertEndEffectors_loop D ht hspan skc hroot rest
      (done ++ [e]) js1 (siteId + 1) hinv1
      (by
        intro x hx
        obtain ⟨h1, h2, h3⟩ := hrest x (List.mem_cons_of_mem _ hx)
        refine ⟨h1, h2, ?_⟩
        intro hmem
        rcases List.mem_append.mp hmem with h | h
        · exact h3 h
        · simp only [List.mem_singleton] at h
          subst h
          exact hnd.1 hx)
      hnd.2
    refine ⟨js2, ?_, ?_⟩
    · rw [Player.convertEndEffectors, hrun]
      exact hrun2
    · rw [List.append_assoc] at hinv2
      exact hinv2

/-- The skeleton that `Player::ConvertAMC2BVH` builds from a well-formed skeleton:
the first two loops return, and the joints are in the state `Converting` for all
end effectors. -/
theorem convertEndEffectors_spec (D : K) (sk0 : Skeleton K) (r : Nat) (l : List Nat)
    (hwf : sk0.WellFormed r l) :
    ∃ js1, Player.convertEndEffectors D { sk0 with AMC := false }
        (Player.endEffectors sk0.m_joints) 0
          = some { sk0 with AMC := false, m_joints := js1 } ∧
      Player.Converting sk0 r (Player.endEffectors sk0.m_joints) js1 := by
  obtain ⟨ht, hspan, hids⟩ := hwf
  have hspan1 : ∀ k, k < sk0.m_joints.length → k ∈ l :=
    fun k hk => hspan k (List.mem_range.mpr hk)
  have hinv : Player.Converting sk0 r [] sk0.m_joints := by
    refine ⟨rfl, hids, ⟨l, ht, hspan1⟩, ?_, ?_⟩
    · intro k j0 hk
      exact ⟨j0, hk, rfl, rfl, rfl, fun _ => rfl, fun e he => absurd he (List.not_mem_nil _)⟩
    · intro i e j0e hi
      simp at hi
  obtain ⟨js1, hrun, hinv1⟩ := convertEndEffectors_loop D ht hspan1 { sk0 with AMC := false }
    rfl (Player.endEffectors sk0.m_joints) [] sk0.m_joints 0 hinv
    (fun e he => ⟨(mem_endEffectors.mp he).1, (mem_endEffectors.mp he).2,
      List.not_mem_nil _⟩)
    (nodup_endEffectors _)
  exact ⟨js1, hrun, by simpa using hinv1⟩

/-! ## The third loop of the conversion -/

/-- The inner loop over the joints from position `j` on: the root translation and
the rotations below `j` stay, and position `j + i` gets the conjugated rotation of
the old frame, or the identity where the old frame has none. -/
theorem convertRotations_spec (frame : Frame K) :
    ∀ (joints : List (Joint K)) (j : Nat) (nf : Frame K),
      j + joints.length ≤ nf.m_rotationData.length →
      ∃ nf1, Player.convertRotations frame joints j nf = some nf1 ∧
        nf1.m_rootTranslation = nf.m_rootTranslation ∧
        nf1.m_rotationData.length = nf.m_rotationData.length ∧
        (∀ i, i < j → nf1.m_rotationData[i]? = nf.m_rotationData[i]?) ∧
        ∀ (i : Nat) (joint : Joint K), joints[i]? = some joint →
          nf1.m_rotationData[j + i]? = some
            (((frame.m_rotationData[j + i]?).map
              (fun rot => joint.m_axisRotation * rot * joint.m_axisRotation.Transpose)).getD
              identity3D)
  | [], j, nf, _ => ⟨nf, rfl, rfl, rfl, fun _ _ => rfl, fun i joint h => by simp at h⟩
  | joint :: rest, j, nf, hlen => by
    have hj : j < nf.m_rotationData.length := by
      simp only [List.length_cons] at hlen
      omega
    obtain ⟨R, hR⟩ : ∃ R, R = ((frame.m_rotationData[j]?).map
        (fun rot => joint.m_axisRotation * rot * joint.m_axisRotation.Transpose)).getD
        identity3D := ⟨_, rfl⟩
    have hstep : Player.convertRotations frame (joint :: rest) j nf
        = Player.convertRotations frame rest (j + 1)
            { nf with m_rotationData := nf.m_rotationData.set j R } := by
      rw [Player.convertRotations]
      by_cases hjf : j < frame.GetNumJoints
      · obtain ⟨rot, h1⟩ : ∃ rot, frame.m_rotationData[j]? = some rot :=
          ⟨_, List.getElem?_eq_getElem hjf⟩
        rw [if_pos hjf, h1]
        dsimp only
        rw [SetJointRotation_nat nf j _ hj, hR, h1]
        rfl
      · have h1 : frame.m_rotationData[j]? = none :=
          List.getElem?_eq_none_iff.mpr (Nat.le_of_not_lt hjf)
        rw [if_neg hjf]
        rw [SetJointRotation_nat nf j _ hj, hR, h1]
        rfl
    obtain ⟨nf1, hrun, hroot, hlen1, hlow, hhigh⟩ := convertRotations_spec frame rest (j + 1)
      { nf with m_rotationData := nf.m_rotationData.set j R }
      (by simp only [List.length_set, List.length_cons] at hlen ⊢; omega)
    refine ⟨nf1, hstep.trans hrun, hroot, by rw [hlen1]; simp, ?_, ?_⟩
    · intro i hi
      rw [hlow i (by omega)]
      exact List.getElem?_set_ne (by omega)
    · intro i joint1 hi
      cases i with
      | zero =>
        simp only [List.getElem?_cons_zero, Option.some.injEq] at hi
        subst hi
        rw [Nat.add_zero, hlow j (by omega), ← hR]
        exact List.getElem?_set_self hj
      | succ i =>
        simp only [List.getElem?_cons_succ] at hi
        have h := hhigh i joint1 hi
        have hidx : j + (i + 1) = j + 1 + i := by omega
        rw [hidx]
        exact h

/-- The converted frame: it has one rotation per joint of the converted skeleton,
the root translation of the old frame, and at each position the conjugated rotation
of the old frame, or the identity where the old frame has none. -/
theorem convertFrame_spec (skeleton : Skeleton K) (frame : Frame K) :
    ∃ nf, Player.convertFrame skeleton frame = some nf ∧
      nf.m_rootTranslation = frame.m_rootTranslation ∧
      nf.GetNumJoints = skeleton.m_joints.length ∧
      ∀ (i : Nat) (joint : Joint K), skeleton.m_joints[i]? = some joint →
        nf.m_rotationData[i]? = some
          (((frame.m_rotationData[i]?).map
            (fun rot => joint.m_axisRotation * rot * joint.m_axisRotation.Transpose)).getD
            identity3D) := by
  obtain ⟨nf0, hnf0⟩ : ∃ nf0 : Frame K, nf0 =
      (({ m_rootTranslation := axisZero, m_rotationData := [] } : Frame K).SetNumJoints
        skeleton.m_joints.length).SetRootTranslation frame.m_rootTranslation := ⟨_, rfl⟩
  have hlen0 : nf0.m_rotationData.length = skeleton.m_joints.length := by
    rw [hnf0]
    simp [Frame.SetNumJoints, Frame.SetRootTranslation]
  have hroot0 : nf0.m_rootTranslation = frame.m_rootTranslation := by
    rw [hnf0]
    rfl
  obtain ⟨nf, hrun, hroot, hlen, _, hhigh⟩ := convertRotations_spec frame skeleton.m_joints 0
    nf0 (by omega)
  refine ⟨nf, ?_, hroot.trans hroot0, by unfold Frame.GetNumJoints; rw [hlen, hlen0], ?_⟩
  · unfold Player.convertFrame
    dsimp only
    rw [← hnf0]
    exact hrun
  · intro i joint hi
    have h := hhigh i joint hi
    rw [Nat.zero_add] at h
    exact h


/-! ## The global transforms after `ReadFromFrame`, under either convention -/

theorem Transform.mul_rotation (a b : Transform K) :
    (a * b).m_rotation = a.m_rotation * b.m_rotation := rfl

theorem Transform.mul_translation (a b : Transform K) :
    (a * b).m_translation = a.m_translation + a.m_rotation * b.m_translation := rfl

/-- The global transforms that `Skeleton::ReadFromFrame` leaves on a tree whose ids
are positions.  The joint without parent is the root and gets the root translation
of the frame, scaled, and its rotation of the frame.  A joint with parent `q` gets
the global rotation of `q` times its local rotation, which under AMC is the frame's
rotation conjugated by the axis rotation; under AMC it is placed at the end of its
bone, under BVH at its local translation from `q`. -/
theorem ReadFromFrame_globals (sk : Skeleton K) (r : Nat) (l : List Nat) (f : Frame K)
    (ht : sk.IsTreeWith r l) (hid : idsAreIndices sk.m_joints)
    (hn : f.GetNumJoints = sk.m_joints.length) :
    ∃ sk1, sk.ReadFromFrame f = some sk1 ∧
      sk1.m_joints.length = sk.m_joints.length ∧
      ∀ k ∈ l, ∀ (j : Joint K), sk.m_joints[k]? = some j →
        ∃ rot g, f.m_rotationData[k]? = some rot ∧ sk1.m_joints[k]? = some g ∧
          (j.m_pParent = none →
            k = r ∧ g.m_global = ⟨f.m_rootTranslation * sk.mScale, rot⟩) ∧
          ∀ q, j.m_pParent = some q → ∃ gq, sk1.m_joints[q]? = some gq ∧
            (j.AMC = true →
              g.m_global.m_rotation = gq.m_global.m_rotation *
                (j.m_axisRotation * rot * j.m_axisRotation.Transpose) ∧
              g.m_global.m_translation = gq.m_global.m_translation +
                g.m_global.m_rotation * j.m_translation) ∧
            (j.AMC = false →
              g.m_global.m_rotation = gq.m_global.m_rotation * rot ∧
              g.m_global.m_translation = gq.m_global.m_translation +
                gq.m_global.m_rotation * j.m_local.m_translation) := by
  obtain ⟨sk1, hrun, _, hlen, _, _, hget, hfk⟩ := ReadFromFrame_spec sk r l f ht hid hn
  refine ⟨sk1, hrun, hlen, ?_⟩
  intro k hk j hj
  obtain ⟨rot, g, hrot, hg, hc⟩ := hget k j hj
  obtain ⟨g2, hg2, hfk2⟩ := hfk k hk
  rw [hg] at hg2
  cases hg2
  have hgp : g.m_pParent = j.m_pParent := by
    rw [clearGlobal_parent hc, posedJoint_parent]
  have hgl : g.m_local = (sk.posedJoint f r k j rot).m_local := clearGlobal_local hc
  refine ⟨rot, g, hrot, hg, ?_, ?_⟩
  · intro hp
    have hkr : k = r := by
      by_contra hne
      rcases ht.parent_mem hk hne with ⟨q, _, hq⟩
      rw [parentAt_eq hj, hp] at hq
      cases hq
    refine ⟨hkr, ?_⟩
    rw [hgp, hp] at hfk2
    dsimp only at hfk2
    rw [hfk2, hgl]
    unfold Skeleton.posedJoint
    rw [if_pos hkr, SetLocalRotation_bvh (j.SetLocalTranslation _) rot (Or.inr hp)]
    rfl
  · intro q hq
    have hkr : k ≠ r := by
      rintro rfl
      have := ht.2.2.2.1
      rw [parentAt_eq hj, hq] at this
      cases this
    rw [hgp, hq] at hfk2
    dsimp only at hfk2
    obtain ⟨gq, hgq, hglob⟩ := hfk2
    have hposed : sk.posedJoint f r k j rot = j.SetLocalRotation rot := by
      unfold Skeleton.posedJoint
      rw [if_neg hkr]
    rw [hposed] at hgl
    refine ⟨gq, hgq, ?_, ?_⟩
    · intro hamc
      rw [SetLocalRotation_amc j rot hamc (by rw [hq]; simp)] at hgl
      have h1 : g.m_global.m_rotation = gq.m_global.m_rotation *
          (j.m_axisRotation * rot * j.m_axisRotation.Transpose) := by
        rw [hglob, Transform.mul_rotation, hgl]
      refine ⟨h1, ?_⟩
      rw [h1, hglob, Transform.mul_translation, hgl]
      exact congrArg (fun v => gq.m_global.m_translation + v)
        (mat3.mulVec_mulVec gq.m_global.m_rotation
          (j.m_axisRotation * rot * j.m_axisRotation.Transpose) j.m_translation).symm
    · intro hbvh
      rw [SetLocalRotation_bvh j rot (Or.inl hbvh)] at hgl
      rw [hglob, Transform.mul_rotation, Transform.mul_translation, hgl]
      exact ⟨rfl, rfl⟩

theorem parentsFirst_induction (js : List (Joint K)) (P : Nat → Prop)
    (step : ∀ (k : Nat) (j : Joint K), js[k]? = some j →
      (∀ p, j.m_pParent = some p → P p) → P k) :
    ∀ (l seen : List Nat), parentsFirst js seen l → (∀ s ∈ seen, P s) → ∀ k ∈ l, P k
  | [], _, _, _, _, hk => absurd hk (List.not_mem_nil _)
  | x :: rest, seen, h, hseen, k, hk => by
    obtain ⟨_, ⟨j, hj, hpar⟩, hrest⟩ := h
    have hx : P x := step x j hj (fun p hp => hseen p (hpar p hp))
    rcases List.mem_cons.mp hk with rfl | hk
    · exact hx
    · apply parentsFirst_induction js P step rest (x :: seen) hrest _ k hk
      intro s hs
      rcases List.mem_cons.mp hs with rfl | hs
      · exact hx
      · exact hseen s hs


theorem touch_local_translation (root : Option Nat) {js : List (Joint K)} {j pj : Joint K}
    {p : Nat} (hp : j.m_pParent = some p) (hpj : js[p]? = some pj) :
    (Player.touch root js j).m_local.m_translation
      = if some p = root then axisZero else pj.m_translation := by
  unfold Player.touch
  simp only [hp, hpj]

/-! ## The converted skeleton against the original -/

/-- The poses of the converted skeleton and of the original one.  Every joint of the
original skeleton has, once the converted skeleton has read the converted frame, the
global rotation that it has once the original skeleton has read the original frame;
the root has the same global translation too, and every other joint has the global
translation that its parent has in the original pose. -/
theorem convert_globals (sk0 : Skeleton K) (r : Nat) (l : List Nat) (f : Frame K)
    (hwf : sk0.WellFormed r l) (hamc : ∀ j ∈ sk0.m_joints, j.AMC = true)
    (hroot : ∀ root, sk0.m_joints[r]? = some root → root.m_axisRotation = identity3D)
    (hn : f.GetNumJoints = sk0.m_joints.length)
    {js1 : List (Joint K)}
    (hconv : Player.Converting sk0 r (Player.endEffectors sk0.m_joints) js1)
    {f1 : Frame K}
    (hf1 : Player.convertFrame { sk0 with AMC := false, m_joints := js1 } f = some f1) :
    ∀ k, k < sk0.m_joints.length →
      ∃ g g1, sk0.globalAfter f k = some g ∧
        Skeleton.globalAfter { sk0 with AMC := false, m_joints := js1 } f1 k = some g1 ∧
        g1.m_rotation = g.m_rotation ∧
        (k = r → g1.m_translation = g.m_translation) ∧
        ∀ q, parentAt sk0.m_joints k = some q →
          ∃ gq, sk0.globalAfter f q = some gq ∧ g1.m_translation = gq.m_translation := by
  obtain ⟨ht, hspan0, hids⟩ := hwf
  have hspan : ∀ k, k < sk0.m_joints.length → k ∈ l :=
    fun k hk => hspan0 k (List.mem_range.mpr hk)
  obtain ⟨hlen1, hids1, ⟨l1, ht1, hspan1⟩, hcore, _⟩ := hconv
  have htc : Skeleton.IsTreeWith { sk0 with AMC := false, m_joints := js1 } r l1 :=
    @Skeleton.IsTreeWith.congr K _ _ { sk0 with AMC := false, m_joints := js1 } _ _ ht1
      (SameTree.st_refl _) rfl
  -- the converted frame
  obtain ⟨nf, hnf, hf1root, hf1n, hf1rot⟩ :=
    convertFrame_spec { sk0 with AMC := false, m_joints := js1 } f
  rw [hf1] at hnf
  cases hnf
  -- the two poses
  obtain ⟨skA, hrunA, hlenA, hA⟩ := ReadFromFrame_globals sk0 r l f ht hids hn
  obtain ⟨skB, hrunB, hlenB, hB⟩ := ReadFromFrame_globals
    { sk0 with AMC := false, m_joints := js1 } r l1 f1 htc hids1 hf1n
  have hmain : ∀ k ∈ l, ∀ (j0 : Joint K), sk0.m_joints[k]? = some j0 →
      ∃ g g1, skA.m_joints[k]? = some g ∧ skB.m_joints[k]? = some g1 ∧
        g1.m_global.m_rotation = g.m_global.m_rotation ∧
        (j0.m_pParent = none → g1.m_global.m_translation = g.m_global.m_translation) ∧
        ∀ q, j0.m_pParent = some q → ∃ gq, skA.m_joints[q]? = some gq ∧
          g1.m_global.m_translation = gq.m_global.m_translation := by
    refine parentsFirst_induction sk0.m_joints
      (fun k => ∀ (j0 : Joint K), sk0.m_joints[k]? = some j0 →
        ∃ g g1, skA.m_joints[k]? = some g ∧ skB.m_joints[k]? = some g1 ∧
          g1.m_global.m_rotation = g.m_global.m_rotation ∧
          (j0.m_pParent = none → g1.m_global.m_translation = g.m_global.m_translation) ∧
          ∀ q, j0.m_pParent = some q → ∃ gq, skA.m_joints[q]? = some gq ∧
            g1.m_global.m_translation = gq.m_global.m_translation)
      ?_ l [] ht.parents_first (fun s hs => absurd hs (List.not_mem_nil _))
    intro k j0 hj0 ih j0' hj0'
    rw [hj0] at hj0'
    cases hj0'
    have hklt : k < sk0.m_joints.length := (List.getElem?_eq_some_iff.mp hj0).1
    have hkl : k ∈ l := hspan k hklt
    obtain ⟨rot, g, hrot, hg, hAnone, hAsome⟩ := hA k hkl j0 hj0
    obtain ⟨j1c, hj1c, hp1, ha1, _, _, htouched⟩ := hcore k j0 hj0
    have hkl1 : k ∈ l1 := hspan1 k (by omega)
    obtain ⟨rot1, g1, hrot1, hg1, hBnone, hBsome⟩ := hB k hkl1 j1c hj1c
    have hrot1v : rot1 = j0.m_axisRotation * rot * j0.m_axisRotation.Transpose := by
      have h := hf1rot k j1c hj1c
      rw [hrot1, hrot, ha1] at h
      exact Option.some.inj h
    refine ⟨g, g1, hg, hg1, ?_⟩
    cases hpar : j0.m_pParent with
    | none =>
      obtain ⟨hkr, hgA⟩ := hAnone hpar
      obtain ⟨_, hgB⟩ := hBnone (hp1.trans hpar)
      have hax : j0.m_axisRotation = identity3D := hroot j0 (hkr ▸ hj0)
      have hrr : rot1 = rot := by
        rw [hrot1v, hax, mat3.transpose_identity, mat3.mul_one, mat3.one_mul]
      have hgg : g1.m_global = g.m_global := by
        rw [hgA, hgB, hf1root, hrr]
      rw [hgg]
      exact ⟨rfl, fun _ => rfl, fun q hq => by cases hq⟩
    | some q =>
      obtain ⟨gq, hgq, hAamc, _⟩ := hAsome q hpar
      obtain ⟨hgr, _⟩ := hAamc (hamc j0 (List.getElem?_mem hj0))
      obtain ⟨g1q, hg1q, _, hBbvh⟩ := hBsome q (hp1.trans hpar)
      -- the joint lies on the way up from an end effector
      obtain ⟨e, hel, hleaf, path, hpath, hkpath⟩ :=
        ht.on_leaf_path hkl (show parentAt sk0.m_joints k = some q by
          rw [parentAt_eq hj0]; exact hpar)
      have heE : e ∈ Player.endEffectors sk0.m_joints := by
        rw [mem_endEffectors]
        rcases preorder_valid _ _ _ _ ht.2.1 e hel with ⟨je, hje⟩
        exact ⟨(List.getElem?_eq_some_iff.mp hje).1, hleaf⟩
      obtain ⟨hbvh, hloc⟩ := htouched e heE path hpath hkpath
      obtain ⟨hg1r, hg1t⟩ := hBbvh hbvh
      -- the parent
      have hqlt : q < sk0.m_joints.length := by
        rw [← hlenA]
        exact (List.getElem?_eq_some_iff.mp hgq).1
      obtain ⟨j0q, hj0q⟩ : ∃ j0q, sk0.m_joints[q]? = some j0q :=
        ⟨_, List.getElem?_eq_getElem hqlt⟩
      obtain ⟨gq2, g1q2, hgq2, hg1q2, hqrot, hqnone, hqsome⟩ := ih q hpar j0q hj0q
      rw [hgq] at hgq2
      cases hgq2
      rw [hg1q] at hg1q2
      cases hg1q2
      rw [touch_local_translation sk0.m_pRoot hpar hj0q] at hloc
      refine ⟨?_, (fun h => by cases h), ?_⟩
      · rw [hg1r, hqrot, hgr, hrot1v]
      · intro q1 hq1
        cases hq1
        refine ⟨gq, hgq, ?_⟩
        rw [hg1t, hloc]
        by_cases hqr : q = r
        · have hq0 : j0q.m_pParent = none := by
            have := ht.2.2.2.1
            rw [← hqr, parentAt_eq hj0q] at this
            exact this
          rw [if_pos (by rw [ht.1, hqr]), mat3.mulVec_zero, vec3.add_zero]
          exact hqnone hq0
        · have hne : ¬ (some q = sk0.m_pRoot) := by
            rw [ht.1]
            intro h
            exact hqr (Option.some.inj h)
          rw [if_neg hne]
          obtain ⟨qq, _, hqq⟩ := ht.parent_mem (hspan q hqlt) hqr
          rw [parentAt_eq hj0q] at hqq
          obtain ⟨gqq, hgqq, hg1qt⟩ := hqsome qq hqq
          obtain ⟨rotq, gq3, _, hgq3, _, hAsomeq⟩ := hA q (hspan q hqlt) j0q hj0q
          rw [hgq] at hgq3
          cases hgq3
          obtain ⟨gqq2, hgqq2, hAamcq, _⟩ := hAsomeq qq hqq
          rw [hgqq] at hgqq2
          cases hgqq2
          obtain ⟨_, hgqt⟩ := hAamcq (hamc j0q (List.getElem?_mem hj0q))
          rw [hg1qt, hqrot, hgqt]
  intro k hk
  obtain ⟨j0, hj0⟩ : ∃ j0, sk0.m_joints[k]? = some j0 := ⟨_, List.getElem?_eq_getElem hk⟩
  obtain ⟨g, g1, hg, hg1, hrot, hnone, hsome⟩ := hmain k (hspan k hk) j0 hj0
  have hglobA : ∀ (i : Nat) (x : Joint K), skA.m_joints[i]? = some x →
      sk0.globalAfter f i = some x.m_global := by
    intro i x hx
    unfold Skeleton.globalAfter
    rw [hrunA]
    simp [hx]
  refine ⟨g.m_global, g1.m_global, hglobA k g hg, ?_, hrot, ?_, ?_⟩
  · unfold Skeleton.globalAfter
    rw [hrunB]
    simp [hg1]
  · intro hkr
    apply hnone
    have := ht.2.2.2.1
    rw [← hkr, parentAt_eq hj0] at this
    exact this
  · intro q hq
    rw [parentAt_eq hj0] at hq
    obtain ⟨gq, hgq, ht1⟩ := hsome q hq
    exact ⟨gq.m_global, hglobA q gq hgq, ht1⟩


/-- A function that returns on every element of a list can be mapped over it. -/
theorem mapM_option_total {α β : Type} (g : α → Option β) :
    ∀ (xs : List α), (∀ x ∈ xs, ∃ y, g x = some y) →
      ∃ ys, xs.mapM g = some ys ∧
        ∀ (i : Nat) (x : α), xs[i]? = some x → ∃ y, ys[i]? = some y ∧ g x = some y
  | [], _ => ⟨[], rfl, fun i x h => by simp at h⟩
  | x :: xs, h => by
    obtain ⟨y, hy⟩ := h x (List.mem_cons_self _ _)
    obtain ⟨ys, hys, hget⟩ := mapM_option_total g xs
      (fun z hz => h z (List.mem_cons_of_mem _ hz))
    refine ⟨y :: ys, ?_, ?_⟩
    · rw [List.mapM_cons, hy, hys]
      rfl
    · intro i z hz
      cases i with
      | zero =>
        simp only [List.getElem?_cons_zero, Option.some.injEq] at hz
        subst hz
        exact ⟨y, List.getElem?_cons_zero, hy⟩
      | succ i =>
        simp only [List.getElem?_cons_succ] at hz ⊢
        exact hget i z hz

/-- What `Player::ConvertAMC2BVH` returns on a player whose skeleton satisfies the
data-model invariants: the skeleton marked BVH with the joints in the state
`Converting` for all end effectors, and frame by frame the converted frames. -/
theorem ConvertAMC2BVH_some (D : K) (p : Player K) (r : Nat) (l : List Nat)
    (hwf : p.m_skeleton.WellFormed r l) :
    ∃ js1 frames, Player.ConvertAMC2BVH D p
        = some { m_skeleton := { p.m_skeleton with AMC := false, m_joints := js1 },
                 m_motion := { p.m_motion with m_keyFrames := frames } } ∧
      Player.Converting p.m_skeleton r (Player.endEffectors p.m_skeleton.m_joints) js1 ∧
      ∀ (i : Nat) (f : Frame K), p.m_motion.m_keyFrames[i]? = some f →
        ∃ f1, frames[i]? = some f1 ∧
          Player.convertFrame { p.m_skeleton with AMC := false, m_joints := js1 } f
            = some f1 := by
  obtain ⟨js1, hrun, hconv⟩ := convertEndEffectors_spec D p.m_skeleton r l hwf
  obtain ⟨frames, hframes1, hget⟩ := mapM_option_total
    (Player.convertFrame { p.m_skeleton with AMC := false, m_joints := js1 })
    p.m_motion.m_keyFrames
    (fun f _ => by
      obtain ⟨nf, hnf, _⟩ :=
        convertFrame_spec { p.m_skeleton with AMC := false, m_joints := js1 } f
      exact ⟨nf, hnf⟩)
  refine ⟨js1, frames, ?_, hconv, hget⟩
  unfold Player.ConvertAMC2BVH
  simp only [hrun, hframes1]

end ConvertLemmas

/-! ## C7: the pose of the converted skeleton against the original pose -/

section C7

variable {K : Type} [CommRing K]

/-- C7 as stated fails on the leg: the skeleton is a tree of all its joints with ids
equal to positions, all joints are AMC joints, the root axis is the identity, and
the frame has the skeleton's joint count; in the original pose the femur stands at
(1,-2,0), in the converted pose at (1,0,0), where the root is. -/
theorem C7_counterexample :
    (exLegPlayer : Player ℤ).m_skeleton.WellFormed 0 [0, 1, 2] ∧
    (∀ j ∈ (exLegPlayer : Player ℤ).m_skeleton.m_joints, j.AMC = true) ∧
    ((exLegPlayer : Player ℤ).m_skeleton.m_joints[0]?).map (fun j => j.m_axisRotation)
      = some identity3D ∧
    (∀ f ∈ (exLegPlayer : Player ℤ).m_motion.m_keyFrames,
      f.GetNumJoints = (exLegPlayer : Player ℤ).m_skeleton.m_joints.length) ∧
    ((exLegPlayer : Player ℤ).globalAt 0 1).map (fun g => g.m_translation)
      = some ⟨1, -2, 0⟩ ∧
    ((Player.ConvertAMC2BVH 0 (exLegPlayer : Player ℤ)).bind
        (fun p1 => p1.globalAt 0 1)).map (fun g => g.m_translation)
      = some ⟨1, 0, 0⟩ := by
  decide!

/-- C7, amended.  For a player whose skeleton satisfies the data-model invariants
(a tree of all its joints from the root `r`, ids equal to positions), whose joints
are all AMC joints, whose root has the identity as axis rotation, and whose frames
have the skeleton's joint count, `Player::ConvertAMC2BVH` returns, and for every
frame `i` and every joint `k` of the original skeleton: the global rotation of `k`
in the converted pose (converted skeleton reading converted frame `i`) equals its
global rotation in the original pose; the root has the same global translation in
both; and a joint with parent `q` has in the converted pose the global translation
that `q` has in the original pose. -/
theorem C7_ConvertAMC2BVH_globals (D : K) (p : Player K) (r : Nat) (l : List Nat)
    (hwf : p.m_skeleton.WellFormed r l)
    (hamc : ∀ j ∈ p.m_skeleton.m_joints, j.AMC = true)
    (hroot : ∀ root, p.m_skeleton.m_joints[r]? = some root →
      root.m_axisRotation = identity3D)
    (hframes : ∀ f ∈ p.m_motion.m_keyFrames,
      f.GetNumJoints = p.m_skeleton.m_joints.length) :
    ∃ p1, Player.ConvertAMC2BVH D p = some p1 ∧
      ∀ (i k : Nat), i < p.m_motion.m_keyFrames.length → k < p.m_skeleton.m_joints.length →
        ∃ g g1, p.globalAt i k = some g ∧ p1.globalAt i k = some g1 ∧
          g1.m_rotation = g.m_rotation ∧
          (k = r → g1.m_translation = g.m_translation) ∧
          ∀ q, parentAt p.m_skeleton.m_joints k = some q →
            ∃ gq, p.globalAt i q = some gq ∧ g1.m_translation = gq.m_translation := by
  obtain ⟨js1, frames, hrun, hconv, hget⟩ := ConvertAMC2BVH_some D p r l hwf
  refine ⟨_, hrun, ?_⟩
  intro i k hi hk
  obtain ⟨f, hf⟩ : ∃ f, p.m_motion.m_keyFrames[i]? = some f :=
    ⟨_, List.getElem?_eq_getElem hi⟩
  obtain ⟨f1, hf1, hconvf⟩ := hget i f hf
  obtain ⟨g, g1, hg, hg1, h1, h2, h3⟩ := convert_globals p.m_skeleton r l f hwf hamc hroot
    (hframes f (List.getElem?_mem hf)) hconv hconvf k hk
  refine ⟨g, g1, ?_, ?_, h1, h2, ?_⟩
  · unfold Player.globalAt
    rw [hf]
    exact hg
  · unfold Player.globalAt
    simp only [hf1, Option.some_bind]
    exact hg1
  · intro q hq
    obtain ⟨gq, hgq, ht⟩ := h3 q hq
    refine ⟨gq, ?_, ht⟩
    unfold Player.globalAt
    rw [hf]
    exact hgq

/-- C7, amended, at the leg: the conversion returns and the three joints keep their
global rotations; the femur and the tibia move to where the root and the femur
were. -/
theorem C7_ConvertAMC2BVH_globals_witness :
    (exLegPlayer : Player ℤ).m_skeleton.WellFormed 0 [0, 1, 2] ∧
    (∀ j ∈ (exLegPlayer : Player ℤ).m_skeleton.m_joints, j.AMC = true) ∧
    (∀ f ∈ (exLegPlayer : Player ℤ).m_motion.m_keyFrames,
      f.GetNumJoints = (exLegPlayer : Player ℤ).m_skeleton.m_joints.length) ∧
    ∃ p1, Player.ConvertAMC2BVH 0 (exLegPlayer : Player ℤ) = some p1 ∧
      ∀ (i k : Nat), i < (exLegPlayer : Player ℤ).m_motion.m_keyFrames.length →
        k < (exLegPlayer : Player ℤ).m_skeleton.m_joints.length →
        ∃ g g1, (exLegPlayer : Player ℤ).globalAt i k = some g ∧
          p1.globalAt i k = some g1 ∧
          g1.m_rotation = g.m_rotation ∧
          (k = 0 → g1.m_translation = g.m_translation) ∧
          ∀ q, parentAt (exLegPlayer : Player ℤ).m_skeleton.m_joints k = some q →
            ∃ gq, (exLegPlayer : Player ℤ).globalAt i q = some gq ∧
              g1.m_translation = gq.m_translation :=
  ⟨by decide, by decide, by decide,
    C7_ConvertAMC2BVH_globals 0 exLegPlayer 0 [0, 1, 2] (by decide) (by decide)
      (by
        intro root h
        cases h
        rfl)
      (by decide)⟩

end C7

/-! ## The sites of the end effectors -/

section ConvertSites

variable {K : Type} [CommRing K]

/-- The site of an end effector that is not the root.  Once the converted skeleton
has read the converted frame, the site of the `i`-th end effector `e` stands where
`e` stands once the original skeleton has read the original frame. -/
theorem convert_site_position (sk0 : Skeleton K) (r : Nat) (l : List Nat) (f : Frame K)
    (hwf : sk0.WellFormed r l) (hamc : ∀ j ∈ sk0.m_joints, j.AMC = true)
    (hroot : ∀ root, sk0.m_joints[r]? = some root → root.m_axisRotation = identity3D)
    (hn : f.GetNumJoints = sk0.m_joints.length)
    {js1 : List (Joint K)}
    (hconv : Player.Converting sk0 r (Player.endEffectors sk0.m_joints) js1)
    {f1 : Frame K}
    (hf1 : Player.convertFrame { sk0 with AMC := false, m_joints := js1 } f = some f1)
    {i e q : Nat} (hi : (Player.endEffectors sk0.m_joints)[i]? = some e)
    (hq : parentAt sk0.m_joints e = some q) :
    ∃ ge gs, sk0.globalAfter f e = some ge ∧
      Skeleton.globalAfter { sk0 with AMC := false, m_joints := js1 } f1
        (sk0.m_joints.length + i) = some gs ∧
      gs.m_translation = ge.m_translation := by
  have hcopy := hconv
  obtain ⟨hlen1, hids1, ⟨l1, ht1, hspan1⟩, _, hsites⟩ := hcopy
  obtain ⟨ht, hspan0, hids⟩ := hwf
  have helt : e < sk0.m_joints.length := (mem_endEffectors.mp (List.getElem?_mem hi)).1
  have hilt : i < (Player.endEffectors sk0.m_joints).length :=
    (List.getElem?_eq_some_iff.mp hi).1
  have hel : e ∈ l := hspan0 e (List.mem_range.mpr helt)
  obtain ⟨j0e, hj0e⟩ : ∃ j0e, sk0.m_joints[e]? = some j0e :=
    ⟨_, List.getElem?_eq_getElem helt⟩
  have hpar : j0e.m_pParent = some q := by
    rw [parentAt_eq hj0e] at hq
    exact hq
  -- the converted joint against the original one
  obtain ⟨g, g1, hg, hg1, hrot, _, hpos⟩ := convert_globals sk0 r l f ⟨ht, hspan0, hids⟩ hamc
    hroot hn hconv hf1 e helt
  obtain ⟨gq, hgq, hg1t⟩ := hpos q hq
  -- the original pose
  obtain ⟨skA, hrunA, _, hA⟩ := ReadFromFrame_globals sk0 r l f ht hids hn
  obtain ⟨rotA, xe, _, hxe, _, hAsome⟩ := hA e hel j0e hj0e
  obtain ⟨xq, hxq, hAamc, _⟩ := hAsome q hpar
  obtain ⟨_, hxet⟩ := hAamc (hamc j0e (List.getElem?_mem hj0e))
  have hgx : g = xe.m_global := by
    unfold Skeleton.globalAfter at hg
    rw [hrunA] at hg
    simp only [Option.some_bind, hxe, Option.map_some', Option.some.injEq] at hg
    exact hg.symm
  have hgqx : gq = xq.m_global := by
    unfold Skeleton.globalAfter at hgq
    rw [hrunA] at hgq
    simp only [Option.some_bind, hxq, Option.map_some', Option.some.injEq] at hgq
    exact hgq.symm
  -- the converted pose
  have htc : Skeleton.IsTreeWith { sk0 with AMC := false, m_joints := js1 } r l1 :=
    @Skeleton.IsTreeWith.congr K _ _ { sk0 with AMC := false, m_joints := js1 } _ _ ht1
      (SameTree.st_refl _) rfl
  obtain ⟨nf, hnf, _, hf1n, _⟩ :=
    convertFrame_spec { sk0 with AMC := false, m_joints := js1 } f
  rw [hf1] at hnf
  cases hnf
  obtain ⟨skB, hrunB, _, hB⟩ := ReadFromFrame_globals
    { sk0 with AMC := false, m_joints := js1 } r l1 f1 htc hids1 hf1n
  obtain ⟨s, je, hs, _, _, hsp, _, hsamc, hsloc, _, _⟩ := hsites i e j0e hi hj0e
  obtain ⟨rotB, ys, _, hys, _, hBsome⟩ := hB (sk0.m_joints.length + i)
    (hspan1 _ (by omega)) s hs
  obtain ⟨ye, hye, _, hBbvh⟩ := hBsome e hsp
  obtain ⟨_, hyst⟩ := hBbvh hsamc
  have hg1y : g1 = ye.m_global := by
    unfold Skeleton.globalAfter at hg1
    rw [hrunB] at hg1
    simp only [Option.some_bind, hye, Option.map_some', Option.some.injEq] at hg1
    exact hg1.symm
  refine ⟨g, ys.m_global, hg, ?_, ?_⟩
  · unfold Skeleton.globalAfter
    rw [hrunB]
    simp [hys]
  · rw [hyst, hsloc, ← hg1y, hg1t, hrot, hgx, hxet, hgqx]

/-- The sites that `Player::ConvertAMC2BVH` adds under the end effectors other than
the root.  For a player as in C7, every frame `n` and the `i`-th joint without
children `e`, when `e` has a parent: in the converted pose the joint behind the
original joints at offset `i`, the site of `e`, stands where `e` stands in the
original pose. -/
theorem ConvertAMC2BVH_site_position (D : K) (p : Player K) (r : Nat) (l : List Nat)
    (hwf : p.m_skeleton.WellFormed r l)
    (hamc : ∀ j ∈ p.m_skeleton.m_joints, j.AMC = true)
    (hroot : ∀ root, p.m_skeleton.m_joints[r]? = some root →
      root.m_axisRotation = identity3D)
    (hframes : ∀ f ∈ p.m_motion.m_keyFrames,
      f.GetNumJoints = p.m_skeleton.m_joints.length) :
    ∃ p1, Player.ConvertAMC2BVH D p = some p1 ∧
      ∀ (n i e q : Nat), n < p.m_motion.m_keyFrames.length →
        (Player.endEffectors p.m_skeleton.m_joints)[i]? = some e →
        parentAt p.m_skeleton.m_joints e = some q →
        ∃ ge gs, p.globalAt n e = some ge ∧
          p1.globalAt n (p.m_skeleton.m_joints.length + i) = some gs ∧
          gs.m_translation = ge.m_translation := by
  obtain ⟨js1, frames, hrun, hconv, hget⟩ := ConvertAMC2BVH_some D p r l hwf
  refine ⟨_, hrun, ?_⟩
  intro n i e q hn hi hq
  obtain ⟨f, hf⟩ : ∃ f, p.m_motion.m_keyFrames[n]? = some f :=
    ⟨_, List.getElem?_eq_getElem hn⟩
  obtain ⟨f1, hf1, hconvf⟩ := hget n f hf
  obtain ⟨ge, gs, hge, hgs, ht⟩ := convert_site_position p.m_skeleton r l f hwf hamc hroot
    (hframes f (List.getElem?_mem hf)) hconv hconvf hi hq
  refine ⟨ge, gs, ?_, ?_, ht⟩
  · unfold Player.globalAt
    rw [hf]
    exact hge
  · unfold Player.globalAt
    simp only [hf1, Option.some_bind]
    exact hgs

end ConvertSites

/-! ## C8: the site under an end effector -/

section C8

/-- C8 fails on the skeleton that has the root and no bone, once it has read a frame
that puts the root at (1,0,0), turned by a quarter turn about Z.  The root is the
one joint without children; the conversion gives it the site at position 1, and in
the converted pose that site stands at (1,1,0), while the root stands at (1,0,0) in
the original pose: the offset of the site is the root's `m_translation`, the
position that `ReadFromFrame` wrote there. -/
theorem C8_site_under_root :
    (exRootOnlyLoaded : Skeleton ℤ).ReadFromFrame exRootOnlyFrame
      = some (exRootOnlyPlayer : Player ℤ).m_skeleton ∧
    (exRootOnlyPlayer : Player ℤ).m_skeleton.WellFormed 0 [0] ∧
    Player.endEffectors (exRootOnlyPlayer : Player ℤ).m_skeleton.m_joints = [0] ∧
    ((exRootOnlyPlayer : Player ℤ).globalAt 0 0).map (fun g => g.m_translation)
      = some ⟨1, 0, 0⟩ ∧
    (Player.ConvertAMC2BVH 0 (exRootOnlyPlayer : Player ℤ)).bind
        (fun p1 => (p1.m_skeleton.m_joints[1]?).map
          (fun s => (s.m_pParent, s.m_local.m_translation)))
      = some (some 0, ⟨1, 0, 0⟩) ∧
    ((Player.ConvertAMC2BVH 0 (exRootOnlyPlayer : Player ℤ)).bind
        (fun p1 => p1.globalAt 0 1)).map (fun g => g.m_translation)
      = some ⟨1, 1, 0⟩ := by
  decide!

/-- The site under an end effector that is not the root, on the leg: the tibia
stands at (1,-2,-3) in the original pose, and so does its site, the joint at
position 3, in the converted pose. -/
theorem exLeg_site_position :
    ((exLegPlayer : Player ℤ).globalAt 0 2).map (fun g => g.m_translation)
      = some ⟨1, -2, -3⟩ ∧
    ((Player.ConvertAMC2BVH 0 (exLegPlayer : Player ℤ)).bind
        (fun p1 => p1.globalAt 0 3)).map (fun g => g.m_translation)
      = some ⟨1, -2, -3⟩ := by
  decide!

end C8

/-! ## BVH files: loading -/

section BvhLemmas

variable {K : Type} [CommRing K]

/-- Attaching a joint that has just been pushed and has no parent yet. -/
theorem AttachJoints_fresh {js : List (Joint K)} {p : Nat} {pj joint : Joint K}
    (hp : js[p]? = some pj) (hpar : joint.m_pParent = none) :
    Joint.AttachJoints (js ++ [joint]) (some p) (some js.length)
      = some (js.set p { pj with m_children := pj.m_children ++ [js.length] }
          ++ [{ joint with m_pParent := some p }]) := by
  have hlt : p < js.length := (List.getElem?_eq_some_iff.mp hp).1
  have h1 : (js ++ [joint])[js.length]? = some joint := by simp
  unfold Joint.AttachJoints
  simp only [h1, hpar]
  have h2 : (js ++ [joint]).set js.length { joint with m_pParent := some p }
      = js ++ [{ joint with m_pParent := some p }] := by
    rw [List.set_append_right _ _ (le_refl _)]
    simp
  rw [h2]
  have h3 : (js ++ [{ joint with m_pParent := some p }])[p]? = some pj := by
    rw [List.getElem?_append_left hlt]
    exact hp
  simp only [h3]
  rw [List.set_append_left _ _ hlt]

theorem Joint.at_last (js : List (Joint K)) (j : Joint K) (f : Joint K → Joint K) {i : Nat}
    (hi : i = js.length) : Joint.at (js ++ [j]) i f = js ++ [f j] := by
  subst hi
  unfold Joint.at
  have h1 : (js ++ [j])[js.length]? = some j := by simp
  rw [h1]
  dsimp only
  rw [List.set_append_right _ _ (le_refl _)]
  simp

theorem startsWithSite_site (s : String) : startsWithSite ("Site" ++ s) = true := by
  unfold startsWithSite
  simp [String.toList]

theorem named_SetID (D : K) (name : String) (i : Nat) :
    (Joint.named D name).SetID i
      = { Joint.new D with m_name := siteName name i, m_id := i } := by
  unfold Joint.named Joint.SetName Joint.SetID siteName
  by_cases h : startsWithSite name
  · simp only [h, if_true]
    rw [if_pos (startsWithSite_site _)]
  · simp only [h]
    simp [h]

theorem SetRotationOrder_eq (D : K) (j : Joint K) (order : String) :
    j.SetRotationOrder order = { j with m_rotOrder := rotOrderOf D order } := by
  unfold rotOrderOf Joint.SetRotationOrder
  split_ifs <;> rfl


/-- The `JOINT` branch of `LoadFromFileBVHRec` up to its loop: the joint is pushed
behind the joints read so far, is attached to the parent, and the loop runs on the
rest of the file. -/
theorem LoadFromFileBVHRec_joint (D : K) (fuel : Nat) (sk : Skeleton K) {p : Nat}
    {pj : Joint K} (hp : sk.m_joints[p]? = some pj) (name : String) (o : vec3 K) (n : Nat)
    (order w : String) (tail : List (Item K)) :
    Skeleton.LoadFromFileBVHRec D (fuel + 1) sk
      (.line name :: .word "\x7b" :: .word "OFFSET" :: .number o.x :: .number o.y
        :: .number o.z :: .word "CHANNELS" :: .count n :: .line order :: .word w :: tail)
      p "JOINT"
      = Skeleton.loadChildren
          (fun sk1 inFile1 s =>
            Skeleton.LoadFromFileBVHRec D fuel sk1 inFile1 sk.m_joints.length s)
          fuel
          { sk with m_joints :=
              (sk.m_joints.set p
                  { pj with m_children := pj.m_children ++ [sk.m_joints.length] }
                ++ [bvhJoint D sk.AMC name sk.m_joints.length (some p) [] o n
                      (rotOrderOf D order)]) }
          tail w := by
  have hnone : ({ (Joint.named D name).SetID sk.m_joints.length with AMC := sk.AMC }
      : Joint K).m_pParent = none := by
    rw [named_SetID]
    rfl
  rw [Skeleton.LoadFromFileBVHRec]
  simp only [if_true, Item.readLine, Item.readWord, Item.readVec3, Item.readNumber,
    Item.readCount, AttachJoints_fresh hp hnone]
  rw [Joint.at_last _ _ _ (by simp), Joint.at_last _ _ _ (by simp),
    Joint.at_last _ _ _ (by simp), SetRotationOrder_eq D, named_SetID]
  rfl

/-- The `End` branch of `LoadFromFileBVHRec`. -/
theorem LoadFromFileBVHRec_end (D : K) (fuel : Nat) (sk : Skeleton K) {p : Nat}
    {pj : Joint K} (hp : sk.m_joints[p]? = some pj) (name : String) (o : vec3 K)
    (w : String) (tail : List (Item K)) :
    Skeleton.LoadFromFileBVHRec D (fuel + 1) sk
      (.line name :: .word "\x7b" :: .word "OFFSET" :: .number o.x :: .number o.y
        :: .number o.z :: .word w :: tail)
      p "End"
      = some (true,
          { sk with m_joints :=
              (sk.m_joints.set p
                  { pj with m_children := pj.m_children ++ [sk.m_joints.length] }
                ++ [bvhJoint D sk.AMC name sk.m_joints.length (some p) [] o 0 "xyz"]) },
          tail) := by
  have hnone : ({ ((Joint.named D name).SetID sk.m_joints.length).SetNumChannels 0 with
      AMC := sk.AMC } : Joint K).m_pParent = none := by
    rw [named_SetID]
    rfl
  rw [Skeleton.LoadFromFileBVHRec]
  have hne : ¬ ("End" = "JOINT") := by decide
  simp only [hne, if_false, if_true, Item.readLine, Item.readWord, Item.readVec3,
    Item.readNumber, AttachJoints_fresh hp hnone]
  rw [Joint.at_last _ _ _ (by simp), named_SetID]
  rfl


theorem readWord_cons (old w : String) (t : List (Item K)) :
    Item.readWord old (.word w :: t) = some (w, t) := rfl

theorem Blocks.joints_length (D : K) (amc : Bool) :
    ∀ (b : Blocks K) (start p : Nat), (b.joints D amc start p).length = b.size
  | .done, _, _ => rfl
  | .joint _ _ _ _ inside next, start, p => by
    simp only [Blocks.joints, Blocks.size, List.length_cons, List.length_append,
      Blocks.joints_length D amc inside, Blocks.joints_length D amc next]
    omega
  | .endSite _ _ next, start, p => by
    simp only [Blocks.joints, Blocks.size, List.length_cons,
      Blocks.joints_length D amc next]
    omega

theorem set_same {js : List (Joint K)} {p : Nat} {pj : Joint K} (hp : js[p]? = some pj) :
    js.set p pj = js := by
  apply List.ext_getElem?
  intro k
  by_cases hk : k = p
  · subst hk
    rw [List.getElem?_set_self (List.getElem?_eq_some_iff.mp hp).1, hp]
  · rw [List.getElem?_set_ne (Ne.symm hk)]

/-- The loop of the loaders on the items of a sequence of blocks followed by a
closing brace: it returns `true` with the rest of the file, the parent has got the
top-level joints of the blocks as further children, and the joints of the blocks
stand behind the joints read before. -/
theorem loadChildren_blocks (D : K) (b : Blocks K) :
    ∀ (fuel n : Nat) (sk : Skeleton K) (p : Nat) (pj : Joint K) (rest : List (Item K)),
      sk.m_joints[p]? = some pj → b.size < fuel → b.size < n →
      ∃ w inFile, b.items ++ Item.word "\x7d" :: rest = .word w :: inFile ∧
        Skeleton.loadChildren
            (fun sk1 inFile1 s => Skeleton.LoadFromFileBVHRec D fuel sk1 inFile1 p s)
            n sk inFile w
          = some (true,
              { sk with m_joints :=
                  (sk.m_joints.set p
                      { pj with m_children := pj.m_children ++ b.roots sk.m_joints.length }
                    ++ b.joints D sk.AMC sk.m_joints.length p) },
              rest) := by
  induction b with
  | done =>
    intro fuel n sk p pj rest hp _ hn
    obtain ⟨m, rfl⟩ : ∃ m, n = m + 1 := ⟨n - 1, by omega⟩
    refine ⟨"\x7d", rest, rfl, ?_⟩
    rw [Skeleton.loadChildren, if_pos rfl]
    have h1 : ({ pj with m_children :=
        (pj.m_children ++ Blocks.roots sk.m_joints.length (Blocks.done : Blocks K)) }
          : Joint K) = pj := by
      simp [Blocks.roots]
    rw [h1, set_same hp]
    simp [Blocks.joints]
  | joint name o c order inside next ih1 ih2 =>
    intro fuel n sk p pj rest hp hfuel hn
    simp only [Blocks.size] at hfuel hn
    obtain ⟨m, rfl⟩ : ∃ m, n = m + 1 := ⟨n - 1, by omega⟩
    obtain ⟨f, rfl⟩ : ∃ f, fuel = f + 1 := ⟨fuel - 1, by omega⟩
    have hplt : p < sk.m_joints.length := (List.getElem?_eq_some_iff.mp hp).1
    -- the joint of the block
    obtain ⟨A, hA⟩ : ∃ A, A = sk.m_joints.set p
        { pj with m_children := pj.m_children ++ [sk.m_joints.length] } := ⟨_, rfl⟩
    have hAlen : A.length = sk.m_joints.length := by rw [hA]; simp
    obtain ⟨J0, hJ0⟩ : ∃ J0, J0 = bvhJoint D sk.AMC name sk.m_joints.length (some p) [] o c
        (rotOrderOf D order) := ⟨_, rfl⟩
    have hJ0get : (A ++ [J0])[sk.m_joints.length]? = some J0 := by
      rw [← hAlen]
      simp
    -- the blocks inside
    obtain ⟨w1, inFile1, hread1, hrun1⟩ := ih1 f f { sk with m_joints := A ++ [J0] }
      sk.m_joints.length J0 (next.items ++ Item.word "\x7d" :: rest) hJ0get (by omega) (by omega)
    have hlen1 : (A ++ [J0]).length = sk.m_joints.length + 1 := by simp [hAlen]
    -- the blocks that follow
    obtain ⟨sk2, hsk2⟩ : ∃ sk2 : Skeleton K, sk2 = { sk with m_joints :=
        ((A ++ [J0]).set sk.m_joints.length
            { J0 with m_children := J0.m_children ++ inside.roots (A ++ [J0]).length }
          ++ inside.joints D sk.AMC (A ++ [J0]).length sk.m_joints.length) } := ⟨_, rfl⟩
    have hsk2joints : sk2.m_joints = A ++ (bvhJoint D sk.AMC name sk.m_joints.length (some p)
        (inside.roots (sk.m_joints.length + 1)) o c (rotOrderOf D order)
        :: inside.joints D sk.AMC (sk.m_joints.length + 1) sk.m_joints.length) := by
      rw [hsk2]
      show (A ++ [J0]).set sk.m_joints.length _ ++ _ = _
      rw [hlen1, ← hAlen, List.set_append_right _ _ (le_refl _)]
      simp only [Nat.sub_self, List.set_cons_zero, List.append_assoc, List.singleton_append]
      rw [hJ0]
      simp [bvhJoint, hAlen]
    have hsk2len : sk2.m_joints.length = sk.m_joints.length + 1 + inside.size := by
      rw [hsk2joints]
      simp [Blocks.joints_length, hAlen]
      omega
    have hsk2p : sk2.m_joints[p]? = some
        { pj with m_children := pj.m_children ++ [sk.m_joints.length] } := by
      rw [hsk2joints, List.getElem?_append_left (by omega), hA]
      exact List.getElem?_set_self hplt
    obtain ⟨w2, inFile2, hread2, hrun2⟩ := ih2 (f + 1) m sk2 p _ rest hsk2p (by omega) (by omega)
    -- the loop
    have hitems : (Blocks.joint name o c order inside next).items ++ Item.word "\x7d" :: rest
        = .word "JOINT" :: .line name :: .word "\x7b" :: .word "OFFSET" :: .number o.x
          :: .number o.y :: .number o.z :: .word "CHANNELS" :: .count c :: .line order
          :: .word w1 :: inFile1 := by
      simp only [Blocks.items, List.cons_append, List.nil_append, List.append_assoc]
      rw [hread1]
    refine ⟨"JOINT", _, hitems, ?_⟩
    rw [Skeleton.loadChildren, if_neg (by decide)]
    rw [LoadFromFileBVHRec_joint D f sk hp, ← hA, ← hJ0, hrun1]
    dsimp only
    rw [← hsk2, hread2, readWord_cons]
    dsimp only
    rw [hrun2]
    congr 3
    rw [hsk2len, hsk2joints, List.set_append_left _ _ (by omega), hA, List.set_set]
    simp only [Blocks.roots, Blocks.joints, List.append_assoc, List.cons_append,
      List.singleton_append, List.nil_append]
    have hamc : sk2.AMC = sk.AMC := by rw [hsk2]
    rw [hamc, hsk2]
  | endSite name o next ih =>
    intro fuel n sk p pj rest hp hfuel hn
    simp only [Blocks.size] at hfuel hn
    obtain ⟨m, rfl⟩ : ∃ m, n = m + 1 := ⟨n - 1, by omega⟩
    obtain ⟨f, rfl⟩ : ∃ f, fuel = f + 1 := ⟨fuel - 1, by omega⟩
    have hplt : p < sk.m_joints.length := (List.getElem?_eq_some_iff.mp hp).1
    obtain ⟨A, hA⟩ : ∃ A, A = sk.m_joints.set p
        { pj with m_children := pj.m_children ++ [sk.m_joints.length] } := ⟨_, rfl⟩
    have hAlen : A.length = sk.m_joints.length := by rw [hA]; simp
    obtain ⟨sk2, hsk2⟩ : ∃ sk2 : Skeleton K, sk2 = { sk with m_joints :=
        (A ++ [bvhJoint D sk.AMC name sk.m_joints.length (some p) [] o 0 "xyz"]) } :=
      ⟨_, rfl⟩
    have hsk2len : sk2.m_joints.length = sk.m_joints.length + 1 := by
      rw [hsk2]
      simp [hAlen]
    have hsk2p : sk2.m_joints[p]? = some
        { pj with m_children := pj.m_children ++ [sk.m_joints.length] } := by
      rw [hsk2]
      show (A ++ _)[p]? = _
      rw [List.getElem?_append_left (by omega), hA]
      exact List.getElem?_set_self hplt
    obtain ⟨w2, inFile2, hread2, hrun2⟩ := ih (f + 1) m sk2 p _ rest hsk2p (by omega) (by omega)
    have hitems : (Blocks.endSite name o next).items ++ Item.word "\x7d" :: rest
        = .word "End" :: .line name :: .word "\x7b" :: .word "OFFSET" :: .number o.x
          :: .number o.y :: .number o.z :: .word "\x7d" :: (next.items ++ Item.word "\x7d" :: rest) := by
      simp only [Blocks.items, List.cons_append, List.nil_append, List.append_assoc]
    refine ⟨"End", _, hitems, ?_⟩
    rw [Skeleton.loadChildren, if_neg (by decide)]
    rw [LoadFromFileBVHRec_end D f sk hp, ← hA, ← hsk2]
    dsimp only
    rw [hread2, readWord_cons]
    dsimp only
    rw [hrun2]
    have hsk2joints : sk2.m_joints
        = A ++ [bvhJoint D sk.AMC name sk.m_joints.length (some p) [] o 0 "xyz"] := by
      rw [hsk2]
    congr 3
    rw [hsk2len, hsk2joints, List.set_append_left _ _ (by omega), hA, List.set_set]
    simp only [Blocks.roots, Blocks.joints, List.append_assoc, List.cons_append,
      List.singleton_append, List.nil_append]
    have hamc : sk2.AMC = sk.AMC := by rw [hsk2]
    rw [hamc, hsk2]

theorem Blocks.size_le_items : ∀ (b : Blocks K), b.size ≤ b.items.length
  | .done => Nat.le_refl _
  | .joint _ _ _ _ inside next => by
    have h1 := Blocks.size_le_items inside
    have h2 := Blocks.size_le_items next
    simp only [Blocks.size, Blocks.items, List.length_append, List.length_cons,
      List.length_nil]
    omega
  | .endSite _ _ next => by
    have h2 := Blocks.size_le_items next
    simp only [Blocks.size, Blocks.items, List.length_append, List.length_cons,
      List.length_nil]
    omega

theorem Joint.at_singleton (j : Joint K) (f : Joint K → Joint K) :
    Joint.at [j] 0 f = [f j] := rfl

/-- The function `Skeleton::LoadFromBVHFile` on the HIERARCHY part of a well-formed file: it
returns `true` at the end of that part with the joints of the file. -/
theorem LoadFromBVHFile_hierarchy (D : K) (sk : Skeleton K) (file : BvhFile K)
    (rest : List (Item K)) :
    Skeleton.LoadFromBVHFile D sk (file.hierarchy ++ rest)
      = some (true,
          { sk with m_joints := file.joints D, m_pRoot := some 0, AMC := false }, rest) := by
  obtain ⟨R0, hR0⟩ : ∃ R0, R0 = bvhJoint D false file.rootName 0 none [] file.rootOffset
      file.rootChannels (rotOrderOf D file.rootOrder) := ⟨_, rfl⟩
  obtain ⟨sk0, hsk0⟩ : ∃ sk0 : Skeleton K, sk0 =
      { sk with m_joints := [R0], m_pRoot := some 0, AMC := false } := ⟨_, rfl⟩
  have hget : sk0.m_joints[0]? = some R0 := by rw [hsk0]; rfl
  have hsize : file.blocks.size < (file.hierarchy ++ rest).length := by
    have := Blocks.size_le_items file.blocks
    simp only [BvhFile.hierarchy, List.length_append, List.length_cons, List.length_nil]
    omega
  obtain ⟨w, inFile, hread, hrun⟩ := loadChildren_blocks D file.blocks
    (file.hierarchy ++ rest).length (file.hierarchy ++ rest).length sk0 0 R0 rest hget
    hsize hsize
  have hitems : file.hierarchy ++ rest
      = .word "HIERARCHY" :: .word "ROOT" :: .line file.rootName :: .word "\x7b"
        :: .word "OFFSET" :: .number file.rootOffset.x :: .number file.rootOffset.y
        :: .number file.rootOffset.z :: .word "CHANNELS" :: .count file.rootChannels
        :: .line file.rootOrder :: .word w :: inFile := by
    simp only [BvhFile.hierarchy, List.cons_append, List.nil_append, List.append_assoc]
    rw [← hread]
  unfold Skeleton.LoadFromBVHFile Skeleton.LoadFromBVHFileFuel
  generalize (file.hierarchy ++ rest).length = N at hrun ⊢
  rw [hitems]
  have h1 : ¬ ("HIERARCHY" ≠ "HIERARCHY") := by decide
  have h2 : ¬ ("ROOT" ≠ "ROOT" ∧ "ROOT" ≠ "JOINT") := by decide
  have h3 : ¬ ("CHANNELS" ≠ "CHANNELS") := by decide
  simp only [Item.readWord, Item.readLine, Item.readVec3, Item.readNumber, Item.readCount,
    h1, h2, h3, if_false, List.nil_append, List.length_nil]
  refine Eq.trans ?_ (hrun.trans ?_)
  · congr 1
    rw [Joint.at_singleton, Joint.at_singleton, Joint.at_singleton, SetRotationOrder_eq D,
      named_SetID, hsk0, hR0]
    rfl
  · rw [hsk0, hR0]
    rfl

end BvhLemmas

/-! ## BVH files: saving -/

section BvhSave

variable {K : Type} [CommRing K]

theorem Blocks.saved_size : ∀ (b : Blocks K) (start : Nat), (b.saved start).size = b.size
  | .done, _ => rfl
  | .joint _ _ _ _ inside next, start => by
    simp only [Blocks.saved, Blocks.size, Blocks.saved_size inside, Blocks.saved_size next]
  | .endSite _ _ next, start => by
    simp only [Blocks.saved, Blocks.size, Blocks.saved_size next]

theorem Blocks.saved_roots :
    ∀ (b : Blocks K) (start s : Nat), (b.saved start).roots s = b.roots s
  | .done, _, _ => rfl
  | .joint _ _ _ _ inside next, start, s => by
    simp only [Blocks.saved, Blocks.roots, Blocks.saved_size inside,
      Blocks.saved_roots next]
  | .endSite _ _ next, start, s => by
    simp only [Blocks.saved, Blocks.roots, Blocks.saved_roots next]

/-- The items that `SaveToFileBVHRec` writes for the top-level joints of a sequence
of blocks, in a skeleton under the BVH convention that has the joints of the blocks
from position `start` on: the items of the blocks with the names of the joints and
with the order Z, X, Y in every `CHANNELS` line. -/
theorem SaveToFileBVHRec_blocks (D : K) (sk : Skeleton K) (hamc : sk.AMC = false) :
    ∀ (b : Blocks K) (start p fuel : Nat), b.threeChannels → b.size ≤ fuel →
      (∀ k, k < b.size → sk.m_joints[start + k]? = (b.joints D false start p)[k]?) →
      ∃ ls, (b.roots start).mapM (Skeleton.SaveToFileBVHRec sk fuel) = some ls ∧
        ls.flatten = (b.saved start).items
  | .done, _, _, _, _, _, _ => ⟨[], rfl, rfl⟩
  | .joint name o c order inside next, start, p, fuel, h3, hfuel, hslice => by
    obtain ⟨hc, h3i, h3n⟩ := h3
    simp only [Blocks.size] at hfuel hslice
    obtain ⟨f, rfl⟩ : ∃ f, fuel = f + 1 := ⟨fuel - 1, by omega⟩
    have hlen := Blocks.joints_length D false inside (start + 1) start
    have h0 : sk.m_joints[start]? = some (bvhJoint D false name start (some p)
        (inside.roots (start + 1)) o c (rotOrderOf D order)) := by
      have := hslice 0 (by omega)
      simpa [Blocks.joints] using this
    obtain ⟨ls1, hls1, hfl1⟩ := SaveToFileBVHRec_blocks D sk hamc inside (start + 1) start f h3i
      (by omega) (by
        intro k hk
        have := hslice (k + 1) (by omega)
        rw [show start + (k + 1) = start + 1 + k by omega] at this
        rw [this]
        simp only [Blocks.joints, List.getElem?_cons_succ]
        rw [List.getElem?_append_left (by omega)])
    obtain ⟨ls2, hls2, hfl2⟩ := SaveToFileBVHRec_blocks D sk hamc next
      (start + 1 + inside.size) p (f + 1) h3n (by omega) (by
        intro k hk
        have := hslice (1 + inside.size + k) (by omega)
        rw [show start + (1 + inside.size + k) = start + 1 + inside.size + k by omega] at this
        rw [this]
        simp only [Blocks.joints]
        rw [show 1 + inside.size + k = (inside.size + k) + 1 by omega,
          List.getElem?_cons_succ, List.getElem?_append_right (by omega)]
        congr 1
        omega)
    have hsave : Skeleton.SaveToFileBVHRec sk (f + 1) start
        = some ([.word "JOINT", .line (siteName name start), .word "\x7b", .word "OFFSET",
            .number o.x, .number o.y, .number o.z, .word "CHANNELS", .count c,
            .line " Zrotation Xrotation Yrotation"]
          ++ (inside.saved (start + 1)).items ++ [.word "\x7d"]) := by
      rw [Skeleton.SaveToFileBVHRec, h0]
      simp only [hamc, bvhJoint, hc, hls1, hfl1, if_true, Option.map_some', Bool.false_eq_true,
        if_false]
    obtain ⟨hd, hsave1, hhd⟩ : ∃ hd, Skeleton.SaveToFileBVHRec sk (f + 1) start = some hd ∧
        hd = _ := ⟨_, hsave, rfl⟩
    refine ⟨hd :: ls2, ?_, ?_⟩
    · simp only [Blocks.roots]
      rw [List.mapM_cons, hsave1, hls2]
      rfl
    · rw [List.flatten_cons, hfl2, hhd]
      simp only [Blocks.saved, Blocks.items, List.append_assoc, List.cons_append,
        List.nil_append]
  | .endSite name o next, start, p, fuel, h3, hfuel, hslice => by
    simp only [Blocks.size] at hfuel hslice
    obtain ⟨f, rfl⟩ : ∃ f, fuel = f + 1 := ⟨fuel - 1, by omega⟩
    have h0 : sk.m_joints[start]? = some (bvhJoint D false name start (some p) [] o 0 "xyz") := by
      have := hslice 0 (by omega)
      simpa [Blocks.joints] using this
    obtain ⟨ls2, hls2, hfl2⟩ := SaveToFileBVHRec_blocks D sk hamc next (start + 1) p (f + 1) h3
      (by omega) (by
        intro k hk
        have := hslice (k + 1) (by omega)
        rw [show start + (k + 1) = start + 1 + k by omega] at this
        rw [this]
        simp only [Blocks.joints, List.getElem?_cons_succ])
    have hsave : Skeleton.SaveToFileBVHRec sk (f + 1) start
        = some ([.word "End", .line (siteName name start), .word "\x7b", .word "OFFSET",
            .number o.x, .number o.y, .number o.z, .word "\x7d"]) := by
      rw [Skeleton.SaveToFileBVHRec, h0]
      have hm : ([] : List Nat).mapM (Skeleton.SaveToFileBVHRec sk f) = some [] := rfl
      simp only [hamc, bvhJoint, hm, Option.map_some', Bool.false_eq_true, if_false]
      rfl
    obtain ⟨hd, hsave1, hhd⟩ : ∃ hd, Skeleton.SaveToFileBVHRec sk (f + 1) start = some hd ∧
        hd = _ := ⟨_, hsave, rfl⟩
    refine ⟨hd :: ls2, ?_, ?_⟩
    · simp only [Blocks.roots]
      rw [List.mapM_cons, hsave1, hls2]
      rfl
    · rw [List.flatten_cons, hfl2, hhd]
      simp only [Blocks.saved, Blocks.items, List.append_assoc, List.cons_append,
        List.nil_append]

/-- The function `Skeleton::SaveToBVHFile` on the skeleton loaded from a file whose `JOINT`
blocks have 3 channels: the HIERARCHY part of `file.saved`. -/
theorem SaveToBVHFile_loaded (D : K) (sk : Skeleton K) (file : BvhFile K)
    (h3 : file.blocks.threeChannels) :
    Skeleton.SaveToBVHFile
        ({ sk with m_joints := file.joints D, m_pRoot := some 0, AMC := false } : Skeleton K)
      = some file.saved.hierarchy := by
  obtain ⟨ls, hls, hfl⟩ := SaveToFileBVHRec_blocks D
    ({ sk with m_joints := file.joints D, m_pRoot := some 0, AMC := false } : Skeleton K) rfl
    file.blocks 1 0 (file.joints D).length h3
    (by simp [BvhFile.joints, Blocks.joints_length])
    (by
      intro k _
      show (file.joints D)[1 + k]? = _
      rw [show 1 + k = k + 1 by omega]
      simp only [BvhFile.joints, List.getElem?_cons_succ])
  unfold Skeleton.SaveToBVHFile
  have h0 : (file.joints D)[0]? = some (bvhJoint D false file.rootName 0 none
      (file.blocks.roots 1) file.rootOffset file.rootChannels
      (rotOrderOf D file.rootOrder)) := by
    simp only [BvhFile.joints, List.getElem?_cons_zero]
  simp only [h0]
  have hch : (bvhJoint D false file.rootName 0 none (file.blocks.roots 1) file.rootOffset
      file.rootChannels (rotOrderOf D file.rootOrder)).m_children = file.blocks.roots 1 := rfl
  rw [hch, hls]
  simp only [Option.map_some', hfl]
  rfl

end BvhSave

/-! ## Rotation matrices and the ZXY angles -/

section RotLemmas
variable {K : Type} [CommRing K]

theorem mat3.det_mul (a b : mat3 K) : (a * b).det = a.det * b.det := by
  simp only [mat3.det, mat3.mul_def, mat3.mul]
  ring

theorem mat3.IsRotation.mul {a b : mat3 K} (ha : a.IsRotation) (hb : b.IsRotation) :
    (a * b).IsRotation := by
  refine ⟨?_, ?_⟩
  · rw [mat3.transpose_mul, mat3.mul_assoc, ← mat3.mul_assoc b, hb.1, mat3.one_mul, ha.1]
  · rw [mat3.det_mul, ha.2, hb.2]
    ring

/-- The entries of a rotation matrix: rows of length 1, and every entry is its own
cofactor. -/
theorem mat3.IsRotation.entries {m : mat3 K} (h : m.IsRotation) :
    m.r2.x * m.r2.x + m.r2.y * m.r2.y + m.r2.z * m.r2.z = 1 ∧
    m.r0.y * m.r0.y + m.r1.y * m.r1.y + m.r2.y * m.r2.y = 1 ∧
    m.r0.x = m.r1.y * m.r2.z - m.r1.z * m.r2.y ∧
    m.r0.z = m.r1.x * m.r2.y - m.r1.y * m.r2.x ∧
    m.r1.x = m.r2.y * m.r0.z - m.r0.y * m.r2.z ∧
    m.r1.z = m.r0.y * m.r2.x - m.r0.x * m.r2.y := by
  obtain ⟨ho, hd⟩ := h
  simp only [mat3.mul_def, mat3.mul, mat3.Transpose, identity3D, axisX, axisY, axisZ,
    mat3.mk.injEq, vec3.mk.injEq] at ho
  simp only [mat3.det] at hd
  obtain ⟨⟨h00, h01, h02⟩, ⟨h10, h11, h12⟩, ⟨h20, h21, h22⟩⟩ := ho
  have c00 : m.r0.x = m.r1.y * m.r2.z - m.r1.z * m.r2.y := by
    linear_combination (-m.r0.x) * hd + (m.r1.y * m.r2.z - m.r1.z * m.r2.y) * h00
      - (m.r0.y * m.r2.z - m.r0.z * m.r2.y) * h01 + (m.r0.y * m.r1.z - m.r0.z * m.r1.y) * h02
  have c02 : m.r0.z = m.r1.x * m.r2.y - m.r1.y * m.r2.x := by
    linear_combination (-m.r0.z) * hd + (m.r1.x * m.r2.y - m.r1.y * m.r2.x) * h00
      - (m.r0.x * m.r2.y - m.r0.y * m.r2.x) * h10 + (m.r0.x * m.r1.y - m.r0.y * m.r1.x) * h20
  have c10 : m.r1.x = m.r2.y * m.r0.z - m.r0.y * m.r2.z := by
    linear_combination (-m.r1.x) * hd + (m.r1.y * m.r2.z - m.r1.z * m.r2.y) * h01
      - (m.r0.y * m.r2.z - m.r0.z * m.r2.y) * h11 + (m.r0.y * m.r1.z - m.r0.z * m.r1.y) * h21
  have c12 : m.r1.z = m.r0.y * m.r2.x - m.r0.x * m.r2.y := by
    linear_combination (-m.r1.z) * hd + (m.r1.x * m.r2.y - m.r1.y * m.r2.x) * h01
      - (m.r0.x * m.r2.y - m.r0.y * m.r2.x) * h11 + (m.r0.x * m.r1.y - m.r0.y * m.r1.x) * h21
  have c01 : m.r0.y = m.r1.z * m.r2.x - m.r1.x * m.r2.z := by
    linear_combination (-m.r0.y) * hd - (m.r1.x * m.r2.z - m.r1.z * m.r2.x) * h00
      + (m.r0.x * m.r2.z - m.r0.z * m.r2.x) * h10 - (m.r0.x * m.r1.z - m.r0.z * m.r1.x) * h20
  have c11 : m.r1.y = m.r0.x * m.r2.z - m.r0.z * m.r2.x := by
    linear_combination (-m.r1.y) * hd - (m.r1.x * m.r2.z - m.r1.z * m.r2.x) * h01
      + (m.r0.x * m.r2.z - m.r0.z * m.r2.x) * h11 - (m.r0.x * m.r1.z - m.r0.z * m.r1.x) * h21
  have c21 : m.r2.y = m.r0.z * m.r1.x - m.r0.x * m.r1.z := by
    linear_combination (-m.r2.y) * hd - (m.r1.x * m.r2.z - m.r1.z * m.r2.x) * h02
      + (m.r0.x * m.r2.z - m.r0.z * m.r2.x) * h12 - (m.r0.x * m.r1.z - m.r0.z * m.r1.x) * h22
  refine ⟨h22, ?_, c00, c02, c10, c12⟩
  linear_combination hd + m.r0.y * c01 + m.r1.y * c11 + m.r2.y * c21

end RotLemmas

section RotReal

/-- The rotations about the coordinate axes are rotation matrices. -/
theorem rot_isRotation (t : ℝ) :
    (rotX t).IsRotation ∧ (rotY t).IsRotation ∧ (rotZ t).IsRotation := by
  have := Real.sin_sq_add_cos_sq t
  refine ⟨⟨?_, ?_⟩, ⟨?_, ?_⟩, ⟨?_, ?_⟩⟩
  · simp only [rotX, CMath.cos, CMath.sin, mat3.mul_def, mat3.mul, mat3.Transpose, identity3D,
      axisX, axisY, axisZ, mat3.mk.injEq, vec3.mk.injEq]
    refine ⟨⟨?_, ?_, ?_⟩, ⟨?_, ?_, ?_⟩, ⟨?_, ?_, ?_⟩⟩ <;> nlinarith
  · simp only [rotX, CMath.cos, CMath.sin, mat3.det]
    nlinarith
  · simp only [rotY, CMath.cos, CMath.sin, mat3.mul_def, mat3.mul, mat3.Transpose, identity3D,
      axisX, axisY, axisZ, mat3.mk.injEq, vec3.mk.injEq]
    refine ⟨⟨?_, ?_, ?_⟩, ⟨?_, ?_, ?_⟩, ⟨?_, ?_, ?_⟩⟩ <;> nlinarith
  · simp only [rotY, CMath.cos, CMath.sin, mat3.det]
    nlinarith
  · simp only [rotZ, CMath.cos, CMath.sin, mat3.mul_def, mat3.mul, mat3.Transpose, identity3D,
      axisX, axisY, axisZ, mat3.mk.injEq, vec3.mk.injEq]
    refine ⟨⟨?_, ?_, ?_⟩, ⟨?_, ?_, ?_⟩, ⟨?_, ?_, ?_⟩⟩ <;> nlinarith
  · simp only [rotZ, CMath.cos, CMath.sin, mat3.det]
    nlinarith

theorem ComputeBVHRot_products (r1 r2 r3 : ℝ) :
    ComputeBVHRot r1 r2 r3 "xyz"
      = rotX (Deg2Rad * r1) * rotY (Deg2Rad * r2) * rotZ (Deg2Rad * r3) ∧
    ComputeBVHRot r1 r2 r3 "xzy"
      = rotX (Deg2Rad * r1) * rotZ (Deg2Rad * r2) * rotY (Deg2Rad * r3) ∧
    ComputeBVHRot r1 r2 r3 "yxz"
      = rotY (Deg2Rad * r1) * rotX (Deg2Rad * r2) * rotZ (Deg2Rad * r3) ∧
    ComputeBVHRot r1 r2 r3 "yzx"
      = rotY (Deg2Rad * r1) * rotZ (Deg2Rad * r2) * rotX (Deg2Rad * r3) ∧
    ComputeBVHRot r1 r2 r3 "zxy"
      = rotZ (Deg2Rad * r1) * rotX (Deg2Rad * r2) * rotY (Deg2Rad * r3) ∧
    ComputeBVHRot r1 r2 r3 "zyx"
      = rotZ (Deg2Rad * r1) * rotY (Deg2Rad * r2) * rotX (Deg2Rad * r3) := by
  refine ⟨?_, ?_, ?_, ?_, ?_, ?_⟩ <;>
    simp [ComputeBVHRot, (FromEulerAngles_eq _).1, (FromEulerAngles_eq _).2.1,
      (FromEulerAngles_eq _).2.2.1, (FromEulerAngles_eq _).2.2.2.1,
      (FromEulerAngles_eq _).2.2.2.2.1, (FromEulerAngles_eq _).2.2.2.2.2, vec3.scale_def,
      vec3.scale]

/-- For each of the six rotation orders `ComputeBVHRot` builds a rotation matrix. -/
theorem ComputeBVHRot_isRotation (r1 r2 r3 : ℝ) {rotOrder : String} (h : knownOrder rotOrder) :
    (ComputeBVHRot r1 r2 r3 rotOrder).IsRotation := by
  obtain ⟨h1, h2, h3, h4, h5, h6⟩ := ComputeBVHRot_products r1 r2 r3
  rcases h with h | h | h | h | h | h <;> rw [h]
  · rw [h1]
    exact (((rot_isRotation _).1).mul ((rot_isRotation _).2.1)).mul ((rot_isRotation _).2.2)
  · rw [h2]
    exact (((rot_isRotation _).1).mul ((rot_isRotation _).2.2)).mul ((rot_isRotation _).2.1)
  · rw [h3]
    exact (((rot_isRotation _).2.1).mul ((rot_isRotation _).1)).mul ((rot_isRotation _).2.2)
  · rw [h4]
    exact (((rot_isRotation _).2.1).mul ((rot_isRotation _).2.2)).mul ((rot_isRotation _).1)
  · rw [h5]
    exact (((rot_isRotation _).2.2).mul ((rot_isRotation _).1)).mul ((rot_isRotation _).2.1)
  · rw [h6]
    exact (((rot_isRotation _).2.2).mul ((rot_isRotation _).2.1)).mul ((rot_isRotation _).1)

/-- Composing the ZXY angles of a rotation matrix away from gimbal lock gives the
matrix back. -/
theorem FromEuler_ToEuler_ZXY (m : mat3 ℝ) (hm : m.IsRotation)
    (hg : (mat3.ToEulerAnglesZXY m).1 = true) :
    mat3.FromEulerAnglesZXY (mat3.ToEulerAnglesZXY m).2 = m := by
  have cos_atan2 : ∀ {a b c : ℝ}, 0 < c → a * a + b * b = c * c →
        Real.cos (atan2 b a) = a / c ∧ Real.sin (atan2 b a) = b / c := by
    intro a b c hc h
    have habs : Complex.abs ⟨a, b⟩ = c := by
      rw [Complex.abs_apply, Complex.normSq_mk, h, Real.sqrt_mul_self hc.le]
    have hne : (⟨a, b⟩ : ℂ) ≠ 0 := by
      intro h0
      rw [h0, map_zero] at habs
      exact hc.ne habs
    simp only [atan2, CMath.atan2]
    rw [Complex.cos_arg hne, Complex.sin_arg, habs]
    exact ⟨rfl, rfl⟩
  obtain ⟨hrow, hcol, c00, c02, c10, c12⟩ := hm.entries
  have hgt : Real.arcsin m.r2.y > -M_PI_2 + EPSILON := by
    by_contra hn
    simp only [mat3.ToEulerAnglesZXY, CMath.asin, if_neg hn] at hg
    cases hg
  have hlt : Real.arcsin m.r2.y < M_PI_2 - EPSILON := by
    by_contra hn
    simp only [mat3.ToEulerAnglesZXY, CMath.asin, if_pos hgt, if_neg hn] at hg
    cases hg
  have h1 : -1 ≤ m.r2.y := by nlinarith [mul_self_nonneg m.r2.x, mul_self_nonneg m.r2.z]
  have h2 : m.r2.y ≤ 1 := by nlinarith [mul_self_nonneg m.r2.x, mul_self_nonneg m.r2.z]
  have hsin : Real.sin (Real.arcsin m.r2.y) = m.r2.y := Real.sin_arcsin h1 h2
  have hcos : 0 < Real.cos (Real.arcsin m.r2.y) := by
    apply Real.cos_pos_of_mem_Ioo
    simp only [M_PI_2, M_PI, EPSILON, CMath.pi] at hgt hlt
    constructor <;> linarith
  have hc2 : Real.cos (Real.arcsin m.r2.y) * Real.cos (Real.arcsin m.r2.y)
      = 1 - m.r2.y * m.r2.y := by
    have := Real.sin_sq_add_cos_sq (Real.arcsin m.r2.y)
    rw [hsin] at this
    linear_combination this
  obtain ⟨hcy, hsy⟩ := @cos_atan2 m.r2.z (-m.r2.x) _ hcos (by linear_combination hrow - hc2)
  obtain ⟨hcz, hsz⟩ := @cos_atan2 m.r1.y (-m.r0.y) _ hcos (by linear_combination hcol - hc2)
  have hval : (mat3.ToEulerAnglesZXY m).2
      = ⟨Real.arcsin m.r2.y, atan2 (-m.r2.x) m.r2.z, atan2 (-m.r0.y) m.r1.y⟩ := by
    simp only [mat3.ToEulerAnglesZXY, CMath.asin, if_pos hgt, if_pos hlt]
  rw [hval, (FromEulerAngles_eq _).2.2.2.2.1]
  simp only [rotX, rotY, rotZ, CMath.cos, CMath.sin, mat3.mul_def, mat3.mul, hsin, hcy, hsy,
    hcz, hsz]
  generalize Real.cos (Real.arcsin m.r2.y) = c at hcos hc2
  have hne : c ≠ 0 := hcos.ne'
  ext
  all_goals simp only []
  all_goals field_simp
  · linear_combination (-m.r0.x) * hc2 - c00 + m.r2.y * c12
  · linear_combination (c * c) * (-c02 - m.r2.y * c10 - m.r0.z * hc2)
  · linear_combination (c * c) * (-c10 - m.r2.y * c02 - m.r1.x * hc2)
  · linear_combination (-m.r1.z) * hc2 - c12 + m.r2.y * c00

/-- Reading back, in the order ZXY, the three numbers that `Frame::SaveToBVHFile`
writes for a rotation matrix away from gimbal lock gives the matrix. -/
theorem ComputeBVHRot_angles (m : mat3 ℝ) (hm : m.IsRotation)
    (hg : (mat3.ToEulerAnglesZXY m).1 = true) :
    ComputeBVHRot ((mat3.ToEulerAnglesZXY m).2 * (Rad2Deg : ℝ)).z
      ((mat3.ToEulerAnglesZXY m).2 * (Rad2Deg : ℝ)).x
      ((mat3.ToEulerAnglesZXY m).2 * (Rad2Deg : ℝ)).y "zxy"
      = m := by
  have Deg2Rad_Rad2Deg : ∀ t : ℝ, Deg2Rad * (Rad2Deg * t) = t := by
    intro t
    simp only [Deg2Rad, Rad2Deg, M_PI, CMath.pi]
    field_simp
    ring
  rw [(ComputeBVHRot_products _ _ _).2.2.2.2.1, ← (FromEulerAngles_eq ⟨_, _, _⟩).2.2.2.2.1]
  simp only [vec3.scale_def, vec3.scale, Deg2Rad_Rad2Deg]
  exact FromEuler_ToEuler_ZXY m hm hg

end RotReal

/-! ## BVH files: the joints loaded from the file that the writer puts out -/

section BvhCompare

variable {K : Type} [CommRing K]

theorem siteName_idem (name : String) (i : Nat) :
    siteName (siteName name i) i = siteName name i := by
  unfold siteName
  by_cases h : startsWithSite name
  · simp only [h, if_true]
    rw [if_pos (startsWithSite_site _)]
  · simp [h]

theorem rotOrderOf_saved (D : K) :
    rotOrderOf D " Zrotation Xrotation Yrotation" = "zxy" ∧
    rotOrderOf D " Xposition Yposition Zposition Zrotation Xrotation Yrotation" = "zxy" := by
  have h1 : findsIn " Zrotation Xrotation Yrotation" "Zrotation Xrotation Yrotation" = true := by
    decide
  have h2 : findsIn " Xposition Yposition Zposition Zrotation Xrotation Yrotation"
      "Zrotation Xrotation Yrotation" = true := by
    decide
  unfold rotOrderOf Joint.SetRotationOrder
  rw [if_pos h1, if_pos h2]
  exact ⟨rfl, rfl⟩

/-- The joints of the blocks that the writer puts out. -/
theorem Blocks.saved_joints (D : K) :
    ∀ (b : Blocks K) (start p : Nat), b.threeChannels →
      (b.saved start).joints D false start p
        = (b.joints D false start p).map Joint.resaved
  | .done, _, _, _ => rfl
  | .joint name o n order inside next, start, p, h => by
    obtain ⟨hn, hin, hnext⟩ := h
    subst hn
    simp only [Blocks.saved, Blocks.joints, List.map_cons, List.map_append,
      Blocks.saved_joints D inside _ _ hin, Blocks.saved_joints D next _ _ hnext,
      Blocks.saved_size, Blocks.saved_roots, (rotOrderOf_saved D).1]
    congr 1
    simp [Joint.resaved, bvhJoint, siteName_idem]
  | .endSite name o next, start, p, h => by
    simp only [Blocks.saved, Blocks.joints, List.map_cons,
      Blocks.saved_joints D next _ _ h]
    congr 1
    simp [Joint.resaved, bvhJoint, siteName_idem]

/-- The channel counts and rotation orders of the joints of well-formed blocks. -/
theorem Blocks.joints_channels (D : K) (amc : Bool) :
    ∀ (b : Blocks K) (start p : Nat), b.threeChannels → b.knownOrders D →
      ∀ j ∈ b.joints D amc start p,
        (j.m_channelCount = 3 ∧ knownOrder j.m_rotOrder) ∨
          (j.m_channelCount = 0 ∧ j.m_rotOrder = "xyz")
  | .done, _, _, _, _ => by
    intro j hj
    cases hj
  | .joint name o n order inside next, start, p, h, hk => by
    obtain ⟨hn, hin, hnext⟩ := h
    obtain ⟨hko, hkin, hknext⟩ := hk
    intro j hj
    simp only [Blocks.joints, List.mem_cons, List.mem_append] at hj
    rcases hj with hj | hj | hj
    · subst hj
      exact Or.inl ⟨hn, hko⟩
    · exact Blocks.joints_channels D amc inside _ _ hin hkin j hj
    · exact Blocks.joints_channels D amc next _ _ hnext hknext j hj
  | .endSite name o next, start, p, h, hk => by
    intro j hj
    simp only [Blocks.joints, List.mem_cons] at hj
    rcases hj with hj | hj
    · subst hj
      exact Or.inr ⟨rfl, rfl⟩
    · exact Blocks.joints_channels D amc next _ _ h hk j hj

/-- The number of numbers on a frame line for the joints of well-formed blocks. -/
theorem Blocks.joints_numbers (D : K) (amc : Bool) :
    ∀ (b : Blocks K) (start p : Nat), b.threeChannels →
      channelNumbers (b.joints D amc start p) = 3 * b.jointBlocks
  | .done, _, _, _ => rfl
  | .joint name o n order inside next, start, p, h => by
    obtain ⟨hn, hin, hnext⟩ := h
    subst hn
    have h1 := Blocks.joints_numbers D amc inside (start + 1) start hin
    have h2 := Blocks.joints_numbers D amc next (start + 1 + inside.size) p hnext
    unfold channelNumbers at h1 h2 ⊢
    simp only [Blocks.joints, Blocks.jointBlocks, List.map_cons, List.map_append,
      List.sum_cons, List.sum_append, h1, h2]
    simp [bvhJoint]
    omega
  | .endSite name o next, start, p, h => by
    have h2 := Blocks.joints_numbers D amc next (start + 1) p h
    unfold channelNumbers at h2 ⊢
    simp only [Blocks.joints, Blocks.jointBlocks, List.map_cons, List.sum_cons, h2]
    simp [bvhJoint]

/-- The ids of the joints of blocks are their positions. -/
theorem Blocks.joints_ids (D : K) (amc : Bool) :
    ∀ (b : Blocks K) (start p k : Nat) (j : Joint K),
      (b.joints D amc start p)[k]? = some j → j.m_id = ((start + k : Nat) : Int)
  | .done, _, _, _, _, h => by
    simp [Blocks.joints] at h
  | .joint name o n order inside next, start, p, k, j, h => by
    simp only [Blocks.joints] at h
    rcases k with _ | k
    · simp only [List.getElem?_cons_zero, Option.some.injEq] at h
      subst h
      rfl
    · simp only [List.getElem?_cons_succ] at h
      by_cases hk : k < inside.size
      · rw [List.getElem?_append_left (by rw [Blocks.joints_length]; exact hk)] at h
        rw [Blocks.joints_ids D amc inside _ _ _ _ h]
        congr 1
        omega
      · rw [List.getElem?_append_right (by rw [Blocks.joints_length]; omega),
          Blocks.joints_length] at h
        rw [Blocks.joints_ids D amc next _ _ _ _ h]
        congr 1
        omega
  | .endSite name o next, start, p, k, j, h => by
    simp only [Blocks.joints] at h
    rcases k with _ | k
    · simp only [List.getElem?_cons_zero, Option.some.injEq] at h
      subst h
      rfl
    · simp only [List.getElem?_cons_succ] at h
      rw [Blocks.joints_ids D amc next _ _ _ _ h]
      congr 1
      omega

end BvhCompare

/-! ## BVH files: the MOTION part -/

section BvhFrames

variable {K : Type} [LinearOrderedField K] [CMath K]

theorem readVec3_numbers (v : vec3 K) (a b c : K) (rest : List (Item K)) :
    Item.readVec3 v (.number a :: .number b :: .number c :: rest) = some (⟨a, b, c⟩, rest) :=
  rfl

/-- One round of the loop of `Frame::LoadFromBVHFile` for a joint that has neither 6
nor 3 channels: nothing is read. -/
theorem loadJoints_cons_none (j : Joint K) (js : List (Joint K)) (i : Nat) (fr : Frame K)
    (inFile : List (Item K)) (h6 : j.m_channelCount ≠ 6) (h3 : j.m_channelCount ≠ 3)
    (hi : i ≠ 0) :
    Frame.loadJoints (j :: js) i fr inFile
      = Frame.loadJoints js (i + 1)
          { fr with m_rotationData := fr.m_rotationData ++ [ComputeBVHRot 0 0 0 j.m_rotOrder] }
          inFile := by
  simp only [Frame.loadJoints, if_neg h6, if_neg h3, if_neg hi]
  rfl

/-- One round of the loop for a joint with 3 channels. -/
theorem loadJoints_cons_three (j : Joint K) (js : List (Joint K)) (i : Nat) (fr : Frame K)
    (a b c : K) (inFile : List (Item K)) (h3 : j.m_channelCount = 3) (hi : i ≠ 0) :
    Frame.loadJoints (j :: js) i fr (.number a :: .number b :: .number c :: inFile)
      = Frame.loadJoints js (i + 1)
          { fr with m_rotationData := fr.m_rotationData ++ [ComputeBVHRot a b c j.m_rotOrder] }
          inFile := by
  have h6 : j.m_channelCount ≠ 6 := by omega
  simp only [Frame.loadJoints, if_neg h6, if_pos h3, if_neg hi, readVec3_numbers]

/-- The first round of the loop for a root with 6 channels. -/
theorem loadJoints_cons_six (j : Joint K) (js : List (Joint K)) (fr : Frame K)
    (x y z a b c : K) (inFile : List (Item K)) (h6 : j.m_channelCount = 6) :
    Frame.loadJoints (j :: js) 0 fr
        (.number x :: .number y :: .number z :: .number a :: .number b :: .number c :: inFile)
      = Frame.loadJoints js 1
          { m_rootTranslation := ⟨x, y, z⟩,
            m_rotationData := fr.m_rotationData ++ [ComputeBVHRot a b c j.m_rotOrder] }
          inFile := by
  simp only [Frame.loadJoints, if_pos h6, readVec3_numbers]
  rfl

/-- A round of the loop that returns has pushed the rotation that `ComputeBVHRot`
builds for the rotation order of the joint, from zeros if the joint has neither 6 nor
3 channels. -/
theorem loadJoints_step (j : Joint K) (js : List (Joint K)) (i : Nat) (fr fr' : Frame K)
    (inFile rest : List (Item K))
    (h : Frame.loadJoints (j :: js) i fr inFile = some (fr', rest)) :
    ∃ (t r : vec3 K) (inFile1 : List (Item K)),
      Frame.loadJoints js (i + 1)
        { m_rootTranslation := if i = 0 then t else fr.m_rootTranslation,
          m_rotationData := fr.m_rotationData ++ [ComputeBVHRot r.x r.y r.z j.m_rotOrder] }
        inFile1 = some (fr', rest) ∧
      (j.m_channelCount ≠ 6 → j.m_channelCount ≠ 3 → r = axisZero) := by
  have hfr : ∀ (t : vec3 K) (M : mat3 K),
      ({ (if i = 0 then { fr with m_rootTranslation := t } else fr) with
          m_rotationData := (if i = 0 then { fr with m_rootTranslation := t }
            else fr).m_rotationData ++ [M] } : Frame K)
        = { m_rootTranslation := if i = 0 then t else fr.m_rootTranslation,
            m_rotationData := fr.m_rotationData ++ [M] } := by
    intro t M
    by_cases hi : i = 0 <;> simp [hi]
  by_cases h6 : j.m_channelCount = 6
  · simp only [Frame.loadJoints, if_pos h6] at h
    rcases h1 : Item.readVec3 axisZero inFile with _ | ⟨t, inFile1⟩
    · simp [h1] at h
    · rcases h2 : Item.readVec3 axisZero inFile1 with _ | ⟨r, inFile2⟩
      · simp [h1, h2] at h
      · simp only [h1, h2, hfr] at h
        exact ⟨t, r, inFile2, h, fun hn => absurd h6 hn⟩
  · by_cases h3 : j.m_channelCount = 3
    · simp only [Frame.loadJoints, if_neg h6, if_pos h3] at h
      rcases h1 : Item.readVec3 axisZero inFile with _ | ⟨r, inFile1⟩
      · simp [h1] at h
      · simp only [h1, hfr] at h
        exact ⟨axisZero, r, inFile1, h, fun _ hn => absurd h3 hn⟩
    · simp only [Frame.loadJoints, if_neg h6, if_neg h3, hfr] at h
      exact ⟨axisZero, axisZero, inFile, h, fun _ _ => rfl⟩

/-- The rotations that a run of the loop pushes. -/
theorem loadJoints_spec :
    ∀ (js : List (Joint K)) (i : Nat) (fr fr' : Frame K) (inFile rest : List (Item K)),
      Frame.loadJoints js i fr inFile = some (fr', rest) →
      ∃ rots : List (mat3 K), fr'.m_rotationData = fr.m_rotationData ++ rots ∧
        rots.length = js.length ∧
        ∀ (k : Nat) (j : Joint K), js[k]? = some j →
          ∃ r : vec3 K, rots[k]? = some (ComputeBVHRot r.x r.y r.z j.m_rotOrder) ∧
            (j.m_channelCount ≠ 6 → j.m_channelCount ≠ 3 → r = axisZero)
  | [], i, fr, fr', inFile, rest, h => by
    simp only [Frame.loadJoints, Option.some.injEq, Prod.mk.injEq] at h
    refine ⟨[], by rw [← h.1, List.append_nil], rfl, ?_⟩
    intro k j hk
    simp at hk
  | j :: js, i, fr, fr', inFile, rest, h => by
    obtain ⟨t, r, inFile1, hrun, hr⟩ := loadJoints_step j js i fr fr' inFile rest h
    obtain ⟨rots, hrots, hlen, hall⟩ := loadJoints_spec js _ _ _ _ _ hrun
    refine ⟨ComputeBVHRot r.x r.y r.z j.m_rotOrder :: rots, ?_, ?_, ?_⟩
    · rw [hrots]
      simp
    · simp [hlen]
    · intro k j1 hk
      rcases k with _ | k
      · simp only [List.getElem?_cons_zero, Option.some.injEq] at hk
        subst hk
        exact ⟨r, List.getElem?_cons_zero, hr⟩
      · simp only [List.getElem?_cons_succ] at hk ⊢
        exact hall k j1 hk

theorem mapM_some_map {α β : Type} (f : α → Option β) (g : α → β) :
    ∀ (l : List α), (∀ x ∈ l, f x = some (g x)) → l.mapM f = some (l.map g)
  | [], _ => rfl
  | x :: l, h => by
    rw [List.mapM_cons, h x (List.mem_cons_self _ _),
      mapM_some_map f g l (fun y hy => h y (List.mem_cons_of_mem _ hy))]
    rfl

theorem channelNumbers_cons (j : Joint K) (js : List (Joint K)) :
    channelNumbers (j :: js)
      = (if j.m_channelCount = 6 then 6 else if j.m_channelCount = 3 then 3 else 0)
        + channelNumbers js := by
  simp [channelNumbers]

/-- The loop over joints with 3 or 0 channels returns when the file has three
numbers for every joint with 3 channels. -/
theorem loadJoints_tail_total :
    ∀ (js : List (Joint K)) (i : Nat) (fr : Frame K) (nums : List K) (rest : List (Item K)),
      i ≠ 0 → (∀ j ∈ js, j.m_channelCount = 3 ∨ j.m_channelCount = 0) →
      nums.length = channelNumbers js →
      ∃ fr', Frame.loadJoints js i fr (nums.map Item.number ++ rest) = some (fr', rest) ∧
        fr'.m_rootTranslation = fr.m_rootTranslation
  | [], i, fr, nums, rest, _, _, hlen => by
    have : nums = [] := List.length_eq_zero.mp hlen
    subst this
    exact ⟨fr, rfl, rfl⟩
  | j :: js, i, fr, nums, rest, hi, hch, hlen => by
    rw [channelNumbers_cons] at hlen
    have hjs : ∀ j1 ∈ js, j1.m_channelCount = 3 ∨ j1.m_channelCount = 0 :=
      fun j1 h1 => hch j1 (List.mem_cons_of_mem _ h1)
    rcases hch j (List.mem_cons_self _ _) with h3 | h0
    · rw [h3] at hlen
      simp only [Nat.succ_ne_self, if_false, if_true] at hlen
      rcases nums with _ | ⟨a, _ | ⟨b, _ | ⟨c, nums⟩⟩⟩
      · simp at hlen
        omega
      · simp at hlen
        omega
      · simp at hlen
        omega
      · obtain ⟨fr', hfr', ht⟩ := loadJoints_tail_total js (i + 1)
          { fr with m_rotationData := fr.m_rotationData ++ [ComputeBVHRot a b c j.m_rotOrder] }
          nums rest (Nat.succ_ne_zero i) hjs (by simp at hlen; omega)
        refine ⟨fr', ?_, ht⟩
        simp only [List.map_cons, List.cons_append]
        rw [loadJoints_cons_three j js i fr a b c _ h3 hi]
        exact hfr'
    · rw [h0] at hlen
      obtain ⟨fr', hfr', ht⟩ := loadJoints_tail_total js (i + 1)
        { fr with m_rotationData := fr.m_rotationData ++ [ComputeBVHRot 0 0 0 j.m_rotOrder] }
        nums rest (Nat.succ_ne_zero i) hjs (by simpa using hlen)
      refine ⟨fr', ?_, ht⟩
      rw [loadJoints_cons_none j js i fr _ (by omega) (by omega) hi]
      exact hfr'

/-- The function `Frame::LoadFromBVHFile` returns on a frame line of a well-formed file: six
numbers for the root and three for every joint with 3 channels. -/
theorem loadJoints_total (root : Joint K) (js : List (Joint K)) (fr : Frame K)
    (nums : List K) (rest : List (Item K)) (h6 : root.m_channelCount = 6)
    (hch : ∀ j ∈ js, j.m_channelCount = 3 ∨ j.m_channelCount = 0)
    (hlen : nums.length = 6 + channelNumbers js) :
    ∃ fr', Frame.loadJoints (root :: js) 0 fr (nums.map Item.number ++ rest)
      = some (fr', rest) := by
  rcases nums with _ | ⟨x, _ | ⟨y, _ | ⟨z, _ | ⟨a, _ | ⟨b, _ | ⟨c, nums⟩⟩⟩⟩⟩⟩
  all_goals try (simp at hlen; omega)
  obtain ⟨fr', hfr', _⟩ := loadJoints_tail_total js 1
    { m_rootTranslation := ⟨x, y, z⟩,
      m_rotationData := fr.m_rotationData ++ [ComputeBVHRot a b c root.m_rotOrder] }
    nums rest (by omega) hch (by simp at hlen; omega)
  refine ⟨fr', ?_⟩
  simp only [List.map_cons, List.cons_append]
  rw [loadJoints_cons_six root js fr x y z a b c _ h6]
  exact hfr'

/-- The loop of `Motion::LoadFromBVHFile` returns on the frame lines of a well-formed
file. -/
theorem loadFrames_total (sk : Skeleton K) (root : Joint K) (js : List (Joint K))
    (hsk : sk.m_joints = root :: js) (h6 : root.m_channelCount = 6)
    (hch : ∀ j ∈ js, j.m_channelCount = 3 ∨ j.m_channelCount = 0) :
    ∀ (frames : List (List K)) (rest : List (Item K)),
      (∀ nums ∈ frames, nums.length = 6 + channelNumbers js) →
      ∃ frs, Motion.loadFrames sk frames.length (frames.flatten.map Item.number ++ rest)
        = some (frs, rest)
  | [], rest, _ => ⟨[], rfl⟩
  | nums :: frames, rest, h => by
    obtain ⟨frs, hfrs⟩ := loadFrames_total sk root js hsk h6 hch frames rest
      (fun n hn => h n (List.mem_cons_of_mem _ hn))
    obtain ⟨fr', hfr'⟩ := loadJoints_total root js
      { m_rootTranslation := axisZero, m_rotationData := [] } nums
      (frames.flatten.map Item.number ++ rest) h6 hch (h nums (List.mem_cons_self _ _))
    refine ⟨fr' :: frs, ?_⟩
    simp only [List.length_cons, Motion.loadFrames, Frame.LoadFromBVHFile, hsk,
      List.flatten_cons, List.map_append, List.append_assoc, hfr', hfrs]

/-- The frames that the loop of `Motion::LoadFromBVHFile` returns: their number is
the frame count, and each is a frame that `Frame::LoadFromBVHFile` has returned. -/
theorem loadFrames_spec (sk : Skeleton K) :
    ∀ (n : Nat) (inFile rest : List (Item K)) (frs : List (Frame K)),
      Motion.loadFrames sk n inFile = some (frs, rest) →
      frs.length = n ∧ ∀ fr ∈ frs, ∃ inFile1 rest1,
        Frame.loadJoints sk.m_joints 0 { m_rootTranslation := axisZero, m_rotationData := [] }
          inFile1 = some (fr, rest1)
  | 0, inFile, rest, frs, h => by
    simp only [Motion.loadFrames, Option.some.injEq, Prod.mk.injEq] at h
    rw [← h.1]
    exact ⟨rfl, fun fr hfr => by cases hfr⟩
  | n + 1, inFile, rest, frs, h => by
    simp only [Motion.loadFrames, Frame.LoadFromBVHFile] at h
    rcases h1 : Frame.loadJoints sk.m_joints 0
      { m_rootTranslation := axisZero, m_rotationData := [] } inFile with _ | ⟨fr, inFile1⟩
    · simp [h1] at h
    · rcases h2 : Motion.loadFrames sk n inFile1 with _ | ⟨frs1, inFile2⟩
      · simp [h1, h2] at h
      · simp only [h1, h2, Option.some.injEq, Prod.mk.injEq] at h
        obtain ⟨hlen, hall⟩ := loadFrames_spec sk n inFile1 inFile2 frs1 h2
        rw [← h.1]
        refine ⟨by simp [hlen], ?_⟩
        intro fr1 hfr1
        rcases List.mem_cons.mp hfr1 with hfr1 | hfr1
        · subst hfr1
          exact ⟨inFile, inFile1, h1⟩
        · exact hall fr1 hfr1

/-- The function `Motion::LoadFromBVHFile` on a MOTION part whose frames the loop returns. -/
theorem Motion.LoadFromBVHFile_items (atof : String → K) (m : Motion K) (sk : Skeleton K)
    (n : Nat) (w l : String) (body rest : List (Item K)) (frs : List (Frame K))
    (h : Motion.loadFrames sk n body = some (frs, rest)) :
    Motion.LoadFromBVHFile atof m sk
        ([.word "MOTION", .word "Frames:", .count n, .word w, .line l] ++ body)
      = some (true, { m_keyFrames := frs, m_currentFrame := 0, m_name := "None",
                      m_fps := 1 / atof (l.drop 6) }, rest) := by
  simp [Motion.LoadFromBVHFile, Item.readWord, Item.readCount, Item.readLine, h]

/-- The function `Frame::SaveToBVHFile` for a skeleton under the BVH convention whose joints with
channels have a rotation in the frame. -/
theorem Frame.save_bvh_frame (fr : Frame K) (sk : Skeleton K) (hamc : sk.AMC = false)
    (h : ∀ j ∈ sk.m_joints, j.m_channelCount > 0 → ∃ rot, fr.GetJointRotation j.m_id = some rot) :
    fr.SaveToBVHFile sk = some (fr.lineItems sk.m_joints) := by
  unfold Frame.SaveToBVHFile
  simp only [hamc, Bool.false_eq_true, if_false]
  rw [mapM_some_map _ fr.jointItems]
  · rfl
  · intro j hj
    unfold Frame.jointItems Frame.rotationOf
    by_cases hc : j.m_channelCount > 0
    · obtain ⟨rot, hrot⟩ := h j hj hc
      simp only [hc, if_true, hrot, Option.map_some', Option.getD_some]
    · simp only [hc, if_false]

/-- The function `Motion::SaveToBVHFile` for a skeleton under the BVH convention. -/
theorem Motion.save_bvh_motion (fmt : K → String) (m : Motion K) (sk : Skeleton K)
    (hamc : sk.AMC = false)
    (h : ∀ fr ∈ m.m_keyFrames, ∀ j ∈ sk.m_joints, j.m_channelCount > 0 →
      ∃ rot, fr.GetJointRotation j.m_id = some rot) :
    m.SaveToBVHFile fmt sk
      = some ([.word "MOTION", .word "Frames:", .count m.m_keyFrames.length, .word "Frame",
          .line (" Time: " ++ fmt (1 / m.m_fps))]
        ++ (m.m_keyFrames.map (fun fr => fr.lineItems sk.m_joints)).flatten) := by
  unfold Motion.SaveToBVHFile
  rw [mapM_some_map _ (fun (fr : Frame K) => fr.lineItems sk.m_joints)]
  · rfl
  · intro fr hfr
    exact Frame.save_bvh_frame fr sk hamc (h fr hfr)

/-- Reading back what `Frame::SaveToBVHFile` has written for joints with 3 or 0
channels. -/
theorem loadJoints_resaved (fr : Frame K) :
    ∀ (js : List (Joint K)) (i : Nat) (fr0 : Frame K) (rest : List (Item K)),
      i ≠ 0 → (∀ j ∈ js, j.m_channelCount = 3 ∨ j.m_channelCount = 0) →
      Frame.loadJoints (js.map Joint.resaved) i fr0 ((js.map fr.jointItems).flatten ++ rest)
        = some ({ fr0 with m_rotationData := fr0.m_rotationData ++ js.map fr.reread }, rest)
  | [], i, fr0, rest, _, _ => by
    simp [Frame.loadJoints]
  | j :: js, i, fr0, rest, hi, hch => by
    have hjs : ∀ j1 ∈ js, j1.m_channelCount = 3 ∨ j1.m_channelCount = 0 :=
      fun j1 h1 => hch j1 (List.mem_cons_of_mem _ h1)
    rcases hch j (List.mem_cons_self _ _) with h3 | h0
    · have hitems : fr.jointItems j
          = [.number ((mat3.ToEulerAnglesZXY (fr.rotationOf j)).2 * (Rad2Deg : K)).z,
             .number ((mat3.ToEulerAnglesZXY (fr.rotationOf j)).2 * (Rad2Deg : K)).x,
             .number ((mat3.ToEulerAnglesZXY (fr.rotationOf j)).2 * (Rad2Deg : K)).y] := by
        simp [Frame.jointItems, Frame.angleItems, h3]
      have hre : j.resaved = { j with m_rotOrder := "zxy" } := by
        simp [Joint.resaved, h3]
      simp only [List.map_cons, List.flatten_cons, hitems, List.cons_append, List.nil_append,
        List.append_assoc]
      rw [loadJoints_cons_three _ _ _ _ _ _ _ _ (by rw [hre]; exact h3) hi,
        loadJoints_resaved fr js (i + 1) _ rest (Nat.succ_ne_zero i) hjs]
      simp [Frame.reread, h3, hre]
    · have hitems : fr.jointItems j = [] := by
        simp [Frame.jointItems, h0]
      have hre : j.resaved = j := by
        simp [Joint.resaved, h0]
      simp only [List.map_cons, List.flatten_cons, hitems, List.nil_append, hre]
      rw [loadJoints_cons_none _ _ _ _ _ (by omega) (by omega) hi,
        loadJoints_resaved fr js (i + 1) _ rest (Nat.succ_ne_zero i) hjs]
      simp [Frame.reread, h0]

/-- Reading back the line that `Frame::SaveToBVHFile` has written. -/
theorem loadJoints_lineItems (fr fr0 : Frame K) (root root2 : Joint K) (js : List (Joint K))
    (rest : List (Item K)) (h6 : root.m_channelCount = 6) (h62 : root2.m_channelCount = 6)
    (horder : root2.m_rotOrder = "zxy")
    (hch : ∀ j ∈ js, j.m_channelCount = 3 ∨ j.m_channelCount = 0) :
    Frame.loadJoints (root2 :: js.map Joint.resaved) 0 fr0 (fr.lineItems (root :: js) ++ rest)
      = some ({ m_rootTranslation := fr.m_rootTranslation,
                m_rotationData := fr0.m_rotationData ++ (root :: js).map fr.reread }, rest) := by
  have hitems : fr.jointItems root
      = [.number ((mat3.ToEulerAnglesZXY (fr.rotationOf root)).2 * (Rad2Deg : K)).z,
         .number ((mat3.ToEulerAnglesZXY (fr.rotationOf root)).2 * (Rad2Deg : K)).x,
         .number ((mat3.ToEulerAnglesZXY (fr.rotationOf root)).2 * (Rad2Deg : K)).y] := by
    simp [Frame.jointItems, Frame.angleItems, h6]
  simp only [Frame.lineItems, List.map_cons, List.flatten_cons, hitems, List.cons_append,
    List.nil_append, List.append_assoc]
  rw [loadJoints_cons_six _ _ _ _ _ _ _ _ _ _ h62,
    loadJoints_resaved fr js 1 _ rest (by omega) hch]
  simp [Frame.reread, h6, horder]

/-- Reading back the frame lines that `Motion::SaveToBVHFile` has written. -/
theorem loadFrames_lineItems (sk2 : Skeleton K) (root root2 : Joint K) (js : List (Joint K))
    (hsk2 : sk2.m_joints = root2 :: js.map Joint.resaved)
    (h6 : root.m_channelCount = 6) (h62 : root2.m_channelCount = 6)
    (horder : root2.m_rotOrder = "zxy")
    (hch : ∀ j ∈ js, j.m_channelCount = 3 ∨ j.m_channelCount = 0) :
    ∀ (frs : List (Frame K)) (rest : List (Item K)),
      Motion.loadFrames sk2 frs.length
          ((frs.map (fun fr => fr.lineItems (root :: js))).flatten ++ rest)
        = some (frs.map (fun fr =>
            { m_rootTranslation := fr.m_rootTranslation,
              m_rotationData := (root :: js).map fr.reread }), rest)
  | [], rest => rfl
  | fr :: frs, rest => by
    simp only [List.length_cons, Motion.loadFrames, Frame.LoadFromBVHFile, hsk2, List.map_cons,
      List.flatten_cons, List.append_assoc]
    rw [loadJoints_lineItems fr _ root root2 js _ h6 h62 horder hch]
    simp only [loadFrames_lineItems sk2 root root2 js hsk2 h6 h62 horder hch frs rest]
    simp

end BvhFrames

section BvhRereadReal

/-- The rotations read back are the rotations of the frame: every rotation of the
frame is what `ComputeBVHRot` builds for the joint at its position, the joints with
channels have one of the six rotation orders, and no rotation is at gimbal lock. -/
theorem map_reread (fr : Frame ℝ) (js : List (Joint ℝ))
    (hlen : fr.m_rotationData.length = js.length)
    (hids : ∀ (k : Nat) (j : Joint ℝ), js[k]? = some j → j.m_id = (k : Int))
    (hrot : ∀ (k : Nat) (j : Joint ℝ), js[k]? = some j →
      ∃ r : vec3 ℝ, fr.m_rotationData[k]? = some (ComputeBVHRot r.x r.y r.z j.m_rotOrder) ∧
        (j.m_channelCount ≠ 6 → j.m_channelCount ≠ 3 → r = axisZero))
    (hch : ∀ j ∈ js, (j.m_channelCount = 6 ∨ j.m_channelCount = 3) ∧ knownOrder j.m_rotOrder ∨
      j.m_channelCount = 0)
    (hg : ∀ rot ∈ fr.m_rotationData, (mat3.ToEulerAnglesZXY rot).1 = true) :
    js.map fr.reread = fr.m_rotationData := by
  apply List.ext_getElem?
  intro k
  rw [List.getElem?_map]
  rcases hk : js[k]? with _ | j
  · have : js.length ≤ k := List.getElem?_eq_none_iff.mp hk
    rw [List.getElem?_eq_none_iff.mpr (by omega)]
    rfl
  · obtain ⟨r, hr, hzero⟩ := hrot k j hk
    rw [hr]
    simp only [Option.map_some', Option.some.injEq]
    have hof : fr.rotationOf j = ComputeBVHRot r.x r.y r.z j.m_rotOrder := by
      unfold Frame.rotationOf
      rw [hids k j hk, GetJointRotation_nat, hr]
      rfl
    rcases hch j (List.getElem?_mem hk) with ⟨hc, hknown⟩ | h0
    · have hpos : j.m_channelCount > 0 := by omega
      unfold Frame.reread
      rw [if_pos hpos, hof]
      exact ComputeBVHRot_angles _ (ComputeBVHRot_isRotation _ _ _ hknown)
        (hg _ (List.getElem?_mem hr))
    · have hz := hzero (by omega) (by omega)
      unfold Frame.reread
      rw [if_neg (by omega), hz]
      rfl

end BvhRereadReal

/-! ## BVH files: the skeleton loaded from the file that the writer puts out -/

section BvhRoundTrip

variable {K : Type} [CommRing K]

/-- The joints loaded from the file that the writer puts out. -/
theorem BvhFile.file_saved_joints (D : K) (file : BvhFile K) (h3 : file.blocks.threeChannels) :
    file.saved.joints D
      = bvhJoint D false (siteName file.rootName 0) 0 none (file.blocks.roots 1) axisZero
          file.rootChannels "zxy"
        :: (file.blocks.joints D false 1 0).map Joint.resaved := by
  unfold BvhFile.joints BvhFile.saved
  simp only [Blocks.saved_joints D file.blocks 1 0 h3, Blocks.saved_roots,
    (rotOrderOf_saved D).2]

/-- The ids of the joints loaded from a file are their positions. -/
theorem BvhFile.file_joints_ids (D : K) (file : BvhFile K) (k : Nat) (j : Joint K)
    (h : (file.joints D)[k]? = some j) : j.m_id = (k : Int) := by
  unfold BvhFile.joints at h
  rcases k with _ | k
  · simp only [List.getElem?_cons_zero, Option.some.injEq] at h
    subst h
    rfl
  · simp only [List.getElem?_cons_succ] at h
    rw [Blocks.joints_ids D false file.blocks 1 0 k j h]
    congr 1
    omega

/-- The joint at every position of the skeleton loaded from the file that the writer
puts out has the name, the parent and the channel count of the joint at that position
of the skeleton loaded from the file itself. -/
theorem BvhFile.file_saved_get (D : K) (file : BvhFile K) (h3 : file.blocks.threeChannels)
    (k : Nat) (j1 : Joint K) (h : (file.joints D)[k]? = some j1) :
    ∃ j2, (file.saved.joints D)[k]? = some j2 ∧ j2.m_name = j1.m_name ∧
      j2.m_pParent = j1.m_pParent ∧ j2.m_channelCount = j1.m_channelCount := by
  rw [BvhFile.file_saved_joints D file h3]
  unfold BvhFile.joints at h
  rcases k with _ | k
  · simp only [List.getElem?_cons_zero, Option.some.injEq] at h
    subst h
    exact ⟨_, List.getElem?_cons_zero, siteName_idem _ _, rfl, rfl⟩
  · simp only [List.getElem?_cons_succ] at h
    refine ⟨j1.resaved, ?_, ?_⟩
    · simp only [List.getElem?_cons_succ, List.getElem?_map, h, Option.map_some']
    · unfold Joint.resaved
      split_ifs <;> exact ⟨rfl, rfl, rfl⟩

end BvhRoundTrip

/-! ## The example BVH file -/

section BvhExampleLemmas

theorem ComputeBVHRot_zero {rotOrder : String} (h : knownOrder rotOrder) :
    ComputeBVHRot 0 0 0 rotOrder = (identity3D : mat3 ℝ) := by
  obtain ⟨h1, h2, h3, h4, h5, h6⟩ := ComputeBVHRot_products (0 : ℝ) 0 0
  have hx : rotX ((Deg2Rad : ℝ) * 0) = identity3D := by
    simp [rotX, identity3D, axisX, axisY, axisZ, CMath.cos, CMath.sin]
  have hy : rotY ((Deg2Rad : ℝ) * 0) = identity3D := by
    simp [rotY, identity3D, axisX, axisY, axisZ, CMath.cos, CMath.sin]
  have hz : rotZ ((Deg2Rad : ℝ) * 0) = identity3D := by
    simp [rotZ, identity3D, axisX, axisY, axisZ, CMath.cos, CMath.sin]
  rcases h with h | h | h | h | h | h <;> rw [h]
  · rw [h1, hx, hy, hz, mat3.mul_one, mat3.mul_one]
  · rw [h2, hx, hy, hz, mat3.mul_one, mat3.mul_one]
  · rw [h3, hx, hy, hz, mat3.mul_one, mat3.mul_one]
  · rw [h4, hx, hy, hz, mat3.mul_one, mat3.mul_one]
  · rw [h5, hx, hy, hz, mat3.mul_one, mat3.mul_one]
  · rw [h6, hx, hy, hz, mat3.mul_one, mat3.mul_one]

theorem exBvhFile_wellFormed {F : Type} [CommRing F] (D : F) :
    (exBvhFile : BvhFile F).WellFormed D := by
  refine ⟨rfl, ?_, ⟨rfl, trivial, trivial⟩, ⟨?_, trivial, trivial⟩, ?_⟩
  · show knownOrder
      (rotOrderOf D " Xposition Yposition Zposition Zrotation Xrotation Yrotation")
    rw [(rotOrderOf_saved D).2]
    exact Or.inr (Or.inr (Or.inr (Or.inr (Or.inl rfl))))
  · show knownOrder (rotOrderOf D " Zrotation Xrotation Yrotation")
    rw [(rotOrderOf_saved D).1]
    exact Or.inr (Or.inr (Or.inr (Or.inr (Or.inl rfl))))
  · intro fr hfr
    simp only [exBvhFile, List.mem_singleton] at hfr
    subst hfr
    rfl

/-- No rotation of the frame loaded from the example file is at gimbal lock. -/
theorem exBvhFile_rotations (atof : String → ℝ) (sk0 : Skeleton ℝ) (m0 : Motion ℝ)
    (sk1 : Skeleton ℝ) (m1 : Motion ℝ) (rest1 rest2 : List (Item ℝ))
    (h1 : Skeleton.LoadFromBVHFile Deg2Rad sk0 (exBvhFile : BvhFile ℝ).items
      = some (true, sk1, rest1))
    (h2 : Motion.LoadFromBVHFile atof m0 sk1 rest1 = some (true, m1, rest2)) :
    ∀ fr ∈ m1.m_keyFrames, ∀ rot ∈ fr.m_rotationData,
      (mat3.ToEulerAnglesZXY rot).1 = true := by
  have ToEulerAnglesZXY_identity : (mat3.ToEulerAnglesZXY (identity3D : mat3 ℝ)).1 = true := by
    have hpi := Real.pi_gt_three
    have h0 : (identity3D : mat3 ℝ).r2.y = 0 := rfl
    have hgt : Real.arcsin (identity3D : mat3 ℝ).r2.y > -M_PI_2 + EPSILON := by
      rw [h0, Real.arcsin_zero]
      simp only [M_PI_2, M_PI, EPSILON, CMath.pi]
      linarith
    have hlt : Real.arcsin (identity3D : mat3 ℝ).r2.y < M_PI_2 - EPSILON := by
      rw [h0, Real.arcsin_zero]
      simp only [M_PI_2, M_PI, EPSILON, CMath.pi]
      linarith
    simp only [mat3.ToEulerAnglesZXY, CMath.asin, if_pos hgt, if_pos hlt]
  have e1 := LoadFromBVHFile_hierarchy Deg2Rad sk0 exBvhFile (exBvhFile : BvhFile ℝ).motion
  have hitems : (exBvhFile : BvhFile ℝ).items
      = (exBvhFile : BvhFile ℝ).hierarchy ++ (exBvhFile : BvhFile ℝ).motion := rfl
  rw [hitems, e1] at h1
  simp only [Option.some.injEq, Prod.mk.injEq, true_and] at h1
  obtain ⟨hsk, hrest⟩ := h1
  subst hsk hrest
  have hz : ComputeBVHRot 0 0 0 "zxy" = (identity3D : mat3 ℝ) :=
    ComputeBVHRot_zero (Or.inr (Or.inr (Or.inr (Or.inr (Or.inl rfl)))))
  have hx : ComputeBVHRot 0 0 0 "xyz" = (identity3D : mat3 ℝ) :=
    ComputeBVHRot_zero (Or.inl rfl)
  have e2 : Motion.loadFrames
      ({ sk0 with m_joints := (exBvhFile : BvhFile ℝ).joints Deg2Rad, m_pRoot := some 0,
                  AMC := false } : Skeleton ℝ) 1
      ([1, 2, 3, 0, 0, 0, 0, 0, 0].map Item.number)
      = some ([{ m_rootTranslation := ⟨1, 2, 3⟩,
                 m_rotationData := [identity3D, identity3D, identity3D] }], []) := by
    simp only [Motion.loadFrames, Frame.LoadFromBVHFile, BvhFile.joints, Blocks.joints,
      exBvhFile, List.map_cons, List.map_nil, List.append_nil]
    rw [loadJoints_cons_six _ _ _ _ _ _ _ _ _ _ rfl,
      loadJoints_cons_three _ _ _ _ _ _ _ _ rfl (by omega),
      loadJoints_cons_none _ _ _ _ _ (by decide) (by decide) (by omega)]
    simp only [bvhJoint, (rotOrderOf_saved Deg2Rad).1, (rotOrderOf_saved Deg2Rad).2, hz, hx,
      Frame.loadJoints, List.nil_append, List.cons_append]
  have e3 := Motion.LoadFromBVHFile_items atof m0 _ 1 "Frame" " Time: 0.04" _ _ _ e2
  have hmotion : (exBvhFile : BvhFile ℝ).motion
      = [.word "MOTION", .word "Frames:", .count 1, .word "Frame", .line " Time: 0.04"]
        ++ [1, 2, 3, 0, 0, 0, 0, 0, 0].map Item.number := rfl
  rw [hmotion, e3] at h2
  simp only [Option.some.injEq, Prod.mk.injEq, true_and] at h2
  obtain ⟨hm, _⟩ := h2
  subst hm
  intro fr hfr rot hrot
  simp only [List.mem_singleton] at hfr
  subst hfr
  simp only [List.mem_cons, List.mem_singleton, List.not_mem_nil, or_false, or_self] at hrot
  subst hrot
  exact ToEulerAnglesZXY_identity

end BvhExampleLemmas

/-! ## C9: the BVH round trip -/

section C9

/-- C9. For every well-formed BVH file (a root with 6 channels, every `JOINT` with
3 channels, `End` leaves, rotation channels in one of the six orders, frame lines with
six numbers for the root and three for every `JOINT`) none of whose loaded frame
rotations is at ZXY gimbal lock: loading it, saving the result with
`Skeleton::SaveToBVHFile` and `Motion::SaveToBVHFile`, and loading what was saved all
succeed, and give a skeleton with the same joint count and, at every position, the
same joint name, parent and channel count, and a motion with the same frame count and
the same rotation matrices in every frame.  Numbers are real numbers and are read
back as they were written. -/
theorem C9_BVH_round_trip (atof : String → ℝ) (fmt : ℝ → String) (file : BvhFile ℝ)
    (sk0 sk0' : Skeleton ℝ) (m0 m0' : Motion ℝ) (hfile : file.WellFormed Deg2Rad)
    (hgimbal : ∀ (sk1 : Skeleton ℝ) (m1 : Motion ℝ) (rest1 rest2 : List (Item ℝ)),
      Skeleton.LoadFromBVHFile Deg2Rad sk0 file.items = some (true, sk1, rest1) →
      Motion.LoadFromBVHFile atof m0 sk1 rest1 = some (true, m1, rest2) →
      ∀ fr ∈ m1.m_keyFrames, ∀ rot ∈ fr.m_rotationData,
        (mat3.ToEulerAnglesZXY rot).1 = true) :
    ∃ (sk1 sk2 : Skeleton ℝ) (m1 m2 : Motion ℝ) (out1 out2 : List (Item ℝ)),
      Skeleton.LoadFromBVHFile Deg2Rad sk0 file.items = some (true, sk1, file.motion) ∧
      Motion.LoadFromBVHFile atof m0 sk1 file.motion = some (true, m1, []) ∧
      sk1.SaveToBVHFile = some out1 ∧ m1.SaveToBVHFile fmt sk1 = some out2 ∧
      Skeleton.LoadFromBVHFile Deg2Rad sk0' (out1 ++ out2) = some (true, sk2, out2) ∧
      Motion.LoadFromBVHFile atof m0' sk2 out2 = some (true, m2, []) ∧
      sk2.m_joints.length = sk1.m_joints.length ∧
      (∀ (k : Nat) (j1 : Joint ℝ), sk1.m_joints[k]? = some j1 →
        ∃ j2, sk2.m_joints[k]? = some j2 ∧ j2.m_name = j1.m_name ∧
          j2.m_pParent = j1.m_pParent ∧ j2.m_channelCount = j1.m_channelCount) ∧
      m2.m_keyFrames.length = m1.m_keyFrames.length ∧
      ∀ (i : Nat) (fr1 : Frame ℝ), m1.m_keyFrames[i]? = some fr1 →
        ∃ fr2, m2.m_keyFrames[i]? = some fr2 ∧
          fr2.m_rotationData = fr1.m_rotationData := by
  obtain ⟨hroot6, hrootOrder, h3, hko, hframes⟩ := hfile
  -- the first load
  have hload1 := LoadFromBVHFile_hierarchy Deg2Rad sk0 file file.motion
  have htail := Blocks.joints_channels Deg2Rad false file.blocks 1 0 h3 hko
  have hch : ∀ j ∈ file.blocks.joints Deg2Rad false 1 0,
      j.m_channelCount = 3 ∨ j.m_channelCount = 0 := by
    intro j hj
    rcases htail j hj with h | h
    · exact Or.inl h.1
    · exact Or.inr h.1
  have hjoints : file.joints Deg2Rad
      = bvhJoint Deg2Rad false file.rootName 0 none (file.blocks.roots 1) file.rootOffset
          file.rootChannels (rotOrderOf Deg2Rad file.rootOrder)
        :: file.blocks.joints Deg2Rad false 1 0 := rfl
  obtain ⟨frs1, hfrs1⟩ := loadFrames_total
    ({ sk0 with m_joints := file.joints Deg2Rad, m_pRoot := some 0, AMC := false } : Skeleton ℝ)
    _ _ hjoints hroot6 hch file.frames []
    (by
      intro nums hnums
      rw [Blocks.joints_numbers Deg2Rad false file.blocks 1 0 h3]
      exact hframes nums hnums)
  rw [List.append_nil] at hfrs1
  have hload2 := Motion.LoadFromBVHFile_items atof m0 _ _ "Frame" file.frameTime _ _ _ hfrs1
  have hg := hgimbal _ _ _ _ hload1 hload2
  obtain ⟨hlen1, hloaded⟩ := loadFrames_spec _ _ _ _ _ hfrs1
  have hspec : ∀ fr ∈ frs1, fr.m_rotationData.length = (file.joints Deg2Rad).length ∧
      ∀ (k : Nat) (j : Joint ℝ), (file.joints Deg2Rad)[k]? = some j →
        ∃ r : vec3 ℝ, fr.m_rotationData[k]? = some (ComputeBVHRot r.x r.y r.z j.m_rotOrder) ∧
          (j.m_channelCount ≠ 6 → j.m_channelCount ≠ 3 → r = axisZero) := by
    intro fr hfr
    obtain ⟨inFile1, rest1, hrun⟩ := hloaded fr hfr
    obtain ⟨rots, hrots, hlen, hall⟩ := loadJoints_spec _ _ _ _ _ _ hrun
    rw [List.nil_append] at hrots
    rw [hrots]
    exact ⟨hlen, hall⟩
  -- saving
  have hsave1 := SaveToBVHFile_loaded Deg2Rad sk0 file h3
  have hsave2 := Motion.save_bvh_motion fmt
    { m_keyFrames := frs1, m_currentFrame := 0, m_name := "None",
      m_fps := 1 / atof (file.frameTime.drop 6) }
    ({ sk0 with m_joints := file.joints Deg2Rad, m_pRoot := some 0, AMC := false } : Skeleton ℝ)
    rfl
    (by
      intro fr hfr j hj _
      obtain ⟨k, hk⟩ := List.getElem?_of_mem hj
      obtain ⟨r, hr, _⟩ := (hspec fr hfr).2 k j hk
      rw [BvhFile.file_joints_ids Deg2Rad file k j hk, GetJointRotation_nat]
      exact ⟨_, hr⟩)
  -- the second load
  have hload3 := LoadFromBVHFile_hierarchy Deg2Rad sk0' file.saved
    ([.word "MOTION", .word "Frames:", .count frs1.length, .word "Frame",
        .line (" Time: " ++ fmt (1 / (1 / atof (file.frameTime.drop 6))))]
      ++ (frs1.map (fun fr => fr.lineItems (file.joints Deg2Rad))).flatten)
  have hsaved := BvhFile.file_saved_joints Deg2Rad file h3
  have hfrs2 := loadFrames_lineItems
    ({ sk0' with m_joints := file.saved.joints Deg2Rad, m_pRoot := some 0, AMC := false } :
      Skeleton ℝ)
    (bvhJoint Deg2Rad false file.rootName 0 none (file.blocks.roots 1) file.rootOffset
      file.rootChannels (rotOrderOf (Deg2Rad : ℝ) file.rootOrder))
    _ _ hsaved hroot6 hroot6 rfl hch frs1 []
  rw [List.append_nil, ← hjoints] at hfrs2
  have hload4 := Motion.LoadFromBVHFile_items atof m0' _ _ "Frame"
    (" Time: " ++ fmt (1 / (1 / atof (file.frameTime.drop 6)))) _ _ _ hfrs2
  refine ⟨_, _, _, _, _, _, hload1, hload2, hsave1, hsave2, hload3, hload4, ?_, ?_, ?_, ?_⟩
  · show (file.saved.joints Deg2Rad).length = (file.joints Deg2Rad).length
    rw [hsaved, hjoints]
    simp
  · intro k j1 hk
    exact BvhFile.file_saved_get Deg2Rad file h3 k j1 hk
  · show (frs1.map _).length = frs1.length
    rw [List.length_map]
  · intro i fr1 hi
    have hmem : fr1 ∈ frs1 := List.getElem?_mem hi
    refine ⟨{ m_rootTranslation := fr1.m_rootTranslation,
              m_rotationData := (file.joints Deg2Rad).map fr1.reread }, ?_, ?_⟩
    · show (frs1.map _)[i]? = _
      rw [List.getElem?_map, hi]
      rfl
    · show (file.joints Deg2Rad).map fr1.reread = fr1.m_rotationData
      apply map_reread fr1 _ (hspec fr1 hmem).1 (BvhFile.file_joints_ids Deg2Rad file)
        (hspec fr1 hmem).2 _ (hg fr1 hmem)
      intro j hj
      rw [hjoints] at hj
      rcases List.mem_cons.mp hj with hj | hj
      · subst hj
        exact Or.inl ⟨Or.inl hroot6, hrootOrder⟩
      · rcases htail j hj with h | h
        · exact Or.inl ⟨Or.inr h.1, h.2⟩
        · exact Or.inr h.1

/-- The round trip of the example file: a root, a joint below it and an `End Site`,
with one frame that turns no joint. -/
theorem C9_BVH_round_trip_witness :
    (exBvhFile : BvhFile ℝ).WellFormed Deg2Rad ∧
    ∃ (sk1 sk2 : Skeleton ℝ) (m1 m2 : Motion ℝ) (out1 out2 : List (Item ℝ)),
      Skeleton.LoadFromBVHFile Deg2Rad exNoSkeleton (exBvhFile : BvhFile ℝ).items
        = some (true, sk1, (exBvhFile : BvhFile ℝ).motion) ∧
      Motion.LoadFromBVHFile (fun _ => 1) exNoMotion sk1 (exBvhFile : BvhFile ℝ).motion
        = some (true, m1, []) ∧
      sk1.SaveToBVHFile = some out1 ∧ m1.SaveToBVHFile (fun _ => "1") sk1 = some out2 ∧
      Skeleton.LoadFromBVHFile Deg2Rad exNoSkeleton (out1 ++ out2) = some (true, sk2, out2) ∧
      Motion.LoadFromBVHFile (fun _ => 1) exNoMotion sk2 out2 = some (true, m2, []) ∧
      sk2.m_joints.length = sk1.m_joints.length ∧
      (∀ (k : Nat) (j1 : Joint ℝ), sk1.m_joints[k]? = some j1 →
        ∃ j2, sk2.m_joints[k]? = some j2 ∧ j2.m_name = j1.m_name ∧
          j2.m_pParent = j1.m_pParent ∧ j2.m_channelCount = j1.m_channelCount) ∧
      m2.m_keyFrames.length = m1.m_keyFrames.length ∧
      ∀ (i : Nat) (fr1 : Frame ℝ), m1.m_keyFrames[i]? = some fr1 →
        ∃ fr2, m2.m_keyFrames[i]? = some fr2 ∧
          fr2.m_rotationData = fr1.m_rotationData :=
  ⟨exBvhFile_wellFormed _,
    C9_BVH_round_trip (fun _ => 1) (fun _ => "1") exBvhFile exNoSkeleton exNoSkeleton
      exNoMotion exNoMotion (exBvhFile_wellFormed _)
      (exBvhFile_rotations (fun _ => 1) exNoSkeleton exNoMotion)⟩

end C9

/-! ## C10: the order of the rotation triples in a saved file -/

section C10

/-- C10 fails on the converted fork (a root with two bones).  The conversion appends
the two sites as joints 3 and 4; every joint then has channels, so
`Frame::SaveToBVHFile` writes the triples of the joints 0, 1, 2, 3, 4 in this order,
while `Skeleton::SaveToBVHFile` declares the joints in the order 0, 1, 3, 2, 4: the
third triple of a line belongs to joint 2 and the third declared joint is the site
3. -/
theorem C10_save_order :
    (Player.ConvertAMC2BVH 0 (exForkPlayer : Player ℤ)).map
        (fun p1 => (p1.m_skeleton.AMC,
          p1.m_skeleton.m_joints.map (fun j => j.m_channelCount),
          Frame.SaveToBVHFile_ids p1.m_skeleton,
          p1.m_skeleton.SaveToBVHFile_joints))
      = some (false, [6, 3, 3, 3, 3], [0, 1, 2, 3, 4], some [0, 1, 3, 2, 4]) := by
  decide!

end C10

/-! ## `Motion::ReOrient` -/

section ReOrientLemmas

variable {K : Type} [CommRing K]

end ReOrientLemmas

/-! ## C12: `Motion::ReOrient` and frame 0 -/

section C12

variable {K : Type} [CommRing K]

end C12

/-! ## C13: `Motion::ReOrient` and the other frames -/

section C13

variable {K : Type} [CommRing K]

end C13

/-! ## `Motion::SubMotion` and `Motion::SetSubMotion` -/

section SubMotionLemmas

variable {K : Type} [CommRing K]

theorem toUnsigned_nat (a : Nat) (h : a < 2 ^ 32) : toUnsigned (a : Int) = a := by
  unfold toUnsigned
  rw [Int.emod_eq_of_lt (by omega) (by omega)]
  simp

theorem toInt_nat (a : Nat) (h : a < 2 ^ 31) : toInt a = (a : Int) := by
  unfold toInt
  rw [Nat.mod_eq_of_lt (by omega), if_pos h]

/-- The loop of `Motion::SubMotion` inside the vector: the frames from `i` on are
appended in order. -/
theorem appendFrames_spec (src : Motion K) :
    ∀ (n i : Nat) (m : Motion K), i + n ≤ src.m_keyFrames.length →
      Motion.appendFrames src n i m
        = some { m with m_keyFrames := m.m_keyFrames ++ (src.m_keyFrames.drop i).take n }
  | 0, i, m, _ => by
    simp [Motion.appendFrames]
  | n + 1, i, m, h => by
    have hi : i < src.m_keyFrames.length := by omega
    simp only [Motion.appendFrames, Motion.GetFrame, List.getElem?_eq_getElem hi]
    rw [appendFrames_spec src n (i + 1) _ (by omega)]
    simp only [Motion.AppendFrame, List.append_assoc, List.singleton_append]
    rw [List.drop_eq_getElem_cons hi, List.take_succ_cons]

/-- For bounds that are not negative `Motion::SubMotion(a, b)` copies the frames
with the indices in `[a, min(b, count))`, in order, and the fps. -/
theorem SubMotion_nonneg (m : Motion K) (a b : Nat) (ha : a < 2 ^ 31) (hb : b < 2 ^ 31)
    (hlen : m.m_keyFrames.length < 2 ^ 31) :
    m.SubMotion (a : Int) (b : Int)
      = some { m_keyFrames := (m.m_keyFrames.take (min b m.m_keyFrames.length)).drop a,
               m_currentFrame := 0, m_name := "None", m_fps := m.m_fps } := by
  unfold Motion.SubMotion Motion.GetNumFrames
  simp only [toUnsigned_nat a (by omega), toUnsigned_nat b (by omega),
    Nat.mod_eq_of_lt (show m.m_keyFrames.length < 2 ^ 32 by omega), Nat.zero_max]
  rw [toInt_nat a ha, toInt_nat _ (show min m.m_keyFrames.length b < 2 ^ 31 by omega),
    toUnsigned_nat a (by omega), toUnsigned_nat _ (by omega)]
  by_cases hab : a ≤ min m.m_keyFrames.length b
  · rw [appendFrames_spec m _ a _ (by omega)]
    simp only [Motion.SetFps, Motion.new, List.nil_append]
    rw [List.drop_take, Nat.min_comm]
  · have h0 : min m.m_keyFrames.length b - a = 0 := by omega
    rw [h0]
    simp only [Motion.appendFrames, Motion.SetFps, Motion.new]
    rw [List.drop_eq_nil_of_le]
    rw [List.length_take]
    omega

theorem set_take_succ {α : Type} (l : List α) (i : Nat) (a : α) (hi : i < l.length) :
    (l.set i a).take (i + 1) = l.take i ++ [a] := by
  rw [List.set_eq_take_append_cons_drop, if_pos hi, List.take_append_eq_append_take]
  simp [List.length_take, Nat.min_eq_left hi.le, List.take_take]

/-- The loop of `Motion::SetSubMotion` inside both vectors: the frames from `i` on
are overwritten with the frames of `m` from `index` on. -/
theorem setFrames_spec (m : Motion K) :
    ∀ (n i index : Nat) (self : Motion K), i + n ≤ self.m_keyFrames.length →
      index + n ≤ m.m_keyFrames.length →
      Motion.setFrames m n i index self
        = some { self with m_keyFrames :=
            self.m_keyFrames.take i ++ (m.m_keyFrames.drop index).take n
              ++ self.m_keyFrames.drop (i + n) }
  | 0, i, index, self, _, _ => by
    simp [Motion.setFrames]
  | n + 1, i, index, self, h, hm => by
    have hi : i < self.m_keyFrames.length := by omega
    have hx : index < m.m_keyFrames.length := by omega
    simp only [Motion.setFrames, Motion.GetFrame, List.getElem?_eq_getElem hx, Motion.SetFrame,
      if_pos hi]
    have hlen : i + 1 + n ≤ (self.m_keyFrames.set i m.m_keyFrames[index]).length := by
      rw [List.length_set]
      omega
    rw [setFrames_spec m n (i + 1) (index + 1) _ hlen (by omega)]
    simp only [Option.some.injEq]
    congr 1
    rw [List.drop_eq_getElem_cons hx, List.take_succ_cons, set_take_succ _ _ _ hi,
      List.drop_set_of_lt _ _ (by omega), show i + 1 + n = i + (n + 1) by omega]
    simp only [List.append_assoc, List.singleton_append]

/-- For bounds `0 <= a <= b <= count` and `m` with at least `b - a` frames,
`Motion::SetSubMotion(a, b, m)` overwrites the frames `a`, ..., `b - 1` with the
frames 0, 1, ... of `m` and leaves the others. -/
theorem SetSubMotion_inside (self m : Motion K) (a b : Nat) (hab : a ≤ b)
    (hb : b ≤ self.m_keyFrames.length) (hm : b - a ≤ m.m_keyFrames.length)
    (hlen : self.m_keyFrames.length < 2 ^ 31) (hmlen : m.m_keyFrames.length < 2 ^ 31) :
    self.SetSubMotion (a : Int) (b : Int) m
      = some { self with m_keyFrames :=
          self.m_keyFrames.take a ++ m.m_keyFrames.take (b - a) ++ self.m_keyFrames.drop b } := by
  unfold Motion.SetSubMotion Motion.GetNumFrames
  have hsub : ((b : Int) - (a : Int)) = ((b - a : Nat) : Int) := by omega
  rw [hsub, toUnsigned_nat _ (by omega), toUnsigned_nat a (by omega),
    toUnsigned_nat b (by omega), Nat.mod_eq_of_lt (show m.m_keyFrames.length < 2 ^ 32 by omega),
    if_pos hm, setFrames_spec m _ a 0 self (by omega) (by omega)]
  simp only [List.drop_zero, show a + (b - a) = b by omega]

end SubMotionLemmas

/-! ## C16: `Motion::SubMotion` with a negative bound -/

section C16

/-- C16 fails for a negative start.  `std::max<unsigned int>(0, startFrame)` turns
-1 into 4294967295, which goes back into the `int` as -1 and starts the `unsigned
int` loop counter at 4294967295: `SubMotion(-1, 2)` on a motion of three frames
returns no frame, where the range clamped to `[0, 2)` has two. -/
theorem C16_SubMotion_negative_start :
    (exThreeFrames : Motion ℤ).SubMotion (-1) 2
      = some { m_keyFrames := [], m_currentFrame := 0, m_name := "None", m_fps := 30 } := by
  decide

/-- The call `SubMotion(1, -1)` on a motion of three frames returns the frames 1 and 2: the
negative end, as `unsigned int`, is above the frame count. -/
theorem SubMotion_negative_end :
    (exThreeFrames : Motion ℤ).SubMotion 1 (-1)
      = some { m_keyFrames := [exRootFrame ⟨1, 0, 0⟩, exRootFrame ⟨2, 0, 0⟩],
               m_currentFrame := 0, m_name := "None", m_fps := 30 } := by
  decide

end C16

/-! ## C17: `Motion::SetSubMotion` beyond the last frame -/

section C17

/-- C17 fails for an end beyond the frame count.  `SetSubMotion(0, 3, m)` on a
motion of two frames, with `m` of three frames, passes the assertion and calls
`SetFrame(2, ...)`, which writes outside the vector. -/
theorem C17_SetSubMotion_beyond_end :
    (exTwoFrames : Motion ℤ).SetSubMotion 0 3 exThreeFrames = none := by
  decide

/-- The call `SetSubMotion(-1, 1, m)` on a motion of two frames changes nothing: the loop
counter starts at 4294967295. -/
theorem SetSubMotion_negative_start :
    (exTwoFrames : Motion ℤ).SetSubMotion (-1) 1 exThreeFrames = some exTwoFrames := by
  decide

end C17

/-! ## C18: `Skeleton::ReadFromFrame` with a frame of another joint count -/

section C18

variable {K : Type} [CommRing K]

/-- C18. If the joint count of the frame differs from the joint count of the
skeleton, `Skeleton::ReadFromFrame` returns with the skeleton as it was: every local
transform, global transform and bone translation is unchanged. -/
theorem C18_ReadFromFrame_mismatch (sk : Skeleton K) (f : Frame K)
    (h : f.GetNumJoints ≠ sk.m_joints.length) :
    sk.ReadFromFrame f = some sk ∧
      ∀ sk1, sk.ReadFromFrame f = some sk1 →
        sk1.m_joints.map (fun j => (j.m_local, j.m_global, j.m_translation))
          = sk.m_joints.map (fun j => (j.m_local, j.m_global, j.m_translation)) := by
  have hret : sk.ReadFromFrame f = some sk := by
    unfold Skeleton.ReadFromFrame
    rw [if_pos (fun heq => h heq.symm)]
  refine ⟨hret, ?_⟩
  intro sk1 h1
  rw [hret] at h1
  injection h1 with h1
  rw [h1]

/-- The skeleton of two joints and a frame with one rotation. -/
theorem C18_ReadFromFrame_mismatch_witness :
    (exRootFrame ⟨1, 0, 0⟩ : Frame ℤ).GetNumJoints ≠ (exTwoJoints : Skeleton ℤ).m_joints.length ∧
    ((exTwoJoints : Skeleton ℤ).ReadFromFrame (exRootFrame ⟨1, 0, 0⟩) = some exTwoJoints ∧
      ∀ sk1, (exTwoJoints : Skeleton ℤ).ReadFromFrame (exRootFrame ⟨1, 0, 0⟩) = some sk1 →
        sk1.m_joints.map (fun j => (j.m_local, j.m_global, j.m_translation))
          = (exTwoJoints : Skeleton ℤ).m_joints.map
              (fun j => (j.m_local, j.m_global, j.m_translation))) :=
  ⟨by decide, C18_ReadFromFrame_mismatch exTwoJoints (exRootFrame ⟨1, 0, 0⟩) (by decide)⟩

end C18

/-! ## `SkeletonMesh::loadSkinWeights`: the first smallest weight -/

section SkinLemmas

variable {K : Type} [LinearOrderedField K]

theorem minElementFrom_spec :
    ∀ (rest : List K) (best : K) (bi k : Nat) (pre : List K), pre.length = k →
      pre[bi]? = some best → (∀ x ∈ pre, best ≤ x) →
      (∀ (m : Nat) (x : K), m < bi → pre[m]? = some x → best < x) →
      IsFirstMin (pre ++ rest) (minElementFrom best bi k rest)
  | [], best, bi, k, pre, _, hbi, hle, hlt => by
    simp only [minElementFrom, List.append_nil]
    exact ⟨best, hbi, hle, hlt⟩
  | w :: rest, best, bi, k, pre, hk, hbi, hle, hlt => by
    have happ : pre ++ w :: rest = (pre ++ [w]) ++ rest := by simp
    have hbik : bi < pre.length := (List.getElem?_eq_some_iff.mp hbi).1
    simp only [minElementFrom]
    rw [happ]
    split_ifs with hw
    · apply minElementFrom_spec rest w k (k + 1) (pre ++ [w]) (by simp [hk])
      · rw [List.getElem?_append_right (by omega)]
        simp [hk]
      · intro x hx
        rcases List.mem_append.mp hx with hx | hx
        · exact (hw.trans_le (hle x hx)).le
        · simp only [List.mem_singleton] at hx
          rw [hx]
      · intro m x hm hx
        rw [List.getElem?_append_left (by omega)] at hx
        exact hw.trans_le (hle x (List.getElem?_mem hx))
    · apply minElementFrom_spec rest best bi (k + 1) (pre ++ [w]) (by simp [hk])
      · rw [List.getElem?_append_left hbik]
        exact hbi
      · intro x hx
        rcases List.mem_append.mp hx with hx | hx
        · exact hle x hx
        · simp only [List.mem_singleton] at hx
          rw [hx]
          exact not_lt.mp hw
      · intro m x hm hx
        rw [List.getElem?_append_left (by omega)] at hx
        exact hlt m x hm hx

/-- The function `std::min_element` on a vector that is not empty returns the
position of the first smallest entry. -/
theorem minElement_spec (l : List K) (h : l ≠ []) :
    ∃ r, minElement l = some r ∧ IsFirstMin l r := by
  rcases l with _ | ⟨w, rest⟩
  · exact absurd rfl h
  · refine ⟨_, rfl, ?_⟩
    have := minElementFrom_spec rest w 0 1 [w] rfl rfl
      (by intro x hx; simp only [List.mem_singleton] at hx; rw [hx])
      (by intro m x hm; omega)
    simpa using this

theorem firstEqual_spec (x : K) :
    ∀ (l : List K) (k : Nat), firstEqual x k l = k + l.findIdx (fun w => decide (w = x))
  | [], k => by simp [firstEqual]
  | w :: rest, k => by
    simp only [firstEqual, List.findIdx_cons]
    by_cases hw : w = x
    · simp [hw]
    · simp only [hw, if_false, decide_False, cond_false, firstEqual_spec x rest (k + 1)]
      omega

/-- The loop that looks for the weight found by `std::min_element` stops at the
position of that weight. -/
theorem firstEqual_firstMin (l : List K) (r : Nat) (v : K) (h : IsFirstMin l r)
    (hv : l[r]? = some v) : firstEqual v 0 l = r := by
  obtain ⟨v1, hv1, hle, hlt⟩ := h
  rw [hv] at hv1
  injection hv1 with hv1
  subst hv1
  have hr : r < l.length := (List.getElem?_eq_some_iff.mp hv).1
  rw [firstEqual_spec, Nat.zero_add, List.findIdx_eq hr]
  refine ⟨?_, ?_⟩
  · have := (List.getElem?_eq_some_iff.mp hv).2
    simp [this]
  · intro j hj
    have hjl : j < l.length := by omega
    have := hlt j l[j] hj (List.getElem?_eq_getElem hjl)
    simp only [decide_eq_false_iff_not]
    exact fun heq => absurd (heq ▸ this) (lt_irrefl _)

theorem eraseIdx_zip {α β : Type} :
    ∀ (l1 : List α) (l2 : List β) (r : Nat),
      (l1.zip l2).eraseIdx r = (l1.eraseIdx r).zip (l2.eraseIdx r)
  | [], _, _ => by simp
  | _ :: _, [], _ => by simp
  | a :: l1, b :: l2, 0 => by simp
  | a :: l1, b :: l2, r + 1 => by
    simp only [List.zip_cons_cons, List.eraseIdx_cons_succ, eraseIdx_zip l1 l2 r]

/-- Removing the first smallest weight from the list of the entries, as the
specification says it, removes the entry at the position of the first smallest
weight. -/
theorem removeSmallest_zip (jointInds : List Nat) (weights : List K) (r : Nat)
    (hlen : jointInds.length = weights.length) (h : IsFirstMin weights r) :
    removeSmallest (jointInds.zip weights)
      = (jointInds.eraseIdx r).zip (weights.eraseIdx r) := by
  obtain ⟨v, hv, hle, hlt⟩ := h
  have hr : r < weights.length := (List.getElem?_eq_some_iff.mp hv).1
  have hrz : r < (jointInds.zip weights).length := by
    rw [List.length_zip]
    omega
  have hvr : weights[r] = v := (List.getElem?_eq_some_iff.mp hv).2
  unfold removeSmallest
  rw [(List.findIdx_eq hrz).mpr ?_, eraseIdx_zip]
  refine ⟨?_, ?_⟩
  · simp only [List.getElem_zip, List.all_eq_true, decide_eq_true_eq]
    intro q hq
    rw [hvr]
    exact hle q.2 (List.of_mem_zip hq).2
  · intro j hj
    have hjw : j < weights.length := by omega
    have hlt1 := hlt j weights[j] hj (List.getElem?_eq_getElem hjw)
    simp only [List.getElem_zip, List.all_eq_false, decide_eq_true_eq]
    refine ⟨(jointInds.zip weights)[r], List.getElem_mem _, ?_⟩
    simp only [List.getElem_zip, hvr, not_le]
    exact hlt1

/-- The loop `while (jointInds.size() > 4)` returns, and keeps what removing the
first smallest weight repeatedly keeps. -/
theorem trim_spec :
    ∀ (fuel : Nat) (jointInds : List Nat) (weights : List K),
      jointInds.length = weights.length → jointInds.length ≤ fuel + 4 →
      ∃ jointInds1 weights1, SkeletonMesh.trim fuel (jointInds, weights)
          = some (jointInds1, weights1) ∧
        jointInds1.length = weights1.length ∧
        jointInds1.zip weights1 = keepFour fuel (jointInds.zip weights)
  | 0, jointInds, weights, hlen, hfuel => by
    refine ⟨jointInds, weights, ?_, hlen, rfl⟩
    simp only [SkeletonMesh.trim]
    rw [if_neg (by omega)]
  | fuel + 1, jointInds, weights, hlen, hfuel => by
    simp only [SkeletonMesh.trim, keepFour, List.length_zip, ← hlen, Nat.min_self]
    by_cases h4 : jointInds.length > 4
    · simp only [h4, if_true]
      have hne : weights ≠ [] := by
        intro h0
        rw [h0, List.length_nil] at hlen
        omega
      obtain ⟨r, hmin, hfirst⟩ := minElement_spec weights hne
      obtain ⟨v, hv, -, -⟩ := id hfirst
      have hr : r < weights.length := (List.getElem?_eq_some_iff.mp hv).1
      rw [hmin]
      simp only [hv, hlen, List.take_length, firstEqual_firstMin weights r v hfirst hv, hr,
        if_true]
      rw [removeSmallest_zip jointInds weights r hlen hfirst]
      apply trim_spec fuel
      · rw [List.length_eraseIdx_of_lt (by omega), List.length_eraseIdx_of_lt hr, hlen]
      · rw [List.length_eraseIdx_of_lt (by omega)]
        omega
    · simp only [h4, if_false]
      exact ⟨jointInds, weights, rfl, hlen, rfl⟩

/-- The loop over the joints returns when the file has the row, with the joints that
have a positive weight, in ascending order. -/
theorem collect_spec (sk : Skeleton K) (skinWeightJoints : String → Option Nat)
    (skinWeights : List (List K)) (i : Nat)
    (hrow : SkeletonMesh.HasRow sk skinWeightJoints skinWeights i) :
    ∀ (joints : List (Joint K)) (j : Nat) (jointInds : List Nat) (weights : List K),
      (∀ k, joints[k]? = sk.m_joints[j + k]?) → jointInds.length = weights.length →
      ∃ jointInds1 weights1,
        SkeletonMesh.collect skinWeightJoints skinWeights i j joints (jointInds, weights)
          = some (jointInds1, weights1) ∧
        jointInds1.length = weights1.length ∧
        jointInds1.zip weights1 = jointInds.zip weights
          ++ (List.range' j joints.length).filterMap (fun k =>
            match SkeletonMesh.weightOf sk skinWeightJoints skinWeights i k with
            | some w => if w > 0 then some (k, w) else none
            | none => none)
  | [], j, jointInds, weights, _, hlen => by
    exact ⟨jointInds, weights, rfl, hlen, by simp⟩
  | joint :: rest, j, jointInds, weights, hsub, hlen => by
    have hj : sk.m_joints[j]? = some joint := by
      have := hsub 0
      simpa using this.symm
    have hrest : ∀ k, rest[k]? = sk.m_joints[j + 1 + k]? := by
      intro k
      have := hsub (k + 1)
      rw [List.getElem?_cons_succ] at this
      rw [this]
      congr 1
      omega
    have hmem : joint ∈ sk.m_joints := List.getElem?_mem hj
    simp only [SkeletonMesh.collect, List.length_cons, List.range'_succ, List.filterMap_cons]
    rcases hcol : skinWeightJoints joint.m_name with _ | col
    · have hw : SkeletonMesh.weightOf sk skinWeightJoints skinWeights i j = none := by
        simp [SkeletonMesh.weightOf, hj, hcol]
      simp only [hw]
      exact collect_spec sk skinWeightJoints skinWeights i hrow rest (j + 1) jointInds weights
        hrest hlen
    · obtain ⟨column, w, hcolumn, hwi⟩ := hrow joint hmem col hcol
      have hw : SkeletonMesh.weightOf sk skinWeightJoints skinWeights i j = some w := by
        simp [SkeletonMesh.weightOf, hj, hcol, hcolumn, hwi]
      simp only [hw, hcolumn, hwi]
      by_cases hpos : w > 0
      · simp only [hpos, if_true]
        obtain ⟨a, b, h1, h2, h3⟩ := collect_spec sk skinWeightJoints skinWeights i hrow rest
          (j + 1) (jointInds ++ [j]) (weights ++ [w]) hrest (by simp [hlen])
        refine ⟨a, b, h1, h2, ?_⟩
        rw [h3, List.zip_append hlen]
        simp
      · simp only [hpos, if_false]
        exact collect_spec sk skinWeightJoints skinWeights i hrow rest (j + 1) jointInds
          weights hrest hlen

theorem foldl_add_eq_sum (l : List K) (d : K) :
    l.foldl (fun d w => d + w) d = d + l.sum := by
  induction l generalizing d with
  | nil => simp
  | cons w rest ih =>
    simp only [List.foldl_cons, List.sum_cons, ih]
    ring

/-- The weights divided by their sum, next to their joints. -/
theorem normalize_zip (jointInds : List Nat) (weights : List K)
    (hlen : jointInds.length = weights.length) :
    jointInds.zip (SkeletonMesh.normalize weights) = renormalised (jointInds.zip weights) := by
  unfold SkeletonMesh.normalize renormalised
  simp only [foldl_add_eq_sum, zero_add]
  have hsnd : (jointInds.zip weights).map Prod.snd = weights := by
    rw [List.map_snd_zip]
    omega
  rw [hsnd, List.zip_map_right]
  apply List.map_congr_left
  intro p _
  rfl

/-- The four entries stored for at most four entries kept. -/
theorem store_zip (jointInds : List Nat) (weights : List K)
    (hlen : jointInds.length = weights.length) (h4 : jointInds.length ≤ 4) :
    ∃ inds ws, SkeletonMesh.store jointInds weights = some (inds, ws) ∧ inds.length = 4 ∧
      ws.length = 4 ∧ inds.zip ws = paddedToFour (jointInds.zip weights) := by
  unfold SkeletonMesh.store paddedToFour
  rw [if_pos ⟨h4, hlen.le⟩]
  refine ⟨_, _, rfl, ?_, ?_, ?_⟩
  · simp
    omega
  · simp [← hlen]
    omega
  · rw [hlen, List.take_length, List.zip_append hlen, List.zip_replicate, List.length_zip,
      ← hlen, Nat.min_self, Nat.min_self]

theorem zip_unzip_self {α β : Type} (l : List (α × β)) :
    (l.map Prod.fst).zip (l.map Prod.snd) = l := by
  induction l with
  | nil => rfl
  | cons p rest ih => simp [ih]

/-- Removing the first smallest weight takes one entry out of a list that is not
empty, and leaves a sublist. -/
theorem removeSmallest_spec (l : List (Nat × K)) (h : l ≠ []) :
    (removeSmallest l).length + 1 = l.length ∧ (removeSmallest l).Sublist l := by
  have hne : l.map Prod.snd ≠ [] := by
    intro h0
    exact h (List.map_eq_nil_iff.mp h0)
  obtain ⟨r, -, hfirst⟩ := minElement_spec (l.map Prod.snd) hne
  obtain ⟨v, hv, -, -⟩ := id hfirst
  have hr : r < (l.map Prod.snd).length := (List.getElem?_eq_some_iff.mp hv).1
  have hz := removeSmallest_zip (l.map Prod.fst) (l.map Prod.snd) r (by simp) hfirst
  rw [zip_unzip_self] at hz
  rw [List.length_map] at hr
  constructor
  · rw [hz, List.length_zip, List.length_eraseIdx_of_lt (by simpa using hr),
      List.length_eraseIdx_of_lt (by simpa using hr)]
    simp
    omega
  · rw [hz, ← eraseIdx_zip, zip_unzip_self]
    exact List.eraseIdx_sublist l r

/-- Removing the first smallest weight until four entries remain: a sublist, of four
entries when there were more than four, and the list itself otherwise. -/
theorem keepFour_spec :
    ∀ (fuel : Nat) (l : List (Nat × K)), l.length ≤ fuel + 4 →
      (keepFour fuel l).Sublist l ∧ (4 < l.length → (keepFour fuel l).length = 4) ∧
        (l.length ≤ 4 → keepFour fuel l = l)
  | 0, l, h => by
    have hk : keepFour 0 l = l := rfl
    rw [hk]
    exact ⟨List.Sublist.refl l, fun h4 => by omega, fun _ => rfl⟩
  | fuel + 1, l, h => by
    have hk : keepFour (fuel + 1) l
        = if l.length > 4 then keepFour fuel (removeSmallest l) else l := rfl
    rw [hk]
    by_cases h4 : l.length > 4
    · rw [if_pos h4]
      have hne : l ≠ [] := by
        intro h0
        rw [h0] at h4
        simp at h4
      obtain ⟨hlen, hsub⟩ := removeSmallest_spec l hne
      obtain ⟨hs, hgt, hle⟩ := keepFour_spec fuel (removeSmallest l) (by omega)
      refine ⟨hs.trans hsub, fun _ => ?_, fun h => by omega⟩
      by_cases h5 : 4 < (removeSmallest l).length
      · exact hgt h5
      · rw [hle (by omega)]
        omega
    · rw [if_neg h4]
      exact ⟨List.Sublist.refl l, fun h => absurd h h4, fun _ => rfl⟩

theorem sum_map_div_const (l : List K) (c : K) : (l.map (fun w => w / c)).sum = l.sum / c := by
  induction l with
  | nil => simp
  | cons w rest ih =>
    simp only [List.map_cons, List.sum_cons, ih]
    ring

/-- The weights of entries with positive weights, renormalised, sum to 1 when there
is an entry, and are positive. -/
theorem renormalised_sum (l : List (Nat × K)) (hpos : ∀ p ∈ l, 0 < p.2) :
    (∀ p ∈ renormalised l, 0 < p.2) ∧ (l ≠ [] → ((renormalised l).map Prod.snd).sum = 1) := by
  have hsum : l ≠ [] → 0 < (l.map Prod.snd).sum := by
    intro hne
    apply List.sum_pos
    · intro x hx
      obtain ⟨p, hp, rfl⟩ := List.mem_map.mp hx
      exact hpos p hp
    · intro h0
      exact hne (List.map_eq_nil_iff.mp h0)
  constructor
  · intro p hp
    unfold renormalised at hp
    obtain ⟨q, hq, rfl⟩ := List.mem_map.mp hp
    exact div_pos (hpos q hq) (hsum (List.ne_nil_of_mem hq))
  · intro hne
    unfold renormalised
    rw [List.map_map]
    have : (Prod.snd ∘ fun (p : Nat × K) => (p.1, p.2 / (l.map Prod.snd).sum))
        = (fun w => w / (l.map Prod.snd).sum) ∘ Prod.snd := rfl
    rw [this, ← List.map_map, sum_map_div_const, div_self (hsum hne).ne']

/-- The joints with a positive weight: the weights are positive, the joints in
ascending order, and there is one exactly when some joint has a positive weight. -/
theorem positiveWeights_spec (weightOf : Nat → Option K) (n : Nat) :
    (∀ p ∈ positiveWeights weightOf n, 0 < p.2) ∧
      ((positiveWeights weightOf n).map Prod.fst).Pairwise (fun a b => a < b) ∧
      ∀ (j : Nat) (w : K), ((j, w) ∈ positiveWeights weightOf n ↔
        j < n ∧ weightOf j = some w ∧ 0 < w) := by
  have hmem : ∀ (j : Nat) (w : K), ((j, w) ∈ positiveWeights weightOf n ↔
      j < n ∧ weightOf j = some w ∧ 0 < w) := by
    intro j w
    unfold positiveWeights
    simp only [List.mem_filterMap, List.mem_range]
    constructor
    · rintro ⟨k, hk, hkw⟩
      rcases hwk : weightOf k with _ | w1
      · simp [hwk] at hkw
      · simp only [hwk] at hkw
        by_cases hp : w1 > 0
        · simp only [hp, if_true, Option.some.injEq, Prod.mk.injEq] at hkw
          obtain ⟨rfl, rfl⟩ := hkw
          exact ⟨hk, hwk, hp⟩
        · simp [hp] at hkw
    · rintro ⟨hj, hw, hp⟩
      refine ⟨j, hj, ?_⟩
      simp [hw, hp]
  refine ⟨?_, ?_, hmem⟩
  · intro p hp
    exact ((hmem p.1 p.2).mp hp).2.2
  · unfold positiveWeights
    have hsub : ∀ (l : List Nat), l.Pairwise (fun a b => a < b) →
        ((l.filterMap (fun j =>
          match weightOf j with
          | some w => if w > 0 then some (j, w) else none
          | none => none)).map Prod.fst).Pairwise (fun a b => a < b) := by
      intro l hl
      apply List.Pairwise.sublist _ hl
      rw [List.map_filterMap]
      have : l.filterMap (fun x => Option.map Prod.fst
          (match weightOf x with
            | some w => if w > 0 then some (x, w) else none
            | none => none))
          = l.filter (fun x => (match weightOf x with
            | some w => decide (w > 0)
            | none => false)) := by
        induction l with
        | nil => rfl
        | cons x rest ih =>
          have ih1 := ih (List.Pairwise.of_cons hl)
          rcases hwx : weightOf x with _ | w
          · simp only [List.filterMap_cons, hwx, Option.map_none', List.filter_cons]
            simpa using ih1
          · by_cases hp : w > 0
            · simp only [List.filterMap_cons, hwx, hp, if_true, Option.map_some',
                List.filter_cons, decide_True]
              rw [ih1]
            · simp only [List.filterMap_cons, hwx, hp, if_false, Option.map_none',
                List.filter_cons, decide_False]
              simpa using ih1
      rw [this]
      exact List.filter_sublist l
    exact hsub _ (List.pairwise_lt_range n)

/-- The body of the loop of `SkeletonMesh::loadSkinWeights` for a vertex row that the
file has: it returns four joint indices and four weights, which are the entries that
the specification describes. -/
theorem loadSkinWeights_spec (sk : Skeleton K) (skinWeightJoints : String → Option Nat)
    (skinWeights : List (List K)) (i : Nat)
    (hrow : SkeletonMesh.HasRow sk skinWeightJoints skinWeights i) :
    ∃ inds ws, SkeletonMesh.loadSkinWeights sk skinWeightJoints skinWeights i = some (inds, ws) ∧
      inds.length = 4 ∧ ws.length = 4 ∧
      inds.zip ws = paddedToFour (renormalised
        (keepFour
          (positiveWeights (SkeletonMesh.weightOf sk skinWeightJoints skinWeights i)
            sk.m_joints.length).length
          (positiveWeights (SkeletonMesh.weightOf sk skinWeightJoints skinWeights i)
            sk.m_joints.length))) := by
  obtain ⟨a, b, hcollect, hab, hzip⟩ := collect_spec sk skinWeightJoints skinWeights i hrow
    sk.m_joints 0 [] [] (by intro k; rw [Nat.zero_add]) rfl
  have hpos : a.zip b = positiveWeights (SkeletonMesh.weightOf sk skinWeightJoints skinWeights i)
      sk.m_joints.length := by
    rw [hzip]
    simp only [List.zip_nil_left, List.nil_append, positiveWeights, List.range_eq_range']
  have hla : a.length = (a.zip b).length := by
    rw [List.length_zip, ← hab, Nat.min_self]
  obtain ⟨a1, b1, htrim, hab1, hzip1⟩ := trim_spec a.length a b hab (by omega)
  obtain ⟨hsub, hgt, hle⟩ := keepFour_spec a.length (a.zip b) (by omega)
  have h4 : a1.length ≤ 4 := by
    have h1 : a1.length = (a1.zip b1).length := by
      rw [List.length_zip, ← hab1, Nat.min_self]
    rw [h1, hzip1]
    by_cases h5 : 4 < (a.zip b).length
    · rw [hgt h5]
    · rw [hle (by omega)]
      omega
  have hnorm : a1.length = (SkeletonMesh.normalize b1).length := by
    simp [SkeletonMesh.normalize, hab1]
  obtain ⟨inds, ws, hstore, hi4, hw4, hz⟩ := store_zip a1 (SkeletonMesh.normalize b1) hnorm h4
  refine ⟨inds, ws, ?_, hi4, hw4, ?_⟩
  · unfold SkeletonMesh.loadSkinWeights
    simp only [hcollect, htrim, hstore]
  · rw [hz, normalize_zip a1 b1 hab1, hzip1, hla, hpos]

/-- The weights stored for the entries kept: the weights of the entries, then
zeros. -/
theorem stored_weights (inds : List Nat) (ws : List K) (l : List (Nat × K))
    (hi : inds.length = 4) (hw : ws.length = 4) (hz : inds.zip ws = paddedToFour l) :
    ws = l.map Prod.snd ++ List.replicate (4 - l.length) 0 := by
  have h1 : (inds.zip ws).map Prod.snd = ws := by
    rw [List.map_snd_zip]
    omega
  rw [← h1, hz]
  simp [paddedToFour]

end SkinLemmas

/-! ## Example rows of skin weights -/

section SkinExamples

theorem exTwoWeights_hasRow :
    SkeletonMesh.HasRow (exNamedJoints ["j0", "j1"] : Skeleton ℚ) exColumns
      [[1 / 2], [1 / 2]] 0 := by
  intro joint hjoint col hcol
  simp only [exNamedJoints, List.enum, List.enumFrom, List.map_cons, List.map_nil,
    List.mem_cons, List.not_mem_nil, or_false] at hjoint
  rcases hjoint with rfl | rfl
  · simp only [exJoint, exColumns, if_true, Option.some.injEq] at hcol
    subst hcol
    exact ⟨_, _, rfl, rfl⟩
  · have h1 : exColumns "j1" = some 1 := by decide
    simp only [exJoint, h1, Option.some.injEq] at hcol
    subst hcol
    exact ⟨_, _, rfl, rfl⟩

theorem exFiveWeights_hasRow :
    SkeletonMesh.HasRow (exNamedJoints ["j0", "j1", "j2", "j3", "j4"] : Skeleton ℚ) exColumns
      [[2 / 5], [3 / 10], [3 / 20], [1 / 10], [1 / 20]] 0 := by
  intro joint hjoint col hcol
  simp only [exNamedJoints, List.enum, List.enumFrom, List.map_cons, List.map_nil,
    List.mem_cons, List.not_mem_nil, or_false] at hjoint
  have h0 : exColumns "j0" = some 0 := by decide
  have h1 : exColumns "j1" = some 1 := by decide
  have h2 : exColumns "j2" = some 2 := by decide
  have h3 : exColumns "j3" = some 3 := by decide
  have h4 : exColumns "j4" = some 4 := by decide
  rcases hjoint with rfl | rfl | rfl | rfl | rfl
  · simp only [exJoint, h0, Option.some.injEq] at hcol
    subst hcol
    exact ⟨_, _, rfl, rfl⟩
  · simp only [exJoint, h1, Option.some.injEq] at hcol
    subst hcol
    exact ⟨_, _, rfl, rfl⟩
  · simp only [exJoint, h2, Option.some.injEq] at hcol
    subst hcol
    exact ⟨_, _, rfl, rfl⟩
  · simp only [exJoint, h3, Option.some.injEq] at hcol
    subst hcol
    exact ⟨_, _, rfl, rfl⟩
  · simp only [exJoint, h4, Option.some.injEq] at hcol
    subst hcol
    exact ⟨_, _, rfl, rfl⟩

/-- The row (0.4, 0.3, 0.15, 0.1, 0.05): the joints 0 to 3 are kept, with the weights
(0.4, 0.3, 0.15, 0.1) / 0.95. -/
theorem exFiveWeights_row :
    SkeletonMesh.loadSkinWeights (exNamedJoints ["j0", "j1", "j2", "j3", "j4"] : Skeleton ℚ)
        exColumns [[2 / 5], [3 / 10], [3 / 20], [1 / 10], [1 / 20]] 0
      = some ([0, 1, 2, 3],
          [(2 / 5) / (19 / 20), (3 / 10) / (19 / 20), (3 / 20) / (19 / 20),
           (1 / 10) / (19 / 20)]) := by
  decide!

end SkinExamples

/-! ## C14: the four weights stored for a vertex -/

section C14

variable {K : Type} [LinearOrderedField K]

/-- C14 fails for a vertex row in which no joint has a positive weight: the four
weights stored are 0 and sum to 0. -/
theorem C14_counterexample :
    SkeletonMesh.loadSkinWeights (exNamedJoints ["j0", "j1"] : Skeleton ℚ) exColumns
        [[0], [0]] 0 = some ([0, 0, 0, 0], [0, 0, 0, 0]) ∧
      ([0, 0, 0, 0] : List ℚ).sum ≠ 1 := by
  decide!

/-- C14, amended.  For every vertex row that the file has, the body of the loop of
`SkeletonMesh::loadSkinWeights` stores exactly four joint indices and four weights;
every weight is non-negative, at most four are non-zero, and the four weights sum to
1 when some joint of the skeleton has a positive weight in the row; when none has,
the four weights are 0. -/
theorem C14_loadSkinWeights_row (sk : Skeleton K) (skinWeightJoints : String → Option Nat)
    (skinWeights : List (List K)) (i : Nat)
    (hrow : SkeletonMesh.HasRow sk skinWeightJoints skinWeights i) :
    ∃ inds ws, SkeletonMesh.loadSkinWeights sk skinWeightJoints skinWeights i = some (inds, ws) ∧
      inds.length = 4 ∧ ws.length = 4 ∧ (∀ w ∈ ws, 0 ≤ w) ∧
      (ws.filter (fun w => decide (w ≠ 0))).length ≤ 4 ∧
      ((∃ j w, SkeletonMesh.weightOf sk skinWeightJoints skinWeights i j = some w ∧ 0 < w) →
        ws.sum = 1) ∧
      ((¬ ∃ j w, SkeletonMesh.weightOf sk skinWeightJoints skinWeights i j = some w ∧ 0 < w) →
        ws = [0, 0, 0, 0]) := by
  obtain ⟨inds, ws, hload, hi, hw, hz⟩ := loadSkinWeights_spec sk skinWeightJoints skinWeights i
    hrow
  obtain ⟨hpos, -, hmem⟩ := positiveWeights_spec
    (SkeletonMesh.weightOf sk skinWeightJoints skinWeights i) sk.m_joints.length
  generalize positiveWeights (SkeletonMesh.weightOf sk skinWeightJoints skinWeights i)
    sk.m_joints.length = pos at hz hpos hmem
  obtain ⟨hsub, hgt, hle⟩ := keepFour_spec pos.length pos (by omega)
  have hkpos : ∀ p ∈ keepFour pos.length pos, 0 < p.2 := fun p hp => hpos p (hsub.subset hp)
  obtain ⟨hrpos, hrsum⟩ := renormalised_sum (keepFour pos.length pos) hkpos
  have hws := stored_weights inds ws _ hi hw hz
  refine ⟨inds, ws, hload, hi, hw, ?_, ?_, ?_, ?_⟩
  · intro w hwm
    rw [hws] at hwm
    rcases List.mem_append.mp hwm with h | h
    · obtain ⟨p, hp, rfl⟩ := List.mem_map.mp h
      exact (hrpos p hp).le
    · rw [(List.mem_replicate.mp h).2]
  · exact (List.length_filter_le _ _).trans hw.le
  · rintro ⟨j, w, hjw, hpw⟩
    have hjn : j < sk.m_joints.length := by
      by_contra hn
      simp [SkeletonMesh.weightOf, List.getElem?_eq_none_iff.mpr (not_lt.mp hn)] at hjw
    have hin : (j, w) ∈ pos := (hmem j w).mpr ⟨hjn, hjw, hpw⟩
    have hne : keepFour pos.length pos ≠ [] := by
      intro h0
      by_cases h5 : 4 < pos.length
      · have := hgt h5
        rw [h0] at this
        simp at this
      · rw [hle (by omega)] at h0
        rw [h0] at hin
        cases hin
    rw [hws, List.sum_append, hrsum hne]
    simp
  · intro hnone
    have hnil : pos = [] := by
      apply List.eq_nil_iff_forall_not_mem.mpr
      intro p hp
      exact hnone ⟨p.1, p.2, ((hmem p.1 p.2).mp hp).2⟩
    rw [hws, hnil]
    rfl

/-- A row with the weights 1/2 and 1/2 for the two joints of a skeleton. -/
theorem C14_loadSkinWeights_row_witness :
    SkeletonMesh.HasRow (exNamedJoints ["j0", "j1"] : Skeleton ℚ) exColumns
        [[1 / 2], [1 / 2]] 0 ∧
    ∃ inds ws, SkeletonMesh.loadSkinWeights (exNamedJoints ["j0", "j1"] : Skeleton ℚ)
        exColumns [[1 / 2], [1 / 2]] 0 = some (inds, ws) ∧
      inds.length = 4 ∧ ws.length = 4 ∧ (∀ w ∈ ws, 0 ≤ w) ∧
      (ws.filter (fun w => decide (w ≠ 0))).length ≤ 4 ∧
      ((∃ j w, SkeletonMesh.weightOf (exNamedJoints ["j0", "j1"] : Skeleton ℚ) exColumns
          [[1 / 2], [1 / 2]] 0 j = some w ∧ 0 < w) → ws.sum = 1) ∧
      ((¬ ∃ j w, SkeletonMesh.weightOf (exNamedJoints ["j0", "j1"] : Skeleton ℚ) exColumns
          [[1 / 2], [1 / 2]] 0 j = some w ∧ 0 < w) → ws = [0, 0, 0, 0]) :=
  ⟨exTwoWeights_hasRow,
    C14_loadSkinWeights_row (exNamedJoints ["j0", "j1"]) exColumns [[1 / 2], [1 / 2]] 0
      exTwoWeights_hasRow⟩

end C14


/-! ## C15: which weights are kept -/

section C15

variable {K : Type} [LinearOrderedField K]

/-- C15. For every vertex row that the file has, with `pos` the joints of the
skeleton that have a positive weight in the row, in ascending order of their ids:
when `pos` has more than four entries, the body of the loop of
`SkeletonMesh::loadSkinWeights` stores exactly the four entries that remain after
removing the first smallest weight repeatedly, in ascending order of the joint ids,
each weight divided by the sum of the four, and pads nothing; when `pos` has at most
four entries it stores them all, each weight divided by their sum, and pads with
(joint 0, weight 0) to four entries. -/
theorem C15_loadSkinWeights_keeps (sk : Skeleton K) (skinWeightJoints : String → Option Nat)
    (skinWeights : List (List K)) (i : Nat)
    (hrow : SkeletonMesh.HasRow sk skinWeightJoints skinWeights i) :
    ∃ inds ws, SkeletonMesh.loadSkinWeights sk skinWeightJoints skinWeights i = some (inds, ws) ∧
      inds.length = 4 ∧ ws.length = 4 ∧
      (4 < (positiveWeights (SkeletonMesh.weightOf sk skinWeightJoints skinWeights i)
            sk.m_joints.length).length →
        ∃ kept, kept = keepFour
            (positiveWeights (SkeletonMesh.weightOf sk skinWeightJoints skinWeights i)
              sk.m_joints.length).length
            (positiveWeights (SkeletonMesh.weightOf sk skinWeightJoints skinWeights i)
              sk.m_joints.length) ∧
          kept.length = 4 ∧ (kept.map Prod.fst).Pairwise (fun a b => a < b) ∧
          inds.zip ws = renormalised kept) ∧
      ((positiveWeights (SkeletonMesh.weightOf sk skinWeightJoints skinWeights i)
            sk.m_joints.length).length ≤ 4 →
        inds.zip ws = paddedToFour (renormalised
          (positiveWeights (SkeletonMesh.weightOf sk skinWeightJoints skinWeights i)
            sk.m_joints.length))) := by
  obtain ⟨inds, ws, hload, hi, hw, hz⟩ := loadSkinWeights_spec sk skinWeightJoints skinWeights i
    hrow
  obtain ⟨-, hasc, -⟩ := positiveWeights_spec
    (SkeletonMesh.weightOf sk skinWeightJoints skinWeights i) sk.m_joints.length
  generalize positiveWeights (SkeletonMesh.weightOf sk skinWeightJoints skinWeights i)
    sk.m_joints.length = pos at hz hasc
  obtain ⟨hsub, hgt, hle⟩ := keepFour_spec pos.length pos (by omega)
  refine ⟨inds, ws, hload, hi, hw, ?_, ?_⟩
  · intro h5
    refine ⟨_, rfl, hgt h5, hasc.sublist (hsub.map Prod.fst), ?_⟩
    rw [hz, paddedToFour]
    have : (renormalised (keepFour pos.length pos)).length = 4 := by
      rw [renormalised, List.length_map, hgt h5]
    rw [this]
    simp
  · intro h4
    rw [hz, hle h4]

/-- The row (0.4, 0.3, 0.15, 0.1, 0.05) for a skeleton of five joints. -/
theorem C15_loadSkinWeights_keeps_witness :
    SkeletonMesh.HasRow (exNamedJoints ["j0", "j1", "j2", "j3", "j4"] : Skeleton ℚ) exColumns
        [[2 / 5], [3 / 10], [3 / 20], [1 / 10], [1 / 20]] 0 ∧
    ∃ inds ws, SkeletonMesh.loadSkinWeights
        (exNamedJoints ["j0", "j1", "j2", "j3", "j4"] : Skeleton ℚ) exColumns
        [[2 / 5], [3 / 10], [3 / 20], [1 / 10], [1 / 20]] 0 = some (inds, ws) ∧
      inds.length = 4 ∧ ws.length = 4 ∧
      (4 < (positiveWeights (SkeletonMesh.weightOf
            (exNamedJoints ["j0", "j1", "j2", "j3", "j4"] : Skeleton ℚ) exColumns
            [[2 / 5], [3 / 10], [3 / 20], [1 / 10], [1 / 20]] 0) 5).length →
        ∃ kept, kept = keepFour
            (positiveWeights (SkeletonMesh.weightOf
              (exNamedJoints ["j0", "j1", "j2", "j3", "j4"] : Skeleton ℚ) exColumns
              [[2 / 5], [3 / 10], [3 / 20], [1 / 10], [1 / 20]] 0) 5).length
            (positiveWeights (SkeletonMesh.weightOf
              (exNamedJoints ["j0", "j1", "j2", "j3", "j4"] : Skeleton ℚ) exColumns
              [[2 / 5], [3 / 10], [3 / 20], [1 / 10], [1 / 20]] 0) 5) ∧
          kept.length = 4 ∧ (kept.map Prod.fst).Pairwise (fun a b => a < b) ∧
          inds.zip ws = renormalised kept) ∧
      ((positiveWeights (SkeletonMesh.weightOf
            (exNamedJoints ["j0", "j1", "j2", "j3", "j4"] : Skeleton ℚ) exColumns
            [[2 / 5], [3 / 10], [3 / 20], [1 / 10], [1 / 20]] 0) 5).length ≤ 4 →
        inds.zip ws = paddedToFour (renormalised
          (positiveWeights (SkeletonMesh.weightOf
            (exNamedJoints ["j0", "j1", "j2", "j3", "j4"] : Skeleton ℚ) exColumns
            [[2 / 5], [3 / 10], [3 / 20], [1 / 10], [1 / 20]] 0) 5))) :=
  ⟨exFiveWeights_hasRow,
    C15_loadSkinWeights_keeps (exNamedJoints ["j0", "j1", "j2", "j3", "j4"]) exColumns
      [[2 / 5], [3 / 10], [3 / 20], [1 / 10], [1 / 20]] 0 exFiveWeights_hasRow⟩

end C15

/-! ## Malformed BVH input -/

section MalformedBvh

variable {K : Type} [CommRing K]

theorem readVec3_eof (v : vec3 K) : Item.readVec3 v ([] : List (Item K)) = some (v, []) := rfl

/-- At the end of the input `LoadFromFileBVHRec` with the prefix `End` still adds a
joint and returns `true`. -/
theorem LoadFromFileBVHRec_End_eof (D : K) (fuel : Nat) (sk : Skeleton K) (p : Nat)
    (pj : Joint K) (hp : sk.m_joints[p]? = some pj) :
    ∃ sk1, Skeleton.LoadFromFileBVHRec D (fuel + 1) sk [] p "End" = some (true, sk1, [])
      ∧ sk1.m_joints.length = sk.m_joints.length + 1 := by
  have hpar : ({ ((Joint.named D "").SetID sk.m_joints.length).SetNumChannels 0 with
      AMC := sk.AMC } : Joint K).m_pParent = none := by
    rw [named_SetID]
    rfl
  have hne : ("End" : String) ≠ "JOINT" := by decide
  rw [Skeleton.LoadFromFileBVHRec, if_neg hne, if_pos rfl]
  simp only [Item.readLine, Item.readWord, readVec3_eof]
  rw [AttachJoints_fresh hp hpar]
  refine ⟨_, rfl, ?_⟩
  simp [Joint.at]

/-- Once the input has ended with `End` in `readString`, the loop of the loaders
never ends: every bound on the number of rounds is used up. -/
theorem loadChildren_End_eof (D : K) (fuel p : Nat) :
    ∀ (n : Nat) (sk : Skeleton K), p < sk.m_joints.length →
      Skeleton.loadChildren
        (fun sk1 inFile s => Skeleton.LoadFromFileBVHRec D fuel sk1 inFile p s) n sk [] "End"
        = none
  | 0, _, _ => rfl
  | n + 1, sk, hp => by
    have hne : ("End" : String) ≠ "\x7d" := by decide
    rw [Skeleton.loadChildren, if_neg hne]
    cases fuel with
    | zero => rfl
    | succ f =>
      obtain ⟨pj, hpj⟩ : ∃ pj, sk.m_joints[p]? = some pj :=
        ⟨_, List.getElem?_eq_getElem hp⟩
      obtain ⟨sk1, h1, hlen⟩ := LoadFromFileBVHRec_End_eof D f sk p pj hpj
      simp only [h1, Item.readWord]
      exact loadChildren_End_eof D (f + 1) p n sk1 (by omega)

/-- The loop of the loaders on an input that ends after an `End Site` block: every
bound on the number of rounds is used up. -/
theorem loadChildren_EndSite_eof (D : K) (fuel p n : Nat) (sk : Skeleton K)
    (hp : p < sk.m_joints.length) (name : String) (a b c : K) :
    Skeleton.loadChildren
        (fun sk1 inFile s => Skeleton.LoadFromFileBVHRec D fuel sk1 inFile p s) n sk
        [.line name, .word "\x7b", .word "OFFSET", .number a, .number b, .number c,
          .word "\x7d"] "End"
      = none := by
  have hne : ("End" : String) ≠ "\x7d" := by decide
  cases n with
  | zero => rfl
  | succ n =>
    rw [Skeleton.loadChildren, if_neg hne]
    cases fuel with
    | zero => rfl
    | succ f =>
      obtain ⟨pj, hpj⟩ : ∃ pj, sk.m_joints[p]? = some pj :=
        ⟨_, List.getElem?_eq_getElem hp⟩
      have h1 := LoadFromFileBVHRec_end D f sk hpj name ⟨a, b, c⟩ "\x7d" []
      simp only [h1, Item.readWord]
      exact loadChildren_End_eof D (f + 1) p n _ (by simp; omega)

/-- Without the word `HIERARCHY` at the start, the loader returns `false` with an
empty skeleton; this includes the empty input. -/
theorem LoadFromBVHFile_no_HIERARCHY (D : K) (fuel : Nat) (sk : Skeleton K) (w : String)
    (rest : List (Item K)) (hw : w ≠ "HIERARCHY") :
    Skeleton.LoadFromBVHFileFuel D fuel sk (.word w :: rest)
        = some (false, { sk with m_joints := [], m_pRoot := none, AMC := false }, rest)
      ∧ Skeleton.LoadFromBVHFileFuel D fuel sk []
        = some (false, { sk with m_joints := [], m_pRoot := none, AMC := false }, []) := by
  constructor
  · simp [Skeleton.LoadFromBVHFileFuel, Item.readWord, hw]
  · simp [Skeleton.LoadFromBVHFileFuel, Item.readWord]

/-- Without `ROOT` or `JOINT` after `HIERARCHY`, the loader returns `false` with an
empty skeleton; this includes the input that ends after `HIERARCHY`. -/
theorem LoadFromBVHFile_no_ROOT (D : K) (fuel : Nat) (sk : Skeleton K) (w : String)
    (rest : List (Item K)) (hw : w ≠ "ROOT") (hw1 : w ≠ "JOINT") :
    Skeleton.LoadFromBVHFileFuel D fuel sk (.word "HIERARCHY" :: .word w :: rest)
        = some (false, { sk with m_joints := [], m_pRoot := none, AMC := false }, rest)
      ∧ Skeleton.LoadFromBVHFileFuel D fuel sk [.word "HIERARCHY"]
        = some (false, { sk with m_joints := [], m_pRoot := none, AMC := false }, []) := by
  constructor
  · simp [Skeleton.LoadFromBVHFileFuel, Item.readWord, hw, hw1]
  · simp [Skeleton.LoadFromBVHFileFuel, Item.readWord]

/-- Without the word `MOTION`, the motion loader returns `false` with an empty
motion; this includes the empty input. -/
theorem Motion.LoadFromBVHFile_no_MOTION {F : Type} [LinearOrderedField F] [CMath F]
    (atof : String → F) (m : Motion F) (sk : Skeleton F) (w : String) (rest : List (Item F))
    (hw : w ≠ "MOTION") :
    Motion.LoadFromBVHFile atof m sk (.word w :: rest)
        = some (false, ⟨[], 0, "None", 0⟩, rest)
      ∧ Motion.LoadFromBVHFile atof m sk []
        = some (false, ⟨[], 0, "None", 0⟩, []) := by
  constructor
  · simp [Motion.LoadFromBVHFile, Item.readWord, hw]
  · simp [Motion.LoadFromBVHFile, Item.readWord]

/-- Without the word `Frames:` after `MOTION`, the motion loader returns `false` with
an empty motion; this includes the input that ends after `MOTION`. -/
theorem Motion.LoadFromBVHFile_no_Frames {F : Type} [LinearOrderedField F] [CMath F]
    (atof : String → F) (m : Motion F) (sk : Skeleton F) (w : String) (rest : List (Item F))
    (hw : w ≠ "Frames:") :
    Motion.LoadFromBVHFile atof m sk (.word "MOTION" :: .word w :: rest)
        = some (false, ⟨[], 0, "None", 0⟩, rest)
      ∧ Motion.LoadFromBVHFile atof m sk [.word "MOTION"]
        = some (false, ⟨[], 0, "None", 0⟩, []) := by
  constructor
  · simp [Motion.LoadFromBVHFile, Item.readWord, hw]
  · simp [Motion.LoadFromBVHFile, Item.readWord]

end MalformedBvh

/-! ## C19: an input that ends after an End Site block -/

section C19

variable {K : Type} [CommRing K]

/-- C19 (evaluation): on the input that ends after the `End Site` block of the root,
before the closing brace of the root, `Skeleton::LoadFromBVHFile` does not return:
whatever bound is put on the number of rounds of its loop, the bound is used up
before a result is there.  The failed read leaves `End` in `readString`, and every
round adds one more joint. -/
theorem C19_LoadFromBVHFile_truncated (D : K) (sk : Skeleton K) (fuel : Nat) :
    Skeleton.LoadFromBVHFileFuel D fuel sk (exTruncated : List (Item K)) = none := by
  simp only [Skeleton.LoadFromBVHFileFuel, exTruncated, Item.readWord, Item.readLine,
    Item.readVec3, Item.readNumber, Item.readCount]
  simp only [ne_eq, not_true_eq_false, false_and, if_false, reduceCtorEq,
    String.reduceEq, not_false_eq_true, if_true]
  apply loadChildren_EndSite_eof
  simp [Joint.at]

end C19

/-! ## C20: the player after a failed load -/

section C20

/-- The skeleton loader returns `false` only after the joints were cleared; when the
input does not start with `HIERARCHY` followed by `ROOT` or `JOINT`, no joint has
been added at that point. -/
theorem LoadFromBVHFile_header_false {K : Type} [CommRing K] (D : K) (sk sk1 : Skeleton K)
    (inFile rest : List (Item K)) (b : Bool)
    (h : Skeleton.LoadFromBVHFile D sk inFile = some (b, sk1, rest))
    (hstart : ¬ Item.startsHierarchy inFile) : b = false ∧ sk1.m_joints = [] := by
  unfold Skeleton.LoadFromBVHFile Skeleton.LoadFromBVHFileFuel at h
  match inFile, hstart, h with
  | [], _, h =>
    simp [Item.readWord] at h
    rcases h with ⟨rfl, rfl, _⟩
    exact ⟨rfl, rfl⟩
  | .word w :: [], _, h =>
    simp only [Item.readWord] at h
    by_cases hw : w = "HIERARCHY"
    · subst hw
      simp at h
      rcases h with ⟨rfl, rfl, _⟩
      exact ⟨rfl, rfl⟩
    · simp [hw] at h
      rcases h with ⟨rfl, rfl, _⟩
      exact ⟨rfl, rfl⟩
  | .word w :: .word w1 :: t, hstart, h =>
    simp only [Item.readWord] at h
    by_cases hw : w = "HIERARCHY"
    · subst hw
      have h1 : w1 ≠ "ROOT" ∧ w1 ≠ "JOINT" := by
        constructor
        · intro h1; exact hstart ⟨rfl, Or.inl h1⟩
        · intro h1; exact hstart ⟨rfl, Or.inr h1⟩
      simp [h1] at h
      rcases h with ⟨rfl, rfl, _⟩
      exact ⟨rfl, rfl⟩
    · simp [hw] at h
      rcases h with ⟨rfl, rfl, _⟩
      exact ⟨rfl, rfl⟩
  | .word w :: .number _ :: t, _, h =>
    simp only [Item.readWord] at h
    by_cases hw : w = "HIERARCHY"
    · subst hw
      simp at h
    · simp [hw] at h
      rcases h with ⟨rfl, rfl, _⟩
      exact ⟨rfl, rfl⟩
  | .word w :: .count _ :: t, _, h =>
    simp only [Item.readWord] at h
    by_cases hw : w = "HIERARCHY"
    · subst hw
      simp at h
    · simp [hw] at h
      rcases h with ⟨rfl, rfl, _⟩
      exact ⟨rfl, rfl⟩
  | .word w :: .line _ :: t, _, h =>
    simp only [Item.readWord] at h
    by_cases hw : w = "HIERARCHY"
    · subst hw
      simp at h
    · simp [hw] at h
      rcases h with ⟨rfl, rfl, _⟩
      exact ⟨rfl, rfl⟩
  | .number _ :: t, _, h => simp [Item.readWord] at h
  | .count _ :: t, _, h => simp [Item.readWord] at h
  | .line _ :: t, _, h => simp [Item.readWord] at h

/-- The motion loader returns `false` only with an empty motion. -/
theorem Motion.LoadFromBVHFile_false {F : Type} [LinearOrderedField F] [CMath F]
    (atof : String → F) (m m1 : Motion F) (sk : Skeleton F) (inFile rest : List (Item F))
    (h : Motion.LoadFromBVHFile atof m sk inFile = some (false, m1, rest)) :
    m1 = ⟨[], 0, "None", 0⟩ := by
  unfold Motion.LoadFromBVHFile at h
  dsimp only at h
  split at h
  · cases h
  · split at h
    · cases h
      rfl
    · split at h
      · cases h
      · split at h
        · cases h
          rfl
        · split at h
          · cases h
          · split at h
            · cases h
            · split at h
              · cases h
              · split at h
                · cases h
                · cases h

/-- C20 (amended): when `Player::LoadBVHFile` returns `false` on a file that could be
opened, either the skeleton loader returned `false`, and then the player has the
skeleton that this loader left behind, which has no joint when the input does not
start with `HIERARCHY` followed by `ROOT` or `JOINT`, and the motion keeps the frames
it had before the call; or the skeleton loader returned `true` and the motion loader
`false`, and then the player has the loaded skeleton and a motion without frames. -/
theorem C20_LoadBVHFile_false (atof : String → ℝ) (p p1 : Player ℝ) (filename : String)
    (inFile : List (Item ℝ))
    (h : Player.LoadBVHFile atof p filename (some inFile) = some (false, p1)) :
    (∃ sk rest, Skeleton.LoadFromBVHFile Deg2Rad p.m_skeleton inFile = some (false, sk, rest)
        ∧ p1.m_skeleton = sk
        ∧ p1.m_motion.m_keyFrames = p.m_motion.m_keyFrames
        ∧ (¬ Item.startsHierarchy inFile → p1.m_skeleton.m_joints = []))
      ∨ (∃ sk rest, Skeleton.LoadFromBVHFile Deg2Rad p.m_skeleton inFile = some (true, sk, rest)
        ∧ p1.m_skeleton = sk
        ∧ p1.m_motion.m_keyFrames = []) := by
  unfold Player.LoadBVHFile at h
  dsimp only at h
  split at h
  · cases h
  · rename_i sk rest hsk
    cases h
    exact Or.inl ⟨sk, rest, hsk, rfl, rfl,
      fun hstart => (LoadFromBVHFile_header_false Deg2Rad _ _ _ _ _ hsk hstart).2⟩
  · rename_i sk rest hsk
    split at h
    · cases h
    · rename_i m rest1 hm
      cases h
      refine Or.inr ⟨sk, rest, hsk, rfl, ?_⟩
      rw [Motion.LoadFromBVHFile_false atof _ _ _ _ _ hm]
      rfl
    · split at h
      · split at h
        · cases h
        · split at h
          · cases h
          · cases h
      · cases h

/-- C20 (witness): the player with a skeleton and two frames reads an empty file. -/
theorem C20_LoadBVHFile_false_witness :
    Player.LoadBVHFile (fun _ => 1) (exLoadedPlayer : Player ℝ) "walk.bvh" (some [])
        = some (false,
            { m_skeleton := { (exTwoJoints : Skeleton ℝ) with
                m_joints := [], m_pRoot := none, AMC := false }
              m_motion := (exTwoFrames : Motion ℝ).SetName "None" })
      ∧ ((∃ sk rest, Skeleton.LoadFromBVHFile Deg2Rad (exLoadedPlayer : Player ℝ).m_skeleton []
            = some (false, sk, rest)
          ∧ ({ (exTwoJoints : Skeleton ℝ) with
                m_joints := [], m_pRoot := none, AMC := false } : Skeleton ℝ) = sk
          ∧ ((exTwoFrames : Motion ℝ).SetName "None").m_keyFrames
              = (exLoadedPlayer : Player ℝ).m_motion.m_keyFrames
          ∧ (¬ Item.startsHierarchy ([] : List (Item ℝ)) →
              ({ (exTwoJoints : Skeleton ℝ) with
                m_joints := [], m_pRoot := none, AMC := false } : Skeleton ℝ).m_joints = []))
        ∨ (∃ sk rest, Skeleton.LoadFromBVHFile Deg2Rad (exLoadedPlayer : Player ℝ).m_skeleton []
            = some (true, sk, rest)
          ∧ ({ (exTwoJoints : Skeleton ℝ) with
                m_joints := [], m_pRoot := none, AMC := false } : Skeleton ℝ) = sk
          ∧ ((exTwoFrames : Motion ℝ).SetName "None").m_keyFrames = [])) :=
  ⟨rfl, C20_LoadBVHFile_false (fun _ => 1) exLoadedPlayer _ "walk.bvh" [] rfl⟩

/-- C20 (counterexample): a player that holds a skeleton and a motion of two frames
reads an empty file: the call returns `false` and the motion still has its two
frames.  The same player reads a file that ends after the hierarchy: the call returns
`false` and the skeleton has the three joints of the hierarchy. -/
theorem C20_counterexample :
    (∃ p1, Player.LoadBVHFile (fun _ => 1) (exLoadedPlayer : Player ℝ) "walk.bvh" (some [])
        = some (false, p1) ∧ p1.m_motion.m_keyFrames.length = 2)
      ∧ (∃ p1, Player.LoadBVHFile (fun _ => 1) (exLoadedPlayer : Player ℝ) "walk.bvh"
          (some (exBvhFile : BvhFile ℝ).hierarchy) = some (false, p1)
        ∧ p1.m_skeleton.m_joints.length = 3) := by
  constructor
  · exact ⟨_, rfl, rfl⟩
  · have h := LoadFromBVHFile_hierarchy Deg2Rad (exLoadedPlayer : Player ℝ).m_skeleton
      (exBvhFile : BvhFile ℝ) []
    rw [List.append_nil] at h
    refine ⟨⟨{ (exLoadedPlayer : Player ℝ).m_skeleton with
          m_joints := (exBvhFile : BvhFile ℝ).joints Deg2Rad, m_pRoot := some 0, AMC := false },
        ⟨[], 0, "None", 0⟩⟩, ?_, rfl⟩
    unfold Player.LoadBVHFile
    simp only [h]
    rfl

end C20

/-! ## Pointers under `AttachJoints` -/

section AttachLemmas

variable {K : Type} [CommRing K]

theorem eraseLoop_not_mem (c : Nat) : ∀ l : List Nat, c ∉ l → Joint.eraseLoop c l = some l
  | [], _ => rfl
  | x :: rest, h => by
    have hx : x ≠ c := fun hx => h (by simp [hx])
    have hr : c ∉ rest := fun hr => h (List.mem_cons_of_mem _ hr)
    rw [Joint.eraseLoop.eq_def]
    dsimp only
    rw [if_neg hx, eraseLoop_not_mem c rest hr]
    rfl

/-- On a list without repetition the erase loop, when it ends, has erased the
entry. -/
theorem eraseLoop_nodup (c : Nat) :
    ∀ (l ch : List Nat), l.Nodup → Joint.eraseLoop c l = some ch → ch = l.erase c
  | [], ch, _, h => by
    simp only [Joint.eraseLoop, Option.some.injEq] at h
    rw [← h]
    rfl
  | x :: rest, ch, hn, h => by
    rw [List.nodup_cons] at hn
    by_cases hx : x = c
    · subst hx
      rw [Joint.eraseLoop.eq_def] at h
      dsimp only at h
      rw [if_pos rfl] at h
      cases rest with
      | nil => cases h
      | cons y rest1 =>
        have hy : x ∉ rest1 := fun hy => hn.1 (List.mem_cons_of_mem _ hy)
        simp only [eraseLoop_not_mem x rest1 hy, Option.map_some', Option.some.injEq] at h
        rw [← h]
        simp
    · rw [Joint.eraseLoop.eq_def] at h
      dsimp only at h
      rw [if_neg hx] at h
      cases hr : Joint.eraseLoop c rest with
      | none => rw [hr] at h; cases h
      | some ch1 =>
        rw [hr] at h
        simp only [Option.map_some', Option.some.injEq] at h
        rw [← h, eraseLoop_nodup c rest ch1 hn.2 hr, List.erase_cons_tail]
        simpa using hx

theorem parentAt_set_children {js : List (Joint K)} {i : Nat} {j : Joint K}
    (hi : js[i]? = some j) (ch : List Nat) (k : Nat) :
    parentAt (js.set i { j with m_children := ch }) k = parentAt js k := by
  unfold parentAt
  by_cases hik : i = k
  · subst hik
    rw [List.getElem?_set_self (List.getElem?_eq_some_iff.mp hi).1, hi]
  · rw [List.getElem?_set_ne hik]

theorem childrenAt_set_children {js : List (Joint K)} {i : Nat} {j : Joint K}
    (hi : js[i]? = some j) (ch : List Nat) (k : Nat) :
    childrenAt (js.set i { j with m_children := ch }) k
      = if k = i then ch else childrenAt js k := by
  unfold childrenAt
  by_cases hik : i = k
  · subst hik
    rw [List.getElem?_set_self (List.getElem?_eq_some_iff.mp hi).1, if_pos rfl]
  · rw [List.getElem?_set_ne hik, if_neg (fun h => hik h.symm)]

theorem parentAt_set_parent {js : List (Joint K)} {i : Nat} {j : Joint K}
    (hi : js[i]? = some j) (q : Option Nat) (k : Nat) :
    parentAt (js.set i { j with m_pParent := q }) k
      = if k = i then q else parentAt js k := by
  unfold parentAt
  by_cases hik : i = k
  · subst hik
    rw [List.getElem?_set_self (List.getElem?_eq_some_iff.mp hi).1, if_pos rfl]
  · rw [List.getElem?_set_ne hik, if_neg (fun h => hik h.symm)]

theorem childrenAt_set_parent {js : List (Joint K)} {i : Nat} {j : Joint K}
    (hi : js[i]? = some j) (q : Option Nat) (k : Nat) :
    childrenAt (js.set i { j with m_pParent := q }) k = childrenAt js k := by
  unfold childrenAt
  by_cases hik : i = k
  · subst hik
    rw [List.getElem?_set_self (List.getElem?_eq_some_iff.mp hi).1, hi]
  · rw [List.getElem?_set_ne hik]

/-- Replacing a joint by one with the same id and name keeps the ids and names of
the list. -/
theorem idName_set {js : List (Joint K)} {i : Nat} {j : Joint K}
    (hi : js[i]? = some j) (j1 : Joint K) (hid : j1.m_id = j.m_id) (hname : j1.m_name = j.m_name) :
    (js.set i j1).map (fun j => (j.m_id, j.m_name)) = js.map (fun j => (j.m_id, j.m_name)) := by
  apply List.ext_getElem?
  intro k
  rw [List.getElem?_map, List.getElem?_map]
  by_cases hik : i = k
  · subst hik
    rw [List.getElem?_set_self (List.getElem?_eq_some_iff.mp hi).1, hi]
    simp [hid, hname]
  · rw [List.getElem?_set_ne hik]

theorem parentAt_lt {js : List (Joint K)} {c p : Nat} (h : parentAt js c = some p) :
    c < js.length := by
  unfold parentAt at h
  cases hc : js[c]? with
  | none => rw [hc] at h; cases h
  | some j => exact (List.getElem?_eq_some_iff.mp hc).1

theorem childrenAt_lt {js : List (Joint K)} {c p : Nat} (h : c ∈ childrenAt js p) :
    p < js.length := by
  unfold childrenAt at h
  cases hp : js[p]? with
  | none => rw [hp] at h; cases h
  | some j => exact (List.getElem?_eq_some_iff.mp hp).1

/-- What `Joint::AttachJoints(pParent, pChild)` does to the pointers when it returns:
the child gets the parent, the child list of the old parent loses the child, the
child list of the new parent gets it at the end, and ids and names stay. -/
theorem AttachJoints_some {js js3 : List (Joint K)} {pParent : Option Nat} {c : Nat}
    (h : Joint.AttachJoints js pParent (some c) = some js3)
    (hn : ∀ p : Nat, (childrenAt js p).Nodup) :
    js3.length = js.length ∧ c < js.length ∧ (∀ p : Nat, pParent = some p → p < js.length) ∧
    (∀ k : Nat, parentAt js3 k = if k = c then pParent else parentAt js k) ∧
    (∀ k : Nat, childrenAt js3 k
      = (if parentAt js c = some k then (childrenAt js k).erase c else childrenAt js k)
        ++ (if pParent = some k then [c] else [])) ∧
    js3.map (fun j => (j.m_id, j.m_name)) = js.map (fun j => (j.m_id, j.m_name)) := by
  unfold Joint.AttachJoints at h
  dsimp only at h
  split at h
  · cases h
  rename_i cj hc
  have hclt : c < js.length := (List.getElem?_eq_some_iff.mp hc).1
  have hpc : parentAt js c = cj.m_pParent := by unfold parentAt; rw [hc]
  split at h
  · cases h
  rename_i js1 herased
  -- the erase step
  obtain ⟨hlen1, hpar1, hch1, hid1⟩ :
      js1.length = js.length ∧ (∀ k : Nat, parentAt js1 k = parentAt js k) ∧
      (∀ k : Nat, childrenAt js1 k
        = if parentAt js c = some k then (childrenAt js k).erase c else childrenAt js k) ∧
      js1.map (fun j => (j.m_id, j.m_name)) = js.map (fun j => (j.m_id, j.m_name)) := by
    split at herased
    · rename_i hold
      cases herased
      refine ⟨rfl, fun _ => rfl, fun k => ?_, rfl⟩
      rw [hpc, hold]
      simp
    · rename_i old hold
      split at herased
      · cases herased
      rename_i oj ho
      cases he : Joint.eraseLoop c oj.m_children with
      | none => simp [he] at herased
      | some ch =>
        rw [he] at herased
        simp only [Option.map_some', Option.some.injEq] at herased
        subst herased
        have hoc : childrenAt js old = oj.m_children := by unfold childrenAt; rw [ho]
        have hch : ch = oj.m_children.erase c :=
          eraseLoop_nodup c _ _ (by rw [← hoc]; exact hn old) he
        refine ⟨by simp, fun k => parentAt_set_children ho ch k, fun k => ?_,
          idName_set ho _ rfl rfl⟩
        rw [childrenAt_set_children ho, hpc, hold]
        by_cases hk : k = old
        · subst hk
          rw [if_pos rfl, if_pos rfl, hoc, hch]
        · rw [if_neg hk, if_neg (fun h1 => hk (Option.some.inj h1).symm)]
  split at h
  · cases h
  rename_i cj1 hc1
  have hlen2 : (js1.set c { cj1 with m_pParent := pParent }).length = js.length := by
    simp [hlen1]
  have hpar2 : ∀ k : Nat, parentAt (js1.set c { cj1 with m_pParent := pParent }) k
      = if k = c then pParent else parentAt js k := by
    intro k
    rw [parentAt_set_parent hc1, hpar1]
  have hch2 : ∀ k : Nat, childrenAt (js1.set c { cj1 with m_pParent := pParent }) k
      = if parentAt js c = some k then (childrenAt js k).erase c else childrenAt js k := by
    intro k
    rw [childrenAt_set_parent hc1, hch1]
  have hid2 : (js1.set c { cj1 with m_pParent := pParent }).map
      (fun j => (j.m_id, j.m_name)) = js.map (fun j => (j.m_id, j.m_name)) := by
    exact (idName_set hc1 { cj1 with m_pParent := pParent } rfl rfl).trans hid1
  split at h
  · cases h
    refine ⟨hlen2, hclt, (fun p hp1 => by cases hp1), hpar2, fun k => ?_, hid2⟩
    rw [hch2]
    simp
  · rename_i p
    split at h
    · cases h
    rename_i pj hpj
    cases h
    have hplt : p < js.length := by
      rw [← hlen2]
      exact (List.getElem?_eq_some_iff.mp hpj).1
    have hpch : pj.m_children
        = childrenAt (js1.set c { cj1 with m_pParent := some p }) p := by
      unfold childrenAt
      rw [hpj]
    refine ⟨by simp [hlen1], hclt, (fun q hq => by cases hq; exact hplt), fun k => ?_,
      fun k => ?_, ?_⟩
    · rw [parentAt_set_children hpj, hpar2]
    · rw [childrenAt_set_children hpj]
      by_cases hk : k = p
      · subst hk
        rw [if_pos rfl, if_pos rfl, hpch, hch2]
      · rw [if_neg hk, if_neg (fun h1 => hk (Option.some.inj h1).symm), hch2]
        simp
    · exact (idName_set hpj { pj with m_children := pj.m_children ++ [c] } rfl rfl).trans hid2

/-- The function `Joint::AttachJoints` keeps parent pointers and child lists in
agreement. -/
theorem Linked.lk_attach {js js3 : List (Joint K)} {pParent : Option Nat} {c : Nat}
    (hl : Linked js) (h : Joint.AttachJoints js pParent (some c) = some js3) :
    Linked js3 := by
  obtain ⟨_, _, _, hpar, hch, _⟩ := AttachJoints_some h hl.2
  refine ⟨⟨fun k q hk => ?_, fun q k hk => ?_⟩, fun q => ?_⟩
  · rw [hpar] at hk
    rw [hch]
    by_cases hkc : k = c
    · rw [if_pos hkc] at hk
      rw [if_pos hk, hkc]
      simp
    · rw [if_neg hkc] at hk
      have hmem := hl.1.1 k q hk
      apply List.mem_append_left
      split
      · exact (List.mem_erase_of_ne hkc).mpr hmem
      · exact hmem
  · rw [hch] at hk
    rw [hpar]
    rcases List.mem_append.mp hk with hk1 | hk1
    · split at hk1
      · rename_i hq
        rw [(hl.2 q).mem_erase_iff] at hk1
        rw [if_neg hk1.1]
        exact hl.1.2 q k hk1.2
      · rename_i hq
        have hkc : k ≠ c := by
          intro hkc
          subst hkc
          exact hq (hl.1.2 q k hk1)
        rw [if_neg hkc]
        exact hl.1.2 q k hk1
    · split at hk1
      · rename_i hq
        rw [List.mem_singleton] at hk1
        rw [if_pos hk1]
        exact hq
      · cases hk1
  · rw [hch]
    rw [List.nodup_append]
    refine ⟨?_, ?_, ?_⟩
    · split
      · exact (hl.2 q).erase c
      · exact hl.2 q
    · split
      · exact List.nodup_singleton c
      · exact List.nodup_nil
    · intro a ha hb
      split at hb
      · rw [List.mem_singleton] at hb
        subst hb
        split at ha
        · rw [(hl.2 q).mem_erase_iff] at ha
          exact ha.1 rfl
        · rename_i hq
          exact hq (hl.1.2 q a ha)
      · cases hb

theorem Linked.lk_congr {a b : List (Joint K)} (hp : ∀ k : Nat, parentAt b k = parentAt a k)
    (hc : ∀ k : Nat, childrenAt b k = childrenAt a k) (h : Linked a) : Linked b := by
  refine ⟨⟨fun c p hcp => ?_, fun p c hcp => ?_⟩, fun p => ?_⟩
  · rw [hc]
    rw [hp] at hcp
    exact h.1.1 c p hcp
  · rw [hp]
    rw [hc] at hcp
    exact h.1.2 p c hcp
  · rw [hc]
    exact h.2 p

theorem parentAt_append_fresh (js : List (Joint K)) {j : Joint K} (hj : j.m_pParent = none)
    (k : Nat) : parentAt (js ++ [j]) k = parentAt js k := by
  unfold parentAt
  rcases Nat.lt_trichotomy k js.length with hk | hk | hk
  · rw [List.getElem?_append_left hk]
  · subst hk
    have h1 : (js ++ [j])[js.length]? = some j := by simp
    have h2 : js[js.length]? = none := by simp
    rw [h1, h2]
    exact hj
  · have h1 : (js ++ [j])[k]? = none := by
      rw [List.getElem?_eq_none_iff]
      simp
      omega
    have h2 : js[k]? = none := by
      rw [List.getElem?_eq_none_iff]
      omega
    rw [h1, h2]

theorem childrenAt_append_fresh (js : List (Joint K)) {j : Joint K} (hj : j.m_children = [])
    (k : Nat) : childrenAt (js ++ [j]) k = childrenAt js k := by
  unfold childrenAt
  rcases Nat.lt_trichotomy k js.length with hk | hk | hk
  · rw [List.getElem?_append_left hk]
  · subst hk
    have h1 : (js ++ [j])[js.length]? = some j := by simp
    have h2 : js[js.length]? = none := by simp
    rw [h1, h2]
    exact hj
  · have h1 : (js ++ [j])[k]? = none := by
      rw [List.getElem?_eq_none_iff]
      simp
      omega
    have h2 : js[k]? = none := by
      rw [List.getElem?_eq_none_iff]
      omega
    rw [h1, h2]

/-- Pushing a joint without parent and children keeps the pointers in agreement. -/
theorem Linked.push {js : List (Joint K)} (h : Linked js) {j : Joint K}
    (hp : j.m_pParent = none) (hc : j.m_children = []) : Linked (js ++ [j]) :=
  h.lk_congr (parentAt_append_fresh js hp) (childrenAt_append_fresh js hc)

theorem idsAreIndices_push {js : List (Joint K)} (h : idsAreIndices js) {j : Joint K}
    (hj : j.m_id = (js.length : Int)) : idsAreIndices (js ++ [j]) := by
  unfold idsAreIndices at h ⊢
  rw [List.map_append, h, List.length_append, List.length_singleton, List.range_succ,
    List.map_append]
  simp [hj]

theorem idsAreIndices_of_idName {a b : List (Joint K)} (h : idsAreIndices a)
    (hab : b.map (fun j => (j.m_id, j.m_name)) = a.map (fun j => (j.m_id, j.m_name))) :
    idsAreIndices b := by
  have hlen : b.length = a.length := by simpa using congrArg List.length hab
  have hid : b.map (fun j => j.m_id) = a.map (fun j => j.m_id) := by
    have := congrArg (List.map Prod.fst) hab
    simpa [List.map_map, Function.comp_def] using this
  unfold idsAreIndices at h ⊢
  rw [hid, hlen, h]

theorem SameButGlobal.sbg_idName {a b : List (Joint K)} (h : SameButGlobal a b) :
    b.map (fun j => (j.m_id, j.m_name)) = a.map (fun j => (j.m_id, j.m_name)) := by
  have h1 := congrArg (List.map (fun j : Joint K => (j.m_id, j.m_name))) h
  simpa [List.map_map, Function.comp_def, Joint.clearGlobal] using h1.symm

theorem SameButGlobal.sbg_linked {a b : List (Joint K)} (h : SameButGlobal a b)
    (hl : Linked a) : Linked b :=
  hl.lk_congr h.sameTree.st_parentAt h.sameTree.st_childrenAt

/-- The function `Joint::UpdateTransformation` writes global transforms only. -/
theorem UpdateTransformation_sameButGlobal :
    ∀ (fuel : Nat) (js : List (Joint K)) (i : Nat) (b : Bool) (js1 : List (Joint K)),
      Joint.UpdateTransformation fuel js i b = some js1 → SameButGlobal js js1 := by
  intro fuel
  induction fuel with
  | zero =>
    intro js i b js1 h
    unfold Joint.UpdateTransformation at h
    split at h
    · cases h
    · rename_i js2 hu
      cases b
      · simp only [Bool.false_eq_true, if_false, Option.some.injEq] at h
        subst h
        exact updateGlobal_sameButGlobal hu
      · simp at h
  | succ f ih =>
    intro js i b js1 h
    unfold Joint.UpdateTransformation at h
    split at h
    · cases h
    · rename_i js2 hu
      have h2 := updateGlobal_sameButGlobal hu
      cases b
      · simp only [Bool.false_eq_true, if_false, Option.some.injEq] at h
        subst h
        exact h2
      · simp only [if_true] at h
        split at h
        · cases h
        · rename_i j hj
          have key : ∀ (cs : List Nat) (s s1 : List (Joint K)),
              cs.foldlM (fun s c => Joint.UpdateTransformation f s c true) s = some s1 →
              SameButGlobal s s1 := by
            intro cs
            induction cs with
            | nil =>
              intro s s1 hs
              simp only [List.foldlM_nil] at hs
              cases hs
              exact SameButGlobal.sbg_refl _
            | cons c cs ihc =>
              intro s s1 hs
              rw [List.foldlM_cons] at hs
              cases hc : Joint.UpdateTransformation f s c true with
              | none => rw [hc] at hs; simp at hs
              | some s2 =>
                rw [hc] at hs
                exact (ih s c true s2 hc).sbg_trans (ihc s2 s1 hs)
          exact h2.sbg_trans (key _ _ _ h)

end AttachLemmas

/-! ## The invariants under `LoadASFFile` -/

section AsfInvariants

variable {K : Type} [CommRing K]

theorem idName_get {a b : List (Joint K)}
    (hab : b.map (fun j => (j.m_id, j.m_name)) = a.map (fun j => (j.m_id, j.m_name)))
    {k : Nat} {j : Joint K} (hk : a[k]? = some j) :
    ∃ j1, b[k]? = some j1 ∧ j1.m_id = j.m_id ∧ j1.m_name = j.m_name := by
  have h1 := congrArg (fun l => l[k]?) hab
  simp only [List.getElem?_map, hk, Option.map_some'] at h1
  cases hb : b[k]? with
  | none => rw [hb] at h1; cases h1
  | some j1 =>
    rw [hb] at h1
    simp only [Option.map_some', Option.some.injEq, Prod.mk.injEq] at h1
    exact ⟨j1, rfl, h1.1, h1.2⟩

theorem GetJointByName_ne_zero {js : List (Joint K)} {j : Joint K} (h0 : js[0]? = some j)
    {token : String} (ht : token ≠ j.m_name) : Skeleton.GetJointByName js token ≠ some 0 := by
  cases js with
  | nil => cases h0
  | cons x xs =>
    simp only [List.getElem?_cons_zero, Option.some.injEq] at h0
    subst h0
    unfold Skeleton.GetJointByName
    rw [List.findIdx?_cons]
    have hx : (token == x.m_name) = false := by simpa using ht
    simp [hx]

theorem AttachJoints_asfLoading {js js3 : List (Joint K)} {pParent pChild : Option Nat}
    (hl : AsfLoading js) (h : Joint.AttachJoints js pParent pChild = some js3) :
    AsfLoading js3 ∧ (pChild ≠ some 0 → parentAt js3 0 = parentAt js 0) := by
  cases pChild with
  | none =>
    simp only [Joint.AttachJoints, Option.some.injEq] at h
    subst h
    exact ⟨hl, fun _ => rfl⟩
  | some c =>
    obtain ⟨hids, hlinked, j0, hj0, hname⟩ := hl
    obtain ⟨_, _, _, hpar, _, hid⟩ := AttachJoints_some h hlinked.2
    obtain ⟨j1, hj1, _, hname1⟩ := idName_get hid hj0
    refine ⟨⟨idsAreIndices_of_idName hids hid, hlinked.lk_attach h, j1, hj1, hname1.trans hname⟩,
      fun hc => ?_⟩
    rw [hpar, if_neg (fun h0 => hc (by rw [h0]))]

theorem attachChildren_asfLoading (pParent : Option Nat) :
    ∀ (tokens : List String) (js js3 : List (Joint K)), AsfLoading js →
      Skeleton.attachChildren pParent js tokens = some js3 →
      AsfLoading js3 ∧ ("root" ∉ tokens → parentAt js3 0 = parentAt js 0)
  | [], js, js3, hl, h => by
    simp only [Skeleton.attachChildren, Option.some.injEq] at h
    subst h
    exact ⟨hl, fun _ => rfl⟩
  | token :: rest, js, js3, hl, h => by
    rw [Skeleton.attachChildren] at h
    split at h
    · cases h
    · rename_i js1 hatt
      obtain ⟨hl1, hroot1⟩ := AttachJoints_asfLoading hl hatt
      obtain ⟨hl3, hroot3⟩ := attachChildren_asfLoading pParent rest js1 js3 hl1 h
      refine ⟨hl3, fun hnot => ?_⟩
      obtain ⟨j0, hj0, hname⟩ := hl.2.2
      have ht : token ≠ j0.m_name := by
        rw [hname]
        intro ht
        exact hnot (by rw [ht]; exact List.mem_cons_self _ _)
      rw [hroot3 (fun hr => hnot (List.mem_cons_of_mem _ hr)),
        hroot1 (GetJointByName_ne_zero hj0 ht)]

theorem attachLines_asfLoading :
    ∀ (lines : List (String × List String)) (js js3 : List (Joint K)), AsfLoading js →
      Skeleton.attachLines js lines = some js3 →
      AsfLoading js3 ∧
        ((∀ line ∈ lines, "root" ∉ line.2) → parentAt js3 0 = parentAt js 0)
  | [], js, js3, hl, h => by
    simp only [Skeleton.attachLines, Option.some.injEq] at h
    subst h
    exact ⟨hl, fun _ => rfl⟩
  | line :: rest, js, js3, hl, h => by
    rw [Skeleton.attachLines] at h
    split at h
    · cases h
    · rename_i js1 hatt
      obtain ⟨hl1, hroot1⟩ := attachChildren_asfLoading _ line.2 js js1 hl hatt
      obtain ⟨hl3, hroot3⟩ := attachLines_asfLoading rest js1 js3 hl1 h
      refine ⟨hl3, fun hnot => ?_⟩
      rw [hroot3 (fun l hlmem => hnot l (List.mem_cons_of_mem _ hlmem)),
        hroot1 (hnot line (List.mem_cons_self _ _))]

theorem SetID_id (j : Joint K) (id : Int) : (j.SetID id).m_id = id := by
  unfold Joint.SetID
  split <;> rfl

theorem SetID_parent (j : Joint K) (id : Int) : (j.SetID id).m_pParent = j.m_pParent := by
  unfold Joint.SetID
  split <;> rfl

theorem SetID_children (j : Joint K) (id : Int) : (j.SetID id).m_children = j.m_children := by
  unfold Joint.SetID
  split <;> rfl

theorem SetName_id (j : Joint K) (s : String) : (j.SetName s).m_id = j.m_id := by
  unfold Joint.SetName
  split <;> rfl

theorem SetName_parent (j : Joint K) (s : String) : (j.SetName s).m_pParent = j.m_pParent := by
  unfold Joint.SetName
  split <;> rfl

theorem SetName_children (j : Joint K) (s : String) :
    (j.SetName s).m_children = j.m_children := by
  unfold Joint.SetName
  split <;> rfl

theorem SetRotationOrder_id (j : Joint K) (s : String) :
    (j.SetRotationOrder s).m_id = j.m_id := by
  unfold Joint.SetRotationOrder
  split_ifs <;> rfl

theorem SetRotationOrder_name (j : Joint K) (s : String) :
    (j.SetRotationOrder s).m_name = j.m_name := by
  unfold Joint.SetRotationOrder
  split_ifs <;> rfl

theorem SetRotationOrder_parent (j : Joint K) (s : String) :
    (j.SetRotationOrder s).m_pParent = j.m_pParent := by
  unfold Joint.SetRotationOrder
  split_ifs <;> rfl

theorem SetRotationOrder_children (j : Joint K) (s : String) :
    (j.SetRotationOrder s).m_children = j.m_children := by
  unfold Joint.SetRotationOrder
  split_ifs <;> rfl

/-- The joint that `ReadJointFromASFFile` pushes has the next position as id, no
parent and no children. -/
theorem ReadJointFromASFFile_joints (D : K) (sk : Skeleton K) (bone : AsfBone K) :
    ∃ j : Joint K, (Skeleton.ReadJointFromASFFile D sk bone).m_joints = sk.m_joints ++ [j] ∧
      j.m_id = (sk.m_joints.length : Int) ∧ j.m_pParent = none ∧ j.m_children = [] ∧
      (Skeleton.ReadJointFromASFFile D sk bone).m_pRoot = sk.m_pRoot := by
  refine ⟨_, rfl, ?_, ?_, ?_, rfl⟩
  · simp only [Joint.SetJointLimits, Joint.SetDOFs, Joint.SetNumChannels,
      SetRotationOrder_id, SetName_id, SetID_id]
  · simp only [Joint.SetJointLimits, Joint.SetDOFs, Joint.SetNumChannels,
      SetRotationOrder_parent, SetName_parent, SetID_parent, Joint.new]
  · simp only [Joint.SetJointLimits, Joint.SetDOFs, Joint.SetNumChannels,
      SetRotationOrder_children, SetName_children, SetID_children, Joint.new]

theorem bones_asfLoading (D : K) :
    ∀ (bones : List (AsfBone K)) (sk : Skeleton K), AsfLoading sk.m_joints →
      AsfLoading (bones.foldl (Skeleton.ReadJointFromASFFile D) sk).m_joints ∧
      parentAt (bones.foldl (Skeleton.ReadJointFromASFFile D) sk).m_joints 0
        = parentAt sk.m_joints 0 ∧
      (bones.foldl (Skeleton.ReadJointFromASFFile D) sk).m_pRoot = sk.m_pRoot
  | [], sk, hl => ⟨hl, rfl, rfl⟩
  | bone :: rest, sk, hl => by
    obtain ⟨j, hjs, hid, hp, hc, hroot⟩ := ReadJointFromASFFile_joints D sk bone
    obtain ⟨hids, hlinked, j0, hj0, hname⟩ := hl
    have hlt : 0 < sk.m_joints.length := (List.getElem?_eq_some_iff.mp hj0).1
    have hl1 : AsfLoading (Skeleton.ReadJointFromASFFile D sk bone).m_joints := by
      rw [hjs]
      refine ⟨idsAreIndices_push hids hid, hlinked.push hp hc, j0, ?_, hname⟩
      rw [List.getElem?_append_left hlt]
      exact hj0
    obtain ⟨h1, h2, h3⟩ := bones_asfLoading D rest _ hl1
    rw [List.foldl_cons]
    refine ⟨h1, ?_, h3.trans hroot⟩
    rw [h2, hjs, parentAt_append_fresh _ hp]

/-- The root joint that `LoadASFFile` makes. -/
theorem asfRoot_fields (D : K) (amc : Bool) :
    ∃ j : Joint K,
      ({ ((((Joint.new D).SetID 0).SetName "root").SetNumChannels 6).SetRotationOrder "zyx" with
          AMC := amc } : Joint K).SetID (0 : Nat) = j ∧
      j.m_name = "root" ∧ j.m_id = 0 ∧ j.m_pParent = none ∧ j.m_children = [] := by
  refine ⟨_, rfl, ?_, ?_, ?_, ?_⟩
  · rw [SetRotationOrder_eq D]
    simp [Joint.SetID, Joint.SetName, Joint.SetNumChannels, Joint.new, startsWithSite,
      String.toList]
  · simp only [SetID_id, Nat.cast_zero]
  · simp only [Joint.SetNumChannels, SetRotationOrder_parent, SetName_parent, SetID_parent,
      Joint.new]
  · simp only [Joint.SetNumChannels, SetRotationOrder_children, SetName_children,
      SetID_children, Joint.new]

/-- The skeleton that `Skeleton::LoadASFFile` returns: ids are positions, joint 0 is
the root, pointers agree, and the root has no parent when no line of the hierarchy
section names `root` as a child. -/
theorem LoadASFFile_loaded (D : K) (sk sk1 : Skeleton K) (file : AsfFile K)
    (h : Skeleton.LoadASFFile D sk file = some sk1) :
    idsAreIndices sk1.m_joints ∧ sk1.m_pRoot = some 0 ∧
      (∃ j, sk1.m_joints[0]? = some j ∧ j.m_id = 0 ∧
        ((∀ line ∈ file.hierarchy, "root" ∉ line.2) → j.m_pParent = none)) ∧
      LinksAgree sk1.m_joints := by
  obtain ⟨r, hr, hrname, hrid, hrp, hrc⟩ := asfRoot_fields D true
  have hnil : Linked ([] : List (Joint K)) :=
    ⟨⟨(fun c p hcp => by cases hcp), (fun p c hcp => by cases hcp)⟩, fun p => List.nodup_nil⟩
  have hl0 : AsfLoading ([] ++ [r] : List (Joint K)) :=
    ⟨idsAreIndices_push (show idsAreIndices ([] : List (Joint K)) from rfl) hrid,
      hnil.push hrp hrc, r, rfl, hrname⟩
  obtain ⟨sk0, hjs0, hroot0, hload⟩ : ∃ sk0 : Skeleton K, sk0.m_joints = [] ++ [r] ∧
      sk0.m_pRoot = some 0 ∧
      Skeleton.LoadASFFile D sk file
        = (Skeleton.attachLines (file.bones.foldl (Skeleton.ReadJointFromASFFile D) sk0).m_joints
            file.hierarchy).bind
          (fun js => Skeleton.UpdateFK
            { file.bones.foldl (Skeleton.ReadJointFromASFFile D) sk0 with m_joints := js }
            none) := by
    refine ⟨({ sk with m_joints := [], m_pRoot := none, AMC := true } : Skeleton K).AddJoint
      { ((((Joint.new D).SetID 0).SetName "root").SetNumChannels 6).SetRotationOrder "zyx" with
        AMC := true } true, ?_, rfl, ?_⟩
    · rw [← hr]
      rfl
    · unfold Skeleton.LoadASFFile
      dsimp only
      split <;> rename_i hh <;> rw [hh] <;> rfl
  rw [hload] at h
  rw [← hjs0] at hl0
  obtain ⟨hl1, hpar1, hroot1⟩ := bones_asfLoading D file.bones sk0 hl0
  cases hatt : Skeleton.attachLines
      (file.bones.foldl (Skeleton.ReadJointFromASFFile D) sk0).m_joints file.hierarchy with
  | none => rw [hatt] at h; cases h
  | some js =>
    rw [hatt] at h
    simp only [Option.some_bind] at h
    obtain ⟨hl2, hpar2⟩ := attachLines_asfLoading _ _ _ hl1 hatt
    have hp0 : parentAt sk0.m_joints 0 = none := by
      rw [hjs0]
      unfold parentAt
      simp [hrp]
    unfold Skeleton.UpdateFK at h
    simp only [Option.orElse, hroot1, hroot0] at h
    cases hu : Joint.UpdateTransformation js.length js 0 true with
    | none => rw [hu] at h; cases h
    | some js3 =>
      rw [hu] at h
      simp only [Option.map_some', Option.some.injEq] at h
      subst h
      have hsb := UpdateTransformation_sameButGlobal _ _ _ _ _ hu
      obtain ⟨hids, hlinked, j0, hj0, _⟩ := hl2
      obtain ⟨j1, hj1, hid1, _⟩ := idName_get hsb.sbg_idName hj0
      refine ⟨idsAreIndices_of_idName hids hsb.sbg_idName, rfl,
        ⟨j1, hj1, ?_, fun hnot => ?_⟩, (hsb.sbg_linked hlinked).1⟩
      · rw [hid1]
        have := idsAreIndices_get hids hj0
        simpa using this
      · have h3 : parentAt js3 0 = none := by
          rw [hsb.sameTree.st_parentAt, hpar2 hnot, hpar1, hp0]
        unfold parentAt at h3
        simpa [hj1] using h3

end AsfInvariants

/-! ## The invariants under `LoadFromBVHFile` -/

section BvhInvariants

variable {K : Type} [CommRing K]

theorem Skeleton.Loading.mono {p q : Nat} {sk : Skeleton K} (h : sk.Loading p) (hq : q ≤ p) :
    sk.Loading q :=
  ⟨h.1, h.2.1, lt_of_le_of_lt hq h.2.2.1, h.2.2.2⟩

/-- A call on one joint that writes neither id nor pointers keeps the state of
loading. -/
theorem Skeleton.Loading.of_at {p : Nat} {sk sk1 : Skeleton K} (h : sk.Loading p) (i : Nat)
    (f : Joint K → Joint K)
    (hf : ∀ j : Joint K, (f j).m_id = j.m_id ∧ (f j).m_pParent = j.m_pParent ∧
      (f j).m_children = j.m_children)
    (hjs : sk1.m_joints = Joint.at sk.m_joints i f) (hroot : sk1.m_pRoot = sk.m_pRoot) :
    sk1.Loading p := by
  unfold Joint.at at hjs
  cases hi : sk.m_joints[i]? with
  | none =>
    rw [hi] at hjs
    exact ⟨by rw [hjs]; exact h.1, by rw [hjs]; exact h.2.1, by rw [hjs]; exact h.2.2.1,
      by rw [hjs]; exact h.2.2.2.1, hroot.trans h.2.2.2.2⟩
  | some j =>
    rw [hi] at hjs
    dsimp only at hjs
    have hst : SameTree sk.m_joints sk1.m_joints := by
      rw [hjs]
      exact SameTree.st_set hi (by unfold Joint.links; rw [(hf j).2.1, (hf j).2.2])
    have hlen : sk1.m_joints.length = sk.m_joints.length := by rw [hjs]; simp
    refine ⟨?_, h.2.1.lk_congr hst.st_parentAt hst.st_childrenAt, by rw [hlen]; exact h.2.2.1,
      by rw [hst.st_parentAt]; exact h.2.2.2.1, hroot.trans h.2.2.2.2⟩
    have h1 := h.1
    unfold idsAreIndices at h1 ⊢
    rw [hlen, ← h1, hjs]
    apply List.ext_getElem?
    intro k
    rw [List.getElem?_map, List.getElem?_map]
    by_cases hik : i = k
    · subst hik
      rw [List.getElem?_set_self (List.getElem?_eq_some_iff.mp hi).1, hi]
      simp [(hf j).1]
    · rw [List.getElem?_set_ne hik]

theorem Skeleton.Loading.at {p : Nat} {sk : Skeleton K} (h : sk.Loading p) (i : Nat)
    (f : Joint K → Joint K)
    (hf : ∀ j : Joint K, (f j).m_id = j.m_id ∧ (f j).m_pParent = j.m_pParent ∧
      (f j).m_children = j.m_children) :
    ({ sk with m_joints := Joint.at sk.m_joints i f } : Skeleton K).Loading p :=
  h.of_at i f hf rfl rfl

/-- A new joint is pushed and attached to the joint `p`: the state of loading holds
for the new joint. -/
theorem Skeleton.Loading.attach {p : Nat} {sk sk1 : Skeleton K} (h : sk.Loading p)
    {joint : Joint K} {js1 : List (Joint K)}
    (hatt : Joint.AttachJoints (sk.m_joints ++ [joint]) (some p) (some sk.m_joints.length)
      = some js1)
    (hid : joint.m_id = (sk.m_joints.length : Int)) (hp : joint.m_pParent = none)
    (hc : joint.m_children = []) (hjs : sk1.m_joints = js1) (hroot : sk1.m_pRoot = sk.m_pRoot) :
    sk1.Loading sk.m_joints.length := by
  obtain ⟨hids, hlinked, hplt, hpar0, hr⟩ := h
  have hl1 : Linked (sk.m_joints ++ [joint]) := hlinked.push hp hc
  obtain ⟨hlen, _, _, hpar, _, hidn⟩ := AttachJoints_some hatt hl1.2
  unfold Skeleton.Loading
  rw [hjs]
  refine ⟨idsAreIndices_of_idName (idsAreIndices_push hids hid) hidn, hl1.lk_attach hatt, ?_, ?_,
    hroot.trans hr⟩
  · rw [hlen]
    simp
  · rw [hpar, if_neg (by omega), parentAt_append_fresh _ hp]
    exact hpar0

/-- A property of the skeleton that every call of `LoadFromFileBVHRec` keeps is kept
by the loop around these calls. -/
theorem loadChildren_invariant (P : Skeleton K → Prop)
    (rec : Skeleton K → List (Item K) → String → Loaded K)
    (hrec : ∀ (sk : Skeleton K) (inFile : List (Item K)) (s : String) (b : Bool)
      (sk1 : Skeleton K) (rest : List (Item K)),
      rec sk inFile s = some (b, sk1, rest) → P sk → P sk1) :
    ∀ (n : Nat) (sk : Skeleton K) (inFile : List (Item K)) (s : String) (b : Bool)
      (sk1 : Skeleton K) (rest : List (Item K)),
      Skeleton.loadChildren rec n sk inFile s = some (b, sk1, rest) → P sk → P sk1
  | 0, _, _, _, _, _, _, h, _ => by cases h
  | n + 1, sk, inFile, s, b, sk1, rest, h, hP => by
    rw [Skeleton.loadChildren] at h
    split_ifs at h with hs
    · cases h
      exact hP
    · split at h
      · cases h
      · rename_i sk2 inFile1 hr
        cases h
        exact hrec _ _ _ _ _ _ hr hP
      · rename_i sk2 inFile1 hr
        split at h
        · cases h
        · exact loadChildren_invariant P rec hrec n _ _ _ _ _ _ h (hrec _ _ _ _ _ _ hr hP)

theorem SetLocalTranslation_fields (v : vec3 K) (j : Joint K) :
    (j.SetLocalTranslation v).m_id = j.m_id ∧ (j.SetLocalTranslation v).m_pParent = j.m_pParent ∧
      (j.SetLocalTranslation v).m_children = j.m_children := ⟨rfl, rfl, rfl⟩

theorem SetNumChannels_fields (n : Nat) (j : Joint K) :
    (j.SetNumChannels n).m_id = j.m_id ∧ (j.SetNumChannels n).m_pParent = j.m_pParent ∧
      (j.SetNumChannels n).m_children = j.m_children := ⟨rfl, rfl, rfl⟩

theorem SetRotationOrder_fields (s : String) (j : Joint K) :
    (j.SetRotationOrder s).m_id = j.m_id ∧ (j.SetRotationOrder s).m_pParent = j.m_pParent ∧
      (j.SetRotationOrder s).m_children = j.m_children :=
  ⟨SetRotationOrder_id j s, SetRotationOrder_parent j s, SetRotationOrder_children j s⟩

/-- Every call of `LoadFromFileBVHRec` that returns keeps the state of loading. -/
theorem LoadFromFileBVHRec_loading (D : K) :
    ∀ (fuel : Nat) (sk : Skeleton K) (inFile : List (Item K)) (p : Nat) (pre : String)
      (b : Bool) (sk1 : Skeleton K) (rest : List (Item K)),
      Skeleton.LoadFromFileBVHRec D fuel sk inFile p pre = some (b, sk1, rest) →
      sk.Loading p → sk1.Loading p
  | 0, _, _, _, _, _, _, _, h, _ => by cases h
  | fuel + 1, sk, inFile, p, pre, b, sk1, rest, h, hl => by
    rw [Skeleton.LoadFromFileBVHRec] at h
    split_ifs at h with hj he
    · dsimp only at h
      split at h
      · cases h
      split at h
      · cases h
      rename_i js1 hatt
      have hl1 : ({ sk with m_joints := js1 } : Skeleton K).Loading sk.m_joints.length :=
        hl.attach hatt (by simp only [Joint.SetNumChannels, SetID_id])
          (by simp only [Joint.SetNumChannels, SetID_parent, Joint.named, SetName_parent,
            Joint.new])
          (by simp only [Joint.SetNumChannels, SetID_children, Joint.named, SetName_children,
            Joint.new]) rfl rfl
      split at h
      · cases h
      split at h
      · cases h
      split at h
      · cases h
      rename_i offsets inFile4 _
      split at h
      · cases h
      split at h
      · cases h
      rename_i channelCount inFile6 _
      split at h
      · cases h
      rename_i order inFile7 _
      split at h
      · cases h
      have hl2 := hl1.at sk.m_joints.length (fun j => j.SetLocalTranslation offsets)
        (SetLocalTranslation_fields offsets)
      have hl3 := hl2.at sk.m_joints.length (fun j => j.SetNumChannels channelCount)
        (SetNumChannels_fields channelCount)
      have hl4 := hl3.at sk.m_joints.length (fun j => j.SetRotationOrder order)
        (SetRotationOrder_fields order)
      have hfin := loadChildren_invariant (fun s => s.Loading sk.m_joints.length) _
        (fun sk2 inFile2 s b2 sk3 rest2 hr hP =>
          LoadFromFileBVHRec_loading D fuel sk2 inFile2 sk.m_joints.length s b2 sk3 rest2 hr hP)
        _ _ _ _ _ _ _ h hl4
      exact hfin.mono (le_of_lt hl.2.2.1)
    · dsimp only at h
      split at h
      · cases h
      split at h
      · cases h
      rename_i js1 hatt
      have hl1 : ({ sk with m_joints := js1 } : Skeleton K).Loading sk.m_joints.length :=
        hl.attach hatt (by simp only [Joint.SetNumChannels, SetID_id])
          (by simp only [Joint.SetNumChannels, SetID_parent, Joint.named, SetName_parent,
            Joint.new])
          (by simp only [Joint.SetNumChannels, SetID_children, Joint.named, SetName_children,
            Joint.new]) rfl rfl
      split at h
      · cases h
      split at h
      · cases h
      split at h
      · cases h
      rename_i offsets inFile4 _
      split at h
      · cases h
      cases h
      have hl2 := hl1.at sk.m_joints.length (fun j => j.SetLocalTranslation offsets)
        (SetLocalTranslation_fields offsets)
      exact hl2.mono (le_of_lt hl.2.2.1)
    · cases h
      exact hl

/-- The skeleton that `Skeleton::LoadFromBVHFile` returns with `true` is in the state
of loading for the root. -/
theorem LoadFromBVHFileFuel_loading (D : K) (fuel : Nat) (sk sk1 : Skeleton K)
    (inFile rest : List (Item K))
    (h : Skeleton.LoadFromBVHFileFuel D fuel sk inFile = some (true, sk1, rest)) :
    sk1.Loading 0 := by
  have hnil : Linked ([] : List (Joint K)) :=
    ⟨⟨(fun c p hcp => by cases hcp), (fun p c hcp => by cases hcp)⟩, fun p => List.nodup_nil⟩
  unfold Skeleton.LoadFromBVHFileFuel at h
  dsimp only at h
  split at h
  · cases h
  split_ifs at h
  · cases h
  split at h
  · cases h
  split_ifs at h
  · cases h
  split at h
  · cases h
  rename_i jointname inFile3 _
  obtain ⟨joint, hjoint⟩ : ∃ joint : Joint K, joint =
      { ((Joint.named D jointname).SetID (0 : Nat)).SetNumChannels 6 with AMC := false } :=
    ⟨_, rfl⟩
  have hl0 : (⟨[] ++ [joint], false, sk.mScale, some 0⟩ : Skeleton K).Loading 0 := by
    rw [hjoint]
    refine ⟨idsAreIndices_push (show idsAreIndices ([] : List (Joint K)) from rfl)
        (by simp only [Joint.SetNumChannels, SetID_id]; rfl),
      hnil.push
        (by simp only [Joint.SetNumChannels, SetID_parent, Joint.named, SetName_parent,
          Joint.new])
        (by simp only [Joint.SetNumChannels, SetID_children, Joint.named, SetName_children,
          Joint.new]), by simp, ?_, rfl⟩
    unfold parentAt
    simp only [List.nil_append, List.getElem?_cons_zero, Joint.SetNumChannels, SetID_parent,
      Joint.named, SetName_parent, Joint.new]
  subst hjoint
  split at h
  · cases h
  split at h
  · cases h
  split at h
  · cases h
  rename_i offsets inFile6 _
  split at h
  · cases h
  have hl2 := hl0.at 0 (fun j => j.SetLocalTranslation offsets)
    (SetLocalTranslation_fields offsets)
  split_ifs at h
  · cases h
  split at h
  · cases h
  rename_i channelCount inFile8 _
  split at h
  · cases h
  rename_i order inFile9 _
  split at h
  · cases h
  have hl3 := hl2.at 0 (fun j => j.SetNumChannels channelCount)
    (SetNumChannels_fields channelCount)
  have hl4 := hl3.at 0 (fun j => j.SetRotationOrder order) (SetRotationOrder_fields order)
  exact loadChildren_invariant (fun s => s.Loading 0) _
    (fun sk2 inFile2 s b2 sk3 rest2 hr hP =>
      LoadFromFileBVHRec_loading D fuel sk2 inFile2 0 s b2 sk3 rest2 hr hP)
    _ _ _ _ _ _ _ h hl4

/-- The skeleton that `Skeleton::LoadFromBVHFile` returns with `true`: ids are
positions, joint 0 is the root and has no parent, and pointers agree. -/
theorem LoadFromBVHFileFuel_loaded (D : K) (fuel : Nat) (sk sk1 : Skeleton K)
    (inFile rest : List (Item K))
    (h : Skeleton.LoadFromBVHFileFuel D fuel sk inFile = some (true, sk1, rest)) :
    idsAreIndices sk1.m_joints ∧ sk1.m_pRoot = some 0 ∧
      (∃ j, sk1.m_joints[0]? = some j ∧ j.m_id = 0 ∧ j.m_pParent = none) ∧
      LinksAgree sk1.m_joints := by
  obtain ⟨hids, hlinked, hlt, hpar, hroot⟩ := LoadFromBVHFileFuel_loading D fuel sk sk1 inFile rest h
  obtain ⟨j, hj⟩ : ∃ j, sk1.m_joints[0]? = some j := ⟨_, List.getElem?_eq_getElem hlt⟩
  refine ⟨hids, hroot, ⟨j, hj, ?_, ?_⟩, hlinked.1⟩
  · have := idsAreIndices_get hids hj
    simpa using this
  · unfold parentAt at hpar
    simpa [hj] using hpar

end BvhInvariants

/-! ## C11: ids and pointers of a loaded skeleton -/

section C11

/-- C11 (counterexample): the ASF file with the bone `femur` whose hierarchy section
has the line `femur root`: `Skeleton::LoadASFFile` returns a skeleton whose root,
joint 0, has the femur, joint 1, as its parent. -/
theorem C11_counterexample :
    (Skeleton.LoadASFFile (0 : ℤ) exNoSkeleton exAsfRootChild).map
        (fun sk => (sk.m_pRoot, parentAt sk.m_joints 0, childrenAt sk.m_joints 1))
      = some (some 0, some 1, [0]) := by
  decide

/-- C11 (amended): for every skeleton that `Skeleton::LoadFromBVHFile` returns with
`true`, whatever the bound on its loops, and for every skeleton that
`Skeleton::LoadASFFile` returns, the joint at position `i` has id `i`, the root is
joint 0 and has id 0, every joint `c` with parent `p` occurs in the child list of
`p`, and every entry `c` of the child list of a joint `p` has `p` as its parent.  The
root has no parent after `LoadFromBVHFile`, and after `LoadASFFile` when no line of
the hierarchy section names `root` as a child. -/
theorem C11_loaded_skeleton {K : Type} [CommRing K] (D : K) :
    (∀ (fuel : Nat) (sk sk1 : Skeleton K) (inFile rest : List (Item K)),
      Skeleton.LoadFromBVHFileFuel D fuel sk inFile = some (true, sk1, rest) →
      idsAreIndices sk1.m_joints ∧ sk1.m_pRoot = some 0 ∧
        (∃ j, sk1.m_joints[0]? = some j ∧ j.m_id = 0 ∧ j.m_pParent = none) ∧
        LinksAgree sk1.m_joints) ∧
    (∀ (sk sk1 : Skeleton K) (file : AsfFile K),
      Skeleton.LoadASFFile D sk file = some sk1 →
      idsAreIndices sk1.m_joints ∧ sk1.m_pRoot = some 0 ∧
        (∃ j, sk1.m_joints[0]? = some j ∧ j.m_id = 0 ∧
          ((∀ line ∈ file.hierarchy, "root" ∉ line.2) → j.m_pParent = none)) ∧
        LinksAgree sk1.m_joints) :=
  ⟨fun fuel sk sk1 inFile rest h => LoadFromBVHFileFuel_loaded D fuel sk sk1 inFile rest h,
    fun sk sk1 file h => LoadASFFile_loaded D sk sk1 file h⟩

/-- C11 (witness): the hierarchy of the example BVH file and the ASF file with one
bone under the root are loaded. -/
theorem C11_loaded_skeleton_witness :
    (∃ sk1 rest, Skeleton.LoadFromBVHFile (0 : ℤ) exNoSkeleton (exBvhFile : BvhFile ℤ).hierarchy
        = some (true, sk1, rest) ∧
      idsAreIndices sk1.m_joints ∧ sk1.m_pRoot = some 0 ∧
        (∃ j, sk1.m_joints[0]? = some j ∧ j.m_id = 0 ∧ j.m_pParent = none) ∧
        LinksAgree sk1.m_joints) ∧
    (∃ sk1, Skeleton.LoadASFFile (0 : ℤ) exNoSkeleton exAsfFile = some sk1 ∧
      idsAreIndices sk1.m_joints ∧ sk1.m_pRoot = some 0 ∧
        (∃ j, sk1.m_joints[0]? = some j ∧ j.m_id = 0 ∧
          ((∀ line ∈ (exAsfFile : AsfFile ℤ).hierarchy, "root" ∉ line.2) →
            j.m_pParent = none)) ∧
        LinksAgree sk1.m_joints) := by
  have hb := LoadFromBVHFile_hierarchy (0 : ℤ) exNoSkeleton (exBvhFile : BvhFile ℤ) []
  rw [List.append_nil] at hb
  have ha : (Skeleton.LoadASFFile (0 : ℤ) exNoSkeleton exAsfFile).isSome = true := by decide!
  obtain ⟨sk1, hsk1⟩ := Option.isSome_iff_exists.mp ha
  exact ⟨⟨_, _, hb, (C11_loaded_skeleton (0 : ℤ)).1 _ _ _ _ _ hb⟩,
    ⟨sk1, hsk1, (C11_loaded_skeleton (0 : ℤ)).2 _ _ _ hsk1⟩⟩

end C11

/-! ## Rotation matrices and quaternions -/

section QuaternionLemmas

/-- All relations between the entries of a rotation matrix: rows and columns are
orthonormal and every entry is its own cofactor. -/
theorem mat3.IsRotation.relations {m : mat3 ℝ} (h : m.IsRotation) :
    (m.r0.x * m.r0.x + m.r0.y * m.r0.y + m.r0.z * m.r0.z = 1 ∧
     m.r1.x * m.r1.x + m.r1.y * m.r1.y + m.r1.z * m.r1.z = 1 ∧
     m.r2.x * m.r2.x + m.r2.y * m.r2.y + m.r2.z * m.r2.z = 1 ∧
     m.r0.x * m.r1.x + m.r0.y * m.r1.y + m.r0.z * m.r1.z = 0 ∧
     m.r0.x * m.r2.x + m.r0.y * m.r2.y + m.r0.z * m.r2.z = 0 ∧
     m.r1.x * m.r2.x + m.r1.y * m.r2.y + m.r1.z * m.r2.z = 0) ∧
    (m.r0.x = m.r1.y * m.r2.z - m.r1.z * m.r2.y ∧
     m.r0.y = m.r1.z * m.r2.x - m.r1.x * m.r2.z ∧
     m.r0.z = m.r1.x * m.r2.y - m.r1.y * m.r2.x ∧
     m.r1.x = m.r2.y * m.r0.z - m.r0.y * m.r2.z ∧
     m.r1.y = m.r0.x * m.r2.z - m.r0.z * m.r2.x ∧
     m.r1.z = m.r0.y * m.r2.x - m.r0.x * m.r2.y ∧
     m.r2.x = m.r0.y * m.r1.z - m.r0.z * m.r1.y ∧
     m.r2.y = m.r0.z * m.r1.x - m.r0.x * m.r1.z ∧
     m.r2.z = m.r0.x * m.r1.y - m.r0.y * m.r1.x) := by
  obtain ⟨ho, hd⟩ := h
  simp only [mat3.mul_def, mat3.mul, mat3.Transpose, identity3D, axisX, axisY, axisZ,
    mat3.mk.injEq, vec3.mk.injEq] at ho
  simp only [mat3.det] at hd
  obtain ⟨⟨h00, h01, h02⟩, ⟨h10, h11, h12⟩, ⟨h20, h21, h22⟩⟩ := ho
  refine ⟨⟨h00, h11, h22, h01, h02, h12⟩, ?_, ?_, ?_, ?_, ?_, ?_, ?_, ?_, ?_⟩
  · linear_combination (-m.r0.x) * hd + (m.r1.y * m.r2.z - m.r1.z * m.r2.y) * h00
      - (m.r0.y * m.r2.z - m.r0.z * m.r2.y) * h01 + (m.r0.y * m.r1.z - m.r0.z * m.r1.y) * h02
  · linear_combination (-m.r0.y) * hd - (m.r1.x * m.r2.z - m.r1.z * m.r2.x) * h00
      + (m.r0.x * m.r2.z - m.r0.z * m.r2.x) * h10 - (m.r0.x * m.r1.z - m.r0.z * m.r1.x) * h20
  · linear_combination (-m.r0.z) * hd + (m.r1.x * m.r2.y - m.r1.y * m.r2.x) * h00
      - (m.r0.x * m.r2.y - m.r0.y * m.r2.x) * h10 + (m.r0.x * m.r1.y - m.r0.y * m.r1.x) * h20
  · linear_combination (-m.r1.x) * hd + (m.r1.y * m.r2.z - m.r1.z * m.r2.y) * h01
      - (m.r0.y * m.r2.z - m.r0.z * m.r2.y) * h11 + (m.r0.y * m.r1.z - m.r0.z * m.r1.y) * h21
  · linear_combination (-m.r1.y) * hd - (m.r1.x * m.r2.z - m.r1.z * m.r2.x) * h01
      + (m.r0.x * m.r2.z - m.r0.z * m.r2.x) * h11 - (m.r0.x * m.r1.z - m.r0.z * m.r1.x) * h21
  · linear_combination (-m.r1.z) * hd + (m.r1.x * m.r2.y - m.r1.y * m.r2.x) * h01
      - (m.r0.x * m.r2.y - m.r0.y * m.r2.x) * h11 + (m.r0.x * m.r1.y - m.r0.y * m.r1.x) * h21
  · linear_combination (-m.r2.x) * hd + (m.r1.y * m.r2.z - m.r1.z * m.r2.y) * h02
      - (m.r0.y * m.r2.z - m.r0.z * m.r2.y) * h12 + (m.r0.y * m.r1.z - m.r0.z * m.r1.y) * h22
  · linear_combination (-m.r2.y) * hd - (m.r1.x * m.r2.z - m.r1.z * m.r2.x) * h02
      + (m.r0.x * m.r2.z - m.r0.z * m.r2.x) * h12 - (m.r0.x * m.r1.z - m.r0.z * m.r1.x) * h22
  · linear_combination (-m.r2.z) * hd + (m.r1.x * m.r2.y - m.r1.y * m.r2.x) * h02
      - (m.r0.x * m.r2.y - m.r0.y * m.r2.x) * h12 + (m.r0.x * m.r1.y - m.r0.y * m.r1.x) * h22

/-- The columns of a rotation matrix are orthonormal. -/
theorem mat3.IsRotation.columns {m : mat3 ℝ} (h : m.IsRotation) :
    m.r0.x * m.r0.x + m.r1.x * m.r1.x + m.r2.x * m.r2.x = 1 ∧
    m.r0.y * m.r0.y + m.r1.y * m.r1.y + m.r2.y * m.r2.y = 1 ∧
    m.r0.z * m.r0.z + m.r1.z * m.r1.z + m.r2.z * m.r2.z = 1 ∧
    m.r0.x * m.r0.y + m.r1.x * m.r1.y + m.r2.x * m.r2.y = 0 ∧
    m.r0.x * m.r0.z + m.r1.x * m.r1.z + m.r2.x * m.r2.z = 0 ∧
    m.r0.y * m.r0.z + m.r1.y * m.r1.z + m.r2.y * m.r2.z = 0 := by
  obtain ⟨_, c00, c01, c02, c10, c11, c12, c20, c21, c22⟩ := h.relations
  have hd : m.r0.x * (m.r1.y * m.r2.z - m.r1.z * m.r2.y)
      - m.r0.y * (m.r1.x * m.r2.z - m.r1.z * m.r2.x)
      + m.r0.z * (m.r1.x * m.r2.y - m.r1.y * m.r2.x) = 1 := h.2
  refine ⟨?_, ?_, ?_, ?_, ?_, ?_⟩
  · linear_combination hd + m.r0.x * c00 + m.r1.x * c10 + m.r2.x * c20
  · linear_combination hd + m.r0.y * c01 + m.r1.y * c11 + m.r2.y * c21
  · linear_combination hd + m.r0.z * c02 + m.r1.z * c12 + m.r2.z * c22
  · linear_combination m.r0.x * c01 + m.r1.x * c11 + m.r2.x * c21
  · linear_combination m.r0.x * c02 + m.r1.x * c12 + m.r2.x * c22
  · linear_combination m.r0.y * c02 + m.r1.y * c12 + m.r2.y * c22

/-- The ten numbers from which `FromRotation` takes the quaternion of a rotation
matrix form a matrix of rank one: the products of the off-diagonal sums and
differences are the products of the diagonal estimates. -/
theorem mat3.IsRotation.minors {m : mat3 ℝ} (h : m.IsRotation) :
    ((m.r2.y - m.r1.z) * (m.r2.y - m.r1.z)
        = (1 + m.r0.x + m.r1.y + m.r2.z) * (1 + m.r0.x - m.r1.y - m.r2.z) ∧
     (m.r0.z - m.r2.x) * (m.r0.z - m.r2.x)
        = (1 + m.r0.x + m.r1.y + m.r2.z) * (1 - m.r0.x + m.r1.y - m.r2.z) ∧
     (m.r1.x - m.r0.y) * (m.r1.x - m.r0.y)
        = (1 + m.r0.x + m.r1.y + m.r2.z) * (1 - m.r0.x - m.r1.y + m.r2.z) ∧
     (m.r0.y + m.r1.x) * (m.r0.y + m.r1.x)
        = (1 + m.r0.x - m.r1.y - m.r2.z) * (1 - m.r0.x + m.r1.y - m.r2.z) ∧
     (m.r0.z + m.r2.x) * (m.r0.z + m.r2.x)
        = (1 + m.r0.x - m.r1.y - m.r2.z) * (1 - m.r0.x - m.r1.y + m.r2.z) ∧
     (m.r1.z + m.r2.y) * (m.r1.z + m.r2.y)
        = (1 - m.r0.x + m.r1.y - m.r2.z) * (1 - m.r0.x - m.r1.y + m.r2.z)) ∧
    ((m.r2.y - m.r1.z) * (m.r0.z - m.r2.x)
        = (1 + m.r0.x + m.r1.y + m.r2.z) * (m.r0.y + m.r1.x) ∧
     (m.r2.y - m.r1.z) * (m.r1.x - m.r0.y)
        = (1 + m.r0.x + m.r1.y + m.r2.z) * (m.r0.z + m.r2.x) ∧
     (m.r0.z - m.r2.x) * (m.r1.x - m.r0.y)
        = (1 + m.r0.x + m.r1.y + m.r2.z) * (m.r1.z + m.r2.y)) ∧
    ((m.r2.y - m.r1.z) * (m.r0.y + m.r1.x)
        = (1 + m.r0.x - m.r1.y - m.r2.z) * (m.r0.z - m.r2.x) ∧
     (m.r2.y - m.r1.z) * (m.r0.z + m.r2.x)
        = (1 + m.r0.x - m.r1.y - m.r2.z) * (m.r1.x - m.r0.y) ∧
     (m.r0.y + m.r1.x) * (m.r0.z + m.r2.x)
        = (1 + m.r0.x - m.r1.y - m.r2.z) * (m.r1.z + m.r2.y)) ∧
    ((m.r0.z - m.r2.x) * (m.r0.y + m.r1.x)
        = (1 - m.r0.x + m.r1.y - m.r2.z) * (m.r2.y - m.r1.z) ∧
     (m.r0.z - m.r2.x) * (m.r1.z + m.r2.y)
        = (1 - m.r0.x + m.r1.y - m.r2.z) * (m.r1.x - m.r0.y) ∧
     (m.r0.y + m.r1.x) * (m.r1.z + m.r2.y)
        = (1 - m.r0.x + m.r1.y - m.r2.z) * (m.r0.z + m.r2.x)) ∧
    ((m.r1.x - m.r0.y) * (m.r0.z + m.r2.x)
        = (1 - m.r0.x - m.r1.y + m.r2.z) * (m.r2.y - m.r1.z) ∧
     (m.r1.x - m.r0.y) * (m.r1.z + m.r2.y)
        = (1 - m.r0.x - m.r1.y + m.r2.z) * (m.r0.z - m.r2.x) ∧
     (m.r0.z + m.r2.x) * (m.r1.z + m.r2.y)
        = (1 - m.r0.x - m.r1.y + m.r2.z) * (m.r0.y + m.r1.x)) := by
  obtain ⟨⟨r00, r11, r22, r01, r02, r12⟩, c00, c01, c02, c10, c11, c12, c20, c21, c22⟩ :=
    h.relations
  obtain ⟨k00, k11, k22, k01, k02, k12⟩ := h.columns
  refine ⟨⟨?_, ?_, ?_, ?_, ?_, ?_⟩, ⟨?_, ?_, ?_⟩, ⟨?_, ?_, ?_⟩, ⟨?_, ?_, ?_⟩, ⟨?_, ?_, ?_⟩⟩ <;>
    linarith

theorem pivot_times (p PA : ℝ) (hp0 : p ≠ 0) : p * (0.25 * PA / p) = PA / 4 := by
  field_simp
  ring

theorem pivot_products (p P PA PB AB : ℝ) (hp : p * p = P / 4) (hp0 : p ≠ 0)
    (h : PA * PB = P * AB) : (0.25 * PA / p) * (0.25 * PB / p) = AB / 4 := by
  have hP : P = 4 * (p * p) := by linarith
  rw [div_mul_div_comm, div_eq_div_iff (mul_ne_zero hp0 hp0) (by norm_num)]
  have h1 : PA * PB = 4 * (p * p) * AB := by rw [← hP]; exact h
  linear_combination (0.25 : ℝ) * h1

/-- The quaternion that `FromRotation` computes from a rotation matrix: the function
returns, the quaternion has length 1, and `ToRotation` gives the matrix back. -/
theorem FromRotation_spec (q0 : Quaternion ℝ) (R : mat3 ℝ) (hR : R.IsRotation) :
    ∃ q, Quaternion.FromRotation q0 R = some q ∧ q.SqrLength = 1 ∧ q.Length = 1 ∧
      q.ToRotation = R := by
  have normalized : ∀ (q1 : Quaternion ℝ) (m : mat3 ℝ),
      q1.w * q1.w = (1 + m.r0.x + m.r1.y + m.r2.z) / 4 →
      q1.x * q1.x = (1 + m.r0.x - m.r1.y - m.r2.z) / 4 →
      q1.y * q1.y = (1 - m.r0.x + m.r1.y - m.r2.z) / 4 →
      q1.z * q1.z = (1 - m.r0.x - m.r1.y + m.r2.z) / 4 →
      q1.w * q1.x = (m.r2.y - m.r1.z) / 4 →
      q1.w * q1.y = (m.r0.z - m.r2.x) / 4 →
      q1.w * q1.z = (m.r1.x - m.r0.y) / 4 →
      q1.x * q1.y = (m.r0.y + m.r1.x) / 4 →
      q1.x * q1.z = (m.r0.z + m.r2.x) / 4 →
      q1.y * q1.z = (m.r1.z + m.r2.y) / 4 →
        ∃ q, some q1.Normalize = some q ∧ q.SqrLength = 1 ∧ q.Length = 1 ∧ q.ToRotation = m := by
    intro q1 m hww hxx hyy hzz hwx hwy hwz hxy hxz hyz
    obtain ⟨h1, h2, h3, h4⟩ : q1.SqrLength = 1 ∧ q1.Length = 1 ∧ q1.Normalize = q1 ∧
        q1.ToRotation = m := by
      have hs : q1.SqrLength = 1 := by
        unfold Quaternion.SqrLength
        linarith
      have hl : q1.Length = 1 := by
        unfold Quaternion.Length
        simp only [hs, EPSILON, CMath.sqrt]
        rw [if_pos (by norm_num), Real.sqrt_one]
      refine ⟨hs, hl, ?_, ?_⟩
      · unfold Quaternion.Normalize
        simp only [hl, EPSILON]
        rw [if_neg (by norm_num)]
        simp
      · unfold Quaternion.ToRotation
        ext <;> simp only <;> linarith
    exact ⟨q1, by rw [h3], h1, h2, h4⟩
  obtain ⟨⟨sWX, sWY, sWZ, sXY, sXZ, sYZ⟩, ⟨wXY, wXZ, wYZ⟩, ⟨xWY, xWZ, xYZ⟩, ⟨yWX, yWZ, yXZ⟩,
    ⟨zWX, zWY, zXY⟩⟩ := hR.minors
  obtain ⟨W, hW⟩ : ∃ W, W = Q_EST R.r0.x R.r1.y R.r2.z := ⟨_, rfl⟩
  obtain ⟨X, hX⟩ : ∃ X, X = Q_EST R.r0.x (-R.r1.y) (-R.r2.z) := ⟨_, rfl⟩
  obtain ⟨Y, hY⟩ : ∃ Y, Y = Q_EST (-R.r0.x) R.r1.y (-R.r2.z) := ⟨_, rfl⟩
  obtain ⟨Z, hZ⟩ : ∃ Z, Z = Q_EST (-R.r0.x) (-R.r1.y) R.r2.z := ⟨_, rfl⟩
  have hW4 : W = (1 + R.r0.x + R.r1.y + R.r2.z) / 4 := by rw [hW, Q_EST]; ring
  have hX4 : X = (1 + R.r0.x - R.r1.y - R.r2.z) / 4 := by rw [hX, Q_EST]; ring
  have hY4 : Y = (1 - R.r0.x + R.r1.y - R.r2.z) / 4 := by rw [hY, Q_EST]; ring
  have hZ4 : Z = (1 - R.r0.x - R.r1.y + R.r2.z) / 4 := by rw [hZ, Q_EST]; ring
  have hsum : W + X + Y + Z = 1 := by rw [hW4, hX4, hY4, hZ4]; ring
  have hmW : W ≤ Q_MAX W X Y Z := le_max_left _ _
  have hmX : X ≤ Q_MAX W X Y Z := (le_max_left _ _).trans (le_max_right _ _)
  have hmY : Y ≤ Q_MAX W X Y Z :=
    ((le_max_left _ _).trans (le_max_right _ _)).trans (le_max_right _ _)
  have hmZ : Z ≤ Q_MAX W X Y Z :=
    ((le_max_right _ _).trans (le_max_right _ _)).trans (le_max_right _ _)
  have hquarter : (1 : ℝ) / 4 ≤ Q_MAX W X Y Z := by linarith
  have hsqrt : ∀ P : ℝ, P = Q_MAX W X Y Z →
      Real.sqrt P * Real.sqrt P = P ∧ Real.sqrt P ≠ 0 := by
    intro P hP
    have hpos : 0 < P := by rw [hP]; linarith
    exact ⟨Real.mul_self_sqrt hpos.le, (Real.sqrt_pos.mpr hpos).ne'⟩
  unfold Quaternion.FromRotation
  simp only [← hW, ← hX, ← hY, ← hZ]
  rw [if_pos (by linarith : Q_MAX W X Y Z ≥ 0)]
  by_cases h1 : W = Q_MAX W X Y Z
  · rw [if_pos h1]
    obtain ⟨hp, hp0⟩ := hsqrt W h1
    have hp4 : Real.sqrt W * Real.sqrt W = (1 + R.r0.x + R.r1.y + R.r2.z) / 4 := by
      rw [hp, hW4]
    exact normalized _ R hp4
      (pivot_products _ _ _ _ _ hp4 hp0 sWX)
      (pivot_products _ _ _ _ _ hp4 hp0 sWY)
      (pivot_products _ _ _ _ _ hp4 hp0 sWZ)
      (pivot_times _ _ hp0) (pivot_times _ _ hp0) (pivot_times _ _ hp0)
      (pivot_products _ _ _ _ _ hp4 hp0 wXY)
      (pivot_products _ _ _ _ _ hp4 hp0 wXZ)
      (pivot_products _ _ _ _ _ hp4 hp0 wYZ)
  rw [if_neg h1]
  by_cases h2 : X = Q_MAX W X Y Z
  · rw [if_pos h2]
    obtain ⟨hp, hp0⟩ := hsqrt X h2
    have hp4 : Real.sqrt X * Real.sqrt X = (1 + R.r0.x - R.r1.y - R.r2.z) / 4 := by
      rw [hp, hX4]
    exact normalized _ R
      (pivot_products _ _ _ _ _ hp4 hp0 (by rw [sWX]; ring))
      hp4
      (pivot_products _ _ _ _ _ hp4 hp0 sXY)
      (pivot_products _ _ _ _ _ hp4 hp0 sXZ)
      ((mul_comm _ _).trans (pivot_times _ _ hp0))
      (pivot_products _ _ _ _ _ hp4 hp0 xWY)
      (pivot_products _ _ _ _ _ hp4 hp0 xWZ)
      (pivot_times _ _ hp0) (pivot_times _ _ hp0)
      (pivot_products _ _ _ _ _ hp4 hp0 xYZ)
  rw [if_neg h2]
  by_cases h3 : Y = Q_MAX W X Y Z
  · rw [if_pos h3]
    obtain ⟨hp, hp0⟩ := hsqrt Y h3
    have hp4 : Real.sqrt Y * Real.sqrt Y = (1 - R.r0.x + R.r1.y - R.r2.z) / 4 := by
      rw [hp, hY4]
    exact normalized _ R
      (pivot_products _ _ _ _ _ hp4 hp0 (by rw [sWY]; ring))
      (pivot_products _ _ _ _ _ hp4 hp0 (by rw [sXY]; ring))
      hp4
      (pivot_products _ _ _ _ _ hp4 hp0 sYZ)
      (pivot_products _ _ _ _ _ hp4 hp0 yWX)
      ((mul_comm _ _).trans (pivot_times _ _ hp0))
      (pivot_products _ _ _ _ _ hp4 hp0 yWZ)
      ((mul_comm _ _).trans (pivot_times _ _ hp0))
      (pivot_products _ _ _ _ _ hp4 hp0 yXZ)
      (pivot_times _ _ hp0)
  rw [if_neg h3]
  by_cases h4 : Z = Q_MAX W X Y Z
  · rw [if_pos h4]
    obtain ⟨hp, hp0⟩ := hsqrt Z h4
    have hp4 : Real.sqrt Z * Real.sqrt Z = (1 - R.r0.x - R.r1.y + R.r2.z) / 4 := by
      rw [hp, hZ4]
    exact normalized _ R
      (pivot_products _ _ _ _ _ hp4 hp0 (by rw [sWZ]; ring))
      (pivot_products _ _ _ _ _ hp4 hp0 (by rw [sXZ]; ring))
      (pivot_products _ _ _ _ _ hp4 hp0 (by rw [sYZ]; ring))
      hp4
      (pivot_products _ _ _ _ _ hp4 hp0 zWX)
      (pivot_products _ _ _ _ _ hp4 hp0 zWY)
      ((mul_comm _ _).trans (pivot_times _ _ hp0))
      (pivot_products _ _ _ _ _ hp4 hp0 zXY)
      ((mul_comm _ _).trans (pivot_times _ _ hp0))
      ((mul_comm _ _).trans (pivot_times _ _ hp0))
  exfalso
  unfold Q_MAX at h1 h2 h3 h4
  rcases max_choice W (max X (max Y Z)) with h | h
  · exact h1 h.symm
  · rcases max_choice X (max Y Z) with h5 | h5
    · exact h2 (by rw [h, h5])
    · rcases max_choice Y Z with h6 | h6
      · exact h3 (by rw [h, h5, h6])
      · exact h4 (by rw [h, h5, h6])

end QuaternionLemmas

section QuaternionBranches

variable {K : Type} [LinearOrderedField K] [CMath K]

/-- The assertion of `FromRotation` never fails, and what the function returns does
not depend on the quaternion it is called on: one of its four branches is taken. -/
theorem FromRotation_total (q0 q0' : Quaternion K) (R : mat3 K) :
    (∃ q, Quaternion.FromRotation q0 R = some q) ∧
      Quaternion.FromRotation q0 R = Quaternion.FromRotation q0' R := by
  obtain ⟨W, hW⟩ : ∃ W, W = Q_EST R.r0.x R.r1.y R.r2.z := ⟨_, rfl⟩
  obtain ⟨X, hX⟩ : ∃ X, X = Q_EST R.r0.x (-R.r1.y) (-R.r2.z) := ⟨_, rfl⟩
  obtain ⟨Y, hY⟩ : ∃ Y, Y = Q_EST (-R.r0.x) R.r1.y (-R.r2.z) := ⟨_, rfl⟩
  obtain ⟨Z, hZ⟩ : ∃ Z, Z = Q_EST (-R.r0.x) (-R.r1.y) R.r2.z := ⟨_, rfl⟩
  have hsum : W + X + Y + Z = 1 := by rw [hW, hX, hY, hZ]; unfold Q_EST; ring
  have hmW : W ≤ Q_MAX W X Y Z := le_max_left _ _
  have hmX : X ≤ Q_MAX W X Y Z := (le_max_left _ _).trans (le_max_right _ _)
  have hmY : Y ≤ Q_MAX W X Y Z :=
    ((le_max_left _ _).trans (le_max_right _ _)).trans (le_max_right _ _)
  have hmZ : Z ≤ Q_MAX W X Y Z :=
    ((le_max_right _ _).trans (le_max_right _ _)).trans (le_max_right _ _)
  have hge : Q_MAX W X Y Z ≥ 0 := by linarith
  unfold Quaternion.FromRotation
  simp only [← hW, ← hX, ← hY, ← hZ]
  rw [if_pos hge, if_pos hge]
  refine ⟨⟨_, rfl⟩, ?_⟩
  by_cases h1 : W = Q_MAX W X Y Z
  · rw [if_pos h1, if_pos h1]
  rw [if_neg h1, if_neg h1]
  by_cases h2 : X = Q_MAX W X Y Z
  · rw [if_pos h2, if_pos h2]
  rw [if_neg h2, if_neg h2]
  by_cases h3 : Y = Q_MAX W X Y Z
  · rw [if_pos h3, if_pos h3]
  rw [if_neg h3, if_neg h3]
  by_cases h4 : Z = Q_MAX W X Y Z
  · rw [if_pos h4, if_pos h4]
  exfalso
  unfold Q_MAX at h1 h2 h3 h4
  rcases max_choice W (max X (max Y Z)) with h | h
  · exact h1 h.symm
  · rcases max_choice X (max Y Z) with h5 | h5
    · exact h2 (by rw [h, h5])
    · rcases max_choice Y Z with h6 | h6
      · exact h3 (by rw [h, h5, h6])
      · exact h4 (by rw [h, h5, h6])

end QuaternionBranches

section QuaternionExamples

/-- The quaternion of the identity matrix. -/
theorem FromRotation_identity (q0 : Quaternion ℝ) :
    Quaternion.FromRotation q0 identity3D = some ⟨1, 0, 0, 0⟩ := by
  have h1 : Q_EST (1 : ℝ) 1 1 = 1 := by unfold Q_EST; norm_num
  have h2 : Q_EST (1 : ℝ) (-1) (-1) = 0 := by unfold Q_EST; norm_num
  have h3 : Q_EST (-1 : ℝ) 1 (-1) = 0 := by unfold Q_EST; norm_num
  have h4 : Q_EST (-1 : ℝ) (-1) 1 = 0 := by unfold Q_EST; norm_num
  have hm : Q_MAX (1 : ℝ) 0 0 0 = 1 := by unfold Q_MAX; norm_num
  unfold Quaternion.FromRotation
  simp only [identity3D, axisX, axisY, axisZ, h1, h2, h3, h4, hm]
  simp only [if_true, CMath.sqrt, Real.sqrt_one, sub_self, mul_zero, zero_div]
  have hs : (⟨1, 0, 0, 0⟩ : Quaternion ℝ).SqrLength = 1 := by
    unfold Quaternion.SqrLength
    norm_num
  have hl : (⟨1, 0, 0, 0⟩ : Quaternion ℝ).Length = 1 := by
    unfold Quaternion.Length
    simp only [hs, EPSILON, CMath.sqrt]
    rw [if_pos (by norm_num), Real.sqrt_one]
  unfold Quaternion.Normalize
  simp only [hl, EPSILON]
  rw [if_pos (by norm_num), if_neg (by norm_num)]
  simp

theorem rotZ90_isRotation : (rotZ90 : mat3 ℝ).IsRotation := by
  unfold mat3.IsRotation
  constructor
  · simp [rotZ90, mat3.mul_def, mat3.mul, mat3.Transpose, identity3D, axisX, axisY, axisZ]
  · simp [rotZ90, mat3.det]

end QuaternionExamples

/-! ## C21: from a rotation matrix to the quaternion and back -/

section C21

/-- C21. For every rotation matrix `R`, a matrix whose product with its transpose is
the identity and whose determinant is 1, `Quaternion::FromRotation(R)` returns a
quaternion, whatever the quaternion held before; `Quaternion::ToRotation` of that
quaternion is `R`, and its length is 1. -/
theorem C21_FromRotation_ToRotation (q0 : Quaternion ℝ) (R : mat3 ℝ) (hR : R.IsRotation) :
    ∃ q, Quaternion.FromRotation q0 R = some q ∧ q.ToRotation = R ∧ q.Length = 1 := by
  obtain ⟨q, h1, _, h3, h4⟩ := FromRotation_spec q0 R hR
  exact ⟨q, h1, h4, h3⟩

/-- The quarter turn about Z. -/
theorem C21_FromRotation_ToRotation_witness :
    (rotZ90 : mat3 ℝ).IsRotation ∧
      ∃ q, Quaternion.FromRotation Quaternion.zero (rotZ90 : mat3 ℝ) = some q ∧
        q.ToRotation = rotZ90 ∧ q.Length = 1 :=
  ⟨rotZ90_isRotation, C21_FromRotation_ToRotation Quaternion.zero rotZ90 rotZ90_isRotation⟩

end C21

/-! ## The caches of a frame -/

section CachedRotation

/-- A rotation matrix that `SetJointRotation` stores is stored with its quaternion:
the quaternion is what `FromRotation` makes of the matrix, and the matrix is what
`ToRotation` makes of the quaternion. -/
theorem SetJointRotation_coherent (f f1 : CachedFrame ℝ) (index : Nat) (R : mat3 ℝ)
    (hR : R.IsRotation) (h : f.SetJointRotation index R = some f1)
    (hq : index < f.m_quaternionData.length) :
    ∃ q, f1.m_rotationData[index]? = some R ∧ f1.m_quaternionData[index]? = some q ∧
      (∀ q0 : Quaternion ℝ, q0.FromRotation R = some q) ∧ q.ToRotation = R := by
  unfold CachedFrame.SetJointRotation at h
  split_ifs at h with hi
  split at h
  · cases h
  rename_i q0 hq0
  split at h
  · cases h
  rename_i q1 hq1
  cases h
  obtain ⟨q, h1, _, _, h2⟩ := FromRotation_spec q0 R hR
  rw [hq1] at h1
  cases h1
  refine ⟨q1, ?_, ?_, fun q0' => ?_, h2⟩
  · exact List.getElem?_set_self hi
  · exact List.getElem?_set_self hq
  · rw [(FromRotation_total q0' q0 R).2, hq1]

end CachedRotation

section CachedFrameLemmas

variable {K : Type} [LinearOrderedField K] [CMath K]

/-- A run of the loop of `Frame::LoadFromBVHFile` pushes one rotation and one
quaternion per joint, and no Euler angles. -/
theorem CachedFrame.loadJoints_lengths :
    ∀ (js : List (Joint K)) (i : Nat) (fr fr' : CachedFrame K) (inFile rest : List (Item K)),
      CachedFrame.loadJoints js i fr inFile = some (fr', rest) →
      fr'.m_eulerData = fr.m_eulerData ∧
      fr'.m_rotationData.length = fr.m_rotationData.length + js.length ∧
      fr'.m_quaternionData.length = fr.m_quaternionData.length + js.length
  | [], i, fr, fr', inFile, rest, h => by
    simp only [CachedFrame.loadJoints, Option.some.injEq, Prod.mk.injEq] at h
    rw [← h.1]
    exact ⟨rfl, rfl, rfl⟩
  | j :: js, i, fr, fr', inFile, rest, h => by
    rw [CachedFrame.loadJoints] at h
    dsimp only at h
    split at h
    · cases h
    rename_i t r inFile1 _
    split at h
    · cases h
    rename_i q _
    obtain ⟨h1, h2, h3⟩ := CachedFrame.loadJoints_lengths js (i + 1) _ fr' inFile1 rest h
    have hfr1 : (if i = 0 then { fr with m_rootTranslation := t } else fr).m_eulerData
          = fr.m_eulerData ∧
        (if i = 0 then { fr with m_rootTranslation := t } else fr).m_rotationData
          = fr.m_rotationData ∧
        (if i = 0 then { fr with m_rootTranslation := t } else fr).m_quaternionData
          = fr.m_quaternionData := by
      split <;> exact ⟨rfl, rfl, rfl⟩
    simp only [hfr1.1, hfr1.2.1, hfr1.2.2, List.length_append, List.length_singleton] at h1 h2 h3
    refine ⟨h1, ?_, ?_⟩
    · rw [h2, List.length_cons]
      omega
    · rw [h3, List.length_cons]
      omega

/-- The loop of `Frame::operator=` reads outside `m_eulerData` when it runs beyond
the length of that vector. -/
theorem CachedFrame.copyEntries_short (orig : CachedFrame K) :
    ∀ (n i : Nat) (f : CachedFrame K), i ≤ orig.m_eulerData.length →
      orig.m_eulerData.length < i + n → CachedFrame.copyEntries orig n i f = none
  | 0, i, f, hi, hlt => by omega
  | n + 1, i, f, hi, hlt => by
    rw [CachedFrame.copyEntries]
    split
    · rename_i e r q he hr hq
      have hie : i < orig.m_eulerData.length := (List.getElem?_eq_some_iff.mp he).1
      exact CachedFrame.copyEntries_short orig n (i + 1) _ hie (by omega)
    · rfl

/-- A frame with fewer Euler angles than rotations cannot be copied: `operator=`
reads outside `m_eulerData`. -/
theorem CachedFrame.assign_short (f orig : CachedFrame K)
    (h : orig.m_eulerData.length < orig.m_rotationData.length) : f.assign orig = none :=
  CachedFrame.copyEntries_short orig _ 0 _ (Nat.zero_le _) (by omega)

/-- The loop of `Frame::operator=` on a frame whose three vectors have the same
length copies them. -/
theorem CachedFrame.copyEntries_aligned (orig : CachedFrame K) (ha : orig.Aligned) :
    ∀ (n i : Nat) (f : CachedFrame K), i + n = orig.m_rotationData.length →
      CachedFrame.copyEntries orig n i f
        = some { f with
            m_eulerData := f.m_eulerData ++ orig.m_eulerData.drop i
            m_rotationData := f.m_rotationData ++ orig.m_rotationData.drop i
            m_quaternionData := f.m_quaternionData ++ orig.m_quaternionData.drop i }
  | 0, i, f, hn => by
    rw [CachedFrame.copyEntries]
    rw [List.drop_of_length_le (by rw [ha.1]; omega), List.drop_of_length_le (by omega),
      List.drop_of_length_le (by rw [ha.2]; omega)]
    simp
  | n + 1, i, f, hn => by
    have hr : i < orig.m_rotationData.length := by omega
    have he : i < orig.m_eulerData.length := by rw [ha.1]; exact hr
    have hq : i < orig.m_quaternionData.length := by rw [ha.2]; exact hr
    rw [CachedFrame.copyEntries, List.getElem?_eq_getElem he, List.getElem?_eq_getElem hr,
      List.getElem?_eq_getElem hq]
    dsimp only
    rw [CachedFrame.copyEntries_aligned orig ha n (i + 1) _ (by omega)]
    rw [List.drop_eq_getElem_cons he, List.drop_eq_getElem_cons hr,
      List.drop_eq_getElem_cons hq]
    simp

/-- A frame whose three vectors have the same length is copied by `operator=` as it
is. -/
theorem CachedFrame.assign_aligned (f orig : CachedFrame K) (ha : orig.Aligned) :
    f.assign orig = some orig := by
  unfold CachedFrame.assign
  rw [CachedFrame.copyEntries_aligned orig ha _ 0 _ (by omega)]
  simp

theorem resize_length {α : Type} (v : List α) (num : Nat) (value : α) :
    (resize v num value).length = num := by
  unfold resize
  simp
  omega

/-- The function `Frame::SetNumJoints` leaves the three vectors with the same
length. -/
theorem CachedFrame.SetNumJoints_aligned (f : CachedFrame K) (num : Nat) :
    (f.SetNumJoints num).Aligned ∧ (f.SetNumJoints num).GetNumJoints = num := by
  unfold CachedFrame.SetNumJoints CachedFrame.Aligned CachedFrame.GetNumJoints
  simp only [resize_length]
  simp

/-- The function `Frame::SetJointRotation` keeps the lengths of the three
vectors. -/
theorem CachedFrame.SetJointRotation_aligned (f f1 : CachedFrame K) (index : Nat)
    (R : mat3 K) (h : f.SetJointRotation index R = some f1) (ha : f.Aligned) : f1.Aligned := by
  unfold CachedFrame.SetJointRotation at h
  split_ifs at h with hi
  split at h
  · cases h
  split at h
  · cases h
  cases h
  unfold CachedFrame.Aligned at ha ⊢
  simp only [List.length_set]
  exact ha

end CachedFrameLemmas

/-! ## C22: the quaternion at a position that was never set -/

section C22

/-- C22 fails at a position that was never set.  After `SetNumJoints(1)` on a new
frame the rotation stored at position 0 is the identity and the quaternion stored
there is `Quaternion(0,0,0,0)`: `ToRotation` of that quaternion is the identity, but
`FromRotation` of the identity is the quaternion (1,0,0,0). -/
theorem C22_SetNumJoints_quaternion :
    ((CachedFrame.new : CachedFrame ℝ).SetNumJoints 1).m_rotationData = [identity3D] ∧
    ((CachedFrame.new : CachedFrame ℝ).SetNumJoints 1).m_quaternionData = [⟨0, 0, 0, 0⟩] ∧
    (⟨0, 0, 0, 0⟩ : Quaternion ℝ).ToRotation = identity3D ∧
    Quaternion.FromRotation ⟨0, 0, 0, 0⟩ (identity3D : mat3 ℝ) = some ⟨1, 0, 0, 0⟩ ∧
    (⟨0, 0, 0, 0⟩ : Quaternion ℝ) ≠ ⟨1, 0, 0, 0⟩ := by
  refine ⟨rfl, rfl, ?_, FromRotation_identity _, ?_⟩
  · simp [Quaternion.ToRotation, identity3D, axisX, axisY, axisZ]
  · intro h
    have := congrArg Quaternion.w h
    norm_num at this

end C22

/-! ## C23: the directives for the rotation order of the root -/

section C23

/-- C23 fails for four of the six directives.  The skeleton is the one that
`Skeleton::LoadASFFile` builds from a file without bones, whose root has the order
`zyx`.  A prologue with the directive `:ROOT_YXZ` or `:ROOT_YZX` gives the root the
order `yxz` or `yzx`; a prologue with `:ROOT_XYZ`, `:ROOT_XZY` or `:ROOT_ZXY` leaves the
order `zyx`.  And the prologue that `Motion::SaveAMCFile` writes for a root of the
order `xyz` has the directive `:ROOT_XYZ`, and read into the loaded skeleton leaves
the order `zyx`. -/
theorem C23_LoadAMCFile_root_order :
    ((Skeleton.LoadASFFile (0 : ℤ) exNoSkeleton ⟨[], []⟩).bind
        Skeleton.rootOrder = some "zyx") ∧
    ([":ROOT_XYZ", ":ROOT_XZY", ":ROOT_YXZ", ":ROOT_YZX", ":ROOT_ZXY", ":ROOT_ZYX"].map
        (fun directive =>
          ((Skeleton.LoadASFFile (0 : ℤ) exNoSkeleton ⟨[], []⟩).bind
            (fun sk => Motion.LoadAMCFile_prologue sk
              [some "#Unknown", some directive, some ":FULLY-SPECIFIED", some ":DEGREES",
                some "1"])).bind
            (fun r => r.1.rootOrder))
      = [some "zyx", some "zyx", some "yxz", some "yzx", some "zyx", some "zyx"]) ∧
    Motion.SaveAMCFile_prologue (exRootWithOrder "xyz" : Skeleton ℤ)
      = some [some "#Unknown", some ":ROOT_XYZ", some ":FULLY-SPECIFIED", some ":DEGREES"] ∧
    ((Skeleton.LoadASFFile (0 : ℤ) exNoSkeleton ⟨[], []⟩).bind
        (fun sk => Motion.LoadAMCFile_prologue sk
          [some "#Unknown", some ":ROOT_XYZ", some ":FULLY-SPECIFIED", some ":DEGREES"])).bind
        (fun r => r.1.rootOrder) = some "zyx" := by
  decide

end C23

/-! ## The frame of an AMC file -/

section AmcNames

variable {K : Type} [CommRing K]

/-- The joint that `GetJointByName` finds has the name. -/
theorem GetJointByName_get {js : List (Joint K)} {name : String} {k : Nat}
    (h : Skeleton.GetJointByName js name = some k) :
    ∃ joint, js[k]? = some joint ∧ joint.m_name = name := by
  unfold Skeleton.GetJointByName at h
  obtain ⟨hlt, hp, _⟩ := List.findIdx?_eq_some_iff_getElem.mp h
  exact ⟨_, List.getElem?_eq_getElem hlt, (beq_iff_eq.mp hp).symm⟩

theorem GetJointByName_inj {js : List (Joint K)} {a b : String} {k : Nat}
    (ha : Skeleton.GetJointByName js a = some k) (hb : Skeleton.GetJointByName js b = some k) :
    a = b := by
  obtain ⟨j1, hj1, hn1⟩ := GetJointByName_get ha
  obtain ⟨j2, hj2, hn2⟩ := GetJointByName_get hb
  rw [hj1] at hj2
  cases hj2
  exact hn1.symm.trans hn2

end AmcNames

section AmcRotation

/-- The rotations that `ComputeAMCRot` builds for the six rotation orders. -/
theorem ComputeAMCRot_products (rx ry rz : ℝ) :
    ComputeAMCRot rx ry rz "xyz" = RotXDeg rx * RotYDeg ry * RotZDeg rz ∧
    ComputeAMCRot rx ry rz "xzy" = RotXDeg rx * RotZDeg rz * RotYDeg ry ∧
    ComputeAMCRot rx ry rz "yxz" = RotYDeg ry * RotXDeg rx * RotZDeg rz ∧
    ComputeAMCRot rx ry rz "yzx" = RotYDeg ry * RotZDeg rz * RotXDeg rx ∧
    ComputeAMCRot rx ry rz "zxy" = RotZDeg rz * RotXDeg rx * RotYDeg ry ∧
    ComputeAMCRot rx ry rz "zyx" = RotZDeg rz * RotYDeg ry * RotXDeg rx := by
  have hd : ∀ t : ℝ, Deg2Rad * t = t * M_PI / 180 := by
    intro t
    simp only [Deg2Rad]
    ring
  delta RotXDeg RotYDeg RotZDeg
  refine ⟨?_, ?_, ?_, ?_, ?_, ?_⟩ <;>
    simp [ComputeAMCRot, (FromEulerAngles_eq _).1, (FromEulerAngles_eq _).2.1,
      (FromEulerAngles_eq _).2.2.1, (FromEulerAngles_eq _).2.2.2.1,
      (FromEulerAngles_eq _).2.2.2.2.1, (FromEulerAngles_eq _).2.2.2.2.2, vec3.scale_def,
      vec3.scale, hd]

end AmcRotation

section AmcLemmas

variable {K : Type} [LinearOrderedField K] [CMath K]

/-- The three conditional reads of an entry take the numbers of the entry. -/
theorem readDOF_values (dofs : Nat) (a : vec3 K) (rest : List (Item K)) :
    ∃ inFile2 inFile3,
      Item.readDOF dofs DOF_X 0 (amcValues dofs a ++ rest)
        = some ((maskedAngles dofs a).x, inFile2) ∧
      Item.readDOF dofs DOF_Y 0 inFile2 = some ((maskedAngles dofs a).y, inFile3) ∧
      Item.readDOF dofs DOF_Z 0 inFile3 = some ((maskedAngles dofs a).z, rest) := by
  unfold amcValues maskedAngles Item.readDOF
  by_cases hx : dofs &&& DOF_X = 0 <;> by_cases hy : dofs &&& DOF_Y = 0 <;>
    by_cases hz : dofs &&& DOF_Z = 0 <;>
    simp only [hx, hy, hz, ne_eq, not_true_eq_false, not_false_eq_true, if_true, if_false,
      List.nil_append, List.cons_append, List.singleton_append, List.append_nil,
      Item.readNumber] <;>
    exact ⟨_, _, rfl, rfl, rfl⟩

/-- The three assignments at a position inside the three vectors. -/
theorem setJoint_nat (fr : CachedFrame K) (k : Nat) (euler : vec3 K) (rot : mat3 K)
    (h1 : k < fr.m_eulerData.length) (h2 : k < fr.m_rotationData.length)
    (h3 : k < fr.m_quaternionData.length) :
    ∃ q, fr.setJoint (k : Int) euler rot
      = some { fr with
          m_eulerData := fr.m_eulerData.set k euler
          m_rotationData := fr.m_rotationData.set k rot
          m_quaternionData := fr.m_quaternionData.set k q } := by
  obtain ⟨q, hq⟩ := (FromRotation_total Quaternion.zero Quaternion.zero rot).1
  refine ⟨q, ?_⟩
  unfold CachedFrame.setJoint mat3.ToQuaternion
  rw [if_neg (by omega), if_pos (by simp only [Int.toNat_ofNat]; exact ⟨h1, h2, h3⟩), hq]
  simp only [Int.toNat_ofNat]

theorem dofsOf_eq {js : List (Joint K)} {name : String} {k : Nat} {joint : Joint K}
    (hk : Skeleton.GetJointByName js name = some k) (hj : js[k]? = some joint) :
    dofsOf js name = joint.m_dofs := by
  simp [dofsOf, hk, hj]

/-- The loop of `LoadFromAMCFile` over the entries of a frame: it returns, and each
joint that an entry names has the angles and the rotation of the entry, every other
position is as before. -/
theorem loadAMCJoints_entries (sk : Skeleton K) (hids : idsAreIndices sk.m_joints)
    (rest : List (Item K)) :
    ∀ (entries : List (String × vec3 K)) (n : Nat) (fr : CachedFrame K),
      fr.m_eulerData.length = sk.m_joints.length →
      fr.m_rotationData.length = sk.m_joints.length →
      fr.m_quaternionData.length = sk.m_joints.length →
      (∀ e ∈ entries, ∃ k, Skeleton.GetJointByName sk.m_joints e.1 = some k) →
      (entries.map Prod.fst).Nodup →
      (entries.length = n ∨ (entries.length < n ∧ endsFrame sk.m_joints rest)) →
      ∃ fr1 rest1,
        CachedFrame.loadAMCJoints sk n fr (amcItems sk.m_joints entries ++ rest)
          = some (fr1, rest1) ∧
        fr1.m_rootTranslation = fr.m_rootTranslation ∧
        fr1.m_eulerData.length = sk.m_joints.length ∧
        fr1.m_rotationData.length = sk.m_joints.length ∧
        fr1.m_quaternionData.length = sk.m_joints.length ∧
        (∀ k : Nat, (∀ e ∈ entries, Skeleton.GetJointByName sk.m_joints e.1 ≠ some k) →
          fr1.m_rotationData[k]? = fr.m_rotationData[k]? ∧
          fr1.m_eulerData[k]? = fr.m_eulerData[k]?) ∧
        ∀ e ∈ entries, ∀ k : Nat, Skeleton.GetJointByName sk.m_joints e.1 = some k →
          fr1.m_eulerData[k]? = some (maskedAngles (dofsOf sk.m_joints e.1) e.2) ∧
          fr1.m_rotationData[k]? = some
            (ComputeAMCRot (maskedAngles (dofsOf sk.m_joints e.1) e.2).x
              (maskedAngles (dofsOf sk.m_joints e.1) e.2).y
              (maskedAngles (dofsOf sk.m_joints e.1) e.2).z "zyx")
  | [], n, fr, h1, h2, h3, _, _, hstop => by
    rcases hstop with hn | ⟨hn, name, rest1, hread, hnone⟩
    · simp only [List.length_nil] at hn
      subst hn
      refine ⟨fr, rest, rfl, rfl, h1, h2, h3, fun k _ => ⟨rfl, rfl⟩, ?_⟩
      intro e he
      cases he
    · obtain ⟨m, hm⟩ : ∃ m, n = m + 1 := ⟨n - 1, by simp only [List.length_nil] at hn; omega⟩
      subst hm
      refine ⟨fr, rest1, ?_, rfl, h1, h2, h3, fun k _ => ⟨rfl, rfl⟩, ?_⟩
      · simp only [amcItems, List.nil_append]
        rw [CachedFrame.loadAMCJoints]
        simp only [hread, hnone]
      · intro e he
        cases he
  | e :: entries, n, fr, h1, h2, h3, hnames, hnodup, hstop => by
    obtain ⟨m, hm⟩ : ∃ m, n = m + 1 := ⟨n - 1, by
      simp only [List.length_cons] at hstop
      omega⟩
    subst hm
    obtain ⟨k, hk⟩ := hnames e (List.mem_cons_self _ _)
    obtain ⟨joint, hjoint, hjname⟩ := GetJointByName_get hk
    have hklt : k < sk.m_joints.length := (List.getElem?_eq_some_iff.mp hjoint).1
    have hid : joint.m_id = (k : Int) := idsAreIndices_get hids hjoint
    obtain ⟨inFile2, inFile3, hrx, hry, hrz⟩ :=
      readDOF_values joint.m_dofs e.2 (amcItems sk.m_joints entries ++ rest)
    obtain ⟨mk, hmk⟩ : ∃ mk, mk = maskedAngles joint.m_dofs e.2 := ⟨_, rfl⟩
    rw [← hmk] at hrx hry hrz
    obtain ⟨q, hset⟩ := setJoint_nat fr k mk (ComputeAMCRot mk.x mk.y mk.z "zyx")
      (by omega) (by omega) (by omega)
    obtain ⟨fr0, hfr0⟩ : ∃ fr0 : CachedFrame K, fr0 = { fr with
        m_eulerData := fr.m_eulerData.set k mk
        m_rotationData := fr.m_rotationData.set k (ComputeAMCRot mk.x mk.y mk.z "zyx")
        m_quaternionData := fr.m_quaternionData.set k q } := ⟨_, rfl⟩
    rw [← hfr0] at hset
    have hnodup1 : (entries.map Prod.fst).Nodup := (List.nodup_cons.mp hnodup).2
    have hnotin : e.1 ∉ entries.map Prod.fst := (List.nodup_cons.mp hnodup).1
    obtain ⟨fr1, rest1, hrun, hroot, hl1, hl2, hl3, hother, hentries⟩ :=
      loadAMCJoints_entries sk hids rest entries m fr0
        (by rw [hfr0]; simp only [List.length_set]; exact h1)
        (by rw [hfr0]; simp only [List.length_set]; exact h2)
        (by rw [hfr0]; simp only [List.length_set]; exact h3)
        (fun e1 he1 => hnames e1 (List.mem_cons_of_mem _ he1)) hnodup1
        (by
          simp only [List.length_cons] at hstop
          rcases hstop with h | ⟨h, hs⟩
          · exact Or.inl (by omega)
          · exact Or.inr ⟨by omega, hs⟩)
    have hdofs : dofsOf sk.m_joints e.1 = joint.m_dofs := dofsOf_eq hk hjoint
    have hkother : ∀ e1 ∈ entries, Skeleton.GetJointByName sk.m_joints e1.1 ≠ some k := by
      intro e1 he1 hk1
      apply hnotin
      rw [GetJointByName_inj hk hk1]
      exact List.mem_map.mpr ⟨e1, he1, rfl⟩
    refine ⟨fr1, rest1, ?_, ?_, hl1, hl2, hl3, ?_, ?_⟩
    · simp only [amcItems, List.cons_append, hdofs]
      rw [CachedFrame.loadAMCJoints]
      have heta : (⟨mk.x, mk.y, mk.z⟩ : vec3 K) = mk := rfl
      simp only [Item.readName, hk, hjoint, List.append_assoc, hrx, hry, hrz, hid, heta, hset]
      exact hrun
    · rw [hroot, hfr0]
    · intro k1 hk1
      have hne : k ≠ k1 := by
        intro h
        subst h
        exact hk1 e (List.mem_cons_self _ _) hk
      obtain ⟨ho1, ho2⟩ := hother k1 (fun e1 he1 => hk1 e1 (List.mem_cons_of_mem _ he1))
      rw [ho1, ho2, hfr0]
      simp only [List.getElem?_set_ne hne]
      trivial
    · intro e1 he1 k1 hk1
      rcases List.mem_cons.mp he1 with he1 | he1
      · subst he1
        rw [hk] at hk1
        cases hk1
        obtain ⟨ho1, ho2⟩ := hother k hkother
        rw [ho1, ho2, hfr0, hdofs, ← hmk]
        simp only [List.getElem?_set_self, h1, h2, hklt, List.getElem?_eq_getElem,
          List.length_set, List.getElem_set_self]
        trivial
      · exact hentries e1 he1 k1 hk1

end AmcLemmas

/-! ## C24: the rotations of a frame of an AMC file -/

section C24

/-- C24: the input holds a frame of an AMC file for the skeleton, whose ids are
positions: the name of a joint of the skeleton (the root), its translation `t` and
its three angles `r`, and entries with the names of other joints, no name twice,
each with the numbers for the bits set in the degrees of freedom of its joint, in
the order X, Y, Z; the entries are as many as the skeleton has joints besides the
root, or fewer and followed by a name that no joint has, as the number of the next
frame.  Then `Frame::LoadFromAMCFile` returns a frame with one entry per joint in
each of its three vectors.  Its root translation is `t` times `MOCAP_SCALE`.  The
rotation at the position of the first joint is that of `ComputeAMCRot` for the three
angles and the rotation order of that joint, which for each of the six orders is the
product of the rotations about the three axes in that order.  And every joint that
an entry names has as Euler angles the angles of the entry, with 0 for a cleared
bit, and as rotation `Rz(z) * Ry(y) * Rx(x)` for these angles, in degrees, whatever
its rotation order. -/
theorem C24_LoadFromAMCFile (fr : CachedFrame ℝ) (sk : Skeleton ℝ) (rootName : String)
    (t r : vec3 ℝ) (entries : List (String × vec3 ℝ)) (rest : List (Item ℝ)) (k0 : Nat)
    (hids : idsAreIndices sk.m_joints)
    (hroot : Skeleton.GetJointByName sk.m_joints rootName = some k0)
    (hnames : ∀ e ∈ entries, ∃ k, Skeleton.GetJointByName sk.m_joints e.1 = some k)
    (hnodup : (rootName :: entries.map Prod.fst).Nodup)
    (hstop : entries.length + 1 = sk.m_joints.length ∨
      (entries.length + 1 < sk.m_joints.length ∧ endsFrame sk.m_joints rest)) :
    ∃ fr1 rest1,
      fr.LoadFromAMCFile sk (amcFrameItems sk.m_joints rootName t r entries ++ rest)
        = some (fr1, rest1) ∧
      fr1.m_rootTranslation = t * (MOCAP_SCALE : ℝ) ∧
      fr1.Aligned ∧ fr1.GetNumJoints = sk.m_joints.length ∧
      (∃ root, sk.m_joints[k0]? = some root ∧ root.m_name = rootName ∧
        fr1.m_eulerData[k0]? = some r ∧
        fr1.m_rotationData[k0]? = some (ComputeAMCRot r.x r.y r.z root.m_rotOrder)) ∧
      (ComputeAMCRot r.x r.y r.z "xyz" = RotXDeg r.x * RotYDeg r.y * RotZDeg r.z ∧
        ComputeAMCRot r.x r.y r.z "xzy" = RotXDeg r.x * RotZDeg r.z * RotYDeg r.y ∧
        ComputeAMCRot r.x r.y r.z "yxz" = RotYDeg r.y * RotXDeg r.x * RotZDeg r.z ∧
        ComputeAMCRot r.x r.y r.z "yzx" = RotYDeg r.y * RotZDeg r.z * RotXDeg r.x ∧
        ComputeAMCRot r.x r.y r.z "zxy" = RotZDeg r.z * RotXDeg r.x * RotYDeg r.y ∧
        ComputeAMCRot r.x r.y r.z "zyx" = RotZDeg r.z * RotYDeg r.y * RotXDeg r.x) ∧
      ∀ e ∈ entries, ∀ (k : Nat) (joint : Joint ℝ),
        Skeleton.GetJointByName sk.m_joints e.1 = some k → sk.m_joints[k]? = some joint →
        ∃ a : vec3 ℝ, a = maskedAngles joint.m_dofs e.2 ∧ fr1.m_eulerData[k]? = some a ∧
          fr1.m_rotationData[k]? = some (RotZDeg a.z * RotYDeg a.y * RotXDeg a.x) := by
  obtain ⟨root, hrootj, hrootname⟩ := GetJointByName_get hroot
  have hk0lt : k0 < sk.m_joints.length := (List.getElem?_eq_some_iff.mp hrootj).1
  have hid : root.m_id = (k0 : Int) := idsAreIndices_get hids hrootj
  have hq1 : (identity3D : mat3 ℝ).ToQuaternion = some ⟨1, 0, 0, 0⟩ := FromRotation_identity _
  obtain ⟨fr0, hfr0⟩ : ∃ fr0 : CachedFrame ℝ, fr0 = { fr with
      m_eulerData := resize fr.m_eulerData sk.m_joints.length axisZero
      m_rotationData := resize fr.m_rotationData sk.m_joints.length identity3D
      m_quaternionData := resize fr.m_quaternionData sk.m_joints.length ⟨1, 0, 0, 0⟩
      m_rootTranslation := t * (MOCAP_SCALE : ℝ) } := ⟨_, rfl⟩
  have h01 : fr0.m_eulerData.length = sk.m_joints.length := by
    rw [hfr0]; exact resize_length _ _ _
  have h02 : fr0.m_rotationData.length = sk.m_joints.length := by
    rw [hfr0]; exact resize_length _ _ _
  have h03 : fr0.m_quaternionData.length = sk.m_joints.length := by
    rw [hfr0]; exact resize_length _ _ _
  obtain ⟨q, hset⟩ := setJoint_nat fr0 k0 r (ComputeAMCRot r.x r.y r.z root.m_rotOrder)
    (by omega) (by omega) (by omega)
  obtain ⟨fr2, hfr2⟩ : ∃ fr2 : CachedFrame ℝ, fr2 = { fr0 with
      m_eulerData := fr0.m_eulerData.set k0 r
      m_rotationData := fr0.m_rotationData.set k0 (ComputeAMCRot r.x r.y r.z root.m_rotOrder)
      m_quaternionData := fr0.m_quaternionData.set k0 q } := ⟨_, rfl⟩
  rw [← hfr2] at hset
  obtain ⟨fr1, rest1, hrun, hroot1, hl1, hl2, hl3, hother, hentries⟩ :=
    loadAMCJoints_entries sk hids rest entries (sk.m_joints.length - 1) fr2
      (by rw [hfr2]; simp only [List.length_set]; exact h01)
      (by rw [hfr2]; simp only [List.length_set]; exact h02)
      (by rw [hfr2]; simp only [List.length_set]; exact h03)
      hnames (List.nodup_cons.mp hnodup).2
      (by
        rcases hstop with h | ⟨h, hs⟩
        · exact Or.inl (by omega)
        · exact Or.inr ⟨by omega, hs⟩)
  have hk0other : ∀ e ∈ entries, Skeleton.GetJointByName sk.m_joints e.1 ≠ some k0 := by
    intro e he hk
    apply (List.nodup_cons.mp hnodup).1
    rw [GetJointByName_inj hroot hk]
    exact List.mem_map.mpr ⟨e, he, rfl⟩
  refine ⟨fr1, rest1, ?_, ?_, ⟨by rw [hl1, hl2], by rw [hl3, hl2]⟩, hl2,
    ⟨root, hrootj, hrootname, ?_, ?_⟩, ComputeAMCRot_products r.x r.y r.z, ?_⟩
  · unfold CachedFrame.LoadFromAMCFile
    have heta : (⟨r.x, r.y, r.z⟩ : vec3 ℝ) = r := rfl
    have heta1 : (⟨t.x, t.y, t.z⟩ : vec3 ℝ) = t := rfl
    simp only [hq1, amcFrameItems, List.cons_append, List.nil_append, Item.readName,
      Item.readVec3, Item.readNumber, Item.readFloat, hroot, hrootj, hid, heta, heta1, ← hfr0,
      hset]
    exact hrun
  · rw [hroot1, hfr2, hfr0]
  · rw [(hother k0 hk0other).2, hfr2]
    simp only [List.getElem?_set_self, h01, hk0lt]
  · rw [(hother k0 hk0other).1, hfr2]
    simp only [List.getElem?_set_self, h02, hk0lt]
  · intro e he k joint hk hjoint
    obtain ⟨he1, he2⟩ := hentries e he k hk
    rw [dofsOf_eq hk hjoint] at he1 he2
    refine ⟨_, rfl, he1, ?_⟩
    rw [he2, (ComputeAMCRot_products _ _ _).2.2.2.2.2]

/-- C24 (witness): the skeleton of the root and the bone `knee`, which turns about X
only; the frame has the root at (1,2,3) with the angles (10,20,30), the entry
`knee 40`, and is followed by the number of the next frame. -/
theorem C24_LoadFromAMCFile_witness :
    idsAreIndices (exHinge : Skeleton ℝ).m_joints ∧
    Skeleton.GetJointByName (exHinge : Skeleton ℝ).m_joints "root" = some 0 ∧
    Skeleton.GetJointByName (exHinge : Skeleton ℝ).m_joints "knee" = some 1 ∧
    amcFrameItems (exHinge : Skeleton ℝ).m_joints "root" ⟨1, 2, 3⟩ ⟨10, 20, 30⟩
        [("knee", ⟨40, 50, 60⟩)] ++ [Item.count 2]
      = [Item.word "root", Item.number 1, Item.number 2, Item.number 3, Item.number 10,
          Item.number 20, Item.number 30, Item.word "knee", Item.number 40, Item.count 2] ∧
    ∃ fr1 rest1,
      (CachedFrame.new : CachedFrame ℝ).LoadFromAMCFile exHinge
          (amcFrameItems (exHinge : Skeleton ℝ).m_joints "root" ⟨1, 2, 3⟩ ⟨10, 20, 30⟩
            [("knee", ⟨40, 50, 60⟩)] ++ [Item.count 2])
        = some (fr1, rest1) ∧
      fr1.m_rootTranslation = (⟨1, 2, 3⟩ : vec3 ℝ) * (MOCAP_SCALE : ℝ) ∧
      fr1.m_rotationData[0]? = some (RotZDeg 30 * RotYDeg 20 * RotXDeg 10) ∧
      fr1.m_eulerData[1]? = some ⟨40, 0, 0⟩ ∧
      fr1.m_rotationData[1]? = some (RotZDeg 0 * RotYDeg 0 * RotXDeg 40) := by
  have hids : idsAreIndices (exHinge : Skeleton ℝ).m_joints := by
    simp [idsAreIndices, exHinge, exAmcRoot, exBone, List.range, List.range.loop]
  have hroot : Skeleton.GetJointByName (exHinge : Skeleton ℝ).m_joints "root" = some 0 := by
    simp [Skeleton.GetJointByName, exHinge, exAmcRoot, exBone]
  have hknee : Skeleton.GetJointByName (exHinge : Skeleton ℝ).m_joints "knee" = some 1 := by
    simp [Skeleton.GetJointByName, exHinge, exAmcRoot, exBone, List.findIdx?_cons]
  have hitems : amcFrameItems (exHinge : Skeleton ℝ).m_joints "root" ⟨1, 2, 3⟩ ⟨10, 20, 30⟩
        [("knee", ⟨40, 50, 60⟩)] ++ [Item.count 2]
      = [Item.word "root", Item.number 1, Item.number 2, Item.number 3, Item.number 10,
          Item.number 20, Item.number 30, Item.word "knee", Item.number 40, Item.count 2] := by
    have hd : dofsOf (exHinge : Skeleton ℝ).m_joints "knee" = DOF_X :=
      dofsOf_eq hknee rfl
    simp [amcFrameItems, amcItems, hd, amcValues, DOF_X, DOF_Y, DOF_Z]
  obtain ⟨fr1, rest1, hrun, ht, _, _, ⟨root, hrootj, _, _, hrot0⟩, hprod, hent⟩ :=
    C24_LoadFromAMCFile CachedFrame.new (exHinge : Skeleton ℝ) "root" ⟨1, 2, 3⟩ ⟨10, 20, 30⟩
      [("knee", ⟨40, 50, 60⟩)] [Item.count 2] 0 hids hroot
      (by
        intro e he
        simp only [List.mem_singleton] at he
        subst he
        exact ⟨1, hknee⟩)
      (by decide)
      (Or.inl (by simp [exHinge]))
  refine ⟨hids, hroot, hknee, hitems, fr1, rest1, hrun, ht, ?_, ?_⟩
  · have hr : root.m_rotOrder = "zyx" := by
      have : (exHinge : Skeleton ℝ).m_joints[0]? = some (exAmcRoot [1] ⟨0, 0, 0⟩) := rfl
      rw [this] at hrootj
      cases hrootj
      rfl
    rw [hrot0, hr, hprod.2.2.2.2.2]
  · obtain ⟨a, ha, hae, har⟩ := hent ("knee", ⟨40, 50, 60⟩) (List.mem_singleton.mpr rfl) 1
      ({ (exBone "knee" 1 (some 0) [] identity3D ⟨0, 2, 0⟩ : Joint ℝ) with m_dofs := DOF_X })
      hknee rfl
    have ha1 : a = ⟨40, 0, 0⟩ := by
      rw [ha]
      simp [maskedAngles, DOF_X, DOF_Y, DOF_Z]
    rw [ha1] at hae har
    exact ⟨hae, har⟩

end C24

/-! ## C25: the scale of a skeleton -/

section C25

variable {K : Type} [CommRing K] [DecidableEq K]

/-- C25: `Skeleton::SetScale(s)` leaves the skeleton as it is when `s` is its scale,
so that a second call with the same `s` changes nothing; otherwise the scale becomes
`s`, the flag `AMC`, the root and the number of joints stay, and every joint is
changed as follows: under the BVH convention its local translation is multiplied by
`s` (and written with `SetLocalTranslation`), under the AMC convention its bone
translation `m_translation` is multiplied by `s` and everything else, the local
translation included, stays. -/
theorem C25_SetScale (sk : Skeleton K) (s : K) :
    (s = sk.mScale → sk.SetScale s = sk) ∧
    (sk.SetScale s).SetScale s = sk.SetScale s ∧
    (s ≠ sk.mScale →
      (sk.SetScale s).mScale = s ∧ (sk.SetScale s).AMC = sk.AMC ∧
      (sk.SetScale s).m_pRoot = sk.m_pRoot ∧
      (sk.SetScale s).m_joints.length = sk.m_joints.length ∧
      ∀ (i : Nat) (joint : Joint K), sk.m_joints[i]? = some joint →
        ∃ joint1, (sk.SetScale s).m_joints[i]? = some joint1 ∧
          (sk.AMC = false →
            joint1 = joint.SetLocalTranslation (joint.m_local.m_translation * s) ∧
            joint1.m_local.m_translation = joint.m_local.m_translation * s ∧
            joint1.m_local.m_rotation = joint.m_local.m_rotation) ∧
          (sk.AMC = true →
            joint1 = { joint with m_translation := joint.m_translation * s } ∧
            joint1.m_translation = joint.m_translation * s ∧
            joint1.m_local = joint.m_local)) := by
  have hscale : (sk.SetScale s).mScale = s := by
    by_cases h : s = sk.mScale
    · simp only [Skeleton.SetScale, if_pos h]
      exact h.symm
    · simp only [Skeleton.SetScale, if_neg h]
  refine ⟨fun h => by unfold Skeleton.SetScale; rw [if_pos h], ?_, ?_⟩
  · generalize sk.SetScale s = sk1 at hscale
    unfold Skeleton.SetScale
    rw [if_pos hscale.symm]
  · intro h
    unfold Skeleton.SetScale
    rw [if_neg h]
    refine ⟨rfl, rfl, rfl, by simp, ?_⟩
    intro i joint hi
    refine ⟨_, by simp only [List.getElem?_map, hi, Option.map_some']; rfl, ?_, ?_⟩
    · intro hamc
      simp only [hamc, Bool.false_eq_true, if_false]
      simp [Joint.SetLocalTranslation]
    · intro hamc
      simp only [hamc, if_true]
      simp

/-- C25 (witness): the skeleton of two joints, which has the scale 1, with `s = 1`
and with `s = 2`. -/
theorem C25_SetScale_witness :
    ((exTwoJoints : Skeleton ℤ).SetScale 1 = exTwoJoints) ∧
    ((exTwoJoints : Skeleton ℤ).SetScale 2).mScale = 2 ∧
    (((exTwoJoints : Skeleton ℤ).SetScale 2).m_joints.map
        (fun j => j.m_local.m_translation))
      = (exTwoJoints : Skeleton ℤ).m_joints.map (fun j => (j.m_local.m_translation * (2 : ℤ) : vec3 ℤ)) :=
  ⟨(C25_SetScale (exTwoJoints : Skeleton ℤ) 1).1 (by decide),
    ((C25_SetScale (exTwoJoints : Skeleton ℤ) 2).2.2 (by decide)).1, by decide⟩

end C25

/-! ## C26: the sites that the conversion adds -/

section C26

variable {K : Type} [CommRing K]

/-- The list that `mapM` returns has one entry per entry of the list it ran over,
each the result for some entry. -/
theorem mapM_option_mem {α β : Type} (g : α → Option β) :
    ∀ (xs : List α) (ys : List β), xs.mapM g = some ys →
      ys.length = xs.length ∧ ∀ y ∈ ys, ∃ x ∈ xs, g x = some y
  | [], ys, h => by
    cases h
    exact ⟨rfl, fun y hy => by cases hy⟩
  | x :: xs, ys, h => by
    rw [List.mapM_cons] at h
    cases hx : g x with
    | none =>
      rw [hx] at h
      cases h
    | some y =>
      cases hxs : xs.mapM g with
      | none =>
        rw [hx, hxs] at h
        cases h
      | some ys1 =>
        rw [hx, hxs] at h
        cases h
        obtain ⟨hlen, hmem⟩ := mapM_option_mem g xs ys1 hxs
        refine ⟨by simp [hlen], ?_⟩
        intro z hz
        rcases List.mem_cons.mp hz with hz | hz
        · subst hz
          exact ⟨x, List.mem_cons_self _ _, hx⟩
        · obtain ⟨w, hw, hgw⟩ := hmem z hz
          exact ⟨w, List.mem_cons_of_mem _ hw, hgw⟩

/-- C26: on a player whose skeleton satisfies the data-model invariants (a tree of
all its joints from the root `r`, ids equal to positions), with `N` joints of which
the `k` joints of `endEffectors` have no children, `Player::ConvertAMC2BVH` returns a
player whose skeleton has `N + k` joints.  Every original joint keeps its id, and
its children when it has any.  The `i`-th joint without children, in the order of
the ids, has afterwards exactly one child, the joint at position `N + i`: that joint
has the id `N + i`, no children, 3 channels, the BVH convention, the identity as
local rotation and the bone translation of its parent as local translation.  The
motion has as many frames as before, each with `N + k` rotations. -/
theorem C26_ConvertAMC2BVH_sites (D : K) (p : Player K) (r : Nat) (l : List Nat)
    (hwf : p.m_skeleton.WellFormed r l) :
    ∃ p1, Player.ConvertAMC2BVH D p = some p1 ∧
      p1.m_skeleton.m_joints.length
        = p.m_skeleton.m_joints.length
          + (Player.endEffectors p.m_skeleton.m_joints).length ∧
      (∀ (k : Nat) (j0 : Joint K), p.m_skeleton.m_joints[k]? = some j0 →
        ∃ j, p1.m_skeleton.m_joints[k]? = some j ∧ j.m_id = j0.m_id ∧ j.m_id = (k : Int) ∧
          (j0.m_children ≠ [] → j.m_children = j0.m_children)) ∧
      (∀ (i e : Nat) (j0e : Joint K),
        (Player.endEffectors p.m_skeleton.m_joints)[i]? = some e →
        p.m_skeleton.m_joints[e]? = some j0e →
        j0e.m_children = [] ∧
        ∃ s je, p1.m_skeleton.m_joints[p.m_skeleton.m_joints.length + i]? = some s ∧
          p1.m_skeleton.m_joints[e]? = some je ∧
          je.m_children = [p.m_skeleton.m_joints.length + i] ∧
          s.m_id = ((p.m_skeleton.m_joints.length + i : Nat) : Int) ∧
          s.m_pParent = some e ∧ s.m_children = [] ∧ s.m_channelCount = 3 ∧
          s.AMC = false ∧ s.m_local.m_rotation = identity3D ∧
          s.m_local.m_translation = j0e.m_translation) ∧
      p1.m_motion.m_keyFrames.length = p.m_motion.m_keyFrames.length ∧
      ∀ f ∈ p1.m_motion.m_keyFrames,
        f.GetNumJoints
          = p.m_skeleton.m_joints.length
            + (Player.endEffectors p.m_skeleton.m_joints).length := by
  obtain ⟨js1, hrun, hconv⟩ := convertEndEffectors_spec D p.m_skeleton r l hwf
  obtain ⟨frames, hframes1, _⟩ := mapM_option_total
    (Player.convertFrame { p.m_skeleton with AMC := false, m_joints := js1 })
    p.m_motion.m_keyFrames
    (fun f _ => by
      obtain ⟨nf, hnf, _⟩ :=
        convertFrame_spec { p.m_skeleton with AMC := false, m_joints := js1 } f
      exact ⟨nf, hnf⟩)
  obtain ⟨hflen, hfmem⟩ := mapM_option_mem _ _ _ hframes1
  obtain ⟨hlen, hids, _, hcore, hsites⟩ := hconv
  have hids0 : idsAreIndices p.m_skeleton.m_joints := hwf.2.2
  refine ⟨{ m_skeleton := { p.m_skeleton with AMC := false, m_joints := js1 },
            m_motion := { p.m_motion with m_keyFrames := frames } }, ?_, hlen, ?_, ?_,
    hflen, ?_⟩
  · unfold Player.ConvertAMC2BVH
    simp only [hrun, hframes1]
  · intro k j0 hk
    obtain ⟨j, hj, _, _, _, hch, _⟩ := hcore k j0 hk
    refine ⟨j, hj, ?_, idsAreIndices_get hids hj, ?_⟩
    · rw [idsAreIndices_get hids hj, idsAreIndices_get hids0 hk]
    · intro hne
      apply hch
      intro hmem
      have := (mem_endEffectors.mp hmem).2
      rw [childrenAt_eq hk] at this
      exact hne this
  · intro i e j0e hi he
    have hleaf : j0e.m_children = [] := by
      have := (mem_endEffectors.mp (List.mem_iff_getElem?.mpr ⟨i, hi⟩)).2
      rw [childrenAt_eq he] at this
      exact this
    obtain ⟨s, je, hs, hje, hjec, hsp, hsc, hsamc, hsloc, hsch, _⟩ := hsites i e j0e hi he
    refine ⟨hleaf, s, je, hs, hje, ?_, idsAreIndices_get hids hs, hsp, hsc, hsch, hsamc, ?_, ?_⟩
    · rw [hjec, hleaf, List.nil_append]
    · rw [hsloc]
    · rw [hsloc]
  · intro f hf
    obtain ⟨f0, _, hf0⟩ := hfmem f hf
    obtain ⟨nf, hnf, _, hn, _⟩ :=
      convertFrame_spec { p.m_skeleton with AMC := false, m_joints := js1 } f0
    rw [hf0] at hnf
    cases hnf
    rw [hn]
    exact hlen

/-- C26 (witness): the leg, whose one joint without children is the tibia. -/
theorem C26_ConvertAMC2BVH_sites_witness :
    (exLegPlayer : Player ℤ).m_skeleton.WellFormed 0 [0, 1, 2] ∧
    Player.endEffectors (exLegPlayer : Player ℤ).m_skeleton.m_joints = [2] ∧
    ∃ p1, Player.ConvertAMC2BVH 0 (exLegPlayer : Player ℤ) = some p1 ∧
      p1.m_skeleton.m_joints.length = 3 + 1 ∧
      (∃ s je, p1.m_skeleton.m_joints[3]? = some s ∧ p1.m_skeleton.m_joints[2]? = some je ∧
        je.m_children = [3] ∧ s.m_id = 3 ∧ s.m_channelCount = 3 ∧ s.AMC = false ∧
        s.m_local.m_rotation = identity3D ∧ s.m_local.m_translation = ⟨3, 0, 0⟩) ∧
      ∀ f ∈ p1.m_motion.m_keyFrames, f.GetNumJoints = 3 + 1 := by
  obtain ⟨p1, hrun, hlen, _, hsites, _, hframes⟩ :=
    C26_ConvertAMC2BVH_sites 0 (exLegPlayer : Player ℤ) 0 [0, 1, 2] (by decide)
  refine ⟨by decide, by decide, p1, hrun, hlen, ?_, hframes⟩
  obtain ⟨_, s, je, hs, hje, hch, hid, _, _, hcc, hamc, hrot, htr⟩ :=
    hsites 0 2 (exBone "tibia" 2 (some 1) [] rotZ90 ⟨3, 0, 0⟩) (by decide) (by decide)
  exact ⟨s, je, hs, hje, hch, hid, hcc, hamc, hrot, htr⟩

end C26

/-! ## The skin matrices -/

section SkinLemmas

variable {K : Type} [CommRing K]

theorem ToGLMatrix_length (t : Transform K) : (ToGLMatrix t).length = 16 := rfl

theorem set_behind {α : Type} (x o : α) (t : List α) :
    ∀ (pre : List α), (pre ++ o :: t).set pre.length x = pre ++ x :: t
  | [] => rfl
  | p :: pre => by
    simp only [List.cons_append, List.length_cons, List.set_cons_succ, set_behind x o t pre]

/-- The loop that writes a matrix replaces as many entries as the matrix has, from
`index` on. -/
theorem SkeletonMesh.writeMatrix_parts :
    ∀ (mat old pre post : List K), old.length = mat.length →
      SkeletonMesh.writeMatrix mat pre.length (pre ++ old ++ post) = some (pre ++ mat ++ post)
  | [], old, pre, post, h => by
    have : old = [] := List.length_eq_zero.mp h
    subst this
    rfl
  | x :: mat, [], pre, post, h => by
    simp at h
  | x :: mat, o :: old, pre, post, h => by
    simp only [List.length_cons, Nat.add_right_cancel_iff] at h
    rw [SkeletonMesh.writeMatrix, if_pos (by simp)]
    have hset : (pre ++ o :: old ++ post).set pre.length x = (pre ++ [x]) ++ old ++ post := by
      rw [List.append_assoc, List.cons_append, set_behind]
      simp
    have hlen : pre.length + 1 = (pre ++ [x]).length := by simp
    rw [hset, hlen, SkeletonMesh.writeMatrix_parts mat old (pre ++ [x]) post h]
    simp

/-- The loop of `updateSkin` over the joints replaces 16 entries of `local2global`
per joint, from `index` on, and pushes the global transforms. -/
theorem SkeletonMesh.updateJoints_parts :
    ∀ (joints : List (Joint K)) (mesh : SkeletonMesh K) (old pre post : List K),
      mesh.local2global = pre ++ old ++ post → old.length = 16 * joints.length →
      SkeletonMesh.updateJoints joints pre.length mesh
        = some { mesh with
            myAnimPose_Local2Global :=
              mesh.myAnimPose_Local2Global ++ joints.map (fun j => j.m_global)
            local2global :=
              pre ++ (joints.map (fun j => ToGLMatrix j.m_global)).flatten ++ post }
  | [], mesh, old, pre, post, ha, h => by
    have : old = [] := List.length_eq_zero.mp h
    subst this
    rw [SkeletonMesh.updateJoints]
    have ha2 : pre ++ post = mesh.local2global := by rw [ha]; simp
    simp [ha2]
  | joint :: rest, mesh, old, pre, post, ha, h => by
    simp only [List.length_cons] at h
    rw [SkeletonMesh.updateJoints]
    dsimp only
    have ha1 : mesh.local2global = pre ++ old.take 16 ++ (old.drop 16 ++ post) := by
      rw [ha, List.append_assoc, List.append_assoc, ← List.append_assoc (old.take 16),
        List.take_append_drop]
    rw [ha1, SkeletonMesh.writeMatrix_parts (ToGLMatrix joint.m_global) (old.take 16) pre
      (old.drop 16 ++ post) (by rw [List.length_take, ToGLMatrix_length]; omega)]
    dsimp only
    have hlen : pre.length + 16 = (pre ++ ToGLMatrix joint.m_global).length := by
      rw [List.length_append, ToGLMatrix_length]
    rw [hlen, SkeletonMesh.updateJoints_parts rest _ (old.drop 16)
      (pre ++ ToGLMatrix joint.m_global) post (by simp) (by rw [List.length_drop]; omega)]
    simp

theorem flatten_blocks {α : Type} (n : Nat) :
    ∀ (blocks : List (List α)) (j : Nat) (b : List α), (∀ c ∈ blocks, c.length = n) →
      blocks[j]? = some b → (blocks.flatten.drop (n * j)).take n = b
  | [], j, b, _, h => by simp at h
  | c :: blocks, 0, b, hn, h => by
    simp only [List.getElem?_cons_zero, Option.some.injEq] at h
    subst h
    simp only [Nat.mul_zero, List.drop_zero, List.flatten_cons]
    rw [List.take_append_of_le_length (by rw [hn c (List.mem_cons_self _ _)])]
    rw [List.take_of_length_le (by rw [hn c (List.mem_cons_self _ _)])]
  | c :: blocks, j + 1, b, hn, h => by
    simp only [List.getElem?_cons_succ] at h
    have hc := hn c (List.mem_cons_self _ _)
    simp only [List.flatten_cons]
    rw [Nat.mul_succ, Nat.add_comm, ← hc, List.drop_append, hc]
    exact flatten_blocks n blocks j b (fun d hd => hn d (List.mem_cons_of_mem _ hd)) h

theorem flatten_blocks_length {α : Type} (n : Nat) :
    ∀ (blocks : List (List α)), (∀ c ∈ blocks, c.length = n) →
      blocks.flatten.length = n * blocks.length
  | [], _ => rfl
  | c :: blocks, hn => by
    simp only [List.flatten_cons, List.length_append, List.length_cons,
      hn c (List.mem_cons_self _ _),
      flatten_blocks_length n blocks (fun d hd => hn d (List.mem_cons_of_mem _ hd))]
    ring

end SkinLemmas

/-! ## C27: what `updateSkin` changes -/

section C27

variable {K : Type} [CommRing K]

/-- C27: when the array `local2global` has 16 entries for every joint of the
skeleton, `SkeletonMesh::updateSkin` returns a mesh that differs from the mesh before
the call in `myAnimPose_Local2Global` and `local2global` at most: the bind pose
`myBindPose_Global2Local` and `global2local`, the joint indices and the weights of
the vertices and the attribute arrays made from them are as before.  Entry `j` of
`myAnimPose_Local2Global` is the global transform of joint `j`, the 16 entries of
`local2global` from `16 * j` on are that transform as `ToGLMatrix` writes it, and the
entries behind those of the last joint are as before. -/
theorem C27_updateSkin (mesh : SkeletonMesh K) (skeleton : Skeleton K)
    (h : 16 * skeleton.m_joints.length ≤ mesh.local2global.length) :
    ∃ mesh1, mesh.updateSkin skeleton = some mesh1 ∧
      mesh1 = { mesh with
        myAnimPose_Local2Global := mesh1.myAnimPose_Local2Global
        local2global := mesh1.local2global } ∧
      mesh1.myBindPose_Global2Local = mesh.myBindPose_Global2Local ∧
      mesh1.global2local = mesh.global2local ∧
      mesh1.myVertexJointIndices = mesh.myVertexJointIndices ∧
      mesh1.myVertexWeights = mesh.myVertexWeights ∧
      mesh1.myAnimPose_Local2Global = skeleton.m_joints.map (fun j => j.m_global) ∧
      mesh1.local2global.length = mesh.local2global.length ∧
      (∀ (j : Nat) (joint : Joint K), skeleton.m_joints[j]? = some joint →
        mesh1.myAnimPose_Local2Global[j]? = some joint.m_global ∧
        (mesh1.local2global.drop (16 * j)).take 16 = ToGLMatrix joint.m_global) ∧
      ∀ i : Nat, 16 * skeleton.m_joints.length ≤ i →
        mesh1.local2global[i]? = mesh.local2global[i]? := by
  obtain ⟨blocks, hblocks⟩ : ∃ blocks, blocks
      = skeleton.m_joints.map (fun j => ToGLMatrix j.m_global) := ⟨_, rfl⟩
  have hb16 : ∀ c ∈ blocks, c.length = 16 := by
    intro c hc
    rw [hblocks] at hc
    obtain ⟨j, _, rfl⟩ := List.mem_map.mp hc
    rfl
  have hflen : blocks.flatten.length = 16 * skeleton.m_joints.length := by
    rw [flatten_blocks_length 16 blocks hb16, hblocks, List.length_map]
  have hrun := SkeletonMesh.updateJoints_parts skeleton.m_joints
    { mesh with myAnimPose_Local2Global := [] }
    (mesh.local2global.take (16 * skeleton.m_joints.length)) []
    (mesh.local2global.drop (16 * skeleton.m_joints.length))
    (by simp) (by rw [List.length_take]; omega)
  rw [← hblocks] at hrun
  simp only [List.length_nil, List.nil_append] at hrun
  refine ⟨_, hrun, rfl, rfl, rfl, rfl, rfl, rfl, ?_, ?_, ?_⟩
  · simp only [List.length_append, hflen, List.length_drop]
    omega
  · intro j joint hj
    refine ⟨by simp [hj], ?_⟩
    have hbj : blocks[j]? = some (ToGLMatrix joint.m_global) := by
      rw [hblocks, List.getElem?_map, hj]
      rfl
    have hjlt : j < skeleton.m_joints.length := (List.getElem?_eq_some_iff.mp hj).1
    have := flatten_blocks 16 blocks j _ hb16 hbj
    dsimp only
    rw [List.drop_append_of_le_length (by rw [hflen]; omega),
      List.take_append_of_le_length (by rw [List.length_drop, hflen]; omega)]
    exact this
  · intro i hi
    dsimp only
    rw [List.getElem?_append_right (by rw [hflen]; exact hi), hflen, List.getElem?_drop]
    congr 1
    omega

/-- C27 (witness): the mesh with room for two joints and the skeleton of two
joints. -/
theorem C27_updateSkin_witness :
    16 * (exTwoJoints : Skeleton ℤ).m_joints.length ≤ (exMesh : SkeletonMesh ℤ).local2global.length ∧
    ∃ mesh1, (exMesh : SkeletonMesh ℤ).updateSkin exTwoJoints = some mesh1 ∧
      mesh1.myBindPose_Global2Local = [identityTransform] ∧
      mesh1.global2local = List.replicate 32 5 ∧
      mesh1.myAnimPose_Local2Global = [identityTransform, identityTransform] ∧
      mesh1.local2global.length = 32 := by
  obtain ⟨mesh1, hrun, _, hb, hg, _, _, ha, hl, _⟩ :=
    C27_updateSkin (exMesh : SkeletonMesh ℤ) exTwoJoints (by decide)
  exact ⟨by decide, mesh1, hrun, hb, hg, ha, hl⟩

end C27

/-! ## The dimensions of a skeleton -/

section DimensionLemmas

variable {K : Type} [LinearOrderedCommRing K]

/-- The loop of `GetDimensions` folds `min` and `max` over the coordinates. -/
theorem dimensionsLoop_fold :
    ∀ (js : List (Joint K)) (min1 max1 : vec3 K),
      Skeleton.dimensionsLoop js min1 max1
        = (⟨(js.map (fun j => j.m_global.m_translation.x)).foldl min min1.x,
            (js.map (fun j => j.m_global.m_translation.y)).foldl min min1.y,
            (js.map (fun j => j.m_global.m_translation.z)).foldl min min1.z⟩,
           ⟨(js.map (fun j => j.m_global.m_translation.x)).foldl max max1.x,
            (js.map (fun j => j.m_global.m_translation.y)).foldl max max1.y,
            (js.map (fun j => j.m_global.m_translation.z)).foldl max max1.z⟩)
  | [], min1, max1 => rfl
  | j :: js, min1, max1 => by
    rw [Skeleton.dimensionsLoop, dimensionsLoop_fold js]
    rfl

theorem foldl_min_spec :
    ∀ (xs : List K) (m : K), (xs.foldl min m ≤ m ∧ ∀ x ∈ xs, xs.foldl min m ≤ x) ∧
      (xs.foldl min m = m ∨ xs.foldl min m ∈ xs)
  | [], m => ⟨⟨le_rfl, fun x hx => by cases hx⟩, Or.inl rfl⟩
  | y :: xs, m => by
    obtain ⟨⟨h1, h2⟩, h3⟩ := foldl_min_spec xs (min m y)
    simp only [List.foldl_cons]
    refine ⟨⟨h1.trans (min_le_left _ _), ?_⟩, ?_⟩
    · intro x hx
      rcases List.mem_cons.mp hx with hx | hx
      · subst hx
        exact h1.trans (min_le_right _ _)
      · exact h2 x hx
    · rcases h3 with h3 | h3
      · rcases min_choice m y with hm | hm
        · exact Or.inl (h3.trans hm)
        · exact Or.inr (by rw [h3, hm]; exact List.mem_cons_self _ _)
      · exact Or.inr (List.mem_cons_of_mem _ h3)

theorem foldl_max_spec :
    ∀ (xs : List K) (m : K), (m ≤ xs.foldl max m ∧ ∀ x ∈ xs, x ≤ xs.foldl max m) ∧
      (xs.foldl max m = m ∨ xs.foldl max m ∈ xs)
  | [], m => ⟨⟨le_rfl, fun x hx => by cases hx⟩, Or.inl rfl⟩
  | y :: xs, m => by
    obtain ⟨⟨h1, h2⟩, h3⟩ := foldl_max_spec xs (max m y)
    simp only [List.foldl_cons]
    refine ⟨⟨(le_max_left _ _).trans h1, ?_⟩, ?_⟩
    · intro x hx
      rcases List.mem_cons.mp hx with hx | hx
      · subst hx
        exact (le_max_right _ _).trans h1
      · exact h2 x hx
    · rcases h3 with h3 | h3
      · rcases max_choice m y with hm | hm
        · exact Or.inl (h3.trans hm)
        · exact Or.inr (by rw [h3, hm]; exact List.mem_cons_self _ _)
      · exact Or.inr (List.mem_cons_of_mem _ h3)

/-- The difference of the two folds over a list that is not empty is not negative,
and it is the largest minus the smallest number of the list when some number of the
list is at most the start of `min` and some number is at least the start of `max`. -/
theorem fold_extent (xs : List K) (lo hi : K) (hne : xs ≠ []) :
    0 ≤ xs.foldl max lo - xs.foldl min hi ∧
    ((∃ x ∈ xs, x ≤ hi) → (∃ x ∈ xs, lo ≤ x) →
      IsExtent xs (xs.foldl max lo - xs.foldl min hi)) := by
  obtain ⟨⟨hmin1, hmin2⟩, hmin3⟩ := foldl_min_spec xs hi
  obtain ⟨⟨hmax1, hmax2⟩, hmax3⟩ := foldl_max_spec xs lo
  obtain ⟨x0, hx0⟩ := List.exists_mem_of_ne_nil xs hne
  refine ⟨sub_nonneg.mpr ((hmin2 x0 hx0).trans (hmax2 x0 hx0)), ?_⟩
  rintro ⟨a, ha, hahi⟩ ⟨b, hb, hblo⟩
  have hminmem : xs.foldl min hi ∈ xs := by
    rcases hmin3 with h | h
    · have : xs.foldl min hi = a := le_antisymm (hmin2 a ha) (by rw [h]; exact hahi)
      rw [this]
      exact ha
    · exact h
  have hmaxmem : xs.foldl max lo ∈ xs := by
    rcases hmax3 with h | h
    · have : xs.foldl max lo = b := le_antisymm (by rw [h]; exact hblo) (hmax2 b hb)
      rw [this]
      exact hb
    · exact h
  exact ⟨_, hminmem, _, hmaxmem, fun x hx => ⟨hmin2 x hx, hmax2 x hx⟩, rfl⟩

end DimensionLemmas

/-! ## C28: the dimensions of a skeleton -/

section C28

variable {K : Type} [LinearOrderedCommRing K]

/-- C28 as stated fails on the skeleton whose one joint, the root, stands at
(20000000000, 0, 0): the skeleton is a tree, forward kinematics puts the joint at
that position, so that the largest minus the smallest first coordinate is 0, and
`GetDimensions` returns (10000000001, 0, 0): the minimum starts at 9999999999 and
stays there. -/
theorem C28_counterexample :
    (exFarRoot : Skeleton ℤ).IsTreeWith 0 [0] ∧
    (((exFarRoot : Skeleton ℤ).UpdateFK (some 0)).map
        (fun sk1 => sk1.m_joints.map (fun j => j.m_global.m_translation)))
      = some [⟨20000000000, 0, 0⟩] ∧
    ((exFarRoot : Skeleton ℤ).GetDimensions).map (fun d => d.1)
      = some ⟨10000000001, 0, 0⟩ ∧
    ¬ IsExtent [(20000000000 : ℤ)] 10000000001 := by
  refine ⟨by decide, by decide, by decide, ?_⟩
  rintro ⟨a, ha, b, hb, _, h⟩
  simp only [List.mem_singleton] at ha hb
  subst ha hb
  omega

/-- C28, amended.  For a skeleton whose joints form a tree from the root `r`, with
at least one joint, `Skeleton::GetDimensions` returns a vector `dim` after the
forward kinematics of `UpdateFK(m_pRoot)`, which leaves the forward-kinematics
equation true at every joint of the tree.  Every component of `dim` is at least 0;
and for each axis on which some joint has a global coordinate of at most 9999999999
and some joint one of at least -9999999999, the component of `dim` is the largest
minus the smallest global coordinate of the joints on that axis. -/
theorem C28_GetDimensions (sk : Skeleton K) (r : Nat) (l : List Nat)
    (ht : sk.IsTreeWith r l) (hne : sk.m_joints ≠ []) :
    ∃ dim sk1, sk.GetDimensions = some (dim, sk1) ∧
      sk.UpdateFK sk.m_pRoot = some sk1 ∧ (∀ k ∈ l, fkHolds sk1.m_joints k) ∧
      (0 ≤ dim.x ∧ 0 ≤ dim.y ∧ 0 ≤ dim.z) ∧
      ((∃ j ∈ sk1.m_joints, j.m_global.m_translation.x ≤ 9999999999) →
        (∃ j ∈ sk1.m_joints, -9999999999 ≤ j.m_global.m_translation.x) →
        IsExtent (sk1.m_joints.map (fun j => j.m_global.m_translation.x)) dim.x) ∧
      ((∃ j ∈ sk1.m_joints, j.m_global.m_translation.y ≤ 9999999999) →
        (∃ j ∈ sk1.m_joints, -9999999999 ≤ j.m_global.m_translation.y) →
        IsExtent (sk1.m_joints.map (fun j => j.m_global.m_translation.y)) dim.y) ∧
      ((∃ j ∈ sk1.m_joints, j.m_global.m_translation.z ≤ 9999999999) →
        (∃ j ∈ sk1.m_joints, -9999999999 ≤ j.m_global.m_translation.z) →
        IsExtent (sk1.m_joints.map (fun j => j.m_global.m_translation.z)) dim.z) := by
  obtain ⟨js1, hrun, hsame, _, hfk⟩ := UpdateTransformation_tree ht
  have hfk1 : sk.UpdateFK sk.m_pRoot = some { sk with m_joints := js1 } := by
    have h0 := UpdateFK_some sk r
    rw [hrun] at h0
    exact (congrArg sk.UpdateFK ht.1).trans h0
  have hne1 : js1 ≠ [] := by
    intro h
    apply hne
    have := congrArg List.length hsame
    rw [h] at this
    exact List.length_eq_zero.mp (by simpa using this)
  have hmap : ∀ (c : vec3 K → K), js1.map (fun j => c j.m_global.m_translation) ≠ [] := by
    intro c h
    exact hne1 (List.map_eq_nil_iff.mp h)
  have hx := fold_extent (js1.map (fun j => j.m_global.m_translation.x)) (-9999999999)
    9999999999 (hmap vec3.x)
  have hy := fold_extent (js1.map (fun j => j.m_global.m_translation.y)) (-9999999999)
    9999999999 (hmap vec3.y)
  have hz := fold_extent (js1.map (fun j => j.m_global.m_translation.z)) (-9999999999)
    9999999999 (hmap vec3.z)
  refine ⟨⟨_, _, _⟩, _, ?_, hfk1, hfk, ⟨hx.1, hy.1, hz.1⟩, ?_, ?_, ?_⟩
  · unfold Skeleton.GetDimensions
    rw [hfk1]
    dsimp only
    rw [dimensionsLoop_fold]
    rfl
  · rintro ⟨a, ha, hale⟩ ⟨b, hb, hble⟩
    exact hx.2 ⟨_, List.mem_map.mpr ⟨a, ha, rfl⟩, hale⟩ ⟨_, List.mem_map.mpr ⟨b, hb, rfl⟩, hble⟩
  · rintro ⟨a, ha, hale⟩ ⟨b, hb, hble⟩
    exact hy.2 ⟨_, List.mem_map.mpr ⟨a, ha, rfl⟩, hale⟩ ⟨_, List.mem_map.mpr ⟨b, hb, rfl⟩, hble⟩
  · rintro ⟨a, ha, hale⟩ ⟨b, hb, hble⟩
    exact hz.2 ⟨_, List.mem_map.mpr ⟨a, ha, rfl⟩, hale⟩ ⟨_, List.mem_map.mpr ⟨b, hb, rfl⟩, hble⟩

/-- C28, amended, at the skeleton of two joints: the root at (1,2,3) and the hip at
(1,12,3). -/
theorem C28_GetDimensions_witness :
    (exTwoJoints : Skeleton ℤ).IsTreeWith 0 [0, 1] ∧
    (exTwoJoints : Skeleton ℤ).m_joints ≠ [] ∧
    (exTwoJoints : Skeleton ℤ).GetDimensions.map (fun d => d.1) = some ⟨0, 10, 0⟩ ∧
    ∃ dim sk1, (exTwoJoints : Skeleton ℤ).GetDimensions = some (dim, sk1) ∧
      (0 ≤ dim.x ∧ 0 ≤ dim.y ∧ 0 ≤ dim.z) := by
  obtain ⟨dim, sk1, hrun, _, _, hpos, _⟩ :=
    C28_GetDimensions (exTwoJoints : Skeleton ℤ) 0 [0, 1] (by decide) (by decide)
  exact ⟨by decide, by decide, by decide, dim, sk1, hrun, hpos⟩

end C28

/-! ## The decimal digits of a number -/

section Digits

theorem digitChar_value (d : Nat) (h : d < 10) : (Nat.digitChar d).toNat - 48 = d := by
  interval_cases d <;> rfl

/-- Reading the digits that `Nat.toDigitsCore` puts in front of `ds` gives the
number. -/
theorem toDigitsCore_value :
    ∀ (fuel n : Nat) (ds : List Char), n < fuel →
      (Nat.toDigitsCore 10 fuel n ds).foldl (fun a c => a * 10 + (c.toNat - 48)) 0
        = ds.foldl (fun a c => a * 10 + (c.toNat - 48)) n
  | 0, n, ds, h => by omega
  | fuel + 1, n, ds, h => by
    rw [Nat.toDigitsCore]
    split_ifs with h0
    · rw [List.foldl_cons, digitChar_value _ (Nat.mod_lt _ (by decide))]
      congr 1
      have := Nat.div_add_mod n 10
      omega
    · have hlt : n / 10 < fuel := by omega
      rw [toDigitsCore_value fuel (n / 10) _ hlt, List.foldl_cons,
        digitChar_value _ (Nat.mod_lt _ (by decide))]
      congr 1
      have := Nat.div_add_mod n 10
      omega

/-- Different numbers have different decimal digits. -/
theorem repr_injective {a b : Nat} (h : Nat.repr a = Nat.repr b) : a = b := by
  have hd : Nat.toDigits 10 a = Nat.toDigits 10 b := by
    have := congrArg String.data h
    simpa [Nat.repr] using this
  have ha := toDigitsCore_value (a + 1) a [] (by omega)
  have hb := toDigitsCore_value (b + 1) b [] (by omega)
  unfold Nat.toDigits at hd
  rw [hd, hb] at ha
  simpa using ha.symm

theorem toString_natCast (k : Nat) : toString ((k : Nat) : Int) = Nat.repr k := rfl

/-- The names `Site` followed by the digits of different numbers differ. -/
theorem site_injective {a b : Nat} (h : "Site" ++ Nat.repr a = "Site" ++ Nat.repr b) :
    a = b := by
  apply repr_injective
  have := congrArg String.data h
  simp only [String.data_append, List.append_cancel_left_eq] at this
  exact String.ext this

end Digits

/-! ## The names of the `End` joints of a loaded BVH file -/

section SiteNames

variable {K : Type} [CommRing K]

theorem siteName_site {name : String} (h : startsWithSite name = true) (k : Nat) :
    siteName name k = "Site" ++ Nat.repr k := by
  unfold siteName
  rw [if_pos h]
  rfl

/-- The joint of an `End` block. -/
theorem Blocks.ends_get (D : K) (amc : Bool) :
    ∀ (b : Blocks K) (start p k : Nat) (name : String), (k, name) ∈ b.ends start →
      start ≤ k ∧ ∃ j, (b.joints D amc start p)[k - start]? = some j ∧
        j.m_name = siteName name k ∧ j.m_id = (k : Int) ∧ j.m_channelCount = 0 ∧
        j.m_children = []
  | .done, _, _, _, _, h => by
    simp [Blocks.ends] at h
  | .joint n o c order inside next, start, p, k, name, h => by
    simp only [Blocks.ends, List.mem_append] at h
    simp only [Blocks.joints]
    rcases h with h | h
    · obtain ⟨hle, j, hj, hrest⟩ := Blocks.ends_get D amc inside (start + 1) start k name h
      have hlt : k - (start + 1) < inside.size := by
        rw [← Blocks.joints_length D amc inside (start + 1) start]
        exact (List.getElem?_eq_some_iff.mp hj).1
      refine ⟨by omega, j, ?_, hrest⟩
      obtain ⟨d, hd⟩ : ∃ d, k - start = d + 1 := ⟨k - start - 1, by omega⟩
      rw [hd, List.getElem?_cons_succ,
        List.getElem?_append_left (by rw [Blocks.joints_length]; omega)]
      rw [← hj]
      congr 1
      omega
    · obtain ⟨hle, j, hj, hrest⟩ :=
        Blocks.ends_get D amc next (start + 1 + inside.size) p k name h
      refine ⟨by omega, j, ?_, hrest⟩
      obtain ⟨d, hd⟩ : ∃ d, k - start = d + 1 := ⟨k - start - 1, by omega⟩
      rw [hd, List.getElem?_cons_succ,
        List.getElem?_append_right (by rw [Blocks.joints_length]; omega),
        Blocks.joints_length]
      rw [← hj]
      congr 1
      omega
  | .endSite n o next, start, p, k, name, h => by
    simp only [Blocks.ends, List.mem_cons, Prod.mk.injEq] at h
    simp only [Blocks.joints]
    rcases h with ⟨hk, hn⟩ | h
    · subst hk hn
      refine ⟨le_rfl, _, by rw [Nat.sub_self, List.getElem?_cons_zero], rfl, rfl, rfl, rfl⟩
    · obtain ⟨hle, j, hj, hrest⟩ := Blocks.ends_get D amc next (start + 1) p k name h
      refine ⟨by omega, j, ?_, hrest⟩
      obtain ⟨d, hd⟩ : ∃ d, k - start = d + 1 := ⟨k - start - 1, by omega⟩
      rw [hd, List.getElem?_cons_succ, ← hj]
      congr 1
      omega

/-- The joint that the skeleton loaded from a BVH file has for an `End` block. -/
theorem BvhFile.file_ends_get (D : K) (file : BvhFile K) (k : Nat) (name : String)
    (h : (k, name) ∈ file.blocks.ends 1) :
    ∃ j, (file.joints D)[k]? = some j ∧ j.m_name = siteName name k ∧ j.m_id = (k : Int) ∧
      j.m_channelCount = 0 ∧ j.m_children = [] := by
  obtain ⟨hle, j, hj, hrest⟩ := Blocks.ends_get D false file.blocks 1 0 k name h
  refine ⟨j, ?_, hrest⟩
  unfold BvhFile.joints
  obtain ⟨d, hd⟩ : ∃ d, k = d + 1 := ⟨k - 1, by omega⟩
  subst hd
  rw [List.getElem?_cons_succ, ← hj]
  congr 1

end SiteNames

/-! ## C29: the names of the end sites -/

section C29

variable {K : Type} [CommRing K]

/-- C29: `Skeleton::LoadFromBVHFile` on the HIERARCHY part of a BVH file returns
`true` with a skeleton in which the joint of every `End` block whose name in the file
starts with `Site` (as in `End Site`), with the id `k`, has the name `Site` followed
by the decimal digits of `k`, so that two such joints with different ids have
different names; and `Joint::SetID(k)` gives a joint whose name starts with `Site`
the name `Site` followed by `k` as `%d` prints it, and leaves the name of every other
joint as it is. -/
theorem C29_site_names (D : K) (sk : Skeleton K) (file : BvhFile K) (rest : List (Item K)) :
    (∃ sk1, Skeleton.LoadFromBVHFile D sk (file.hierarchy ++ rest) = some (true, sk1, rest) ∧
      (∀ (k : Nat) (name : String), (k, name) ∈ file.blocks.ends 1 →
        startsWithSite name = true →
        ∃ j, sk1.m_joints[k]? = some j ∧ j.m_id = (k : Int) ∧
          j.m_name = "Site" ++ Nat.repr k) ∧
      (∀ (k1 k2 : Nat) (name1 name2 : String) (j1 j2 : Joint K),
        (k1, name1) ∈ file.blocks.ends 1 → (k2, name2) ∈ file.blocks.ends 1 →
        startsWithSite name1 = true → startsWithSite name2 = true →
        sk1.m_joints[k1]? = some j1 → sk1.m_joints[k2]? = some j2 → k1 ≠ k2 →
        j1.m_name ≠ j2.m_name)) ∧
    (∀ (joint : Joint K) (k : Int),
      (startsWithSite joint.m_name = true →
        (joint.SetID k).m_name = "Site" ++ toString k) ∧
      (startsWithSite joint.m_name = false → (joint.SetID k).m_name = joint.m_name) ∧
      (joint.SetID k).m_id = k) := by
  refine ⟨⟨_, LoadFromBVHFile_hierarchy D sk file rest, ?_, ?_⟩, ?_⟩
  · intro k name hk hs
    obtain ⟨j, hj, hname, hid, _⟩ := BvhFile.file_ends_get D file k name hk
    exact ⟨j, hj, hid, by rw [hname, siteName_site hs]⟩
  · intro k1 k2 name1 name2 j1 j2 hk1 hk2 hs1 hs2 hj1 hj2 hne heq
    obtain ⟨j1', hj1', hname1, _⟩ := BvhFile.file_ends_get D file k1 name1 hk1
    obtain ⟨j2', hj2', hname2, _⟩ := BvhFile.file_ends_get D file k2 name2 hk2
    have e1 : j1' = j1 := Option.some.inj (hj1'.symm.trans hj1)
    have e2 : j2' = j2 := Option.some.inj (hj2'.symm.trans hj2)
    subst e1 e2
    rw [hname1, hname2, siteName_site hs1, siteName_site hs2] at heq
    exact hne (site_injective heq)
  · intro joint k
    unfold Joint.SetID
    refine ⟨fun h => by rw [if_pos h], fun h => by rw [if_neg (by simp [h])], ?_⟩
    split_ifs <;> rfl

/-- C29 (witness): the example BVH file, whose `End Site` block gives joint 2, and
a joint with the name `Site` that gets the id 7. -/
theorem C29_site_names_witness :
    (∃ sk1, Skeleton.LoadFromBVHFile (0 : ℤ) exNoSkeleton
        ((exBvhFile : BvhFile ℤ).hierarchy ++ []) = some (true, sk1, []) ∧
      ∃ j, sk1.m_joints[2]? = some j ∧ j.m_id = 2 ∧ j.m_name = "Site2") ∧
    ((exJoint "Site" 0 0 none [] (identityTransform : Transform ℤ)).SetID 7).m_name
      = "Site7" := by
  obtain ⟨⟨sk1, hload, hnames, _⟩, hset⟩ :=
    C29_site_names (0 : ℤ) exNoSkeleton (exBvhFile : BvhFile ℤ) []
  refine ⟨⟨sk1, hload, ?_⟩, ?_⟩
  · obtain ⟨j, hj, hid, hname⟩ := hnames 2 "Site" (by decide) (by decide)
    exact ⟨j, hj, hid, by rw [hname]; decide⟩
  · rw [(hset (exJoint "Site" 0 0 none [] identityTransform) 7).1 (by decide)]
    decide

end C29

/-! ## C30: copying a frame that was loaded from a BVH file -/

section C30

/-- C30 fails for a frame that `Frame::LoadFromBVHFile` has loaded.  The frame line
`1 2 3 0 0 0 0 0 0` is loaded into a new frame for the skeleton of two joints: the
frame has two rotations, two quaternions and no Euler angles, and `operator=` from
this frame reads `m_eulerData[0]`, which is outside the vector. -/
theorem C30_copy_of_loaded_frame :
    ∃ fr, CachedFrame.LoadFromBVHFile CachedFrame.new (exTwoJoints : Skeleton ℝ)
        ([1, 2, 3, 0, 0, 0, 0, 0, 0].map Item.number) = some (fr, []) ∧
      fr.m_eulerData.length = 0 ∧ fr.m_rotationData.length = 2 ∧
      fr.m_quaternionData.length = 2 ∧
      (CachedFrame.new : CachedFrame ℝ).assign fr = none := by
  obtain ⟨q1, hq1⟩ := (FromRotation_total Quaternion.zero Quaternion.zero
    (ComputeBVHRot (0 : ℝ) 0 0 "zxy")).1
  have hload : CachedFrame.LoadFromBVHFile CachedFrame.new (exTwoJoints : Skeleton ℝ)
      ([1, 2, 3, 0, 0, 0, 0, 0, 0].map Item.number)
      = some (⟨[], ⟨1, 2, 3⟩, [ComputeBVHRot 0 0 0 "zxy", ComputeBVHRot 0 0 0 "zxy"],
          [q1, q1]⟩, []) := by
    simp [CachedFrame.LoadFromBVHFile, CachedFrame.loadJoints, exTwoJoints, exJoint,
      Item.readVec3, Item.readNumber, hq1, CachedFrame.new, axisZero]
  refine ⟨_, hload, rfl, rfl, rfl, ?_⟩
  exact CachedFrame.assign_short _ _ (by simp)

end C30

/-! ## The convention flags of the joints -/

section Flags

variable {K : Type} [CommRing K]

theorem Blocks.joints_amc (D : K) (amc : Bool) :
    ∀ (b : Blocks K) (start p : Nat), ∀ j ∈ b.joints D amc start p, j.AMC = amc
  | .done, _, _ => by
    intro j hj
    cases hj
  | .joint name o n order inside next, start, p => by
    intro j hj
    simp only [Blocks.joints, List.mem_cons, List.mem_append] at hj
    rcases hj with hj | hj | hj
    · subst hj
      rfl
    · exact Blocks.joints_amc D amc inside _ _ j hj
    · exact Blocks.joints_amc D amc next _ _ j hj
  | .endSite name o next, start, p => by
    intro j hj
    simp only [Blocks.joints, List.mem_cons] at hj
    rcases hj with hj | hj
    · subst hj
      rfl
    · exact Blocks.joints_amc D amc next _ _ j hj

/-- The skeleton that `Skeleton::LoadFromBVHFile` builds from the HIERARCHY part of a
well-formed file is marked BVH, and so is every joint of it. -/
theorem LoadFromBVHFile_flags (D : K) (sk : Skeleton K) (file : BvhFile K)
    (rest : List (Item K)) :
    ∃ sk1, Skeleton.LoadFromBVHFile D sk (file.hierarchy ++ rest) = some (true, sk1, rest) ∧
      sk1.AMC = false ∧ ∀ j ∈ sk1.m_joints, j.AMC = sk1.AMC := by
  refine ⟨_, LoadFromBVHFile_hierarchy D sk file rest, rfl, ?_⟩
  intro j hj
  simp only [BvhFile.joints, List.mem_cons] at hj
  rcases hj with hj | hj
  · subst hj
    rfl
  · exact Blocks.joints_amc D false file.blocks 1 0 j hj

theorem amc_set {js : List (Joint K)} {i : Nat} {j : Joint K}
    (hi : js[i]? = some j) (j1 : Joint K) (h : j1.AMC = j.AMC) :
    (js.set i j1).map (fun j => j.AMC) = js.map (fun j => j.AMC) := by
  apply List.ext_getElem?
  intro k
  rw [List.getElem?_map, List.getElem?_map]
  by_cases hik : i = k
  · subst hik
    rw [List.getElem?_set_self (List.getElem?_eq_some_iff.mp hi).1, hi]
    simp [h]
  · rw [List.getElem?_set_ne hik]

/-- The function `Joint::AttachJoints` leaves the convention flags as they are. -/
theorem AttachJoints_amc {js js3 : List (Joint K)} {pParent pChild : Option Nat}
    (h : Joint.AttachJoints js pParent pChild = some js3) :
    js3.map (fun j => j.AMC) = js.map (fun j => j.AMC) := by
  unfold Joint.AttachJoints at h
  split at h
  · cases h
    rfl
  dsimp only at h
  split at h
  · cases h
  rename_i cj hc
  split at h
  · cases h
  rename_i js1 herased
  have h1 : js1.map (fun j => j.AMC) = js.map (fun j => j.AMC) := by
    split at herased
    · cases herased
      rfl
    · split at herased
      · cases herased
      rename_i oj ho
      obtain ⟨ch, _, hch⟩ := Option.map_eq_some'.mp herased
      subst hch
      exact amc_set ho _ rfl
  split at h
  · cases h
  rename_i cj1 hc1
  have h2 := (amc_set hc1 { cj1 with m_pParent := pParent } rfl).trans h1
  split at h
  · cases h
    exact h2
  · split at h
    · cases h
    rename_i pj hpj
    cases h
    exact (amc_set hpj { pj with m_children := pj.m_children ++ [_] } rfl).trans h2

theorem attachChildren_amc (pParent : Option Nat) :
    ∀ (tokens : List String) (js js3 : List (Joint K)),
      Skeleton.attachChildren pParent js tokens = some js3 →
      js3.map (fun j => j.AMC) = js.map (fun j => j.AMC)
  | [], js, js3, h => by
    simp only [Skeleton.attachChildren, Option.some.injEq] at h
    subst h
    rfl
  | token :: rest, js, js3, h => by
    rw [Skeleton.attachChildren] at h
    split at h
    · cases h
    · rename_i js1 hatt
      exact (attachChildren_amc pParent rest js1 js3 h).trans (AttachJoints_amc hatt)

theorem attachLines_amc :
    ∀ (lines : List (String × List String)) (js js3 : List (Joint K)),
      Skeleton.attachLines js lines = some js3 →
      js3.map (fun j => j.AMC) = js.map (fun j => j.AMC)
  | [], js, js3, h => by
    simp only [Skeleton.attachLines, Option.some.injEq] at h
    subst h
    rfl
  | line :: rest, js, js3, h => by
    rw [Skeleton.attachLines] at h
    split at h
    · cases h
    · rename_i js1 hatt
      exact (attachLines_amc rest js1 js3 h).trans (attachChildren_amc _ _ _ _ hatt)

theorem SetID_amc (j : Joint K) (id : Int) : (j.SetID id).AMC = j.AMC := by
  rw [SetID_eq]

theorem bones_amc (D : K) :
    ∀ (bones : List (AsfBone K)) (sk : Skeleton K), sk.AMC = true →
      (∀ j ∈ sk.m_joints, j.AMC = true) →
      (bones.foldl (Skeleton.ReadJointFromASFFile D) sk).AMC = true ∧
      ∀ j ∈ (bones.foldl (Skeleton.ReadJointFromASFFile D) sk).m_joints, j.AMC = true
  | [], sk, h1, h2 => ⟨h1, h2⟩
  | bone :: rest, sk, h1, h2 => by
    rw [List.foldl_cons]
    apply bones_amc D rest
    · exact h1
    · intro j hj
      simp only [Skeleton.ReadJointFromASFFile, List.mem_append, List.mem_singleton] at hj
      rcases hj with hj | hj
      · exact h2 j hj
      · rw [hj]
        exact h1

/-- The skeleton that `Skeleton::LoadASFFile` returns is marked AMC, and so is every
joint of it. -/
theorem LoadASFFile_flags (D : K) (sk sk1 : Skeleton K) (file : AsfFile K)
    (h : Skeleton.LoadASFFile D sk file = some sk1) :
    sk1.AMC = true ∧ ∀ j ∈ sk1.m_joints, j.AMC = sk1.AMC := by
  unfold Skeleton.LoadASFFile at h
  dsimp only at h
  obtain ⟨sk0, hsk0⟩ : ∃ sk0 : Skeleton K, sk0 =
      ({ sk with m_joints := [], m_pRoot := none, AMC := true } : Skeleton K).AddJoint
        { ((((Joint.new D).SetID 0).SetName "root").SetNumChannels 6).SetRotationOrder "zyx" with
          AMC := true } true := ⟨_, rfl⟩
  rw [← hsk0] at h
  have h0 : sk0.AMC = true ∧ ∀ j ∈ sk0.m_joints, j.AMC = true := by
    rw [hsk0]
    refine ⟨rfl, ?_⟩
    intro j hj
    simp only [Skeleton.AddJoint, List.nil_append, List.mem_singleton] at hj
    rw [hj, SetID_amc]
  obtain ⟨hb1, hb2⟩ := bones_amc D file.bones sk0 h0.1 h0.2
  split at h
  · cases h
  rename_i js hatt
  have hjs : ∀ j ∈ js, j.AMC = true := by
    intro j hj
    have hm : j.AMC ∈ js.map (fun j => j.AMC) := List.mem_map.mpr ⟨j, hj, rfl⟩
    rw [attachLines_amc _ _ _ hatt] at hm
    obtain ⟨j0, hj0, he⟩ := List.mem_map.mp hm
    rw [← he]
    exact hb2 j0 hj0
  unfold Skeleton.UpdateFK at h
  split at h
  · cases h
    exact ⟨hb1, fun j hj => (hjs j hj).trans hb1.symm⟩
  · rename_i r hr
    cases hu : Joint.UpdateTransformation js.length js r true with
    | none =>
      simp only [hu, Option.map_none'] at h
      cases h
    | some js3 =>
      simp only [hu, Option.map_some', Option.some.injEq] at h
      subst h
      refine ⟨hb1, ?_⟩
      intro j hj
      have hsb := (UpdateTransformation_sameButGlobal _ _ _ _ _ hu).sbg_symm
      obtain ⟨k, hk⟩ := List.mem_iff_getElem?.mp hj
      obtain ⟨j0, hj0, hc⟩ := hsb.sbg_get hk
      show j.AMC = (file.bones.foldl (Skeleton.ReadJointFromASFFile D) sk0).AMC
      rw [hb1, ← clearGlobal_AMC hc]
      exact hjs j0 (List.mem_iff_getElem?.mpr ⟨k, hj0⟩)

/-- After `Player::ConvertAMC2BVH` on a skeleton that satisfies the data-model
invariants the skeleton is marked BVH, and so is every joint other than the root. -/
theorem ConvertAMC2BVH_flags (D : K) (p : Player K) (r : Nat) (l : List Nat)
    (hwf : p.m_skeleton.WellFormed r l) :
    ∃ p1, Player.ConvertAMC2BVH D p = some p1 ∧ p1.m_skeleton.AMC = false ∧
      ∀ (k : Nat) (j : Joint K), p1.m_skeleton.m_joints[k]? = some j → k ≠ r →
        j.AMC = false := by
  obtain ⟨js1, frames, hrun, hconv, _⟩ := ConvertAMC2BVH_some D p r l hwf
  refine ⟨_, hrun, rfl, ?_⟩
  intro k j hk hkr
  obtain ⟨ht, hspan, _⟩ := hwf
  obtain ⟨hlen, _, _, hcore, hsites⟩ := hconv
  have hklt : k < js1.length := (List.getElem?_eq_some_iff.mp hk).1
  by_cases hkn : k < p.m_skeleton.m_joints.length
  · have hkl : k ∈ l := hspan k (List.mem_range.mpr hkn)
    obtain ⟨q, _, hq⟩ := ht.parent_mem hkl hkr
    obtain ⟨e, hel, hleaf, path, hpath, hkp⟩ := ht.on_leaf_path hkl hq
    obtain ⟨j0, hj0⟩ : ∃ j0, p.m_skeleton.m_joints[k]? = some j0 :=
      ⟨_, List.getElem?_eq_getElem hkn⟩
    obtain ⟨j1, hj1, _, _, _, _, hpathAMC⟩ := hcore k j0 hj0
    have he : e ∈ Player.endEffectors p.m_skeleton.m_joints := by
      obtain ⟨ej, hej⟩ := preorder_valid _ _ _ _ ht.2.1 e hel
      exact mem_endEffectors.mpr ⟨(List.getElem?_eq_some_iff.mp hej).1, hleaf⟩
    have := (hpathAMC e he path hpath hkp).1
    change js1[k]? = some j at hk
    rw [hj1] at hk
    cases hk
    exact this
  · obtain ⟨i, hi⟩ : ∃ i, k = p.m_skeleton.m_joints.length + i :=
      ⟨k - p.m_skeleton.m_joints.length, by omega⟩
    have hilt : i < (Player.endEffectors p.m_skeleton.m_joints).length := by omega
    obtain ⟨e, he⟩ : ∃ e, (Player.endEffectors p.m_skeleton.m_joints)[i]? = some e :=
      ⟨_, List.getElem?_eq_getElem hilt⟩
    have hemem := mem_endEffectors.mp (List.mem_iff_getElem?.mpr ⟨i, he⟩)
    obtain ⟨j0e, hj0e⟩ : ∃ j0e, p.m_skeleton.m_joints[e]? = some j0e :=
      ⟨_, List.getElem?_eq_getElem hemem.1⟩
    obtain ⟨s, _, hs, _, _, _, _, hsamc, _⟩ := hsites i e j0e he hj0e
    change js1[k]? = some j at hk
    rw [hi, hs] at hk
    cases hk
    exact hsamc

end Flags

/-! ## C31: the convention flag of the root after the conversion -/

section C31

/-- C31 fails for the root after `Player::ConvertAMC2BVH`.  The leg is a skeleton
marked AMC whose three joints are marked AMC, as `Skeleton::LoadASFFile` marks them; after
the conversion the skeleton is marked BVH and its four joints have the flags
`true`, `false`, `false`, `false`: the root is still marked AMC.  The same holds for
the skeleton that `LoadASFFile` builds from the file with one bone: after loading the
skeleton and both joints are marked AMC, after the conversion the skeleton is marked
BVH and the three joints have the flags `true`, `false`, `false`. -/
theorem C31_ConvertAMC2BVH_root_flag :
    ((exLegPlayer : Player ℤ).m_skeleton.AMC,
        (exLegPlayer : Player ℤ).m_skeleton.m_joints.map (fun j => j.AMC))
      = (true, [true, true, true]) ∧
    (Player.ConvertAMC2BVH 0 (exLegPlayer : Player ℤ)).map
        (fun p1 => (p1.m_skeleton.AMC, p1.m_skeleton.m_joints.map (fun j => j.AMC)))
      = some (false, [true, false, false, false]) ∧
    (exAsfPlayer (0 : ℤ)).map
        (fun p => (p.m_skeleton.AMC, p.m_skeleton.m_joints.map (fun j => j.AMC)))
      = some (true, [true, true]) ∧
    ((exAsfPlayer (0 : ℤ)).bind (Player.ConvertAMC2BVH 0)).map
        (fun p1 => (p1.m_skeleton.AMC, p1.m_skeleton.m_joints.map (fun j => j.AMC)))
      = some (false, [true, false, false]) := by
  decide!

end C31

/-! ## C32: the pose of the joints below the root after the conversion -/

section C32

variable {K : Type} [CommRing K]

/-- C32: for a player whose skeleton satisfies the data-model invariants (a tree of
all its joints from the root `r`, ids equal to positions), whose joints are all AMC
joints, whose root has the identity as axis rotation, and whose frames have the
skeleton's joint count, `Player::ConvertAMC2BVH` returns, and for every frame `i` and
every joint `k` of the original skeleton with a parent `q`: once the converted
skeleton has read the converted frame `i`, the joint `k` has the global rotation
that it has once the original skeleton has read the original frame `i`, and the
global translation that its parent `q` has there. -/
theorem C32_ConvertAMC2BVH_pose (D : K) (p : Player K) (r : Nat) (l : List Nat)
    (hwf : p.m_skeleton.WellFormed r l)
    (hamc : ∀ j ∈ p.m_skeleton.m_joints, j.AMC = true)
    (hroot : ∀ root, p.m_skeleton.m_joints[r]? = some root →
      root.m_axisRotation = identity3D)
    (hframes : ∀ f ∈ p.m_motion.m_keyFrames,
      f.GetNumJoints = p.m_skeleton.m_joints.length) :
    ∃ p1, Player.ConvertAMC2BVH D p = some p1 ∧
      p1.m_motion.m_keyFrames.length = p.m_motion.m_keyFrames.length ∧
      ∀ (i k q : Nat), i < p.m_motion.m_keyFrames.length →
        parentAt p.m_skeleton.m_joints k = some q →
        ∃ g gq g1, p.globalAt i k = some g ∧ p.globalAt i q = some gq ∧
          p1.globalAt i k = some g1 ∧ g1.m_rotation = g.m_rotation ∧
          g1.m_translation = gq.m_translation := by
  obtain ⟨js1, hrun, hconv⟩ := convertEndEffectors_spec D p.m_skeleton r l hwf
  obtain ⟨frames, hframes1, hget⟩ := mapM_option_total
    (Player.convertFrame { p.m_skeleton with AMC := false, m_joints := js1 })
    p.m_motion.m_keyFrames
    (fun f _ => by
      obtain ⟨nf, hnf, _⟩ :=
        convertFrame_spec { p.m_skeleton with AMC := false, m_joints := js1 } f
      exact ⟨nf, hnf⟩)
  obtain ⟨hflen, _⟩ := mapM_option_mem _ _ _ hframes1
  refine ⟨{ m_skeleton := { p.m_skeleton with AMC := false, m_joints := js1 },
            m_motion := { p.m_motion with m_keyFrames := frames } }, ?_, hflen, ?_⟩
  · unfold Player.ConvertAMC2BVH
    simp only [hrun, hframes1]
  intro i k q hi hq
  have hk : k < p.m_skeleton.m_joints.length := parentAt_lt hq
  obtain ⟨f, hf⟩ : ∃ f, p.m_motion.m_keyFrames[i]? = some f :=
    ⟨_, List.getElem?_eq_getElem hi⟩
  obtain ⟨f1, hf1, hconvf⟩ := hget i f hf
  obtain ⟨g, g1, hg, hg1, h1, _, h3⟩ := convert_globals p.m_skeleton r l f hwf hamc hroot
    (hframes f (List.getElem?_mem hf)) hconv hconvf k hk
  obtain ⟨gq, hgq, ht⟩ := h3 q hq
  refine ⟨g, gq, g1, ?_, ?_, ?_, h1, ht⟩
  · unfold Player.globalAt
    rw [hf]
    exact hg
  · unfold Player.globalAt
    rw [hf]
    exact hgq
  · unfold Player.globalAt
    simp only [hf1, Option.some_bind]
    exact hg1

/-- C32 (witness): the leg; the tibia, whose parent is the femur, stands after the
conversion where the femur stood, turned as before. -/
theorem C32_ConvertAMC2BVH_pose_witness :
    (exLegPlayer : Player ℤ).m_skeleton.WellFormed 0 [0, 1, 2] ∧
    (∀ j ∈ (exLegPlayer : Player ℤ).m_skeleton.m_joints, j.AMC = true) ∧
    (∀ f ∈ (exLegPlayer : Player ℤ).m_motion.m_keyFrames,
      f.GetNumJoints = (exLegPlayer : Player ℤ).m_skeleton.m_joints.length) ∧
    parentAt (exLegPlayer : Player ℤ).m_skeleton.m_joints 2 = some 1 ∧
    ∃ p1, Player.ConvertAMC2BVH 0 (exLegPlayer : Player ℤ) = some p1 ∧
      ∃ g gq g1, (exLegPlayer : Player ℤ).globalAt 0 2 = some g ∧
        (exLegPlayer : Player ℤ).globalAt 0 1 = some gq ∧
        p1.globalAt 0 2 = some g1 ∧ g1.m_rotation = g.m_rotation ∧
        g1.m_translation = gq.m_translation := by
  obtain ⟨p1, hrun, _, h⟩ :=
    C32_ConvertAMC2BVH_pose 0 (exLegPlayer : Player ℤ) 0 [0, 1, 2] (by decide) (by decide)
      (by
        intro root h
        cases h
        rfl)
      (by decide)
  exact ⟨by decide, by decide, by decide, by decide, p1, hrun, h 0 2 1 (by decide) (by decide)⟩

end C32

/-! ## `Motion::ReOrient` and the joints other than the root -/

section ReOrientJoints

variable {K : Type} [CommRing K]

end ReOrientJoints

/-! ## C33: `Motion::ReOrient`, the relative root pose and the other joints -/

section C33

variable {K : Type} [CommRing K]

end C33

/-! ## C35: `Motion::ReOrient` to the origin -/

section C35

variable {K : Type} [CommRing K]

end C35

/-! ## C34: the range of the middle angle and the angle set to zero -/

section C34

/-- C34: for each of the six orders and every rotation matrix, the angle about the
middle axis that `ToEulerAnglesO` returns lies in `[-π/2, π/2]`; the function returns
`false` exactly when that angle is at most `-π/2 + 0.001` or at least `π/2 - 0.001`,
and then the angle about the last axis of the order is 0. -/
theorem C34_ToEuler_middle (o : EulerOrder) (m : mat3 ℝ) (_hm : m.IsRotation) :
    -(Real.pi / 2) ≤ middleAngle o (ToEulerAngles o m).2 ∧
    middleAngle o (ToEulerAngles o m).2 ≤ Real.pi / 2 ∧
    ((ToEulerAngles o m).1 = false ↔
      (middleAngle o (ToEulerAngles o m).2 ≤ -(Real.pi / 2) + 0.001 ∨
        Real.pi / 2 - 0.001 ≤ middleAngle o (ToEulerAngles o m).2)) ∧
    ((ToEulerAngles o m).1 = false → lastAngle o (ToEulerAngles o m).2 = 0) := by
  have arcsin_range : ∀ x : ℝ, -(Real.pi / 2) ≤ Real.arcsin x ∧ Real.arcsin x ≤ Real.pi / 2 ∧
      -(Real.pi / 2) ≤ -Real.arcsin x ∧ -Real.arcsin x ≤ Real.pi / 2 := by
    intro x
    have h1 := Real.neg_pi_div_two_le_arcsin x
    have h2 := Real.arcsin_le_pi_div_two x
    exact ⟨h1, h2, by linarith, by linarith⟩
  have gimbal_flag : ∀ (b : ℝ), -(Real.pi / 2) ≤ b → b ≤ Real.pi / 2 →
      ∀ (vt vf1 vf2 : vec3 ℝ) (mid last : vec3 ℝ → ℝ), mid vt = b → mid vf1 = b →
      mid vf2 = b → last vf1 = 0 → last vf2 = 0 → ∀ (r : Bool × vec3 ℝ),
      (r = if b > -M_PI_2 + EPSILON then
          if b < M_PI_2 - EPSILON then (true, vt) else (false, vf1)
        else (false, vf2)) →
      -(Real.pi / 2) ≤ mid r.2 ∧ mid r.2 ≤ Real.pi / 2 ∧
      (r.1 = false ↔ (mid r.2 ≤ -(Real.pi / 2) + 0.001 ∨ Real.pi / 2 - 0.001 ≤ mid r.2)) ∧
      (r.1 = false → last r.2 = 0) := by
    intro b h1 h2 vt vf1 vf2 mid last hmt hmf1 hmf2 hl1 hl2 r hr
    have hlo : (b > -M_PI_2 + EPSILON) ↔ -(Real.pi / 2) + 0.001 < b := by
      simp only [M_PI_2, M_PI, EPSILON, CMath.pi, gt_iff_lt]
    have hhi : (b < M_PI_2 - EPSILON) ↔ b < Real.pi / 2 - 0.001 := by
      simp only [M_PI_2, M_PI, EPSILON, CMath.pi, gt_iff_lt]
    rw [hr]
    by_cases ha : b > -M_PI_2 + EPSILON
    · by_cases hb : b < M_PI_2 - EPSILON
      · rw [if_pos ha, if_pos hb]
        dsimp only
        rw [hmt]
        refine ⟨h1, h2, ⟨(fun h => by cases h), ?_⟩, (fun h => by cases h)⟩
        rintro (h | h)
        · exact absurd (hlo.mp ha) (not_lt.mpr h)
        · exact absurd (hhi.mp hb) (not_lt.mpr h)
      · rw [if_pos ha, if_neg hb]
        dsimp only
        rw [hmf1]
        exact ⟨h1, h2, ⟨fun _ => Or.inr (not_lt.mp (fun h => hb (hhi.mpr h))), fun _ => rfl⟩,
          fun _ => hl1⟩
    · rw [if_neg ha]
      dsimp only
      rw [hmf2]
      exact ⟨h1, h2, ⟨fun _ => Or.inl (not_lt.mp (fun h => ha (hlo.mpr h))), fun _ => rfl⟩,
        fun _ => hl2⟩
  cases o
  · obtain ⟨h1, h2, _, _⟩ := arcsin_range m.r0.z
    exact gimbal_flag _ h1 h2 ⟨atan2 (-m.r1.z) m.r2.z, Real.arcsin m.r0.z, atan2 (-m.r0.y) m.r0.x⟩
      ⟨atan2 m.r1.x m.r1.y, Real.arcsin m.r0.z, 0⟩
      ⟨-atan2 m.r1.x m.r1.y, Real.arcsin m.r0.z, 0⟩
      (middleAngle .xyz) (lastAngle .xyz) rfl rfl rfl rfl rfl _ rfl
  · obtain ⟨h1, h2, _, _⟩ := arcsin_range (-m.r0.y)
    exact gimbal_flag _ h1 h2 ⟨atan2 m.r2.y m.r1.y, atan2 m.r0.z m.r0.x, Real.arcsin (-m.r0.y)⟩
      ⟨atan2 m.r2.x m.r2.z, 0, Real.arcsin (-m.r0.y)⟩
      ⟨-atan2 m.r2.x m.r2.z, 0, Real.arcsin (-m.r0.y)⟩
      (middleAngle .xzy) (lastAngle .xzy) rfl rfl rfl rfl rfl _ rfl
  · obtain ⟨h1, h2, _, _⟩ := arcsin_range (-m.r1.z)
    exact gimbal_flag _ h1 h2 ⟨Real.arcsin (-m.r1.z), atan2 m.r0.z m.r2.z, atan2 m.r1.x m.r1.y⟩
      ⟨Real.arcsin (-m.r1.z), atan2 m.r0.y m.r0.x, 0⟩
      ⟨Real.arcsin (-m.r1.z), -atan2 m.r0.y m.r0.x, 0⟩
      (middleAngle .yxz) (lastAngle .yxz) rfl rfl rfl rfl rfl _ rfl
  · obtain ⟨h1, h2, _, _⟩ := arcsin_range m.r1.x
    exact gimbal_flag _ h1 h2 ⟨atan2 (-m.r1.z) m.r1.y, atan2 (-m.r2.x) m.r0.x, Real.arcsin m.r1.x⟩
      ⟨0, atan2 m.r2.y m.r2.z, Real.arcsin m.r1.x⟩
      ⟨0, -atan2 m.r2.y m.r2.z, Real.arcsin m.r1.x⟩
      (middleAngle .yzx) (lastAngle .yzx) rfl rfl rfl rfl rfl _ rfl
  · obtain ⟨h1, h2, _, _⟩ := arcsin_range m.r2.y
    exact gimbal_flag _ h1 h2 ⟨Real.arcsin m.r2.y, atan2 (-m.r2.x) m.r2.z, atan2 (-m.r0.y) m.r1.y⟩
      ⟨Real.arcsin m.r2.y, 0, atan2 m.r0.z m.r0.x⟩
      ⟨Real.arcsin m.r2.y, 0, -atan2 m.r0.z m.r0.x⟩
      (middleAngle .zxy) (lastAngle .zxy) rfl rfl rfl rfl rfl _ rfl
  · obtain ⟨_, _, h1, h2⟩ := arcsin_range m.r2.x
    exact gimbal_flag _ h1 h2 ⟨atan2 m.r2.y m.r2.z, -Real.arcsin m.r2.x, atan2 m.r1.x m.r0.x⟩
      ⟨0, -Real.arcsin m.r2.x, atan2 (-m.r0.y) m.r0.z⟩
      ⟨0, -Real.arcsin m.r2.x, atan2 m.r0.y m.r0.z⟩
      (middleAngle .zyx) (lastAngle .zyx) rfl rfl rfl rfl rfl _ rfl

/-- C34 (witness): the quarter turn about Y, whose angle about the middle axis of
the order XYZ is `π/2`: `ToEulerAnglesXYZ` returns `false` and the angle 0 about Z. -/
theorem C34_ToEuler_middle_witness :
    (rotY90 : mat3 ℝ).IsRotation ∧
    (ToEulerAngles .xyz (rotY90 : mat3 ℝ)).1 = false ∧
    middleAngle .xyz (ToEulerAngles .xyz (rotY90 : mat3 ℝ)).2 = Real.pi / 2 ∧
    lastAngle .xyz (ToEulerAngles .xyz (rotY90 : mat3 ℝ)).2 = 0 := by
  have hrot : (rotY90 : mat3 ℝ).IsRotation := by
    constructor
    · simp only [mat3.mul_def, mat3.mul, mat3.Transpose, rotY90, identity3D, axisX, axisY, axisZ]
      ext <;> norm_num
    · simp only [mat3.det, rotY90]
      norm_num
  obtain ⟨_, _, hiff, hlast⟩ := C34_ToEuler_middle .xyz (rotY90 : mat3 ℝ) hrot
  have hmid : middleAngle .xyz (ToEulerAngles .xyz (rotY90 : mat3 ℝ)).2 = Real.pi / 2 := by
    simp only [ToEulerAngles, mat3.ToEulerAnglesXYZ, rotY90, CMath.asin]
    split_ifs <;> simp [middleAngle]
  have hfalse : (ToEulerAngles .xyz (rotY90 : mat3 ℝ)).1 = false :=
    hiff.mpr (Or.inr (by rw [hmid]; linarith))
  exact ⟨hrot, hfalse, hmid, hlast hfalse⟩

end C34

/-! ## The erase loop of `AttachJoints` and `DetachJoints` -/

section DetachLemmas

variable {K : Type} [CommRing K]

/-- The erase loop steps behind the end of a list whose last entry is the one to
erase. -/
theorem eraseLoop_last (c : Nat) :
    ∀ l : List Nat, c ∉ l → Joint.eraseLoop c (l ++ [c]) = none
  | [], _ => by
    rw [List.nil_append, Joint.eraseLoop.eq_def]
    dsimp only
    rw [if_pos rfl]
  | x :: rest, h => by
    have hx : x ≠ c := fun hx => h (by simp [hx])
    have hr : c ∉ rest := fun hr => h (List.mem_cons_of_mem _ hr)
    rw [List.cons_append, Joint.eraseLoop.eq_def]
    dsimp only
    rw [if_neg hx, eraseLoop_last c rest hr]
    rfl

/-- What `Joint::DetachJoints(p, c)` does when `p` is the parent of `c` and the call
returns: the child has no parent, the child list of `p` has lost the child, and
every other pointer is as before. -/
theorem DetachJoints_some {js js3 : List (Joint K)} {p c : Nat}
    (h : Joint.DetachJoints js (some p) (some c) = some js3)
    (hpc : parentAt js c = some p) (hn : (childrenAt js p).Nodup) :
    js3.length = js.length ∧
    (∀ k : Nat, parentAt js3 k = if k = c then none else parentAt js k) ∧
    (∀ k : Nat, childrenAt js3 k
      = if k = p then (childrenAt js k).erase c else childrenAt js k) := by
  unfold Joint.DetachJoints at h
  dsimp only at h
  split at h
  · cases h
  rename_i cj hc
  have hcp : cj.m_pParent = some p := by
    unfold parentAt at hpc
    rw [hc] at hpc
    exact hpc
  rw [if_pos hcp] at h
  split at h
  · cases h
  rename_i js1 herased
  split at herased
  · cases herased
  rename_i pj hp
  cases he : Joint.eraseLoop c pj.m_children with
  | none => simp [he] at herased
  | some ch =>
    rw [he] at herased
    simp only [Option.map_some', Option.some.injEq] at herased
    subst herased
    have hoc : childrenAt js p = pj.m_children := by unfold childrenAt; rw [hp]
    have hch : ch = pj.m_children.erase c := eraseLoop_nodup c _ _ (by rw [← hoc]; exact hn) he
    split at h
    · cases h
    rename_i cj1 hc1
    cases h
    refine ⟨by simp, fun k => ?_, fun k => ?_⟩
    · rw [parentAt_set_parent hc1, parentAt_set_children hp]
    · rw [childrenAt_set_parent hc1, childrenAt_set_children hp]
      by_cases hk : k = p
      · subst hk
        rw [if_pos rfl, if_pos rfl, hoc, hch]
      · rw [if_neg hk, if_neg hk]

end DetachLemmas

/-! ## C36: attaching and detaching the last child -/

section C36

/-- C36 fails for a child that is the last entry of the child list of its parent.
In the skeleton of two joints the hip, joint 1, is the one child of the root, joint
0: `AttachJoints(NULL, hip)`, `AttachJoints(root, hip)` and `DetachJoints(root, hip)`
step behind the end of the child list of the root.  In the fork the root has the
children 1 and 2: `AttachJoints(1, 2)` steps behind the end, while `AttachJoints(2, 1)`
returns and leaves joint 1 with the parent 2, the root with the child 2 and joint 2
with the child 1.  And `Skeleton::LoadASFFile` attaches the bone `femur` to the root
twice for a file whose hierarchy section has the line `root femur` twice, and steps
behind the end in the second call. -/
theorem C36_AttachJoints_last_child :
    childrenAt (exTwoJoints : Skeleton ℤ).m_joints 0 = [1] ∧
    parentAt (exTwoJoints : Skeleton ℤ).m_joints 1 = some 0 ∧
    Joint.AttachJoints (exTwoJoints : Skeleton ℤ).m_joints none (some 1) = none ∧
    Joint.AttachJoints (exTwoJoints : Skeleton ℤ).m_joints (some 0) (some 1) = none ∧
    Joint.DetachJoints (exTwoJoints : Skeleton ℤ).m_joints (some 0) (some 1) = none ∧
    childrenAt (exFork : Skeleton ℤ).m_joints 0 = [1, 2] ∧
    Joint.AttachJoints (exFork : Skeleton ℤ).m_joints (some 1) (some 2) = none ∧
    (Joint.AttachJoints (exFork : Skeleton ℤ).m_joints (some 2) (some 1)).map
        (fun js => js.map Joint.links)
      = some [(none, [2]), (some 2, []), (some 0, [1])] ∧
    Skeleton.LoadASFFile (0 : ℤ) exNoSkeleton exAsfTwice = none := by
  decide

end C36

/-! ## C37: the deep copy of a skeleton -/

section C37

variable {K : Type} [CommRing K]

theorem copyOf_self {orig : List (Joint K)} {p : Nat} {j : Joint K}
    (hp : orig[p]? = some j) (hid : j.m_id = p) : Skeleton.copyOf orig p = some p := by
  have hlt := (List.getElem?_eq_some_iff.mp hp).1
  unfold Skeleton.copyOf
  rw [hp]
  dsimp only
  rw [hid]
  simp [hlt]

theorem mapM_copyOf {orig : List (Joint K)}
    (hid : ∀ (i : Nat) (j : Joint K), orig[i]? = some j → j.m_id = i) :
    ∀ (cs : List Nat), (∀ c ∈ cs, c < orig.length) →
      cs.mapM (Skeleton.copyOf orig) = some cs
  | [], _ => rfl
  | c :: cs, h => by
    have hc : c < orig.length := h c (List.mem_cons_self _ _)
    rw [List.mapM_cons, copyOf_self (List.getElem?_eq_getElem hc) (hid _ _ (List.getElem?_eq_getElem hc)),
      mapM_copyOf hid cs (fun z hz => h z (List.mem_cons_of_mem _ hz))]
    rfl

/-- One round of the second loop on a list whose ids are the positions and whose
pointers are valid: the copy at position `i` becomes the joint of the original. -/
theorem copyLinks_spec {orig : List (Joint K)}
    (hid : ∀ (i : Nat) (j : Joint K), orig[i]? = some j → j.m_id = i)
    {i : Nat} {joint : Joint K} (hi : orig[i]? = some joint)
    (hpar : ∀ p, joint.m_pParent = some p → p < orig.length)
    (hch : ∀ c ∈ joint.m_children, c < orig.length)
    (js : List (Joint K)) (hjs : js[i]? = some joint.assign) (root : Option Nat) :
    Skeleton.copyLinks orig i joint js root
      = some (js.set i joint, if joint.m_pParent = none then some i else root) := by
  unfold Skeleton.copyLinks
  rw [hjs]
  dsimp only
  rw [mapM_copyOf hid _ hch]
  cases hp : joint.m_pParent with
  | none =>
    simp only [Option.map_some', Joint.assign, List.nil_append, if_true]
    congr 3
    cases joint
    simp only [Joint.mk.injEq, true_and, and_true]
    exact hp.symm
  | some p =>
    have hplt := hpar p hp
    have hcp : Skeleton.copyOf orig p = some p :=
      copyOf_self (List.getElem?_eq_getElem hplt) (hid _ _ (List.getElem?_eq_getElem hplt))
    simp only [hcp, Option.map_some', Joint.assign, List.nil_append, if_false, reduceCtorEq]
    congr 3
    cases joint
    simp only [Joint.mk.injEq, true_and, and_true]
    exact hp.symm

/-- The second loop on a list whose ids are the positions, whose pointers are valid
and in which the root is the only joint without a parent: the copies become the
joints of the original and the root becomes the root of the original. -/
theorem copyLoop_spec {orig : List (Joint K)} {origRoot : Option Nat}
    (hid : ∀ (i : Nat) (j : Joint K), orig[i]? = some j → j.m_id = i)
    (hptr : ∀ (i : Nat) (j : Joint K), orig[i]? = some j →
      (∀ p, j.m_pParent = some p → p < orig.length) ∧ ∀ c ∈ j.m_children, c < orig.length)
    (hroot : ∀ r, origRoot = some r → r < orig.length)
    (honly : ∀ (i : Nat) (j : Joint K), orig[i]? = some j →
      (j.m_pParent = none ↔ origRoot = some i)) :
    ∀ (rest pre : List (Joint K)) (root : Option Nat), orig = pre ++ rest →
      (root = origRoot ∨ (root = none ∧ ∃ r, pre.length ≤ r ∧ origRoot = some r)) →
      Skeleton.copyLoop orig rest pre.length (pre ++ rest.map Joint.assign) root
        = some (orig, origRoot)
  | [], pre, root, hsplit, hr => by
    rw [List.append_nil] at hsplit
    simp only [Skeleton.copyLoop, List.map_nil, List.append_nil, ← hsplit]
    rcases hr with hr | ⟨_, r, hle, hr⟩
    · rw [hr]
    · have := hroot r hr
      rw [hsplit] at this
      omega
  | joint :: rest, pre, root, hsplit, hr => by
    have hi : orig[pre.length]? = some joint := by
      rw [hsplit, List.getElem?_append_right (Nat.le_refl _), Nat.sub_self,
        List.getElem?_cons_zero]
    have hjs : (pre ++ (joint :: rest).map Joint.assign)[pre.length]? = some joint.assign := by
      rw [List.getElem?_append_right (Nat.le_refl _), Nat.sub_self, List.map_cons,
        List.getElem?_cons_zero]
    rw [Skeleton.copyLoop, copyLinks_spec hid hi (hptr _ _ hi).1 (hptr _ _ hi).2 _ hjs root]
    dsimp only
    have hset : (pre ++ (joint :: rest).map Joint.assign).set pre.length joint
        = (pre ++ [joint]) ++ rest.map Joint.assign := by
      rw [List.set_append_right _ _ (Nat.le_refl _), Nat.sub_self]
      simp
    have hlen : pre.length + 1 = (pre ++ [joint]).length := by simp
    rw [hset, hlen]
    apply copyLoop_spec hid hptr hroot honly rest (pre ++ [joint])
    · rw [hsplit]
      simp
    · by_cases hp : joint.m_pParent = none
      · left
        rw [if_pos hp]
        exact ((honly _ _ hi).mp hp).symm
      · rw [if_neg hp]
        rcases hr with hr | ⟨hn, r, hle, hr⟩
        · exact Or.inl hr
        · right
          refine ⟨hn, r, ?_, hr⟩
          have hne : r ≠ pre.length := by
            intro he
            rw [he] at hr
            exact hp ((honly _ _ hi).mpr hr)
          rw [← hlen]
          omega

/-- The second loop on a list whose ids are the positions and whose pointers are
valid gives a list of the same joints, whatever the root is. -/
theorem copyLoop_joints {orig : List (Joint K)}
    (hid : ∀ (i : Nat) (j : Joint K), orig[i]? = some j → j.m_id = i)
    (hptr : ∀ (i : Nat) (j : Joint K), orig[i]? = some j →
      (∀ p, j.m_pParent = some p → p < orig.length) ∧ ∀ c ∈ j.m_children, c < orig.length) :
    ∀ (rest pre : List (Joint K)) (root : Option Nat), orig = pre ++ rest →
      ∃ root1, Skeleton.copyLoop orig rest pre.length (pre ++ rest.map Joint.assign) root
        = some (orig, root1)
  | [], pre, root, hsplit => by
    rw [List.append_nil] at hsplit
    exact ⟨root, by simp only [Skeleton.copyLoop, List.map_nil, List.append_nil, ← hsplit]⟩
  | joint :: rest, pre, root, hsplit => by
    have hi : orig[pre.length]? = some joint := by
      rw [hsplit, List.getElem?_append_right (Nat.le_refl _), Nat.sub_self,
        List.getElem?_cons_zero]
    have hjs : (pre ++ (joint :: rest).map Joint.assign)[pre.length]? = some joint.assign := by
      rw [List.getElem?_append_right (Nat.le_refl _), Nat.sub_self, List.map_cons,
        List.getElem?_cons_zero]
    rw [Skeleton.copyLoop, copyLinks_spec hid hi (hptr _ _ hi).1 (hptr _ _ hi).2 _ hjs root]
    dsimp only
    have hset : (pre ++ (joint :: rest).map Joint.assign).set pre.length joint
        = (pre ++ [joint]) ++ rest.map Joint.assign := by
      rw [List.set_append_right _ _ (Nat.le_refl _), Nat.sub_self]
      simp
    have hlen : pre.length + 1 = (pre ++ [joint]).length := by simp
    rw [hset, hlen]
    apply copyLoop_joints hid hptr rest (pre ++ [joint])
    rw [hsplit]
    simp

/-- The root of the copy is not always the copy of the root (C37).  The skeleton that
`Skeleton::LoadASFFile` builds from a file whose hierarchy section does not name the
bone `femur` has the joints `root` and `femur` with the ids 0 and 1, both without a
parent, and the root is joint 0.  In the copy that `Skeleton::operator=` makes the
joints are the same, and the root is joint 1, the bone `femur`. -/
theorem C37_counterexample :
    (Skeleton.LoadASFFile (0 : ℤ) exNoSkeleton exAsfLoose).map
        (fun sk => sk.m_joints.map (fun j => j.m_name)) = some ["root", "femur"] ∧
    (Skeleton.LoadASFFile (0 : ℤ) exNoSkeleton exAsfLoose).map
        (fun sk => (sk.m_joints.map (fun j => (j.m_id, j.m_pParent)), sk.m_pRoot))
      = some ([(0, none), (1, none)], some 0) ∧
    ((Skeleton.LoadASFFile (0 : ℤ) exNoSkeleton exAsfLoose).bind
        (Skeleton.assign exNoSkeleton)).map
        (fun sk1 => (sk1.m_joints.map (fun j => (j.m_id, j.m_pParent)), sk1.m_pRoot))
      = some ([(0, none), (1, none)], some 1) := by
  decide!

/-- C37, with the root as the only joint without a parent.  For every skeleton in
which the joint at index i has id i and the root is the only joint without a parent
(the pointers, held as positions, being valid), `Skeleton::operator=` produces a
skeleton with the same convention flag whose joints are those of the original, field
by field, parent and children included, and whose root is the copy of the root of the
original.  The scale of the assigned skeleton stays as it was. -/
theorem C37_assign (self orig : Skeleton K)
    (hid : ∀ (i : Nat) (j : Joint K), orig.m_joints[i]? = some j → j.m_id = i)
    (hptr : ∀ (i : Nat) (j : Joint K), orig.m_joints[i]? = some j →
      (∀ p, j.m_pParent = some p → p < orig.m_joints.length) ∧
      ∀ c ∈ j.m_children, c < orig.m_joints.length)
    (hroot : ∀ r, orig.m_pRoot = some r → r < orig.m_joints.length)
    (honly : ∀ (i : Nat) (j : Joint K), orig.m_joints[i]? = some j →
      (j.m_pParent = none ↔ orig.m_pRoot = some i)) :
    ∃ sk1, Skeleton.assign self orig = some sk1 ∧
      sk1.m_joints.length = orig.m_joints.length ∧ sk1.AMC = orig.AMC ∧
      sk1.m_pRoot = orig.m_pRoot ∧ sk1.mScale = self.mScale ∧
      ∀ (i : Nat) (j : Joint K), orig.m_joints[i]? = some j →
        ∃ j1, sk1.m_joints[i]? = some j1 ∧ j1.m_id = j.m_id ∧ j1.m_name = j.m_name ∧
          j1.m_channelCount = j.m_channelCount ∧ j1.m_rotOrder = j.m_rotOrder ∧
          j1.m_dofs = j.m_dofs ∧ j1.m_lowerLimits = j.m_lowerLimits ∧
          j1.m_upperLimits = j.m_upperLimits ∧ j1.m_local = j.m_local ∧
          j1.m_global = j.m_global ∧ j1.m_axisRotation = j.m_axisRotation ∧
          j1.m_translation = j.m_translation ∧ j1.AMC = j.AMC ∧
          j1.m_pParent.bind (fun p => sk1.m_joints[p]?.map (fun q => q.m_id))
            = j.m_pParent.bind (fun p => orig.m_joints[p]?.map (fun q => q.m_id)) ∧
          (j1.m_pParent = none ↔ j.m_pParent = none) ∧
          j1.m_children.map (fun c => sk1.m_joints[c]?.map (fun q => q.m_id))
            = j.m_children.map (fun c => orig.m_joints[c]?.map (fun q => q.m_id)) ∧
          j1 = j := by
  have h := copyLoop_spec hid hptr hroot honly orig.m_joints [] none rfl
    (by
      cases hr : orig.m_pRoot with
      | none => exact Or.inl rfl
      | some r => exact Or.inr ⟨rfl, r, Nat.zero_le _, rfl⟩)
  refine ⟨{ self with m_joints := orig.m_joints, m_pRoot := orig.m_pRoot, AMC := orig.AMC },
    ?_, rfl, rfl, rfl, rfl, ?_⟩
  · unfold Skeleton.assign
    rw [show Skeleton.copyLoop orig.m_joints orig.m_joints 0 (orig.m_joints.map Joint.assign) none
        = some (orig.m_joints, orig.m_pRoot) from h]
    rfl
  · intro i j hj
    exact ⟨j, hj, rfl, rfl, rfl, rfl, rfl, rfl, rfl, rfl, rfl, rfl, rfl, rfl, rfl, Iff.rfl, rfl, rfl⟩

/-- The skeleton of two joints is copied with its root, joint 0. -/
theorem C37_assign_witness :
    ∃ sk1, Skeleton.assign (exNoSkeleton : Skeleton ℤ) exTwoJoints = some sk1 ∧
      sk1.m_joints.length = 2 ∧ sk1.m_pRoot = some 0 ∧ sk1.m_joints = exTwoJoints.m_joints := by
  have hcases : ∀ (P : Nat → Joint ℤ → Prop),
      P 0 (exJoint "root" 0 6 none [1] ⟨⟨1, 2, 3⟩, identity3D⟩) →
      P 1 (exJoint "hip" 1 3 (some 0) [] ⟨⟨0, 10, 0⟩, rotY90⟩) →
      ∀ (i : Nat) (j : Joint ℤ), (exTwoJoints : Skeleton ℤ).m_joints[i]? = some j → P i j := by
    intro P h0 h1 i j h
    rcases i with _ | _ | i
    · cases h
      exact h0
    · cases h
      exact h1
    · cases h
  obtain ⟨sk1, h, hlen, _, hr, _, hj⟩ := C37_assign (exNoSkeleton : Skeleton ℤ) exTwoJoints
    (hcases _ rfl rfl)
    (hcases _ ⟨(fun p hp => by cases hp), by decide⟩
      ⟨(fun p hp => by cases hp; decide), by decide⟩)
    (fun r hr => by cases hr; decide)
    (hcases _ (by decide) (by decide))
  refine ⟨sk1, h, hlen, hr, ?_⟩
  apply List.ext_getElem?
  intro i
  cases hi : (exTwoJoints : Skeleton ℤ).m_joints[i]? with
  | none =>
    rw [List.getElem?_eq_none_iff] at hi ⊢
    omega
  | some j =>
    obtain ⟨j1, hj1, hrest⟩ := hj i j hi
    rw [hj1]
    exact congrArg some hrest.2.2.2.2.2.2.2.2.2.2.2.2.2.2.2

end C37

/-! ## C38: `SkeletonMesh::setPose` -/

section PoseLemmas

variable {K : Type} [CommRing K]

/-- With room for 16 entries per joint, `updateSkin` returns the mesh with the global
transforms of the joints as the animation pose and, flattened, at the head of
`local2global`. -/
theorem SkeletonMesh.updateSkin_parts (mesh : SkeletonMesh K) (skeleton : Skeleton K)
    (h : 16 * skeleton.m_joints.length ≤ mesh.local2global.length) :
    mesh.updateSkin skeleton = some { mesh with
      myAnimPose_Local2Global := skeleton.m_joints.map (fun j => j.m_global)
      local2global := (skeleton.m_joints.map (fun j => ToGLMatrix j.m_global)).flatten
        ++ mesh.local2global.drop (16 * skeleton.m_joints.length) } := by
  have hrun := SkeletonMesh.updateJoints_parts skeleton.m_joints
    { mesh with myAnimPose_Local2Global := [] }
    (mesh.local2global.take (16 * skeleton.m_joints.length)) []
    (mesh.local2global.drop (16 * skeleton.m_joints.length))
    (by simp) (by rw [List.length_take]; omega)
  simp only [List.length_nil, List.nil_append] at hrun
  exact hrun

end PoseLemmas

section C38

variable {K : Type} [Field K]

theorem poseJoint_links {frame : Frame K} {driver : Skeleton K} {j j1 : Joint K}
    (h : SkeletonMesh.poseJoint frame driver j = some j1) : j1.links = j.links := by
  unfold SkeletonMesh.poseJoint at h
  split at h
  · cases h
    rfl
  · split at h
    · cases h
    · split at h
      · cases h
      · cases h
        simp

/-- The loop of `setPose` returns when the frame has a rotation for every driving
joint that it looks up, and then every joint is what the body of the loop makes of
it. -/
theorem poseJoints_spec (frame : Frame K) (driver : Skeleton K) :
    ∀ (js : List (Joint K)),
      (∀ j ∈ js, ∃ j1, SkeletonMesh.poseJoint frame driver j = some j1) →
      ∃ js2, SkeletonMesh.poseJoints frame driver js = some js2 ∧ js2.length = js.length ∧
        ∀ (k : Nat) (j : Joint K), js[k]? = some j →
          ∃ j1, SkeletonMesh.poseJoint frame driver j = some j1 ∧ js2[k]? = some j1
  | [], _ => ⟨[], rfl, rfl, fun k j h => by simp at h⟩
  | j0 :: js, h => by
    obtain ⟨j1, hj1⟩ := h j0 (List.mem_cons_self _ _)
    obtain ⟨js2, hjs2, hlen, hget⟩ :=
      poseJoints_spec frame driver js (fun j hj => h j (List.mem_cons_of_mem _ hj))
    refine ⟨j1 :: js2, ?_, by simp [hlen], ?_⟩
    · simp only [SkeletonMesh.poseJoints, hj1, hjs2]
    · intro k j hk
      cases k with
      | zero =>
        simp only [List.getElem?_cons_zero, Option.some.injEq] at hk
        subst hk
        exact ⟨j1, hj1, by simp⟩
      | succ k =>
        simp only [List.getElem?_cons_succ] at hk ⊢
        exact hget k j hk

theorem clearGlobal_name {j j1 : Joint K} (h : j1.clearGlobal = j.clearGlobal) :
    j1.m_name = j.m_name :=
  show j1.clearGlobal.m_name = j.clearGlobal.m_name from by rw [h]

/-- The body of the loop of `setPose` on a joint of the BVH convention. -/
theorem poseJoint_bvh {frame : Frame K} {driver : Skeleton K} {j j1 : Joint K}
    (hbvh : j.AMC = false) (h : SkeletonMesh.poseJoint frame driver j = some j1) :
    j1.m_name = j.m_name ∧ j1.m_local.m_translation = j.m_local.m_translation ∧
    (∀ (p : Nat) (dj : Joint K), Skeleton.GetJointByName driver.m_joints j.m_name = some p →
      driver.m_joints[p]? = some dj →
      frame.GetJointRotation dj.m_id = some j1.m_local.m_rotation) ∧
    (Skeleton.GetJointByName driver.m_joints j.m_name = none → j1 = j) := by
  unfold SkeletonMesh.poseJoint at h
  split at h
  · rename_i hnone
    cases h
    refine ⟨rfl, rfl, ?_, fun _ => rfl⟩
    intro p dj hp
    rw [hnone] at hp
    cases hp
  · rename_i p hp
    split at h
    · cases h
    · rename_i dj hdj
      split at h
      · cases h
      · rename_i rot hrot
        cases h
        have hl := SetLocalRotation_bvh j rot (Or.inl hbvh)
        refine ⟨?_, ?_, ?_, ?_⟩
        · unfold Joint.SetLocalRotation
          split <;> rfl
        · rw [hl]
        · intro p1 dj1 hp1 hdj1
          rw [hp] at hp1
          cases hp1
          rw [hdj] at hdj1
          cases hdj1
          rw [hl]
          exact hrot
        · intro hnone
          rw [hnone] at hp
          cases hp

/-- C38: on a bind skeleton that is a tree holding every joint, with joints of the
BVH convention as `initSkeleton` loads them, an array `local2global` with 16 entries
per joint, and a frame with a rotation for the id of every driving joint looked up,
`SkeletonMesh::setPose(frame, driver)` returns.  The local translation of the root of
the bind skeleton is the root translation of the frame times 2.5.  The local rotation
of a bind joint whose name `GetJointByName` finds in the driving skeleton is the
rotation of the frame for the id of the joint found; a bind joint whose name is not
found keeps its local rotation; no other local translation changes.  Every joint
satisfies the forward-kinematics equation, and entry `k` of the animation pose
`myAnimPose_Local2Global` is the global transform of joint `k`. -/
theorem C38_setPose (mesh : SkeletonMesh K) (bind : Skeleton K) (frame : Frame K)
    (driver : Skeleton K) (r : Nat) (l : List Nat)
    (ht : bind.IsTreeWith r l) (hspan : ∀ k, k < bind.m_joints.length → k ∈ l)
    (hbvh : ∀ j ∈ bind.m_joints, j.AMC = false)
    (hroom : 16 * bind.m_joints.length ≤ mesh.local2global.length)
    (hframe : ∀ j ∈ bind.m_joints, ∀ (p : Nat) (dj : Joint K),
      Skeleton.GetJointByName driver.m_joints j.m_name = some p →
      driver.m_joints[p]? = some dj → ∃ rot, frame.GetJointRotation dj.m_id = some rot) :
    ∃ bind1 mesh1, mesh.setPose bind frame driver = some (bind1, mesh1) ∧
      bind1.m_joints.length = bind.m_joints.length ∧
      (∃ root1, bind1.m_joints[r]? = some root1 ∧
        root1.m_local.m_translation = frame.m_rootTranslation * ((5 : K) / 2)) ∧
      (∀ (k : Nat) (j : Joint K), bind.m_joints[k]? = some j →
        ∃ j1, bind1.m_joints[k]? = some j1 ∧ j1.m_name = j.m_name ∧
          (∀ (p : Nat) (dj : Joint K),
            Skeleton.GetJointByName driver.m_joints j.m_name = some p →
            driver.m_joints[p]? = some dj →
            frame.GetJointRotation dj.m_id = some j1.m_local.m_rotation) ∧
          (Skeleton.GetJointByName driver.m_joints j.m_name = none →
            j1.m_local.m_rotation = j.m_local.m_rotation) ∧
          (k ≠ r → j1.m_local.m_translation = j.m_local.m_translation) ∧
          fkHolds bind1.m_joints k ∧
          mesh1.myAnimPose_Local2Global[k]? = some j1.m_global) ∧
      mesh1.myAnimPose_Local2Global.length = bind.m_joints.length := by
  obtain ⟨root, hroot⟩ := preorder_valid _ _ _ _ ht.2.1 r (preorder_head _ ht.2.1)
  have hrlt : r < bind.m_joints.length := (List.getElem?_eq_some_iff.mp hroot).1
  obtain ⟨js1, hjs1⟩ : ∃ js1, js1 = bind.m_joints.set r
      (root.SetLocalTranslation (frame.m_rootTranslation * (INCH_2_CM : K))) := ⟨_, rfl⟩
  have hlen1 : js1.length = bind.m_joints.length := by rw [hjs1]; simp
  have hget1 : ∀ (k : Nat) (j : Joint K), bind.m_joints[k]? = some j →
      js1[k]? = some (if k = r then
        j.SetLocalTranslation (frame.m_rootTranslation * (INCH_2_CM : K)) else j) := by
    intro k j hk
    by_cases hkr : k = r
    · subst hkr
      rw [hroot] at hk
      cases hk
      rw [hjs1, if_pos rfl]
      exact List.getElem?_set_self hrlt
    · rw [hjs1, if_neg hkr, List.getElem?_set_ne (Ne.symm hkr)]
      exact hk
  -- every joint of `js1` comes from a joint of the bind skeleton with the same name
  have hfrom : ∀ j ∈ js1, ∃ j0 ∈ bind.m_joints, j.m_name = j0.m_name ∧ j.AMC = j0.AMC := by
    intro j hj
    obtain ⟨k, hk⟩ := List.getElem?_of_mem hj
    have hklt : k < bind.m_joints.length := by
      rw [← hlen1]; exact (List.getElem?_eq_some_iff.mp hk).1
    obtain ⟨j0, hj0⟩ : ∃ j0, bind.m_joints[k]? = some j0 :=
      ⟨_, List.getElem?_eq_getElem hklt⟩
    rw [hget1 k j0 hj0] at hk
    cases hk
    refine ⟨j0, List.mem_iff_getElem?.mpr ⟨k, hj0⟩, ?_, ?_⟩ <;> split <;> rfl
  have hbody : ∀ j ∈ js1, ∃ j1, SkeletonMesh.poseJoint frame driver j = some j1 := by
    intro j hj
    obtain ⟨j0, hj0, hname, _⟩ := hfrom j hj
    unfold SkeletonMesh.poseJoint
    cases hp : Skeleton.GetJointByName driver.m_joints j.m_name with
    | none => exact ⟨_, rfl⟩
    | some p =>
      obtain ⟨dj, hdj, _⟩ := GetJointByName_get hp
      rw [hname] at hp
      obtain ⟨rot, hrot⟩ := hframe j0 hj0 p dj hp hdj
      simp only [hdj, hrot]
      exact ⟨_, rfl⟩
  obtain ⟨js2, hjs2, hlen2, hget2⟩ := poseJoints_spec frame driver js1 hbody
  have hst : SameTree bind.m_joints js2 := by
    apply SameTree.st_of_get (hlen2.trans hlen1)
    intro k j hk
    obtain ⟨j1, hj1, hk2⟩ := hget2 k _ (hget1 k j hk)
    refine ⟨j1, hk2, (poseJoint_links hj1).trans ?_⟩
    split <;> simp
  have ht2 : Skeleton.IsTreeWith { bind with m_joints := js2 } r l := ht.congr hst rfl
  obtain ⟨js3, hrun, hsb, _, hfk⟩ := UpdateTransformation_tree ht2
  have hlen3 : js3.length = bind.m_joints.length :=
    hsb.sbg_length.symm.trans (hlen2.trans hlen1)
  have hskin := SkeletonMesh.updateSkin_parts mesh { bind with m_joints := js3 }
    (by rw [hlen3]; exact hroom)
  have hall : mesh.setPose bind frame driver = some ({ bind with m_joints := js3 },
      { mesh with
        myAnimPose_Local2Global := js3.map (fun j => j.m_global)
        local2global := (js3.map (fun j => ToGLMatrix j.m_global)).flatten
          ++ mesh.local2global.drop (16 * js3.length) }) := by
    unfold SkeletonMesh.setPose
    split
    · rename_i hnone
      rw [ht.1] at hnone
      cases hnone
    rename_i r1 hr1
    obtain rfl : r = r1 := by
      rw [ht.1] at hr1
      exact Option.some.inj hr1
    simp only [hroot, ← hjs1, hjs2]
    have hfk0 : Skeleton.UpdateFK { bind with m_joints := js2 } none
        = some { bind with m_joints := js3 } := by
      unfold Skeleton.UpdateFK
      simp only [Option.orElse, ht.1]
      rw [hrun]
      rfl
    rw [hfk0]
    dsimp only
    rw [hskin]
    rfl
  refine ⟨_, _, hall, hlen3, ?_, ?_, by simp [hlen3]⟩
  · obtain ⟨j1, hj1, hk2⟩ := hget2 r _ (hget1 r root hroot)
    obtain ⟨j3, hj3, hc⟩ := hsb.sbg_get hk2
    refine ⟨j3, hj3, ?_⟩
    rw [clearGlobal_local hc]
    rw [if_pos rfl] at hj1
    have hb : (root.SetLocalTranslation (frame.m_rootTranslation * (INCH_2_CM : K))).AMC
        = false := hbvh root (List.mem_iff_getElem?.mpr ⟨r, hroot⟩)
    rw [(poseJoint_bvh hb hj1).2.1]
    rfl
  · intro k j hk
    have hklt : k < bind.m_joints.length := (List.getElem?_eq_some_iff.mp hk).1
    obtain ⟨j1, hj1, hk2⟩ := hget2 k _ (hget1 k j hk)
    obtain ⟨j3, hj3, hc⟩ := hsb.sbg_get hk2
    have hjb : j.AMC = false := hbvh j (List.mem_iff_getElem?.mpr ⟨k, hk⟩)
    have hb : (if k = r then j.SetLocalTranslation (frame.m_rootTranslation * (INCH_2_CM : K))
        else j).AMC = false := by
      split
      · exact hjb
      · exact hjb
    have hn : (if k = r then j.SetLocalTranslation (frame.m_rootTranslation * (INCH_2_CM : K))
        else j).m_name = j.m_name := by
      split <;> rfl
    have hr : (if k = r then j.SetLocalTranslation (frame.m_rootTranslation * (INCH_2_CM : K))
        else j).m_local.m_rotation = j.m_local.m_rotation := by
      split <;> rfl
    obtain ⟨h1, h2, h3, h4⟩ := poseJoint_bvh hb hj1
    rw [hn] at h1 h3 h4
    refine ⟨j3, hj3, ?_, ?_, ?_, ?_, hfk k (hspan k hklt), ?_⟩
    · rw [clearGlobal_name hc]
      exact h1
    · intro p dj hp hdj
      rw [clearGlobal_local hc]
      exact h3 p dj hp hdj
    · intro hnone
      rw [clearGlobal_local hc, h4 hnone]
      exact hr
    · intro hkr
      rw [clearGlobal_local hc, h2, if_neg hkr]
    · simp [hj3]

/-- C38 (witness): the bind skeleton of two joints, `root` and `hip`, is driven by a
skeleton whose only joint is `hip` with id 0, and a frame at (1,2,3) whose rotation 0
is the quarter turn about X.  The root moves to (5/2, 5, 15/2) and keeps its
rotation; the hip gets the quarter turn about X. -/
theorem C38_setPose_witness :
    ∃ bind1 mesh1,
      (exMesh : SkeletonMesh ℚ).setPose exTwoJoints ⟨⟨1, 2, 3⟩, [rotX90]⟩ exDriver
        = some (bind1, mesh1) ∧
      bind1.m_joints.map (fun j => j.m_local)
        = [⟨⟨5 / 2, 5, 15 / 2⟩, identity3D⟩, ⟨⟨0, 10, 0⟩, rotX90⟩] ∧
      mesh1.myAnimPose_Local2Global
        = [⟨⟨5 / 2, 5, 15 / 2⟩, identity3D⟩, ⟨⟨5 / 2, 15, 15 / 2⟩, rotX90⟩] := by
  obtain ⟨bind1, mesh1, hrun, _, _, _, _⟩ :=
    C38_setPose (exMesh : SkeletonMesh ℚ) exTwoJoints ⟨⟨1, 2, 3⟩, [rotX90]⟩ exDriver 0 [0, 1]
      (by decide!) (by decide) (by decide!) (by decide)
      (by
        intro j _ p dj hp hdj
        have hplt : p < 1 := (List.getElem?_eq_some_iff.mp hdj).1
        obtain rfl : p = 0 := by omega
        cases hdj
        exact ⟨rotX90, rfl⟩)
  have hval : (exMesh : SkeletonMesh ℚ).setPose exTwoJoints ⟨⟨1, 2, 3⟩, [rotX90]⟩ exDriver
      = some ((bind1, mesh1).1, (bind1, mesh1).2) := hrun
  refine ⟨bind1, mesh1, hrun, ?_, ?_⟩
  · have : ((exMesh : SkeletonMesh ℚ).setPose exTwoJoints ⟨⟨1, 2, 3⟩, [rotX90]⟩ exDriver).map
        (fun x => x.1.m_joints.map (fun j => j.m_local))
        = some [⟨⟨5 / 2, 5, 15 / 2⟩, identity3D⟩, ⟨⟨0, 10, 0⟩, rotX90⟩] := by decide!
    rw [hrun] at this
    exact Option.some.inj this
  · have : ((exMesh : SkeletonMesh ℚ).setPose exTwoJoints ⟨⟨1, 2, 3⟩, [rotX90]⟩ exDriver).map
        (fun x => x.2.myAnimPose_Local2Global)
        = some [⟨⟨5 / 2, 5, 15 / 2⟩, identity3D⟩, ⟨⟨5 / 2, 15, 15 / 2⟩, rotX90⟩] := by decide!
    rw [hrun] at this
    exact Option.some.inj this

end C38

/-! ## C39: reading a bone block of an ASF file -/

section BoneLemmas

variable {K : Type} [LinearOrderedField K] [CMath K]

theorem dofBits_X (x y z : Bool) : (dofBits x y z &&& DOF_X ≠ 0) ↔ x = true := by
  cases x <;> cases y <;> cases z <;> decide

theorem dofBits_Y (x y z : Bool) : (dofBits x y z &&& DOF_Y ≠ 0) ↔ y = true := by
  cases x <;> cases y <;> cases z <;> decide

theorem dofBits_Z (x y z : Bool) : (dofBits x y z &&& DOF_Z ≠ 0) ↔ z = true := by
  cases x <;> cases y <;> cases z <;> decide

theorem dofBits_or_X (x y z : Bool) : dofBits x y z ||| DOF_X = dofBits true y z := by
  cases x <;> cases y <;> cases z <;> decide

theorem dofBits_or_Y (x y z : Bool) : dofBits x y z ||| DOF_Y = dofBits x true z := by
  cases x <;> cases y <;> cases z <;> decide

theorem dofBits_or_Z (x y z : Bool) : dofBits x y z ||| DOF_Z = dofBits x y true := by
  cases x <;> cases y <;> cases z <;> decide

/-- The `strtok` loop of the `dof` branch sets the bits of the tokens `rx`, `ry` and
`rz` that occur. -/
theorem dofTokens_bits :
    ∀ (tokens : List String) (x y z : Bool),
      Skeleton.dofTokens tokens (dofBits x y z)
        = dofBits (x || decide ("rx" ∈ tokens)) (y || decide ("ry" ∈ tokens))
            (z || decide ("rz" ∈ tokens))
  | [], x, y, z => by simp [Skeleton.dofTokens]
  | token :: rest, x, y, z => by
    rw [Skeleton.dofTokens]
    by_cases h1 : token = "rx"
    · subst h1
      have n2 : ¬ "rx" = "ry" := by decide
      have n3 : ¬ "rx" = "rz" := by decide
      simp only [if_true, n2, n3, if_false, dofBits_or_X, dofTokens_bits rest]
      simp
    · by_cases h2 : token = "ry"
      · subst h2
        have n3 : ¬ "ry" = "rz" := by decide
        simp only [if_true, h1, n3, if_false, dofBits_or_Y, dofTokens_bits rest]
        simp
      · by_cases h3 : token = "rz"
        · subst h3
          simp only [if_true, h1, h2, if_false, dofBits_or_Z, dofTokens_bits rest]
          simp
        · simp only [h1, h2, h3, if_false, dofTokens_bits rest]
          have e1 : ("rx" = token) = False := eq_false (fun h => h1 h.symm)
          have e2 : ("ry" = token) = False := eq_false (fun h => h2 h.symm)
          have e3 : ("rz" = token) = False := eq_false (fun h => h3 h.symm)
          simp [e1, e2, e3]

/-- The `dof` branch on the line `dof` followed by the tokens. -/
theorem dofTokens_line (tokens : List String) :
    Skeleton.dofTokens ("dof" :: tokens) 0
      = dofBits (decide ("rx" ∈ tokens)) (decide ("ry" ∈ tokens)) (decide ("rz" ∈ tokens)) := by
  rw [Skeleton.dofTokens]
  have n1 : ¬ "dof" = "rx" := by decide
  have n2 : ¬ "dof" = "ry" := by decide
  have n3 : ¬ "dof" = "rz" := by decide
  simp only [n1, n2, n3, if_false]
  have := dofTokens_bits tokens false false false
  simpa [dofBits] using this

theorem dofMaskOf_bits (tokens : List String) :
    dofMaskOf tokens
      = dofBits (decide ("rx" ∈ tokens)) (decide ("ry" ∈ tokens)) (decide ("rz" ∈ tokens)) := by
  simp [dofMaskOf, dofBits]

/-- More fuel does not change a result of the loop. -/
theorem readBlockLoop_mono :
    ∀ (fuel fuel1 : Nat) (buffer : AsfLine K) (keyword : String) (st : AsfBlockState K)
      (inFile : List (AsfLine K)) (r : AsfBlockState K × List (AsfLine K)),
      Skeleton.readBlockLoop fuel buffer keyword st inFile = some r → fuel ≤ fuel1 →
      Skeleton.readBlockLoop fuel1 buffer keyword st inFile = some r
  | 0, _, _, _, _, _, _, h, _ => by
    rw [Skeleton.readBlockLoop] at h
    cases h
  | fuel + 1, 0, _, _, _, _, _, _, hle => by omega
  | fuel + 1, fuel1 + 1, buffer, keyword, st, inFile, r, h, hle => by
    rw [Skeleton.readBlockLoop] at h ⊢
    by_cases hk : keyword = "end"
    · rw [if_pos hk] at h ⊢
      exact h
    · rw [if_neg hk] at h ⊢
      cases hr : Skeleton.readKey buffer keyword st inFile with
      | none =>
        rw [hr] at h
        cases h
      | some v =>
        obtain ⟨st1, inFile1⟩ := v
        rw [hr] at h
        cases inFile1 with
        | nil => cases h
        | cons line inFile2 =>
          exact readBlockLoop_mono fuel fuel1 _ _ _ _ r h (by omega)

/-- One round of the loop on a line whose keyword is not `end`. -/
theorem readBlockLoop_step {fuel : Nat} {buffer line : AsfLine K} {keyword keyword1 : String}
    {st st1 : AsfBlockState K} {inFile inFile2 : List (AsfLine K)}
    (hk : keyword ≠ "end")
    (hkey : Skeleton.readKey buffer keyword st inFile = some (st1, line :: inFile2))
    (hw : line.words.head? = some keyword1) :
    Skeleton.readBlockLoop (fuel + 1) buffer keyword st inFile
      = Skeleton.readBlockLoop fuel line keyword1 st1 inFile2 := by
  rw [Skeleton.readBlockLoop, if_neg hk, hkey]
  dsimp only
  rw [hw]
  rfl

theorem readKey_id (buffer : AsfLine K) (st : AsfBlockState K) (inFile : List (AsfLine K)) :
    Skeleton.readKey buffer "id" st inFile = some (st, inFile) := by
  unfold Skeleton.readKey
  rw [if_pos rfl]

theorem readKey_name (buffer : AsfLine K) (st : AsfBlockState K) (inFile : List (AsfLine K))
    (name : String) (h : buffer.words[1]? = some name) :
    Skeleton.readKey buffer "name" st inFile = some ({ st with name := some name }, inFile) := by
  unfold Skeleton.readKey
  rw [if_neg (by decide), if_pos rfl, h]
  rfl

theorem readKey_direction (buffer : AsfLine K) (st : AsfBlockState K) (inFile : List (AsfLine K))
    (x y z : K) (h : buffer.floats = [x, y, z]) :
    Skeleton.readKey buffer "direction" st inFile
      = some ({ st with direction := ⟨x, y, z⟩ }, inFile) := by
  unfold Skeleton.readKey
  rw [if_neg (by decide), if_neg (by decide), if_pos rfl, h]

theorem readKey_length (buffer : AsfLine K) (st : AsfBlockState K) (inFile : List (AsfLine K))
    (length : K) (h : buffer.floats = [length]) :
    Skeleton.readKey buffer "length" st inFile
      = some ({ st with
          length := some length
          translation := st.direction * length * (MOCAP_SCALE : K) }, inFile) := by
  unfold Skeleton.readKey
  rw [if_neg (by decide), if_neg (by decide), if_neg (by decide), if_pos rfl, h]
  rfl

theorem readKey_axis (buffer : AsfLine K) (st : AsfBlockState K) (inFile : List (AsfLine K))
    (x y z : K) (h : buffer.floats = [x, y, z]) :
    Skeleton.readKey buffer "axis" st inFile
      = some ({ st with
          axisRotation := mat3.FromEulerAnglesZYX ((⟨x, y, z⟩ : vec3 K) * (Deg2Rad : K)) },
          inFile) := by
  unfold Skeleton.readKey
  rw [if_neg (by decide), if_neg (by decide), if_neg (by decide), if_neg (by decide),
    if_pos rfl, h]

theorem readKey_dof (buffer : AsfLine K) (st : AsfBlockState K) (inFile : List (AsfLine K)) :
    Skeleton.readKey buffer "dof" st inFile
      = some ({ st with dofs := Skeleton.dofTokens buffer.words 0 }, inFile) := by
  unfold Skeleton.readKey
  rw [if_neg (by decide), if_neg (by decide), if_neg (by decide), if_neg (by decide),
    if_neg (by decide), if_pos rfl]

theorem readKey_limits (buffer : AsfLine K) (st : AsfBlockState K) (inFile : List (AsfLine K)) :
    Skeleton.readKey buffer "limits" st inFile
      = match Skeleton.readLimits st.dofs buffer inFile st.lower st.upper with
        | none => none
        | some (lower, upper, inFile1) =>
          some ({ st with lower := lower, upper := upper }, inFile1) := by
  unfold Skeleton.readKey
  rw [if_neg (by decide), if_neg (by decide), if_neg (by decide), if_neg (by decide),
    if_neg (by decide), if_neg (by decide), if_pos rfl]

/-- The `limits` branch on lines that hold one pair per set DOF reads all of them
and stops before the line behind them. -/
theorem readLimits_lines (x y z : Bool) (limLines : List (AsfLine K)) (pairs : List (K × K))
    (hmap : limLines.map (fun l => l.limit) = pairs.map some)
    (hlen : pairs.length = (if x then 1 else 0) + (if y then 1 else 0) + (if z then 1 else 0))
    (hpos : pairs ≠ []) (lEnd : AsfLine K) (rest : List (AsfLine K)) (lower upper : vec3 K) :
    ∃ l0 more lower1 upper1, limLines = l0 :: more ∧
      Skeleton.readLimits (dofBits x y z) l0 (more ++ lEnd :: rest) lower upper
        = some (lower1, upper1, lEnd :: rest) := by
  have hX := dofBits_X x y z
  have hY := dofBits_Y x y z
  have hZ := dofBits_Z x y z
  unfold Skeleton.readLimits
  simp only [hX, hY, hZ]
  rcases pairs with _ | ⟨p1, _ | ⟨p2, _ | ⟨p3, _ | ⟨p4, ps⟩⟩⟩⟩
  · exact absurd rfl hpos
  · obtain ⟨l1, hl1⟩ : ∃ l1, limLines = [l1] := by
      rcases limLines with _ | ⟨l1, _ | ⟨l2, ls⟩⟩
      · simp at hmap
      · exact ⟨l1, rfl⟩
      · simp at hmap
    subst hl1
    simp only [List.map_cons, List.map_nil, List.cons.injEq, and_true] at hmap
    refine ⟨l1, [], ?_⟩
    cases x <;> cases y <;> cases z <;> simp at hlen <;> simp [hmap]
  · obtain ⟨l1, l2, hl⟩ : ∃ l1 l2, limLines = [l1, l2] := by
      rcases limLines with _ | ⟨l1, _ | ⟨l2, _ | ⟨l3, ls⟩⟩⟩
      · simp at hmap
      · simp at hmap
      · exact ⟨l1, l2, rfl⟩
      · simp at hmap
    subst hl
    simp only [List.map_cons, List.map_nil, List.cons.injEq, and_true] at hmap
    refine ⟨l1, [l2], ?_⟩
    cases x <;> cases y <;> cases z <;> simp at hlen <;> simp [hmap]
  · obtain ⟨l1, l2, l3, hl⟩ : ∃ l1 l2 l3, limLines = [l1, l2, l3] := by
      rcases limLines with _ | ⟨l1, _ | ⟨l2, _ | ⟨l3, _ | ⟨l4, ls⟩⟩⟩⟩
      · simp at hmap
      · simp at hmap
      · simp at hmap
      · exact ⟨l1, l2, l3, rfl⟩
      · simp at hmap
    subst hl
    simp only [List.map_cons, List.map_nil, List.cons.injEq, and_true] at hmap
    refine ⟨l1, [l2, l3], ?_⟩
    cases x <;> cases y <;> cases z <;> simp at hlen
    simp [hmap]
  · exfalso
    cases x <;> cases y <;> cases z <;> simp at hlen

end BoneLemmas

section BoneJoint

variable {K : Type} [CommRing K]

/-- The joint that the end of `ReadJointFromASFFile` pushes, field by field. -/
theorem ReadJointFromASFFile_fields (D : K) (sk : Skeleton K) (bone : AsfBone K) :
    ∃ j : Joint K,
      Skeleton.ReadJointFromASFFile D sk bone = { sk with m_joints := sk.m_joints ++ [j] } ∧
      j.m_id = (sk.m_joints.length : Int) ∧ j.m_channelCount = 3 ∧ j.AMC = sk.AMC ∧
      j.m_translation = bone.translation ∧ j.m_axisRotation = bone.axisRotation ∧
      j.m_local.m_translation = bone.translation ∧ j.m_dofs = bone.dofs ∧
      j.m_lowerLimits = bone.lower ∧ j.m_upperLimits = bone.upper := by
  refine ⟨_, rfl, ?_, ?_, rfl, ?_, ?_, ?_, ?_, rfl, rfl⟩
  · simp only [Joint.SetJointLimits, Joint.SetDOFs, Joint.SetNumChannels,
      SetRotationOrder_id, SetName_id, SetID_id]
  · simp only [Joint.SetJointLimits, Joint.SetDOFs]
    rw [SetRotationOrder_eq D]
    rfl
  · simp only [Joint.SetJointLimits, Joint.SetDOFs]
    rw [SetRotationOrder_eq D, Joint.SetNumChannels, SetName_eq, SetID_eq]
  · simp only [Joint.SetJointLimits, Joint.SetDOFs]
    rw [SetRotationOrder_eq D, Joint.SetNumChannels, SetName_eq, SetID_eq]
  · simp only [Joint.SetJointLimits, Joint.SetDOFs]
    rw [SetRotationOrder_eq D, Joint.SetNumChannels, SetName_eq, SetID_eq]
  · simp only [Joint.SetJointLimits, Joint.SetDOFs]

end BoneJoint

section BoneBlocks

variable {K : Type} [LinearOrderedField K] [CMath K]


/-- The first five rounds of the loop on a block in the order of the format. -/
theorem readBlockLoop_head (b : AsfBlock K) (fuel : Nat)
    (lId lName lDir lLen lAxis line : AsfLine K) (keyword : String) (inFile : List (AsfLine K))
    (hname : lName.words.head? = some "name") (hname1 : lName.words[1]? = some b.name)
    (hdir : lDir.words.head? = some "direction")
    (hdir1 : lDir.floats = [b.direction.x, b.direction.y, b.direction.z])
    (hlen : lLen.words.head? = some "length") (hlen1 : lLen.floats = [b.length])
    (haxis : lAxis.words.head? = some "axis")
    (haxis1 : lAxis.floats = [b.axis.x, b.axis.y, b.axis.z])
    (hline : line.words.head? = some keyword) :
    Skeleton.readBlockLoop (fuel + 5) lId "id" AsfBlockState.init
        (lName :: lDir :: lLen :: lAxis :: line :: inFile)
      = Skeleton.readBlockLoop fuel line keyword (stateAfterAxis b) inFile := by
  rw [show fuel + 5 = (fuel + 4) + 1 from rfl,
    readBlockLoop_step (by decide) (readKey_id _ _ _) hname,
    show fuel + 4 = (fuel + 3) + 1 from rfl,
    readBlockLoop_step (by decide) (readKey_name _ _ _ b.name hname1) hdir,
    show fuel + 3 = (fuel + 2) + 1 from rfl,
    readBlockLoop_step (by decide) (readKey_direction _ _ _ _ _ _ hdir1) hlen,
    show fuel + 2 = (fuel + 1) + 1 from rfl,
    readBlockLoop_step (by decide) (readKey_length _ _ _ _ hlen1) haxis,
    readBlockLoop_step (by decide) (readKey_axis _ _ _ _ _ _ haxis1) hline]
  rfl

theorem readBlockLoop_end (fuel : Nat) (buffer : AsfLine K) (st : AsfBlockState K)
    (inFile : List (AsfLine K)) :
    Skeleton.readBlockLoop (fuel + 1) buffer "end" st inFile = some (st, inFile) := by
  rw [Skeleton.readBlockLoop, if_pos rfl]

/-- The loop on a block in the order of the format returns at the line behind the
block, with the name, the bone translation, the axis rotation and the DOF mask of
the block. -/
theorem readBlock_spec (b : AsfBlock K) (lId : AsfLine K) (tail rest : List (AsfLine K))
    (hb : b.ReadAs (lId :: tail)) :
    ∃ st, Skeleton.readBlockLoop ((tail ++ rest).length + 1) lId "id" AsfBlockState.init
        (tail ++ rest) = some (st, rest) ∧
      st.name = some b.name ∧
      st.translation = b.direction * b.length * (MOCAP_SCALE : K) ∧
      st.axisRotation = mat3.FromEulerAnglesZYX (b.axis * (Deg2Rad : K)) ∧
      st.dofs = dofMaskOf (b.dof.getD []) := by
  obtain ⟨lId1, lName, lDir, lLen, lAxis, lEnd, dofLines, limLines, hls, hid, hname, hname1,
    hdir, hdir1, hlen, hlen1, haxis, haxis1, hend, hdof, hlim, hcount⟩ := hb
  simp only [List.cons_append, List.nil_append, List.cons.injEq] at hls
  obtain ⟨rfl, htail⟩ := hls
  have hd : (⟨b.direction.x, b.direction.y, b.direction.z⟩ : vec3 K) = b.direction := rfl
  have ha : (⟨b.axis.x, b.axis.y, b.axis.z⟩ : vec3 K) = b.axis := rfl
  have hmask0 : dofMaskOf [] = 0 := by decide
  cases hbd : b.dof with
  | none =>
    rw [hbd] at hdof hcount
    simp only [Option.map_none', Option.toList_none, List.map_eq_nil_iff] at hdof
    subst hdof
    have hl0 : b.limits = [] := by
      rcases hcount with h | ⟨h, _⟩
      · exact h
      · simp only [Option.getD_none, dofCountOf, List.not_mem_nil, if_false] at h
        exact List.length_eq_zero.mp h
    rw [hl0] at hlim
    simp only [List.map_nil, List.map_eq_nil_iff] at hlim
    subst hlim
    simp only [List.nil_append] at htail
    subst htail
    refine ⟨stateAfterAxis b, ?_, rfl, ?_, ?_, ?_⟩
    · apply readBlockLoop_mono 6 _ _ _ _ _ _ _ (by simp)
      simp only [List.cons_append, List.nil_append]
      rw [show (6 : Nat) = 1 + 5 from rfl,
        readBlockLoop_head b 1 lId lName lDir lLen lAxis lEnd "end" rest hname hname1 hdir hdir1
          hlen hlen1 haxis haxis1 hend]
      exact readBlockLoop_end 0 _ _ _
    · show (⟨b.direction.x, b.direction.y, b.direction.z⟩ : vec3 K) * b.length * (MOCAP_SCALE : K) = _
      rw [hd]
    · show mat3.FromEulerAnglesZYX ((⟨b.axis.x, b.axis.y, b.axis.z⟩ : vec3 K) * (Deg2Rad : K)) = _
      rw [ha]
    · simp only [Option.getD_none, hmask0]
      rfl
  | some tokens =>
    rw [hbd] at hdof hcount
    simp only [Option.map_some', Option.toList_some, Option.getD_some] at hdof hcount
    obtain ⟨lDof, hlDof⟩ : ∃ lDof, dofLines = [lDof] := by
      rcases dofLines with _ | ⟨l1, _ | ⟨l2, ls⟩⟩
      · simp at hdof
      · exact ⟨l1, rfl⟩
      · simp at hdof
    subst hlDof
    simp only [List.map_cons, List.map_nil, List.cons.injEq, and_true] at hdof
    have hdofk : lDof.words.head? = some "dof" := by rw [hdof]; rfl
    have hbits := dofTokens_line tokens
    rw [← hdof] at hbits
    by_cases hl0 : b.limits = []
    · rw [hl0] at hlim
      simp only [List.map_nil, List.map_eq_nil_iff] at hlim
      subst hlim
      simp only [List.cons_append, List.nil_append, List.append_nil] at htail
      subst htail
      refine ⟨{ stateAfterAxis b with dofs := Skeleton.dofTokens lDof.words 0 }, ?_, rfl,
        ?_, ?_, ?_⟩
      · apply readBlockLoop_mono 7 _ _ _ _ _ _ _ (by simp)
        simp only [List.cons_append, List.nil_append]
        rw [show (7 : Nat) = 2 + 5 from rfl,
          readBlockLoop_head b 2 lId lName lDir lLen lAxis lDof "dof" (lEnd :: rest) hname
            hname1 hdir hdir1 hlen hlen1 haxis haxis1 hdofk,
          readBlockLoop_step (by decide) (readKey_dof _ _ _) hend]
        exact readBlockLoop_end 0 _ _ _
      · show (⟨b.direction.x, b.direction.y, b.direction.z⟩ : vec3 K) * b.length * (MOCAP_SCALE : K)
          = _
        rw [hd]
      · show mat3.FromEulerAnglesZYX ((⟨b.axis.x, b.axis.y, b.axis.z⟩ : vec3 K) * (Deg2Rad : K)) = _
        rw [ha]
      · show Skeleton.dofTokens lDof.words 0 = _
        rw [Option.getD_some, hbits, dofMaskOf_bits]
    · rcases hcount with h | ⟨hn, l0, hl0h, hl0k⟩
      · exact absurd h hl0
      obtain ⟨l1, more, lower1, upper1, hlines, hread⟩ :=
        readLimits_lines (decide ("rx" ∈ tokens)) (decide ("ry" ∈ tokens))
          (decide ("rz" ∈ tokens)) limLines b.limits hlim
          (by
            rw [hn]
            simp [dofCountOf])
          hl0 lEnd rest ⟨0, 0, 0⟩ ⟨0, 0, 0⟩
      subst hlines
      simp only [List.head?_cons, Option.some.injEq] at hl0h
      subst hl0h
      simp only [List.cons_append, List.nil_append, List.append_assoc] at htail
      subst htail
      refine ⟨{ stateAfterAxis b with
          dofs := Skeleton.dofTokens lDof.words 0, lower := lower1, upper := upper1 }, ?_, rfl,
        ?_, ?_, ?_⟩
      · apply readBlockLoop_mono 8 _ _ _ _ _ _ _ (by simp; omega)
        simp only [List.cons_append, List.nil_append, List.append_assoc]
        have hkey : Skeleton.readKey l1 "limits"
            { stateAfterAxis b with dofs := Skeleton.dofTokens lDof.words 0 }
            (more ++ lEnd :: rest)
            = some ({ stateAfterAxis b with
                dofs := Skeleton.dofTokens lDof.words 0, lower := lower1, upper := upper1 },
              lEnd :: rest) := by
          rw [readKey_limits]
          show (match Skeleton.readLimits (Skeleton.dofTokens lDof.words 0) l1
              (more ++ lEnd :: rest) ⟨0, 0, 0⟩ ⟨0, 0, 0⟩ with
            | none => none
            | some (lower, upper, inFile1) =>
              some ({ stateAfterAxis b with
                dofs := Skeleton.dofTokens lDof.words 0, lower := lower, upper := upper },
                inFile1)) = _
          rw [hbits, hread]
        rw [show (8 : Nat) = 3 + 5 from rfl,
          readBlockLoop_head b 3 lId lName lDir lLen lAxis lDof "dof"
            (l1 :: (more ++ lEnd :: rest)) hname hname1 hdir hdir1 hlen hlen1 haxis haxis1 hdofk,
          readBlockLoop_step (by decide) (readKey_dof _ _ _) hl0k,
          readBlockLoop_step (by decide) hkey hend]
        exact readBlockLoop_end 0 _ _ _
      · show (⟨b.direction.x, b.direction.y, b.direction.z⟩ : vec3 K) * b.length * (MOCAP_SCALE : K)
          = _
        rw [hd]
      · show mat3.FromEulerAnglesZYX ((⟨b.axis.x, b.axis.y, b.axis.z⟩ : vec3 K) * (Deg2Rad : K)) = _
        rw [ha]
      · show Skeleton.dofTokens lDof.words 0 = _
        rw [Option.getD_some, hbits, dofMaskOf_bits]

end BoneBlocks

section C39

/-- C39: for every bone block with its entries in the order of the format (`id`,
`name`, `direction`, `length`, `axis`, then `dof` and `limits` if present, then
`end`), read into a skeleton marked AMC as `LoadASFFile` marks it,
`Skeleton::ReadJointFromASFFile` returns at the line behind the block and has
appended one joint.  The joint has the number of joints before as id, 3 channels and
the AMC convention; its bone translation and its local translation are
direction x length x `MOCAP_SCALE`; its axis rotation is Rz(az) Ry(ay) Rx(ax) for the
axis angles in degrees; its DOF mask holds the bits that the tokens `rx`, `ry`, `rz`
of the `dof` line name, and no bit when there is no `dof` line. -/
theorem C39_ReadJointFromASFFile (sk : Skeleton ℝ) (b : AsfBlock ℝ) (ls rest : List (AsfLine ℝ))
    (hamc : sk.AMC = true) (hb : b.ReadAs ls) :
    ∃ joint, Skeleton.ReadJointFromASFLines sk (ls ++ rest)
        = some ({ sk with m_joints := sk.m_joints ++ [joint] }, rest) ∧
      joint.m_id = (sk.m_joints.length : Int) ∧ joint.m_channelCount = 3 ∧
      joint.AMC = true ∧
      joint.m_translation = b.direction * b.length * (MOCAP_SCALE : ℝ) ∧
      joint.m_axisRotation
        = rotZ (b.axis.z * Deg2Rad) * rotY (b.axis.y * Deg2Rad) * rotX (b.axis.x * Deg2Rad) ∧
      joint.m_local.m_translation = b.direction * b.length * (MOCAP_SCALE : ℝ) ∧
      joint.m_dofs = dofMaskOf (b.dof.getD []) := by
  obtain ⟨lId, tail, hls, hid⟩ : ∃ lId tail, ls = lId :: tail ∧
      lId.words.head? = some "id" := by
    obtain ⟨lId, lName, lDir, lLen, lAxis, lEnd, dofLines, limLines, hls, hid, _⟩ := hb
    exact ⟨lId, _, hls, hid⟩
  subst hls
  obtain ⟨st, hrun, hname, htr, hax, hdofs⟩ := readBlock_spec b lId tail rest hb
  obtain ⟨joint, hjoint, h1, h2, h3, h4, h5, h6, h7, _, _⟩ :=
    ReadJointFromASFFile_fields Deg2Rad sk
      { name := b.name, translation := st.translation, axisRotation := st.axisRotation,
        dofs := st.dofs, lower := st.lower, upper := st.upper }
  refine ⟨joint, ?_, h1, h2, h3.trans hamc, h4.trans htr, ?_, h6.trans htr, h7.trans hdofs⟩
  · unfold Skeleton.ReadJointFromASFLines
    simp only [List.cons_append, hid, hrun, AsfBlockState.bone, hname, Option.map_some',
      hjoint]
  · rw [h5]
    show st.axisRotation = _
    rw [hax, (FromEulerAngles_eq _).2.2.2.2.2]
    have e : ∀ (v : vec3 ℝ) (d : ℝ), v * d = ⟨d * v.x, d * v.y, d * v.z⟩ := fun _ _ => rfl
    rw [e, mul_comm Deg2Rad b.axis.x, mul_comm Deg2Rad b.axis.y, mul_comm Deg2Rad b.axis.z]

/-- C39 (witness): the bone of the second end-to-end scenario.  The bone translation
is (10 x 0.05644444, 0, 0), the axis rotation is the identity, and all three DOF bits
are set. -/
theorem C39_ReadJointFromASFFile_witness :
    ∃ joint, Skeleton.ReadJointFromASFLines (exMarkedAMC : Skeleton ℝ) (exBoneLines ++ [])
        = some ({ (exMarkedAMC : Skeleton ℝ) with m_joints := exMarkedAMC.m_joints ++ [joint] }, []) ∧
      joint.m_id = 0 ∧ joint.m_channelCount = 3 ∧ joint.AMC = true ∧
      joint.m_translation = ⟨10 * 0.05644444, 0, 0⟩ ∧
      joint.m_axisRotation = identity3D ∧
      joint.m_local.m_translation = ⟨10 * 0.05644444, 0, 0⟩ ∧
      joint.m_dofs = 0x111 := by
  obtain ⟨joint, hrun, h1, h2, h3, h4, h5, h6, h7⟩ :=
    C39_ReadJointFromASFFile exMarkedAMC exBoneBlock exBoneLines [] rfl
      ⟨_, _, _, _, _, _, [⟨["dof", "rx", "ry", "rz"], [], none⟩], [], rfl, rfl, rfl, rfl, rfl,
        rfl, rfl, rfl, rfl, rfl, rfl, rfl, rfl, Or.inl rfl⟩
  have e : ∀ (v : vec3 ℝ) (d : ℝ), v * d = ⟨d * v.x, d * v.y, d * v.z⟩ := fun _ _ => rfl
  have ht : (exBoneBlock : AsfBlock ℝ).direction * (exBoneBlock : AsfBlock ℝ).length
        * (MOCAP_SCALE : ℝ)
      = (⟨10 * 0.05644444, 0, 0⟩ : vec3 ℝ) := by
    rw [e, e]
    simp only [exBoneBlock, MOCAP_SCALE]
    norm_num
  refine ⟨joint, hrun, h1, h2, h3, h4.trans ht, ?_, h6.trans ht, ?_⟩
  · rw [h5]
    simp only [exBoneBlock, zero_mul, rotX, rotY, rotZ, CMath.cos, CMath.sin, Real.cos_zero,
      Real.sin_zero, neg_zero]
    exact (mat3.mul_one _).trans (mat3.mul_one _)
  · rw [h7]
    decide

end C39

/-! ## C40: `mat3::Inverse` -/

section InverseLemmas

variable {K : Type} [LinearOrderedField K]

theorem vec3.div_def (v : vec3 K) (d : K) :
    v / d = ⟨v.x * (1 / d), v.y * (1 / d), v.z * (1 / d)⟩ := rfl

/-- The pivot row is one of the rows `j` to 2 and has the largest entry of column `j`
among them in absolute value. -/
theorem mat3.pivot_spec (a : mat3 K) (j : Nat) (hj : j < 3) :
    j ≤ a.pivot j ∧ a.pivot j < 3 ∧
      ∀ i, j ≤ i → i < 3 → |(a.row i).get j| ≤ |(a.row (a.pivot j)).get j| := by
  interval_cases j
  · simp only [mat3.pivot, List.range', List.foldl]
    split_ifs with h1 h2 h3
    all_goals
      refine ⟨by omega, by omega, ?_⟩
      intro i _ hi
      interval_cases i
    all_goals first
      | exact le_refl _
      | (simp only [gt_iff_lt, not_lt] at *; linarith)
  · simp only [mat3.pivot, List.range', List.foldl]
    split_ifs with h1
    all_goals
      refine ⟨by omega, by omega, ?_⟩
      intro i _ hi
      interval_cases i
    all_goals first
      | exact le_refl _
      | (simp only [gt_iff_lt, not_lt] at *; linarith)
  · simp only [mat3.pivot, List.range', List.foldl]
    refine ⟨le_refl _, by omega, ?_⟩
    intro i _ hi
    interval_cases i
    exact le_refl _

theorem mat3.swapRows_mul (b m : mat3 K) (i j : Nat) (hi : i < 3) (hj : j < 3) :
    b.swapRows i j * m = (b * m).swapRows i j := by
  interval_cases i <;> interval_cases j <;> rfl

theorem mat3.scaleRow_mul (b m : mat3 K) (j : Nat) (d : K) (hj : j < 3) :
    b.scaleRow j d * m = (b * m).scaleRow j d := by
  interval_cases j <;>
    (simp only [mat3.scaleRow, mat3.setRow, mat3.row, mat3.mul_def, mat3.mul, vec3.div_def]
     ext <;> simp only <;> ring)

theorem mat3.subRow_mul (b m : mat3 K) (i j : Nat) (c : K) (hi : i < 3) (hj : j < 3) :
    b.subRow i j c * m = (b * m).subRow i j c := by
  interval_cases i <;> interval_cases j <;>
    (simp only [mat3.subRow, mat3.setRow, mat3.row, mat3.mul_def, mat3.mul, vec3.sub_def,
       vec3.scale_def, vec3.sub, vec3.scale]
     ext <;> simp only <;> ring)

theorem mat3.swapRows_det (a : mat3 K) (i j : Nat) (hi : i < 3) (hj : j < 3) :
    (a.swapRows i j).det = (if i = j then 1 else -1) * a.det := by
  interval_cases i <;> interval_cases j <;>
    (simp only [mat3.swapRows, mat3.setRow, mat3.row, mat3.det, reduceCtorEq,
       OfNat.ofNat_ne_one, OfNat.ofNat_ne_zero, OfNat.zero_ne_ofNat, OfNat.one_ne_ofNat,
       one_ne_zero, zero_ne_one, if_true, if_false]
     ring)

theorem mat3.scaleRow_det (a : mat3 K) (j : Nat) (d : K) (hj : j < 3) :
    (a.scaleRow j d).det = (1 / d) * a.det := by
  interval_cases j <;>
    (simp only [mat3.scaleRow, mat3.setRow, mat3.row, mat3.det, vec3.div_def]
     ring)

theorem mat3.subRow_det (a : mat3 K) (i j : Nat) (c : K) (hi : i < 3) (hj : j < 3)
    (hij : i ≠ j) : (a.subRow i j c).det = a.det := by
  interval_cases i <;> interval_cases j <;>
    first
      | exact absurd rfl hij
      | (simp only [mat3.subRow, mat3.setRow, mat3.row, mat3.det, vec3.sub_def,
           vec3.scale_def, vec3.sub, vec3.scale]
         ring)

end InverseLemmas

section InverseColumns

variable {K : Type} [LinearOrderedField K]

theorem mat3.swapRows_row (a : mat3 K) (i1 j : Nat) (hi : i1 < 3) (hj : j < 3) :
    (a.swapRows i1 j).row j = a.row i1 := by
  interval_cases i1 <;> interval_cases j <;> rfl

/-- The body of the elimination loop keeps `b * m = a` and the determinant of `a`. -/
theorem mat3.eliminate_state (m : mat3 K) (j i : Nat) (hj : j < 3) (hi : i < 3)
    (ab : mat3 K × mat3 K) (h : ab.2 * m = ab.1) :
    (mat3.eliminate j ab i).2 * m = (mat3.eliminate j ab i).1 ∧
      (mat3.eliminate j ab i).1.det = ab.1.det := by
  unfold mat3.eliminate
  by_cases hij : i = j
  · simp only [hij, ne_eq, not_true_eq_false, if_false]
    exact ⟨h, trivial⟩
  · simp only [ne_eq, hij, not_false_eq_true, if_true]
    exact ⟨by rw [mat3.subRow_mul _ _ _ _ _ hi hj, h], mat3.subRow_det _ _ _ _ hi hj hij⟩

/-- The swap, the scaling and the elimination of a column that has a pivot keep
`b * m = a`, and the determinant of `a` stays a non-zero multiple of that of `m`. -/
theorem mat3.inverseColumn_rel (m : mat3 K) (j : Nat) (hj : j < 3) (ab : mat3 K × mat3 K)
    (h1 : ab.2 * m = ab.1) (k : K) (hk : k ≠ 0) (h2 : ab.1.det = k * m.det)
    (hd : ((ab.1.swapRows (ab.1.pivot j) j).row j).get j ≠ 0) :
    ∃ ab1, mat3.inverseColumn ab j = some ab1 ∧
      ab1 = [0, 1, 2].foldl (mat3.eliminate j)
        ((ab.1.swapRows (ab.1.pivot j) j).scaleRow j
            (((ab.1.swapRows (ab.1.pivot j) j).row j).get j),
          (ab.2.swapRows (ab.1.pivot j) j).scaleRow j
            (((ab.1.swapRows (ab.1.pivot j) j).row j).get j)) ∧
      ab1.2 * m = ab1.1 ∧ ∃ k1 : K, k1 ≠ 0 ∧ ab1.1.det = k1 * m.det := by
  obtain ⟨hp1, hp2, _⟩ := mat3.pivot_spec ab.1 j hj
  refine ⟨_, ?_, rfl, ?_⟩
  · unfold mat3.inverseColumn
    simp only [if_neg hd]
  · obtain ⟨d, hd0⟩ : ∃ d, d = ((ab.1.swapRows (ab.1.pivot j) j).row j).get j := ⟨_, rfl⟩
    rw [← hd0] at hd ⊢
    have hs : (ab.2.swapRows (ab.1.pivot j) j).scaleRow j d * m
        = (ab.1.swapRows (ab.1.pivot j) j).scaleRow j d := by
      rw [mat3.scaleRow_mul _ _ _ _ hj, mat3.swapRows_mul _ _ _ _ hp2 hj, h1]
    have hdet : ((ab.1.swapRows (ab.1.pivot j) j).scaleRow j d).det
        = ((1 / d) * (if ab.1.pivot j = j then 1 else -1) * k) * m.det := by
      rw [mat3.scaleRow_det _ _ _ hj, mat3.swapRows_det _ _ _ hp2 hj, h2]
      ring
    have hk1 : (1 / d) * (if ab.1.pivot j = j then 1 else -1) * k ≠ 0 := by
      refine mul_ne_zero (mul_ne_zero (one_div_ne_zero hd) ?_) hk
      split_ifs
      · exact one_ne_zero
      · exact neg_ne_zero.mpr one_ne_zero
    simp only [List.foldl]
    obtain ⟨e1, f1⟩ := mat3.eliminate_state m j 0 hj (by omega)
      ((ab.1.swapRows (ab.1.pivot j) j).scaleRow j d,
        (ab.2.swapRows (ab.1.pivot j) j).scaleRow j d) hs
    obtain ⟨e2, f2⟩ := mat3.eliminate_state m j 1 hj (by omega) _ e1
    obtain ⟨e3, f3⟩ := mat3.eliminate_state m j 2 hj (by omega) _ e2
    exact ⟨e3, _, hk1, by rw [f3, f2, f1, hdet]⟩

/-- A column without pivot: the entries of column `j` in the rows `j` to 2 are all
zero. -/
theorem mat3.no_pivot (a : mat3 K) (j : Nat) (hj : j < 3)
    (hd : ((a.swapRows (a.pivot j) j).row j).get j = 0) :
    ∀ i, j ≤ i → i < 3 → (a.row i).get j = 0 := by
  obtain ⟨_, hp2, hmax⟩ := mat3.pivot_spec a j hj
  rw [mat3.swapRows_row _ _ _ hp2 hj] at hd
  intro i hji hi
  have := hmax i hji hi
  rw [hd, abs_zero] at this
  exact abs_eq_zero.mp (le_antisymm this (abs_nonneg _))

/-- With unit columns before `j` and no pivot in column `j` the determinant is 0. -/
theorem mat3.no_pivot_det (a : mat3 K) (j : Nat) (hj : j < 3) (hu : a.UnitCols j)
    (hz : ∀ i, j ≤ i → i < 3 → (a.row i).get j = 0) : a.det = 0 := by
  interval_cases j
  · have h0 := hz 0 (by omega) (by omega)
    have h1 := hz 1 (by omega) (by omega)
    have h2 := hz 2 (by omega) (by omega)
    simp only [mat3.row, vec3.get] at h0 h1 h2
    simp only [mat3.det, h0, h1, h2]
    ring
  · have h1 := hz 1 (by omega) (by omega)
    have h2 := hz 2 (by omega) (by omega)
    simp only [mat3.row, vec3.get] at h1 h2
    obtain ⟨u0, u1, u2⟩ := hu
    simp only [mat3.det, h1, h2, u0, u1, u2]
    ring
  · have h2 := hz 2 (by omega) (by omega)
    simp only [mat3.row, vec3.get] at h2
    obtain ⟨⟨u0, u1, u2⟩, v0, v1, v2⟩ := hu
    simp only [mat3.det, h2, u0, u1, u2, v0, v1, v2]
    ring

/-- After a column with a pivot the columns up to it are those of the identity. -/
theorem mat3.unitCols_step (a : mat3 K) (b : mat3 K) (j i1 : Nat) (hj : j < 3)
    (hji : j ≤ i1) (hi : i1 < 3) (hu : a.UnitCols j)
    (hd : ((a.swapRows i1 j).row j).get j ≠ 0) :
    ([0, 1, 2].foldl (mat3.eliminate j)
        ((a.swapRows i1 j).scaleRow j (((a.swapRows i1 j).row j).get j), b)).1.UnitCols
      (j + 1) := by
  interval_cases j
  · interval_cases i1 <;>
      (simp only [mat3.swapRows, mat3.setRow, mat3.row, vec3.get, mat3.scaleRow] at hd
       simp only [List.foldl, mat3.eliminate, mat3.swapRows, mat3.scaleRow, mat3.subRow,
         mat3.setRow, mat3.row, vec3.get, vec3.div_def, vec3.sub_def, vec3.scale_def, vec3.sub,
         vec3.scale, mat3.UnitCols, ne_eq, not_true_eq_false, if_false, if_true,
         OfNat.ofNat_ne_zero, OfNat.ofNat_ne_one, OfNat.one_ne_ofNat, OfNat.zero_ne_ofNat,
         one_ne_zero, zero_ne_one, not_false_eq_true]
       refine ⟨?_, ?_, ?_⟩ <;> field_simp)
  · obtain ⟨u0, u1, u2⟩ := hu
    interval_cases i1 <;>
      (simp only [mat3.swapRows, mat3.setRow, mat3.row, vec3.get, mat3.scaleRow] at hd
       simp only [List.foldl, mat3.eliminate, mat3.swapRows, mat3.scaleRow, mat3.subRow,
         mat3.setRow, mat3.row, vec3.get, vec3.div_def, vec3.sub_def, vec3.scale_def, vec3.sub,
         vec3.scale, mat3.UnitCols, ne_eq, not_true_eq_false, if_false, if_true,
         OfNat.ofNat_ne_zero, OfNat.ofNat_ne_one, OfNat.one_ne_ofNat, OfNat.zero_ne_ofNat,
         one_ne_zero, zero_ne_one, not_false_eq_true, u0, u1, u2]
       refine ⟨⟨?_, ?_, ?_⟩, ?_, ?_, ?_⟩ <;> field_simp)
  · obtain ⟨⟨u0, u1, u2⟩, v0, v1, v2⟩ := hu
    interval_cases i1
    simp only [mat3.swapRows, mat3.setRow, mat3.row, vec3.get, mat3.scaleRow] at hd
    simp only [List.foldl, mat3.eliminate, mat3.swapRows, mat3.scaleRow, mat3.subRow,
      mat3.setRow, mat3.row, vec3.get, vec3.div_def, vec3.sub_def, vec3.scale_def, vec3.sub,
      vec3.scale, mat3.UnitCols, ne_eq, not_true_eq_false, if_false, if_true,
      OfNat.ofNat_ne_zero, OfNat.ofNat_ne_one, OfNat.one_ne_ofNat, OfNat.zero_ne_ofNat,
      one_ne_zero, zero_ne_one, not_false_eq_true, u0, u1, u2, v0, v1, v2, identity3D, axisX,
      axisY, axisZ]
    ext <;> simp only <;> field_simp

end InverseColumns

section C40

variable {K : Type} [LinearOrderedField K]

/-- One column of `mat3::Inverse` from a state of the elimination: either the
assertion is reached and the matrix is singular, or the state of the next column is
reached. -/
theorem mat3.inverseColumn_state (m : mat3 K) (j : Nat) (hj : j < 3) (ab : mat3 K × mat3 K)
    (h : m.InverseState j ab) :
    (mat3.inverseColumn ab j = none ∧ m.det = 0) ∨
      ∃ ab1, mat3.inverseColumn ab j = some ab1 ∧ m.InverseState (j + 1) ab1 := by
  obtain ⟨h1, ⟨k, hk, h2⟩, hu⟩ := h
  obtain ⟨hp1, hp2, _⟩ := mat3.pivot_spec ab.1 j hj
  by_cases hd : ((ab.1.swapRows (ab.1.pivot j) j).row j).get j = 0
  · left
    refine ⟨?_, ?_⟩
    · unfold mat3.inverseColumn
      simp only [if_pos hd]
    · have hz := mat3.no_pivot_det ab.1 j hj hu (mat3.no_pivot ab.1 j hj hd)
      rw [h2] at hz
      rcases mul_eq_zero.mp hz with hz | hz
      · exact absurd hz hk
      · exact hz
  · right
    obtain ⟨ab1, hrun, hab1, hrel, hdet⟩ := mat3.inverseColumn_rel m j hj ab h1 k hk h2 hd
    refine ⟨ab1, hrun, hrel, hdet, ?_⟩
    rw [hab1]
    exact mat3.unitCols_step ab.1 _ j (ab.1.pivot j) hj hp1 hp2 hu hd

/-- A left inverse of a matrix is a right inverse. -/
theorem mat3.mul_eq_one_comm (b m : mat3 K) (h : b * m = identity3D) :
    m * b = identity3D := by
  have hdet : b.det * m.det = 1 := by
    rw [← mat3.det_mul, h]
    simp [mat3.det, identity3D, axisX, axisY, axisZ]
  have hm : m.det ≠ 0 := by
    intro h0
    rw [h0, mul_zero] at hdet
    exact zero_ne_one hdet
  obtain ⟨n, hn⟩ : ∃ n : mat3 K, n =
      ⟨⟨(m.r1.y * m.r2.z - m.r1.z * m.r2.y) / m.det, (m.r0.z * m.r2.y - m.r0.y * m.r2.z) / m.det,
          (m.r0.y * m.r1.z - m.r0.z * m.r1.y) / m.det⟩,
        ⟨(m.r1.z * m.r2.x - m.r1.x * m.r2.z) / m.det, (m.r0.x * m.r2.z - m.r0.z * m.r2.x) / m.det,
          (m.r0.z * m.r1.x - m.r0.x * m.r1.z) / m.det⟩,
        ⟨(m.r1.x * m.r2.y - m.r1.y * m.r2.x) / m.det, (m.r0.y * m.r2.x - m.r0.x * m.r2.y) / m.det,
          (m.r0.x * m.r1.y - m.r0.y * m.r1.x) / m.det⟩⟩ := ⟨_, rfl⟩
  have hmn : m * n = identity3D := by
    have hm1 := hm
    simp only [mat3.det] at hm1
    rw [hn]
    simp only [mat3.mul_def, mat3.mul, identity3D, axisX, axisY, axisZ, mat3.det]
    ext <;> simp only <;> field_simp <;> ring
  have hbn : b = n := by
    calc b = b * identity3D := (mat3.mul_one b).symm
      _ = b * (m * n) := by rw [hmn]
      _ = (b * m) * n := (mat3.mul_assoc b m n).symm
      _ = n := by rw [h, mat3.one_mul]
  rw [hbn]
  exact hmn

/-- C40: with exact arithmetic in an ordered field, `mat3::Inverse` either reaches
its singular-matrix assertion, and then the determinant of the matrix is 0, or the
determinant is not 0 and it returns a matrix `b` with `b * m` and `m * b` the
identity.  So the assertion is reached exactly for the matrices with determinant 0,
and every other matrix gets its inverse. -/
theorem C40_Inverse (m : mat3 K) :
    (m.Inverse = none ∧ m.det = 0) ∨
      (m.det ≠ 0 ∧ ∃ b, m.Inverse = some b ∧ b * m = identity3D ∧ m * b = identity3D) := by
  have h0 : m.InverseState 0 (m, identity3D) :=
    ⟨mat3.one_mul m, ⟨1, one_ne_zero, (one_mul _).symm⟩, trivial⟩
  unfold mat3.Inverse
  rcases mat3.inverseColumn_state m 0 (by omega) _ h0 with ⟨hn, hz⟩ | ⟨ab1, hr1, hs1⟩
  · left
    simp only [hn]
    exact ⟨trivial, hz⟩
  rcases mat3.inverseColumn_state m 1 (by omega) _ hs1 with ⟨hn, hz⟩ | ⟨ab2, hr2, hs2⟩
  · left
    simp only [hr1, hn]
    exact ⟨trivial, hz⟩
  rcases mat3.inverseColumn_state m 2 (by omega) _ hs2 with ⟨hn, hz⟩ | ⟨ab3, hr3, hs3⟩
  · left
    simp only [hr1, hr2, hn]
    exact ⟨trivial, hz⟩
  right
  obtain ⟨hrel, _, hu⟩ := hs3
  have hone : ab3.2 * m = identity3D := hrel.trans hu
  have hdet : ab3.2.det * m.det = 1 := by
    rw [← mat3.det_mul, hone]
    simp [mat3.det, identity3D, axisX, axisY, axisZ]
  refine ⟨?_, ab3.2, ?_, hone, mat3.mul_eq_one_comm _ _ hone⟩
  · intro hz
    rw [hz, mul_zero] at hdet
    exact zero_ne_one hdet
  · simp only [hr1, hr2, hr3]

end C40

end FbxView
